import Mathlib

/-!
# Puzzle programs of 2023 (`src/2023/*/main.cpp`)

A shallow embedding of the programs, each in a namespace of its own, with the
definitions of all programs first and the theorems after them.

* `Day20`: the module network simulator, with the three module kinds
  (`Broadcaster`, `FlipFlop`, `Conjuction`), the text parser `parse_input` and the
  FIFO scheduler loop of `part_one`.
* `Cxx`: the library calls `std::from_chars` that the parsers use.
* `Day12`: the count of the arrangements of a condition record, with its cache.
* `Day19`: the workflows, applied to one part and to ranges of parts.
* `Day3`: the scan of the schematic for part numbers and gear ratios.
* `Day11`: the distances between the galaxies of the expanded grid.
* `Day9`: the extrapolation of a history by its rows of differences.
* `Day8`: the walk through the network of nodes.
* `Day13`: the lines of reflection of a pattern.
* `Day7`: the ranking of the hands.
* `Day17`: the search for the cheapest walk with bounded runs.

Modelling conventions.

* `std::string` is a Lean `String`; the parser works on its character list.  All
  separators are ASCII, so splitting characters and splitting bytes agree.
* `std::unordered_map<K, V>` is an association list with pairwise distinct keys.
  `insert` keeps an existing entry, `insert_or_assign` overwrites it in place, and
  a new key is appended.  The iteration order of the C++ container is unspecified;
  the list order stands for the order the container happens to use.
* A module is mutated in place through `unique_ptr<Module>`; here `send` returns
  the new module next to the returned pair, and the scheduler stores it back.
* The scheduler loop `while (!q.empty())` is iterated by an explicit step function
  with a step budget.
-/

set_option autoImplicit false

namespace Day20

/-! ## Data model -/

/-- The two signal values, `enum class Pulse`. -/
inductive Pulse where
  | Low
  | High
deriving DecidableEq, Repr

/-- An association list standing for `std::unordered_map<std::string, V>`. -/
abbrev UMap (V : Type) := List (String × V)

namespace UMap

/-- The lookup `find(k)`: the stored value, or `none` for `end()`. -/
def find {V : Type} : UMap V → String → Option V
  | [], _ => none
  | (k, v) :: rest, key => if k = key then some v else find rest key

/-- The member `insert_or_assign(k, v)`: overwrite the entry of `k`, or add one. -/
def insert_or_assign {V : Type} : UMap V → String → V → UMap V
  | [], key, v => [(key, v)]
  | (k, w) :: rest, key, v =>
    if k = key then (k, v) :: rest else (k, w) :: insert_or_assign rest key v

/-- The member `insert(make_pair(k, v))`: add an entry unless the key is present. -/
def insert {V : Type} : UMap V → String → V → UMap V
  | [], key, v => [(key, v)]
  | (k, w) :: rest, key, v =>
    if k = key then (k, w) :: rest else (k, w) :: insert rest key v

/-- The keys of the map, in iteration order. -/
def keys {V : Type} (m : UMap V) : List String := m.map Prod.fst

end UMap

/-- A module: the fan-out `m_next` of the base class and the state of the subclass. -/
inductive Module where
  | Broadcaster (m_next : List String)
  | FlipFlop (m_next : List String) (m_state : Bool)
  | Conjuction (m_next : List String) (m_inputs : UMap Pulse)
deriving DecidableEq, Repr

namespace Module

/-- The field `m_next` of the base class. -/
def m_next : Module → List String
  | Broadcaster nx => nx
  | FlipFlop nx _ => nx
  | Conjuction nx _ => nx

/-- The method `Broadcaster::send`. -/
def Broadcaster_send (nx : List String) (p : Pulse) (_from : String) :
    Module × Pulse × Option (List String) :=
  (Broadcaster nx, p, some nx)

/-- The method `FlipFlop::send`. -/
def FlipFlop_send (nx : List String) (m_state : Bool) (p : Pulse) (_from : String) :
    Module × Pulse × Option (List String) :=
  if p = Pulse.Low then
    let m_state := !m_state
    (FlipFlop nx m_state, if m_state then Pulse.High else Pulse.Low, some nx)
  else
    (FlipFlop nx m_state, if m_state then Pulse.High else Pulse.Low, none)

/-- The method `Conjuction::add_input`. -/
def add_input (m_inputs : UMap Pulse) (inp : String) : UMap Pulse :=
  UMap.insert_or_assign m_inputs inp Pulse.Low

/-- The method `Conjuction::send`. -/
def Conjuction_send (nx : List String) (m_inputs : UMap Pulse) (p : Pulse) (sender : String) :
    Module × Pulse × Option (List String) :=
  let m_inputs := UMap.insert_or_assign m_inputs sender p
  if m_inputs.all (fun kv => decide (kv.2 = Pulse.High)) then
    (Conjuction nx m_inputs, Pulse.Low, some nx)
  else
    (Conjuction nx m_inputs, Pulse.High, some nx)

/-- The virtual call `send(p, from)`: the module afterwards, the returned signal
and the optional span over the fan-out. -/
def send : Module → Pulse → String → Module × Pulse × Option (List String)
  | Broadcaster nx, p, sender => Broadcaster_send nx p sender
  | FlipFlop nx st, p, sender => FlipFlop_send nx st p sender
  | Conjuction nx inp, p, sender => Conjuction_send nx inp p sender

end Module

/-- The module table, `std::unordered_map<std::string, std::unique_ptr<Module>>`. -/
abbrev Graph := UMap Module

/-! ## Parsing -/

/-- The pieces of `s` between the non-overlapping occurrences of `sep`, scanning
from the left; `skip` characters of a matched separator are still to be passed.
The result of scanning to the end always has a last piece. -/
def splitGo (sep : List Char) : List Char → Nat → List (List Char)
  | [], _ => [[]]
  | _ :: cs, skip + 1 => splitGo sep cs skip
  | c :: cs, 0 =>
    if sep.isPrefixOf (c :: cs) then
      [] :: splitGo sep cs (sep.length - 1)
    else
      match splitGo sep cs 0 with
      | p :: ps => (c :: p) :: ps
      | [] => [[c]]

/-- The range `s | std::views::split(sep)`: an empty range has no pieces, a
separator at the very end is followed by one empty piece. -/
def split (sep : List Char) (s : List Char) : List (List Char) :=
  match s with
  | [] => []
  | _ => splitGo sep s 0

/-- The separator between identifier and targets. -/
def arrow : List Char := [' ', '-', '>', ' ']

/-- The separator between targets. -/
def comma : List Char := [',', ' ']

/-- The non-empty lines of the text. -/
def lines (data : List Char) : List (List Char) :=
  (split ['\n'] data).filter (fun r => !r.isEmpty)

/-- One iteration of the first loop of `parse_input`.  The second piece of the
line is read without a check; a line without `" -> "` has no second piece, the
read is past the end of the range and the result is `none`. -/
def parse_line (modules : Graph) (line : List Char) : Option Graph :=
  let parts := split arrow line
  match parts.tail.head? with
  | none => none
  | some second =>
    let next_vec := (split comma second).map String.mk
    let first := parts.headD []
    let front := line.head?
    if front = some '%' then
      some (UMap.insert modules (String.mk (first.drop 1)) (Module.FlipFlop next_vec false))
    else if front = some '&' then
      some (UMap.insert modules (String.mk (first.drop 1)) (Module.Conjuction next_vec []))
    else
      some (UMap.insert modules (String.mk first) (Module.Broadcaster next_vec))

/-- The first loop of `parse_input` over the lines. -/
def parse_lines : Graph → List (List Char) → Option Graph
  | modules, [] => some modules
  | modules, line :: rest =>
    match parse_line modules line with
    | none => none
    | some modules => parse_lines modules rest

/-- The body of the inner loop of the second pass: when `m` names a `Conjuction`,
register `sender` as one of its inputs. -/
def connect (modules : Graph) (sender : String) (m : String) : Graph :=
  match UMap.find modules m with
  | some (Module.Conjuction nx inp) =>
    UMap.insert_or_assign modules m (Module.Conjuction nx (Module.add_input inp sender))
  | _ => modules

/-- The second loop of `parse_input`: every module is visited in iteration order
and each entry of its fan-out is connected.  The keys and fan-outs do not change
during the loop, so the visit runs over the entries as they were before it. -/
def connect_all (modules : Graph) : Graph :=
  modules.foldl (fun g p => p.2.m_next.foldl (fun g m => connect g p.1 m) g) modules

/-- The function `parse_input`. -/
def parse_input (data : String) : Option Graph :=
  match parse_lines [] (lines data.data) with
  | none => none
  | some modules => some (connect_all modules)

/-! ## Scheduler -/

/-- A queued event `(origin, target, pulse)`. -/
abbrev Event := String × String × Pulse

/-- The variables of the loop in `part_one`: the module table, the queue, and the
two counters. -/
structure Sched where
  modules : Graph
  q : List Event
  low : Nat
  high : Nat
deriving DecidableEq, Repr

/-- The increment `n++` of a `size_t` counter, 64 bits wide. -/
def incr (n : Nat) : Nat := (n + 1) % 2 ^ 64

/-- The event every cycle starts with. -/
def seed : Event := ("initial", "broadcaster", Pulse.Low)

/-- One iteration of `while (!q.empty())`: pop the front event, count it, and let
the addressed module, when there is one, react.  With an empty queue nothing
happens.  The counters are `size_t` and wrap. -/
def dispatch (s : Sched) : Sched :=
  match s.q with
  | [] => s
  | (origin, target, pulse) :: rest =>
    let low := if pulse = Pulse.Low then incr s.low else s.low
    let high := if pulse = Pulse.Low then s.high else incr s.high
    match UMap.find s.modules target with
    | none => { modules := s.modules, q := rest, low := low, high := high }
    | some m =>
      let r := m.send pulse origin
      { modules := UMap.insert_or_assign s.modules target r.1,
        q := match r.2.2 with
          | some targets_out => rest ++ targets_out.map (fun out => (target, out, r.2.1))
          | none => rest,
        low := low, high := high }

/-- The loop `while (!q.empty())` with a budget of iterations: the state when the
queue has run empty, or `none` when the budget is used up first. -/
def drain : Nat → Sched → Option Sched
  | 0, s => if s.q = [] then some s else none
  | fuel + 1, s => if s.q = [] then some s else drain fuel (dispatch s)

/-- One trigger cycle: a fresh queue holding the seed event, drained. -/
def trigger_cycle (fuel : Nat) (s : Sched) : Option Sched :=
  drain fuel { s with q := [seed] }

/-- The five-line example. -/
def example_text : String :=
  "broadcaster -> a, b, c\n%a -> b\n%b -> c\n%c -> inv\n&inv -> a\n"

/-- The scheduler state a run starts from: the table as built, no event, both
counters at zero. -/
def initial_sched (modules : Graph) : Sched :=
  { modules := modules, q := [], low := 0, high := 0 }

/-- The module after it has received the signals `inputs` one after the other, each
with its sender. -/
def feed (m : Module) (inputs : List (Pulse × String)) : Module :=
  inputs.foldl (fun m i => (m.send i.1 i.2).1) m

/-- The number of `Low` signals in a sequence of inputs. -/
def count_low (inputs : List (Pulse × String)) : Nat :=
  (inputs.filter (fun i => decide (i.1 = Pulse.Low))).length

/-! ## Declarations, as the input format writes them -/

/-- The kind a declaration line announces. -/
inductive Kind where
  | Relay
  | Toggle
  | AllHighGate
deriving DecidableEq, Repr

/-- A declaration `<marker><id> -> t1, ..., tn`. -/
structure Decl where
  kind : Kind
  id : String
  targets : List String
deriving DecidableEq, Repr

/-- The marker written in front of the identifier. -/
def marker : Kind → List Char
  | Kind.Relay => []
  | Kind.Toggle => ['%']
  | Kind.AllHighGate => ['&']

/-- The target list as written: the targets with `", "` between them. -/
def join_targets : List String → List Char
  | [] => []
  | [t] => t.data
  | t :: t2 :: ts => t.data ++ comma ++ join_targets (t2 :: ts)

/-- The line that writes a declaration. -/
def render (d : Decl) : List Char :=
  marker d.kind ++ d.id.data ++ arrow ++ join_targets d.targets

/-- A name is free of blanks. -/
def blank_free (s : String) : Prop := ∀ c ∈ s.data, c ≠ ' '

instance (s : String) : Decidable (blank_free s) :=
  inferInstanceAs (Decidable (∀ c ∈ s.data, c ≠ ' '))

/-- A declaration is well formed when its names are free of blanks, every target
is a non-empty name, and an identifier without marker does not itself begin with
a marker character. -/
def well_formed (d : Decl) : Prop :=
  blank_free d.id ∧ (∀ t ∈ d.targets, t.data ≠ [] ∧ blank_free t) ∧
  (d.kind = Kind.Relay → d.id.data.head? ≠ some '%' ∧ d.id.data.head? ≠ some '&')

instance (d : Decl) : Decidable (well_formed d) :=
  inferInstanceAs (Decidable (blank_free d.id ∧ (∀ t ∈ d.targets, t.data ≠ [] ∧ blank_free t) ∧
    (d.kind = Kind.Relay → d.id.data.head? ≠ some '%' ∧ d.id.data.head? ≠ some '&')))

/-- The module a declaration asks for, before any input is registered. -/
def Decl.module (d : Decl) : Module :=
  match d.kind with
  | Kind.Relay => Module.Broadcaster d.targets
  | Kind.Toggle => Module.FlipFlop d.targets false
  | Kind.AllHighGate => Module.Conjuction d.targets []

/-- A text with a `Conjuction` that two modules send to. -/
def two_sender_text : String :=
  "broadcaster -> a, b\n%a -> con\n%b -> con\n&con -> out\n"

/-- The table `parse_input` builds from `two_sender_text`. -/
def two_sender_graph : Graph :=
  [("broadcaster", Module.Broadcaster ["a", "b"]), ("a", Module.FlipFlop ["con"] false),
   ("b", Module.FlipFlop ["con"] false),
   ("con", Module.Conjuction ["out"] [("a", Pulse.Low), ("b", Pulse.Low)])]

/-- The declarations of `two_sender_text`. -/
def two_sender_decls : List Decl :=
  [⟨Kind.Relay, "broadcaster", ["a", "b"]⟩, ⟨Kind.Toggle, "a", ["con"]⟩,
   ⟨Kind.Toggle, "b", ["con"]⟩, ⟨Kind.AllHighGate, "con", ["out"]⟩]

/-- A text that declares the entry point itself as a `Conjuction`. -/
def gate_entry_text : String := "&broadcaster -> a\n"

/-- A text whose only line holds the separator `" -> "` twice. -/
def two_arrow_text : String := "a -> b -> c"

/-- The declarations of the five-line example. -/
def example_decls : List Decl :=
  [⟨Kind.Relay, "broadcaster", ["a", "b", "c"]⟩, ⟨Kind.Toggle, "a", ["b"]⟩,
   ⟨Kind.Toggle, "b", ["c"]⟩, ⟨Kind.Toggle, "c", ["inv"]⟩,
   ⟨Kind.AllHighGate, "inv", ["a"]⟩]

/-! ## Views of the module table used to state what stays fixed -/

/-- The module with the memory of a `Conjuction` emptied. -/
def Module.forget_inputs : Module → Module
  | Module.Conjuction nx _ => Module.Conjuction nx []
  | m => m

/-- The module with all state reset: kind and fan-out are what is left. -/
def Module.forget_state : Module → Module
  | Module.Broadcaster nx => Module.Broadcaster nx
  | Module.FlipFlop nx _ => Module.FlipFlop nx false
  | Module.Conjuction nx _ => Module.Conjuction nx []

/-- The table with every `Conjuction` memory emptied. -/
def unconnected (g : Graph) : Graph := g.map (fun p => (p.1, p.2.forget_inputs))

/-- The topology of the table: identifiers, kinds and fan-outs, in table order. -/
def wiring (g : Graph) : Graph := g.map (fun p => (p.1, p.2.forget_state))

/-- The wires of the table: the pairs `(sender, target)` with `target` in the
fan-out of the declared module `sender`, in the order the second loop of
`parse_input` visits them. -/
def edges (g : Graph) : List (String × String) :=
  g.flatMap (fun p => p.2.m_next.map (fun m => (p.1, m)))

/-- The state of the memories while the second loop of `parse_input` runs: the
memory of every `Conjuction` holds exactly the senders of the wires into it that
have been visited, each with `Low`, and no key twice. -/
def memories_hold (g : Graph) (visited : List (String × String)) : Prop :=
  ∀ G nx inp, UMap.find g G = some (Module.Conjuction nx inp) →
    (∀ s, s ∈ UMap.keys inp ↔ (s, G) ∈ visited) ∧ (∀ kv ∈ inp, kv.2 = Pulse.Low) ∧
      (UMap.keys inp).Nodup

/-- The module with every stored value reset and the keys of a memory kept: what
no signal can change. -/
def Module.forget_values : Module → Module
  | Module.Broadcaster nx => Module.Broadcaster nx
  | Module.FlipFlop nx _ => Module.FlipFlop nx false
  | Module.Conjuction nx inp => Module.Conjuction nx (inp.map (fun kv => (kv.1, Pulse.Low)))

/-- The table with every stored value reset: identifiers, kinds, fan-outs and the
keys of every memory. -/
def layout (g : Graph) : Graph := g.map (fun p => (p.1, p.2.forget_values))

/-- Every queued event addressed to a `Conjuction` of `g` comes from a sender the
memory of that `Conjuction` has a key for. -/
def queue_known (g : Graph) (q : List Event) : Prop :=
  ∀ e ∈ q, ∀ nx inp, UMap.find g e.2.1 = some (Module.Conjuction nx inp) →
    e.1 ∈ UMap.keys inp

/-- The variables of `part_one` between two loop iterations: the scheduler state
and the number `i` of trigger cycles begun. -/
structure Run where
  sched : Sched
  i : Nat
deriving DecidableEq, Repr

/-- One step of the loop nest of `part_one` run for `cycles` trigger cycles: an
iteration of the inner loop while the queue holds an event; with an empty queue
the next trigger cycle begins with a fresh queue holding the seed event; after
the last cycle nothing changes. -/
def Run.step (cycles : Nat) (r : Run) : Run :=
  if r.sched.q ≠ [] then { sched := dispatch r.sched, i := r.i }
  else if r.i < cycles then
    { sched := { modules := r.sched.modules, q := [seed], low := r.sched.low,
                 high := r.sched.high },
      i := r.i + 1 }
  else r

/-- The state after `k` steps. -/
def Run.steps (cycles : Nat) : Nat → Run → Run
  | 0, r => r
  | k + 1, r => Run.steps cycles k (Run.step cycles r)

/-- The state `part_one` starts in. -/
def Run.start (g : Graph) : Run := { sched := initial_sched g, i := 0 }

/-- The function `part_one` with a budget of steps: when the 1000 trigger cycles
are over within the budget, the returned `size_t` product `high * low` and the
module table as the call leaves it. -/
def part_one (fuel : Nat) (modules : Graph) : Option (Nat × Graph) :=
  let r := Run.steps 1000 fuel (Run.start modules)
  if r.sched.q = [] ∧ r.i = 1000 then
    some ((r.sched.high * r.sched.low) % 2 ^ 64, r.sched.modules)
  else none

/-! ## Iterating the loop body, and what a run dispatches -/

/-- The state after `k` iterations of the inner loop body. -/
def dispatch_n : Nat → Sched → Sched
  | 0, s => s
  | k + 1, s => dispatch_n k (dispatch s)

/-- The events the inner loop pops during its first `k` iterations, in order. -/
def dispatched : Nat → Sched → List Event
  | 0, _ => []
  | k + 1, s =>
    match s.q with
    | [] => []
    | e :: _ => e :: dispatched k (dispatch s)

/-- The events a run pops during its first `k` steps, in order. -/
def Run.trace (cycles : Nat) : Nat → Run → List Event
  | 0, _ => []
  | k + 1, r =>
    match r.sched.q with
    | [] => Run.trace cycles k (Run.step cycles r)
    | e :: _ => e :: Run.trace cycles k (Run.step cycles r)

/-- The number of events of a list that carry the signal `p`. -/
def count_pulse (p : Pulse) (es : List Event) : Nat :=
  (es.filter (fun e => decide (e.2.2 = p))).length

/-- The scheduler state with the seed event as its whole queue: the start of a
trigger cycle. -/
def seeded (s : Sched) : Sched :=
  { modules := s.modules, q := [seed], low := s.low, high := s.high }

/-- The table `parse_input` builds from the five-line example. -/
def example_graph : Graph :=
  [("broadcaster", Module.Broadcaster ["a", "b", "c"]),
   ("a", Module.FlipFlop ["b"] false),
   ("b", Module.FlipFlop ["c"] false),
   ("c", Module.FlipFlop ["inv"] false),
   ("inv", Module.Conjuction ["a"] [("c", Pulse.Low)])]

/-- The scheduler state with both counters reset. -/
def zeroed (s : Sched) : Sched :=
  { modules := s.modules, q := s.q, low := 0, high := 0 }

/-- The table of the text `broadcaster -> x, x, ..., x` (the target `x` written
`n` times) and `%x -> o`, with the flip-flop `x` in state `b`. -/
def wide_graph (n : Nat) (b : Bool) : Graph :=
  [("broadcaster", Module.Broadcaster (List.replicate n "x")),
   ("x", Module.FlipFlop ["o"] b)]

/-- The events a flip-flop `x` with fan-out `[o]` sends when it receives `k` times
`Low`, starting in state `b`. -/
def emitted : Nat → Bool → List Event
  | 0, _ => []
  | k + 1, b => ("x", "o", if (!b) = true then Pulse.High else Pulse.Low) :: emitted k (!b)

/-! ## The cycle analysis of `part_two`

The counters `button_pressed` and `seen` grow by one per loop iteration and the
product in the assertion is at most twice `button_pressed` whenever the earlier
assertions have passed, so none of them leaves the range of `size_t` in a run of
fewer than `2 ^ 63` trigger cycles; they are natural numbers here.  `std::lcm`
has no defined result when the least common multiple is not representable; that
is an outcome of its own.  Assertions are taken to be enabled. -/

/-- The first loop of `part_two`: the key of the first module, in iteration order,
whose fan-out contains `rx`; the empty string when there is none. -/
def find_feed : Graph → String
  | [] => ""
  | (k, m) :: rest => if "rx" ∈ m.m_next then k else find_feed rest

/-- The second loop of `part_two`: the count 0 for every module whose fan-out
contains `feed`. -/
def initial_seen (feed : String) (modules : Graph) : UMap Nat :=
  modules.foldl
    (fun seen p => if feed ∈ p.2.m_next then UMap.insert_or_assign seen p.1 0 else seen) []

/-- The variables of `part_two` between two loop iterations. -/
structure Analysis where
  modules : Graph
  q : List Event
  button_pressed : Nat
  cycle_lengths : UMap Nat
  seen : UMap Nat
deriving DecidableEq, Repr

/-- What a loop iteration of `part_two` leads to: the loop goes on, the function
returns `x`, the assertion fails, or `std::lcm` is called with a least common
multiple that does not fit `size_t`. -/
inductive Outcome where
  | running (a : Analysis)
  | returned (x : Nat) (a : Analysis)
  | assertion_failed (a : Analysis)
  | lcm_undefined (a : Analysis)
deriving DecidableEq, Repr

/-- The variables at an outcome. -/
def Outcome.state : Outcome → Analysis
  | Outcome.running a => a
  | Outcome.returned _ a => a
  | Outcome.assertion_failed a => a
  | Outcome.lcm_undefined a => a

/-- The statement `seen[origin] += 1`: a missing key is created with 0 first. -/
def bump (seen : UMap Nat) (origin : String) : UMap Nat :=
  UMap.insert_or_assign seen origin ((UMap.find seen origin).getD 0 + 1)

/-- One call `std::lcm(x, c)` on `size_t`. -/
def lcm_size (x c : Nat) : Option Nat :=
  if Nat.lcm x c < 2 ^ 64 then some (Nat.lcm x c) else none

/-- The loop `for (cl : cycle_lengths) x = std::lcm(x, cl.second)`. -/
def lcm_all : Nat → UMap Nat → Option Nat
  | x, [] => some x
  | x, cl :: rest =>
    match lcm_size x cl.2 with
    | none => none
    | some y => lcm_all y rest

/-- The body of `if (target == feed && pulse == Pulse::High)`: count the
observation, record the period of a sender seen for the first time or assert
the period of one seen before, and return once every count is positive. -/
def observe (a : Analysis) (origin : String) : Outcome :=
  let seen := bump a.seen origin
  let checked : Option (UMap Nat) :=
    match UMap.find a.cycle_lengths origin with
    | none => some (UMap.insert a.cycle_lengths origin a.button_pressed)
    | some cl =>
      if a.button_pressed = (UMap.find seen origin).getD 0 * cl then some a.cycle_lengths
      else none
  match checked with
  | none =>
    Outcome.assertion_failed
      { modules := a.modules, q := a.q, button_pressed := a.button_pressed,
        cycle_lengths := a.cycle_lengths, seen := seen }
  | some cycle_lengths =>
    if seen.all (fun p => decide (0 < p.2)) then
      match lcm_all 1 cycle_lengths with
      | some x =>
        Outcome.returned x
          { modules := a.modules, q := a.q, button_pressed := a.button_pressed,
            cycle_lengths := cycle_lengths, seen := seen }
      | none =>
        Outcome.lcm_undefined
          { modules := a.modules, q := a.q, button_pressed := a.button_pressed,
            cycle_lengths := cycle_lengths, seen := seen }
    else
      Outcome.running
        { modules := a.modules, q := a.q, button_pressed := a.button_pressed,
          cycle_lengths := cycle_lengths, seen := seen }

/-- One step of the loop nest of `part_two`: with an empty queue the next trigger
cycle begins (`button_pressed++`, a fresh queue with the seed event); otherwise
one iteration of the inner loop: the observation when the front event carries
`High` to `feed`, then the same dispatch as in `part_one`, without counting. -/
def Analysis.step (feed : String) (a : Analysis) : Outcome :=
  match a.q with
  | [] =>
    Outcome.running
      { modules := a.modules, q := [seed], button_pressed := a.button_pressed + 1,
        cycle_lengths := a.cycle_lengths, seen := a.seen }
  | (origin, target, pulse) :: _ =>
    match (if target = feed ∧ pulse = Pulse.High then observe a origin
      else Outcome.running a) with
    | Outcome.running a' =>
      Outcome.running
        { modules := (dispatch { modules := a'.modules, q := a'.q, low := 0, high := 0 }).modules,
          q := (dispatch { modules := a'.modules, q := a'.q, low := 0, high := 0 }).q,
          button_pressed := a'.button_pressed, cycle_lengths := a'.cycle_lengths,
          seen := a'.seen }
    | o => o

/-- The outcome after at most `k` steps. -/
def Analysis.run (feed : String) : Nat → Analysis → Outcome
  | 0, a => Outcome.running a
  | k + 1, a =>
    match Analysis.step feed a with
    | Outcome.running a' => Analysis.run feed k a'
    | o => o

/-- The variables `part_two` enters its loop with. -/
def Analysis.start (modules : Graph) : Analysis :=
  { modules := modules, q := [], button_pressed := 1000, cycle_lengths := [],
    seen := initial_seen (find_feed modules) modules }

/-- The function `part_two` with a budget of steps; `Outcome.running` when the
budget is used up. -/
def part_two (fuel : Nat) (modules : Graph) : Outcome :=
  Analysis.run (find_feed modules) fuel (Analysis.start modules)

/-- The observations made during the first `k` steps: the sender of every front
event that carries `High` to `feed`, with the number `j` of trigger cycles the
analysis has begun by then. -/
def Analysis.observations (feed : String) : Nat → Nat → Analysis → List (Nat × String)
  | _, 0, _ => []
  | j, k + 1, a =>
    match a.q with
    | [] =>
      match Analysis.step feed a with
      | Outcome.running a' => Analysis.observations feed (j + 1) k a'
      | _ => []
    | (origin, target, pulse) :: _ =>
      (if target = feed ∧ pulse = Pulse.High then [(j, origin)] else []) ++
        match Analysis.step feed a with
        | Outcome.running a' => Analysis.observations feed j k a'
        | _ => []

/-- A text with one flip-flop in front of the gate that sends to `rx`. -/
def rx_text : String := "broadcaster -> a\n%a -> g\n&g -> rx\n"

/-- The table `parse_input` builds from `rx_text`. -/
def rx_graph : Graph :=
  [("broadcaster", Module.Broadcaster ["a"]), ("a", Module.FlipFlop ["g"] false),
   ("g", Module.Conjuction ["rx"] [("a", Pulse.Low)])]

/-- Every queued event is the seed event or goes from a declared module of `g` to
an entry of its fan-out. -/
def queue_wired (g : Graph) (q : List Event) : Prop :=
  ∀ e ∈ q, e = seed ∨ ∃ m, (e.1, m) ∈ g ∧ e.2.1 ∈ m.m_next

/-- What holds of the variables of `part_two` at every step of the analysis of the
table `g` with gate `feed`: the topology is that of `g`, the queue is wired, the
keys of `seen` are the modules of `g` with `feed` in their fan-out, every sender
with a recorded period is among them, and every sender counted at least once has
a recorded period. -/
def analysis_ok (g : Graph) (feed : String) (a : Analysis) : Prop :=
  wiring a.modules = wiring g ∧ queue_wired g a.q ∧
  (∀ f, f ∈ UMap.keys a.seen ↔ ∃ m, (f, m) ∈ g ∧ feed ∈ m.m_next) ∧
  (∀ f, f ∈ UMap.keys a.cycle_lengths → f ∈ UMap.keys a.seen) ∧
  (∀ f n, UMap.find a.seen f = some n → 0 < n → f ∈ UMap.keys a.cycle_lengths)

/-- A text in which the feeder `a` sends `High` to the gate in every other trigger
cycle, and the feeder `b` for the first time in the fourth. -/
def irregular_text : String :=
  "broadcaster -> a, x\n%a -> g\n%x -> y\n%y -> b\n%b -> g\n&g -> rx\n"

/-- The table `parse_input` builds from `irregular_text`. -/
def irregular_graph : Graph :=
  [("broadcaster", Module.Broadcaster ["a", "x"]), ("a", Module.FlipFlop ["g"] false),
   ("x", Module.FlipFlop ["y"] false), ("y", Module.FlipFlop ["b"] false),
   ("b", Module.FlipFlop ["g"] false),
   ("g", Module.Conjuction ["rx"] [("a", Pulse.Low), ("b", Pulse.Low)])]

/-- The variables with which the analysis of `rx_graph` returns. -/
def rx_final : Analysis :=
  { modules := [("broadcaster", Module.Broadcaster ["a"]), ("a", Module.FlipFlop ["g"] true),
      ("g", Module.Conjuction ["rx"] [("a", Pulse.Low)])],
    q := [("a", "g", Pulse.High)], button_pressed := 1001,
    cycle_lengths := [("a", 1001)], seen := [("a", 1)] }

/-- The variables of the analysis of `irregular_graph` after 19 steps, in the third
trigger cycle of the analysis. -/
def irregular_state : Analysis :=
  { modules := [("broadcaster", Module.Broadcaster ["a", "x"]),
      ("a", Module.FlipFlop ["g"] true), ("x", Module.FlipFlop ["y"] true),
      ("y", Module.FlipFlop ["b"] true), ("b", Module.FlipFlop ["g"] false),
      ("g", Module.Conjuction ["rx"] [("a", Pulse.Low), ("b", Pulse.Low)])],
    q := [("a", "g", Pulse.High), ("x", "y", Pulse.High)], button_pressed := 1003,
    cycle_lengths := [("a", 1001)], seen := [("a", 1), ("b", 0)] }

/-- The bounds on the counter and the recorded periods that hold throughout the
analysis. -/
def periods_bounded (a : Analysis) : Prop :=
  1000 ≤ a.button_pressed ∧ (a.q ≠ [] → 1001 ≤ a.button_pressed) ∧
  ∀ c ∈ a.cycle_lengths, 1001 ≤ c.2 ∧ c.2 ≤ a.button_pressed

/-- The table of `rx_text` after an odd number of trigger cycles. -/
def rx_graph_odd : Graph :=
  [("broadcaster", Module.Broadcaster ["a"]), ("a", Module.FlipFlop ["g"] true),
   ("g", Module.Conjuction ["rx"] [("a", Pulse.High)])]

/-! ## Graphs on which a trigger cycle ends, and one on which it does not -/

/-- A text whose `Conjuction` feeds itself. -/
def loop_text : String := "broadcaster -> a\n&a -> a\n"

/-- The table `parse_input` builds from `loop_text`. -/
def loop_graph : Graph :=
  [("broadcaster", Module.Broadcaster ["a"]),
   ("a", Module.Conjuction ["a"] [("broadcaster", Pulse.Low), ("a", Pulse.Low)])]

/-- The table of `loop_text` once the `Conjuction` has heard from itself. -/
def loop_graph_high : Graph :=
  [("broadcaster", Module.Broadcaster ["a"]),
   ("a", Module.Conjuction ["a"] [("broadcaster", Pulse.Low), ("a", Pulse.High)])]

/-- A ranking of the table: the weight of every module is at least the sum, over
the entries of its fan-out, of the entry's weight plus one.  A table has a
ranking exactly when no module can reach itself along fan-out entries. -/
def ranked (w : String → Nat) (g : Graph) : Prop :=
  ∀ p ∈ g, (p.2.m_next.map (fun out => w out + 1)).sum ≤ w p.1

instance (w : String → Nat) (g : Graph) : Decidable (ranked w g) :=
  inferInstanceAs (Decidable (∀ p ∈ g, (p.2.m_next.map (fun out => w out + 1)).sum ≤ w p.1))

/-- The weight of a queue: the weight of every target plus one, summed. -/
def queue_weight (w : String → Nat) (q : List Event) : Nat :=
  (q.map (fun e => w e.2.1 + 1)).sum

/-- A ranking of `two_sender_graph`. -/
def two_sender_rank (k : String) : Nat :=
  if k = "broadcaster" then 6 else if k = "a" then 2 else if k = "b" then 2
  else if k = "con" then 1 else 0

/-! ## Tables that hold the same modules in a different iteration order -/

/-- Two memories hold the same entries, whatever their iteration order. -/
def mem_same (a b : UMap Pulse) : Prop :=
  (UMap.keys a).Nodup ∧ (UMap.keys b).Nodup ∧
  ∀ k ∈ UMap.keys a ++ UMap.keys b, UMap.find a k = UMap.find b k

instance (a b : UMap Pulse) : Decidable (mem_same a b) :=
  inferInstanceAs (Decidable ((UMap.keys a).Nodup ∧ (UMap.keys b).Nodup ∧
    ∀ k ∈ UMap.keys a ++ UMap.keys b, UMap.find a k = UMap.find b k))

/-- Two modules are in the same state: equal, or `Conjuction`s with the same
fan-out whose memories hold the same entries. -/
def Module.same : Module → Module → Prop
  | Module.Conjuction nx a, Module.Conjuction nx' b => nx = nx' ∧ mem_same a b
  | Module.Broadcaster nx, m => m = Module.Broadcaster nx
  | Module.FlipFlop nx st, m => m = Module.FlipFlop nx st
  | Module.Conjuction _ _, _ => False

instance (m m' : Module) : Decidable (Module.same m m') := by
  cases m <;> cases m' <;> unfold Module.same <;> infer_instance

/-- Two lookups find modules in the same state. -/
def found_same : Option Module → Option Module → Prop
  | some m, some m' => Module.same m m'
  | _, _ => False

instance (x y : Option Module) : Decidable (found_same x y) := by
  cases x <;> cases y <;> unfold found_same <;> infer_instance

/-- Two tables hold the same modules in the same states under the same keys,
whatever the iteration order of the tables and of the memories. -/
def Graph.same (g g' : Graph) : Prop :=
  ∀ k ∈ UMap.keys g ++ UMap.keys g', found_same (UMap.find g k) (UMap.find g' k)

instance (g g' : Graph) : Decidable (Graph.same g g') :=
  inferInstanceAs (Decidable (∀ k ∈ UMap.keys g ++ UMap.keys g',
    found_same (UMap.find g k) (UMap.find g' k)))

/-- The table of `two_sender_text` with table and memory in another order. -/
def two_sender_graph_other : Graph :=
  [("con", Module.Conjuction ["out"] [("b", Pulse.Low), ("a", Pulse.Low)]),
   ("b", Module.FlipFlop ["con"] false), ("broadcaster", Module.Broadcaster ["a", "b"]),
   ("a", Module.FlipFlop ["con"] false)]

/-! ## The order of a fan-out list -/

/-- The module with another fan-out list. -/
def Module.with_next : Module → List String → Module
  | Module.Broadcaster _, l => Module.Broadcaster l
  | Module.FlipFlop _ st, l => Module.FlipFlop l st
  | Module.Conjuction _ inp, l => Module.Conjuction l inp

/-- The table with the fan-out list of the module `k` replaced by `l`. -/
def reorder (g : Graph) (k : String) (l : List String) : Graph :=
  match UMap.find g k with
  | some m => UMap.insert_or_assign g k (m.with_next l)
  | none => g

/-- A text whose counts depend on the order of the fan-out of `broadcaster`. -/
def order_text : String := "broadcaster -> x, y\n%x -> c, y\n%y -> c\n&c -> out\n"

/-- The text `order_text` with the fan-out of `broadcaster` in the other order. -/
def order_text_swapped : String := "broadcaster -> y, x\n%x -> c, y\n%y -> c\n&c -> out\n"

/-- The table `parse_input` builds from `order_text`. -/
def order_graph : Graph :=
  [("broadcaster", Module.Broadcaster ["x", "y"]), ("x", Module.FlipFlop ["c", "y"] false),
   ("y", Module.FlipFlop ["c"] false),
   ("c", Module.Conjuction ["out"] [("x", Pulse.Low), ("y", Pulse.Low)])]

/-- A text where `broadcaster` names `y` twice. -/
def twice_text : String := "broadcaster -> x, y, y\n%x -> c\n%y -> c\n&c -> out\n"

/-- The text `twice_text` with the first two names of the fan-out of `broadcaster`
exchanged. -/
def twice_text_moved : String := "broadcaster -> y, x, y\n%x -> c\n%y -> c\n&c -> out\n"

/-- The table of `twice_text` with fan-out `l` for `broadcaster`, between two
trigger cycles: `x` is on after an odd number of cycles. -/
def twice_graph (l : List String) (st : Bool) : Graph :=
  [("broadcaster", Module.Broadcaster l), ("x", Module.FlipFlop ["c"] st),
   ("y", Module.FlipFlop ["c"] false),
   ("c", Module.Conjuction ["out"] [("x", if st then Pulse.High else Pulse.Low),
                                    ("y", Pulse.Low)])]

end Day20

namespace Day20

/-! ## The kind of a module -/

/-- The class of the object a table entry points to. -/
def Module.kind : Module → Kind
  | Module.Broadcaster _ => Kind.Relay
  | Module.FlipFlop _ _ => Kind.Toggle
  | Module.Conjuction _ _ => Kind.AllHighGate

/-- Two modules that differ at most in the state bit of a `FlipFlop` or in the
memory of a `Conjuction`. -/
def Module.same_wiring : Module → Module → Prop
  | Module.Broadcaster nx, Module.Broadcaster nx' => nx = nx'
  | Module.FlipFlop nx _, Module.FlipFlop nx' _ => nx = nx'
  | Module.Conjuction nx _, Module.Conjuction nx' _ => nx = nx'
  | _, _ => False

end Day20

namespace Cxx

/-! ## Library functions the programs call -/

/-- The character is one of the decimal digits `'0'` to `'9'`. -/
def is_digit (c : Char) : Bool := decide (48 ≤ c.toNat ∧ c.toNat ≤ 57)

/-- The number a string of decimal digits writes. -/
def decimal (ds : List Char) : Nat :=
  ds.foldl (fun acc c => 10 * acc + (c.toNat - 48)) 0

/-- The call `std::from_chars(first, last, value)` on an unsigned `value` of `w`
bits that holds 0: the digits at the front are read; without a digit, or when the
number does not fit, `value` is left as it is. -/
def from_chars_unsigned (w : Nat) (cs : List Char) : Nat :=
  if cs.takeWhile is_digit = [] then 0
  else if decimal (cs.takeWhile is_digit) < 2 ^ w then decimal (cs.takeWhile is_digit)
  else 0

/-- The call `std::from_chars(first, last, value)` on an `int` that holds 0: an
optional minus sign and the digits after it are read; without a digit, or when
the number does not fit into 32 bits, `value` is left as it is. -/
def from_chars_int (cs : List Char) : Int :=
  match cs with
  | '-' :: rest =>
    if rest.takeWhile is_digit = [] then 0
    else if decimal (rest.takeWhile is_digit) ≤ 2 ^ 31 then
      - (decimal (rest.takeWhile is_digit) : Int)
    else 0
  | _ =>
    if cs.takeWhile is_digit = [] then 0
    else if decimal (cs.takeWhile is_digit) < 2 ^ 31 then
      (decimal (cs.takeWhile is_digit) : Int)
    else 0

end Cxx

namespace Day12

/-! ## Spring rows (`src/2023/12/main.cpp`)

A row is a list of springs, `std::span<const Spring>` is the list it views
(`springs.last(n)` is the list without its first `size - n` elements), and the
`std::map` cache is an association list. `size_t` sums are taken modulo `2 ^ 64`.
The recursion of `count_internal` is bounded by a budget; `count` supplies one
more than the length of the row, which is always enough. -/

/-- The enumeration `Spring`. -/
inductive Spring where
  | Operational
  | Broken
  | Unknown
deriving DecidableEq, Repr

/-- The cache `std::map<std::pair<size_t, size_t>, size_t>`. -/
abbrev Cache := List ((Nat × Nat) × Nat)

/-- The member `find` of the cache. -/
def Cache.find : Cache → Nat × Nat → Option Nat
  | [], _ => none
  | (k, v) :: rest, state => if k = state then some v else Cache.find rest state

/-- The member `insert` of the cache: an existing key keeps its value. -/
def Cache.insert (cache : Cache) (state : Nat × Nat) (result : Nat) : Cache :=
  match Cache.find cache state with
  | some _ => cache
  | none => (state, result) :: cache

/-- The test that lets a block of `b` broken springs start at the front of the
row: the row is long enough, none of its first `b` springs is operational, and the
block ends the row or is followed by a spring that is not broken. -/
def block_fits (b : Nat) (springs : List Spring) : Bool :=
  decide (b ≤ springs.length) &&
    !(springs.take b).any (fun s => decide (s = Spring.Operational)) &&
    (decide (b = springs.length) ||
      decide (springs.get? b ≠ some Spring.Broken))

/-- The method `ConditionRecord::count_internal`; `none` when the budget of nested
calls is used up. The result comes with the cache as the call leaves it. -/
def count_internal : Nat → List Spring → List Nat → Cache → Option (Nat × Cache)
  | 0, _, _, _ => none
  | _ + 1, [], blocks, cache => some (if blocks = [] then 1 else 0, cache)
  | _ + 1, s :: ss, [], cache =>
    some (if (s :: ss).any (fun x => decide (x = Spring.Broken)) then 0 else 1, cache)
  | fuel + 1, s :: ss, b :: bs, cache =>
    match Cache.find cache ((s :: ss).length, (b :: bs).length) with
    | some v => some (v, cache)
    | none =>
      match (if s = Spring.Operational ∨ s = Spring.Unknown
             then count_internal fuel ss (b :: bs) cache else some (0, cache)) with
      | none => none
      | some (r1, cache1) =>
        match (if (s = Spring.Broken ∨ s = Spring.Unknown) ∧ block_fits b (s :: ss) = true
               then count_internal fuel
                 (if b = (s :: ss).length then [] else (s :: ss).drop (b + 1)) bs cache1
               else some (0, cache1)) with
        | none => none
        | some (r2, cache2) =>
          some ((r1 + r2) % 2 ^ 64,
            Cache.insert cache2 ((s :: ss).length, (b :: bs).length) ((r1 + r2) % 2 ^ 64))

/-- The class `ConditionRecord`. -/
structure ConditionRecord where
  m_springs : List Spring
  m_block_sizes : List Nat
deriving DecidableEq, Repr

/-- The method `ConditionRecord::count`. -/
def ConditionRecord.count (r : ConditionRecord) : Option Nat :=
  (count_internal (r.m_springs.length + 1) r.m_springs r.m_block_sizes []).map Prod.fst

/-- The loop of `unfold` that appends `Unknown` and the row, `n` times. -/
def unfold_springs (m_springs : List Spring) : Nat → List Spring → List Spring
  | 0, acc => acc
  | n + 1, acc => unfold_springs m_springs n (acc ++ [Spring.Unknown] ++ m_springs)

/-- The loop of `unfold` that appends the block sizes, `n` times. -/
def unfold_blocks (m_block_sizes : List Nat) : Nat → List Nat → List Nat
  | 0, acc => acc
  | n + 1, acc => unfold_blocks m_block_sizes n (acc ++ m_block_sizes)

/-- The method `ConditionRecord::unfold`; the loops run `fold_factor - 1` times in
`size_t`. -/
def ConditionRecord.unfold (r : ConditionRecord) (fold_factor : Nat) : ConditionRecord :=
  { m_springs := unfold_springs r.m_springs ((fold_factor + 2 ^ 64 - 1) % 2 ^ 64) r.m_springs,
    m_block_sizes :=
      unfold_blocks r.m_block_sizes ((fold_factor + 2 ^ 64 - 1) % 2 ^ 64) r.m_block_sizes }

/-! ### Reading the records -/

/-- The cast of a character of the input to `Spring`; a character other than one
of the three enumerators has no counterpart here. -/
def Spring.ofChar (c : Char) : Option Spring :=
  if c = '.' then some Spring.Operational
  else if c = '#' then some Spring.Broken
  else if c = '?' then some Spring.Unknown
  else none

/-- The springs a piece of a line writes. -/
def parse_springs : List Char → Option (List Spring)
  | [] => some []
  | c :: cs =>
    match Spring.ofChar c, parse_springs cs with
    | some s, some ss => some (s :: ss)
    | _, _ => none

/-- One iteration of the loop of `parse_input`; `none` when the assertion on the
number of pieces fails, or a spring is none of the three characters. -/
def parse_line (line : List Char) : Option ConditionRecord :=
  if (Day20.split [' '] line).length ≠ 2 then none
  else
    match parse_springs ((Day20.split [' '] line).headD []) with
    | none => none
    | some springs =>
      some { m_springs := springs,
             m_block_sizes := (Day20.split [','] ((Day20.split [' '] line).tail.headD [])).map
               (Cxx.from_chars_unsigned 64) }

/-- The loop of `parse_input` over the lines. -/
def parse_lines : List (List Char) → Option (List ConditionRecord)
  | [] => some []
  | line :: rest =>
    match parse_line line, parse_lines rest with
    | some r, some rs => some (r :: rs)
    | _, _ => none

/-- The function `parse_input`. -/
def parse_input (data : String) : Option (List ConditionRecord) :=
  parse_lines (Day20.lines data.data)

/-- The loop `sum += record.count()` of `main`, from the value `sum`. -/
def sum_counts (sum : Nat) : List ConditionRecord → Option Nat
  | [] => some sum
  | r :: rest =>
    match r.count with
    | none => none
    | some c => sum_counts ((sum + c) % 2 ^ 64) rest

/-- The text of `test`. -/
def test_text : String :=
  "???.### 1,1,3\n.??..??...?##. 1,1,3\n?#?#?#?#?#?#?#? 1,3,1,6\n????.#...#... 4,1,1\n" ++
  "????.######..#####. 1,6,5\n?###???????? 3,2,1"

/-- The six records of `test`. -/
def test_records : List ConditionRecord :=
  [{ m_springs := [Spring.Unknown, Spring.Unknown, Spring.Unknown, Spring.Operational,
                   Spring.Broken, Spring.Broken, Spring.Broken],
     m_block_sizes := [1, 1, 3] },
   { m_springs := [Spring.Operational, Spring.Unknown, Spring.Unknown, Spring.Operational,
                   Spring.Operational, Spring.Unknown, Spring.Unknown, Spring.Operational,
                   Spring.Operational, Spring.Operational, Spring.Unknown, Spring.Broken,
                   Spring.Broken, Spring.Operational],
     m_block_sizes := [1, 1, 3] },
   { m_springs := [Spring.Unknown, Spring.Broken, Spring.Unknown, Spring.Broken,
                   Spring.Unknown, Spring.Broken, Spring.Unknown, Spring.Broken,
                   Spring.Unknown, Spring.Broken, Spring.Unknown, Spring.Broken,
                   Spring.Unknown, Spring.Broken, Spring.Unknown],
     m_block_sizes := [1, 3, 1, 6] },
   { m_springs := [Spring.Unknown, Spring.Unknown, Spring.Unknown, Spring.Unknown,
                   Spring.Operational, Spring.Broken, Spring.Operational, Spring.Operational,
                   Spring.Operational, Spring.Broken, Spring.Operational, Spring.Operational,
                   Spring.Operational],
     m_block_sizes := [4, 1, 1] },
   { m_springs := [Spring.Unknown, Spring.Unknown, Spring.Unknown, Spring.Unknown,
                   Spring.Operational, Spring.Broken, Spring.Broken, Spring.Broken,
                   Spring.Broken, Spring.Broken, Spring.Broken, Spring.Operational,
                   Spring.Operational, Spring.Broken, Spring.Broken, Spring.Broken,
                   Spring.Broken, Spring.Broken, Spring.Operational],
     m_block_sizes := [1, 6, 5] },
   { m_springs := [Spring.Unknown, Spring.Broken, Spring.Broken, Spring.Broken,
                   Spring.Unknown, Spring.Unknown, Spring.Unknown, Spring.Unknown,
                   Spring.Unknown, Spring.Unknown, Spring.Unknown, Spring.Unknown],
     m_block_sizes := [3, 2, 1] }]

/-! ### What is counted -/

/-- The rows obtained from a row by replacing each `Unknown` by `Operational` or
by `Broken`. -/
def replacements : List Spring → List (List Spring)
  | [] => [[]]
  | Spring.Unknown :: ss =>
    (replacements ss).map (fun r => Spring.Operational :: r) ++
      (replacements ss).map (fun r => Spring.Broken :: r)
  | Spring.Operational :: ss => (replacements ss).map (fun r => Spring.Operational :: r)
  | Spring.Broken :: ss => (replacements ss).map (fun r => Spring.Broken :: r)

/-- The lengths of the maximal runs of `Broken` springs of a row, from left to
right, when the row continues a run of `n` broken springs. -/
def runs_from : Nat → List Spring → List Nat
  | n, [] => if n = 0 then [] else [n]
  | n, Spring.Broken :: ss => runs_from (n + 1) ss
  | n, _ :: ss => (if n = 0 then [] else [n]) ++ runs_from 0 ss

/-- The lengths of the maximal runs of `Broken` springs of a row, from left to
right. -/
def runs (row : List Spring) : List Nat := runs_from 0 row

/-- The number of replacements of the row whose runs, continuing a run of `n`
broken springs, are the block sizes. -/
def arrangements_from (n : Nat) (springs : List Spring) (blocks : List Nat) : Nat :=
  ((replacements springs).filter (fun r => decide (runs_from n r = blocks))).length

/-- The number of replacements of the row whose runs of broken springs are exactly
the block sizes. -/
def arrangements (springs : List Spring) (blocks : List Nat) : Nat :=
  ((replacements springs).filter (fun r => decide (runs r = blocks))).length

/-- Every value the cache holds for a pair of sizes is the number of arrangements,
modulo `2 ^ 64`, of the ends of that size of the row `S` and of the blocks
`B`. -/
def cache_ok (S : List Spring) (B : List Nat) (cache : Cache) : Prop :=
  ∀ i j v, Cache.find cache (i, j) = some v →
    ∀ ss bs, ss <:+ S → bs <:+ B → ss.length = i → bs.length = j →
      v = arrangements ss bs % 2 ^ 64

end Day12

namespace Day19

/-! ## Workflows and rating ranges (`src/2023/19/main.cpp`)

A `WorkflowResult` is one of the three values its constructors build. The maps
keyed by a character are association lists; `at` on a missing key throws, which
ends the program: the functions return `none`. A map that has been passed on with
`std::move` is empty afterwards. `size_t` arithmetic is modulo `2 ^ 64`, and the
recursion of `count_configs` and of `Pipeline::inner` is bounded by a budget of
nested calls. -/

/-- The class `WorkflowResult`: the type, and the name of the next workflow when
the type is `Workflow`. -/
inductive WorkflowResult where
  | Rejected
  | Accepted
  | Workflow (next : String)
deriving DecidableEq, Repr

/-- The enumeration `Operation`. -/
inductive Operation where
  | LT
  | GT
  | None
deriving DecidableEq, Repr

/-- The class `Rule`. -/
structure Rule where
  m_c : Char
  m_op : Operation
  m_comp : Nat
  m_res : WorkflowResult
deriving DecidableEq, Repr

/-- The class `Workflow`. -/
structure Workflow where
  m_id : String
  m_rules : List Rule
deriving DecidableEq, Repr

/-- A rule without condition, as the constructor of `Rule` builds it: `m_c` and
`m_comp` are left without a value, and no result depends on them. -/
def otherwise (m_res : WorkflowResult) : Rule :=
  { m_c := ' ', m_op := Operation.None, m_comp := 0, m_res := m_res }

/-- A map `std::unordered_map<char, V>`. -/
abbrev CMap (V : Type) := List (Char × V)

/-- The member `find` of a map keyed by a character. -/
def CMap.find {V : Type} : CMap V → Char → Option V
  | [], _ => none
  | (k, v) :: rest, c => if k = c then some v else CMap.find rest c

/-- The assignment `map[c] = v`. -/
def CMap.assign {V : Type} : CMap V → Char → V → CMap V
  | [], c, v => [(c, v)]
  | (k, w) :: rest, c, v => if k = c then (k, v) :: rest else (k, w) :: CMap.assign rest c v

/-- The member `insert` of a map keyed by a character: an existing key keeps its
value. -/
def CMap.insert {V : Type} : CMap V → Char → V → CMap V
  | [], c, v => [(c, v)]
  | (k, w) :: rest, c, v => if k = c then (k, w) :: rest else (k, w) :: CMap.insert rest c v

/-- The map of the workflows by name. -/
abbrev Workflows := Day20.UMap Workflow

/-- The call operator of `Rule`. -/
def Rule.apply (rule : Rule) (inp : CMap Nat) : Option WorkflowResult :=
  match CMap.find inp rule.m_c with
  | some v =>
    match rule.m_op with
    | Operation.LT => if v < rule.m_comp then some rule.m_res else none
    | Operation.GT => if v > rule.m_comp then some rule.m_res else none
    | Operation.None => some rule.m_res
  | none => if rule.m_op = Operation.None then some rule.m_res else none

/-- The loop of the call operator of `Workflow`: the result of the first rule that
has one, `Rejected` when no rule has. -/
def apply_rules : List Rule → CMap Nat → WorkflowResult
  | [], _ => WorkflowResult.Rejected
  | rule :: rest, inp =>
    match rule.apply inp with
    | some result => result
    | none => apply_rules rest inp

/-- The call operator of `Workflow`. -/
def Workflow.apply (w : Workflow) (inp : CMap Nat) : WorkflowResult :=
  apply_rules w.m_rules inp

/-- The method `Workflow::fallback_result`. -/
def fallback_of : List Rule → Option WorkflowResult
  | [] => none
  | rule :: rest => if rule.m_op = Operation.None then some rule.m_res else fallback_of rest

/-- The method `Workflow::fallback_result`. -/
def Workflow.fallback_result (w : Workflow) : Option WorkflowResult := fallback_of w.m_rules

/-- The method `Pipeline::inner`; `none` when a workflow is missing or the budget is
used up. -/
def inner : Nat → Workflows → Workflow → CMap Nat → Option WorkflowResult
  | 0, _, _, _ => none
  | fuel + 1, m_workflows, workflow, inp =>
    match workflow.apply inp with
    | WorkflowResult.Workflow name =>
      match Day20.UMap.find m_workflows name with
      | some next => inner fuel m_workflows next inp
      | none => none
    | result => some result

/-- The call operator of `Pipeline`. -/
def Pipeline.apply (fuel : Nat) (m_workflows : Workflows) (inp : CMap Nat) :
    Option WorkflowResult :=
  match Day20.UMap.find m_workflows "in" with
  | some workflow => inner fuel m_workflows workflow inp
  | none => none

/-- The product `count_configs` returns for an accepted stage: over the ranges in
iteration order, with a lower bound 0 raised to 1. -/
def product (in_ranges : CMap (Nat × Nat)) : Nat :=
  in_ranges.foldl
    (fun p range_pair =>
      (p * ((range_pair.2.2 + 2 ^ 64 - (if range_pair.2.1 = 0 then 1 else range_pair.2.1) + 1)
        % 2 ^ 64)) % 2 ^ 64) 1

/-- The pair `true_half` of the loop body. -/
def true_half (rule : Rule) (low high : Nat) : Nat × Nat :=
  match rule.m_op with
  | Operation.LT => (low, (rule.m_comp + 2 ^ 64 - 1) % 2 ^ 64)
  | Operation.GT => ((rule.m_comp + 1) % 2 ^ 64, high)
  | Operation.None => (0, 0)

/-- The pair `false_half` of the loop body. -/
def false_half (rule : Rule) (low high : Nat) : Nat × Nat :=
  match rule.m_op with
  | Operation.LT => (rule.m_comp, high)
  | Operation.GT => (low, rule.m_comp)
  | Operation.None => (0, 0)

/-- The loop of `count_configs` over the rules of a workflow, from the rule list
that is left, the ranges and the total so far; `call` is the recursive call of
`count_configs` and `fallback` the fallback result of the workflow. -/
def count_rules (call : CMap (Nat × Nat) → WorkflowResult → Option Nat)
    (fallback : Option WorkflowResult) :
    List Rule → CMap (Nat × Nat) → Nat → Option Nat
  | [], _, total => some total
  | rule :: rest, in_ranges, total =>
    if rule.m_op = Operation.None then
      match fallback with
      | some fb =>
        match call in_ranges fb with
        | some c => count_rules call fallback rest [] ((total + c) % 2 ^ 64)
        | none => none
      | none => count_rules call fallback rest in_ranges total
    else
      match CMap.find in_ranges rule.m_c with
      | none => none
      | some (low, high) =>
        match (if (true_half rule low high).1 ≤ (true_half rule low high).2
               then (call (CMap.assign in_ranges rule.m_c (true_half rule low high))
                      rule.m_res).map (fun c => (total + c) % 2 ^ 64)
               else some total) with
        | none => none
        | some total1 =>
          count_rules call fallback rest
            (if (false_half rule low high).1 ≤ (false_half rule low high).2
             then CMap.assign in_ranges rule.m_c (false_half rule low high) else in_ranges)
            total1

/-- The function `count_configs`; `none` when a workflow or a range is missing or
the budget is used up. -/
def count_configs : Nat → Workflows → CMap (Nat × Nat) → WorkflowResult → Option Nat
  | 0, _, _, _ => none
  | _ + 1, _, _, WorkflowResult.Rejected => some 0
  | _ + 1, _, in_ranges, WorkflowResult.Accepted => some (product in_ranges)
  | fuel + 1, workflows, in_ranges, WorkflowResult.Workflow name =>
    match Day20.UMap.find workflows name with
    | none => none
    | some workflow =>
      count_rules (count_configs fuel workflows) workflow.fallback_result
        workflow.m_rules in_ranges 0

/-- The ranges `test` and `main` pass to `count_configs`. -/
def full_ranges : CMap (Nat × Nat) :=
  [('x', (0, 4000)), ('m', (0, 4000)), ('a', (0, 4000)), ('s', (0, 4000))]

/-- The stage `count_configs` starts with by default. -/
def first_stage : WorkflowResult := WorkflowResult.Workflow "in"

/-! ### Reading the workflows -/

/-- The constructor of `WorkflowResult` from a text. -/
def WorkflowResult.ofText (input : List Char) : WorkflowResult :=
  if input = ['A'] then WorkflowResult.Accepted
  else if input = ['R'] then WorkflowResult.Rejected
  else WorkflowResult.Workflow (String.mk input)

/-- The cast of a character to `Operation`; `None` has the value after `'>'`,
which is `'?'`. A character with another value has no counterpart here. -/
def Operation.ofChar (c : Char) : Option Operation :=
  if c = '<' then some Operation.LT
  else if c = '>' then some Operation.GT
  else if c = '?' then some Operation.None
  else none

/-- The constructor of `Rule`. -/
def Rule.ofText (input : List Char) : Option Rule :=
  if ':' ∈ input then
    match Day20.split [':'] input with
    | (c :: o :: num) :: second :: _ =>
      match Operation.ofChar o with
      | some op =>
        some { m_c := c, m_op := op, m_comp := Cxx.from_chars_unsigned 64 num,
               m_res := WorkflowResult.ofText second }
      | none => none
    | _ => none
  else
    some (otherwise (WorkflowResult.ofText input))

/-- The loop of the constructor of `Workflow` over the pieces between commas. -/
def rules_ofText : List (List Char) → Option (List Rule)
  | [] => some []
  | r :: rest =>
    match Rule.ofText r, rules_ofText rest with
    | some rule, some rules => some (rule :: rules)
    | _, _ => none

/-- The constructor of `Workflow`; `none` when a brace is missing or the closing
brace comes first. -/
def Workflow.ofText (input : List Char) : Option Workflow :=
  if '{' ∈ input ∧ '}' ∈ input ∧ input.indexOf '{' < input.indexOf '}' then
    match rules_ofText (Day20.split [',']
        ((input.take (input.indexOf '}')).drop (input.indexOf '{' + 1))) with
    | some rules => some { m_id := String.mk (input.take (input.indexOf '{')), m_rules := rules }
    | none => none
  else none

/-- The loop of the constructor of `Pipeline` over the lines. -/
def workflows_ofText : Workflows → List (List Char) → Option Workflows
  | m_workflows, [] => some m_workflows
  | m_workflows, line :: rest =>
    match Workflow.ofText line with
    | some w =>
      workflows_ofText
        (Day20.UMap.insert_or_assign m_workflows (String.mk (line.take (line.indexOf '{'))) w)
        rest
    | none => none

/-- The constructor of `Pipeline`. -/
def Pipeline.ofText (input : List Char) : Option Workflows :=
  workflows_ofText [] (Day20.lines input)

/-- The workflows `parse_input` reads: the pipeline built from the text before the
first empty line. -/
def parse_workflows (data : String) : Option Workflows :=
  match Day20.split ['\n', '\n'] data.data with
  | first :: _ :: _ => Pipeline.ofText first
  | _ => none

/-- The text of `test`. -/
def test_text : String :=
  "px{a<2006:qkq,m>2090:A,rfg}\npv{a>1716:R,A}\nlnx{m>1548:A,A}\n" ++
  "rfg{s<537:gd,x>2440:R,A}\nqs{s>3448:A,lnx}\nqkq{x<1416:A,crn}\ncrn{x>2662:A,R}\n" ++
  "in{s<1351:px,qqz}\nqqz{s>2770:qs,m<1801:hdj,R}\ngd{a>3333:R,R}\nhdj{m>838:A,pv}\n\n" ++
  "{x=787,m=2655,a=1222,s=2876}\n{x=1679,m=44,a=2067,s=496}\n{x=2036,m=264,a=79,s=2244}\n" ++
  "{x=2461,m=1339,a=466,s=291}\n{x=2127,m=1623,a=2188,s=1013}"

/-- The workflows of `test`. -/
def test_workflows : Workflows :=
  [("px", { m_id := "px", m_rules :=
      [{ m_c := 'a', m_op := Operation.LT, m_comp := 2006, m_res := WorkflowResult.Workflow "qkq" },
       { m_c := 'm', m_op := Operation.GT, m_comp := 2090, m_res := WorkflowResult.Accepted },
       otherwise (WorkflowResult.Workflow "rfg")] }),
   ("pv", { m_id := "pv", m_rules :=
      [{ m_c := 'a', m_op := Operation.GT, m_comp := 1716, m_res := WorkflowResult.Rejected },
       otherwise WorkflowResult.Accepted] }),
   ("lnx", { m_id := "lnx", m_rules :=
      [{ m_c := 'm', m_op := Operation.GT, m_comp := 1548, m_res := WorkflowResult.Accepted },
       otherwise WorkflowResult.Accepted] }),
   ("rfg", { m_id := "rfg", m_rules :=
      [{ m_c := 's', m_op := Operation.LT, m_comp := 537, m_res := WorkflowResult.Workflow "gd" },
       { m_c := 'x', m_op := Operation.GT, m_comp := 2440, m_res := WorkflowResult.Rejected },
       otherwise WorkflowResult.Accepted] }),
   ("qs", { m_id := "qs", m_rules :=
      [{ m_c := 's', m_op := Operation.GT, m_comp := 3448, m_res := WorkflowResult.Accepted },
       otherwise (WorkflowResult.Workflow "lnx")] }),
   ("qkq", { m_id := "qkq", m_rules :=
      [{ m_c := 'x', m_op := Operation.LT, m_comp := 1416, m_res := WorkflowResult.Accepted },
       otherwise (WorkflowResult.Workflow "crn")] }),
   ("crn", { m_id := "crn", m_rules :=
      [{ m_c := 'x', m_op := Operation.GT, m_comp := 2662, m_res := WorkflowResult.Accepted },
       otherwise WorkflowResult.Rejected] }),
   ("in", { m_id := "in", m_rules :=
      [{ m_c := 's', m_op := Operation.LT, m_comp := 1351, m_res := WorkflowResult.Workflow "px" },
       otherwise (WorkflowResult.Workflow "qqz")] }),
   ("qqz", { m_id := "qqz", m_rules :=
      [{ m_c := 's', m_op := Operation.GT, m_comp := 2770, m_res := WorkflowResult.Workflow "qs" },
       { m_c := 'm', m_op := Operation.LT, m_comp := 1801, m_res := WorkflowResult.Workflow "hdj" },
       otherwise WorkflowResult.Rejected] }),
   ("gd", { m_id := "gd", m_rules :=
      [{ m_c := 'a', m_op := Operation.GT, m_comp := 3333, m_res := WorkflowResult.Rejected },
       otherwise WorkflowResult.Rejected] }),
   ("hdj", { m_id := "hdj", m_rules :=
      [{ m_c := 'm', m_op := Operation.GT, m_comp := 838, m_res := WorkflowResult.Accepted },
       otherwise (WorkflowResult.Workflow "pv")] })]

/-- A text with one comparison above every rating. -/
def wide_text : String := "in{x<5000:A,R}\n\n{x=1,m=1,a=1,s=1}"

/-- The workflows of `wide_text`. -/
def wide_workflows : Workflows :=
  [("in", { m_id := "in",
            m_rules := [{ m_c := 'x', m_op := Operation.LT, m_comp := 5000,
                          m_res := WorkflowResult.Accepted },
                        { m_c := ' ', m_op := Operation.None, m_comp := 0,
                          m_res := WorkflowResult.Rejected }] })]

/-! ### What is counted -/

/-- The command map of a rating tuple `(x, m, a, s)`. -/
def command (t : Nat × Nat × Nat × Nat) : CMap Nat :=
  [('x', t.1), ('m', t.2.1), ('a', t.2.2.1), ('s', t.2.2.2)]

/-- The rating tuples with every component in `1..4000` that the pipeline accepts:
the evaluation from the workflow `in` returns, with the result `Accepted`. -/
def accepted (workflows : Workflows) : Set (Nat × Nat × Nat × Nat) :=
  {t | (1 ≤ t.1 ∧ t.1 ≤ 4000) ∧ (1 ≤ t.2.1 ∧ t.2.1 ≤ 4000) ∧
       (1 ≤ t.2.2.1 ∧ t.2.2.1 ≤ 4000) ∧ (1 ≤ t.2.2.2 ∧ t.2.2.2 ≤ 4000) ∧
       ∃ fuel, Pipeline.apply fuel workflows (command t) = some WorkflowResult.Accepted}

/-- The rating of a tuple in the category `c`. -/
def value (t : Nat × Nat × Nat × Nat) (c : Char) : Nat :=
  (CMap.find (command t) c).getD 0

/-- The ratings a pair `(low, high)` stands for: from `low`, and from 1, up
to `high`. -/
def holds (r : Nat × Nat) (v : Nat) : Prop := 1 ≤ v ∧ r.1 ≤ v ∧ v ≤ r.2

/-- The rating tuples the ranges stand for. -/
def box (in_ranges : CMap (Nat × Nat)) : Set (Nat × Nat × Nat × Nat) :=
  {t | ∀ c r, CMap.find in_ranges c = some r → holds r (value t c)}

/-- The tuples the evaluation accepts when it goes on from the result `stage`. -/
def accepts_from (workflows : Workflows) (stage : WorkflowResult)
    (t : Nat × Nat × Nat × Nat) : Prop :=
  match stage with
  | WorkflowResult.Accepted => True
  | WorkflowResult.Rejected => False
  | WorkflowResult.Workflow name =>
    ∃ fuel w, Day20.UMap.find workflows name = some w ∧
      inner fuel workflows w (command t) = some WorkflowResult.Accepted

/-- The tuples the ranges stand for that are accepted when the evaluation goes on
from the result `stage`. -/
def passing_from (workflows : Workflows) (in_ranges : CMap (Nat × Nat))
    (stage : WorkflowResult) : Set (Nat × Nat × Nat × Nat) :=
  {t | t ∈ box in_ranges ∧ accepts_from workflows stage t}

/-- The tuples the ranges stand for that are accepted when the rules `rest` of a
workflow are still to be tried. -/
def passing (workflows : Workflows) (in_ranges : CMap (Nat × Nat)) (rest : List Rule) :
    Set (Nat × Nat × Nat × Nat) :=
  {t | t ∈ box in_ranges ∧ accepts_from workflows (apply_rules rest (command t)) t}

/-- Ranges for the four categories, none of them empty, none above 4000. -/
def valid (in_ranges : CMap (Nat × Nat)) : Prop :=
  in_ranges.map Prod.fst = ['x', 'm', 'a', 's'] ∧
    ∀ c r, CMap.find in_ranges c = some r → max r.1 1 ≤ r.2 ∧ r.2 ≤ 4000

/-- The rating `v` passes the comparison of the rule. -/
def Rule.passes (rule : Rule) (v : Nat) : Prop :=
  match rule.m_op with
  | Operation.LT => v < rule.m_comp
  | Operation.GT => v > rule.m_comp
  | Operation.None => True

instance (rule : Rule) (v : Nat) : Decidable (rule.passes v) :=
  match h : rule.m_op with
  | Operation.LT => decidable_of_iff (v < rule.m_comp) (by simp [Rule.passes, h])
  | Operation.GT => decidable_of_iff (v > rule.m_comp) (by simp [Rule.passes, h])
  | Operation.None => isTrue (by simp [Rule.passes, h])

/-- The comparison of the rule cuts the range `(low, high)` into two parts that
are not empty. -/
def splits (rule : Rule) (low high : Nat) : Bool :=
  match rule.m_op with
  | Operation.LT => decide (max low 1 < rule.m_comp ∧ rule.m_comp ≤ high)
  | Operation.GT => decide (max low 1 ≤ rule.m_comp ∧ rule.m_comp < high)
  | Operation.None => false

/-- The rules that are left cut the ranges properly: a rule without condition
is the last one, a comparison cuts the range of its category into two parts that
are not empty, and `sub` holds of the calls made. -/
def proper_rules (sub : CMap (Nat × Nat) → WorkflowResult → Bool) :
    List Rule → CMap (Nat × Nat) → Bool
  | [], _ => true
  | rule :: rest, in_ranges =>
    if rule.m_op = Operation.None then decide (rest = []) && sub in_ranges rule.m_res
    else
      match CMap.find in_ranges rule.m_c with
      | none => false
      | some (low, high) =>
        splits rule low high &&
          sub (CMap.assign in_ranges rule.m_c (true_half rule low high)) rule.m_res &&
          proper_rules sub rest (CMap.assign in_ranges rule.m_c (false_half rule low high))

/-- The call of `count_configs` meets, within the budget, only workflows that
exist and rules that cut the ranges properly. -/
def proper : Nat → Workflows → CMap (Nat × Nat) → WorkflowResult → Bool
  | 0, _, _, _ => false
  | _ + 1, _, _, WorkflowResult.Rejected => true
  | _ + 1, _, _, WorkflowResult.Accepted => true
  | fuel + 1, workflows, in_ranges, WorkflowResult.Workflow name =>
    match Day20.UMap.find workflows name with
    | none => false
    | some workflow => proper_rules (proper fuel workflows) workflow.m_rules in_ranges

end Day19

namespace Day3

/-! ## Engine schematic (`src/2023/3/main.cpp`)

The schematic is the list of its rows, a row the list of its characters. An index
out of range is undefined in the source; `at` reads `'.'` there, and every
theorem is about rectangular schematics, where no such read occurs. The loop
`for (j = 0; j < schematic[i].size(); j++)` visits the characters of row `i`
with their column, the loop over `i` the rows with their index. The `std::set`
and the `std::map` are lists without repeated keys; nothing computed depends on
their iteration order. `size_t` arithmetic is modulo `2 ^ 64`. -/

/-- A position `(row, column)`. -/
abbrev Pos := Nat × Nat

/-- The function `char_is_digit`. -/
def char_is_digit (c : Char) : Bool := decide (48 ≤ c.toNat ∧ c.toNat ≤ 57)

/-- The character `schematic[i][j]`. -/
def at_pos (schematic : List (List Char)) (p : Pos) : Char :=
  (schematic.getD p.1 []).getD p.2 '.'

/-- The positions the two loops of `is_symbol_adjacent` and of `adjacent_gear_pos`
visit, in the order of the visit: rows `min_y..max_y`, columns `min_x..max_x`. -/
def window (schematic : List (List Char)) (y x : Nat) : List Pos :=
  let min_x := if x = 0 then 0 else x - 1
  let max_x := if x + 1 ≥ (schematic.getD y []).length then (schematic.getD y []).length - 1
               else x + 1
  let min_y := if y = 0 then 0 else y - 1
  let max_y := if y + 1 ≥ schematic.length then schematic.length - 1 else y + 1
  (List.range' min_y (max_y + 1 - min_y)).flatMap
    (fun i => (List.range' min_x (max_x + 1 - min_x)).map (fun j => (i, j)))

/-- A character that is neither `'.'` nor a digit. -/
def is_symbol (c : Char) : Bool := c != '.' && !char_is_digit c

/-- The function `is_symbol_adjacent`. -/
def is_symbol_adjacent (schematic : List (List Char)) (y x : Nat) : Option Char :=
  ((window schematic y x).find? (fun p => is_symbol (at_pos schematic p))).map
    (fun p => at_pos schematic p)

/-- The function `adjacent_gear_pos`. -/
def adjacent_gear_pos (schematic : List (List Char)) (y x : Nat) : Option Pos :=
  (window schematic y x).find? (fun p => at_pos schematic p == '*')

/-- The map `gears_ratio`: per gear position, how many part numbers were registered
and the product of their values. -/
abbrev Ratios := List (Pos × (Nat × Nat))

/-- The variables of the loops of `calculate`. -/
structure Scan where
  number_start : Option Nat
  number_end : Option Nat
  is_part_number : Bool
  adjacent_gears : List Pos
  part_number_sum : Nat
  gears_ratio : Ratios
deriving DecidableEq, Repr

/-- The member `insert` of the set `adjacent_gears`. -/
def set_insert (s : List Pos) (p : Pos) : List Pos := if p ∈ s then s else s ++ [p]

/-- The body of the loop `for (const auto& gear : adjacent_gears)` for one gear. -/
def register (part_number : Nat) : Ratios → Pos → Ratios
  | [], gear => [(gear, (1, part_number))]
  | (k, v) :: rest, gear =>
    if k = gear then (k, ((v.1 + 1) % 2 ^ 64, (v.2 * part_number) % 2 ^ 64)) :: rest
    else (k, v) :: register part_number rest gear

/-- The body of the loop over the columns, at column `j` of row `i`, where the row
has `n` characters and `c` is the character at hand. -/
def visit (schematic : List (List Char)) (i n j : Nat) (c : Char) (st : Scan) : Scan :=
  let st1 : Scan :=
    if char_is_digit c && !st.is_part_number then
      { st with
        is_part_number := (is_symbol_adjacent schematic i j).isSome,
        adjacent_gears :=
          match adjacent_gear_pos schematic i j with
          | some gear_pos => set_insert st.adjacent_gears gear_pos
          | none => st.adjacent_gears }
    else st
  let st2 : Scan :=
    if char_is_digit c then
      { st1 with
        number_start := if st1.number_start.isSome then st1.number_start else some j,
        number_end := some j }
    else st1
  if (!char_is_digit c || decide (j + 1 = n)) && st2.is_part_number &&
      st2.number_start.isSome && st2.number_end.isSome then
    let part_number : Nat :=
      (Cxx.from_chars_int
        (((schematic.getD i []).drop (st2.number_start.getD 0)).take
          (st2.number_end.getD 0 + 1 - st2.number_start.getD 0))).toNat
    { number_start := none, number_end := none, is_part_number := false,
      adjacent_gears := [],
      part_number_sum := (st2.part_number_sum + part_number) % 2 ^ 64,
      gears_ratio := st2.adjacent_gears.foldl (register part_number) st2.gears_ratio }
  else if !char_is_digit c then
    { st2 with number_start := none, number_end := none, is_part_number := false,
               adjacent_gears := [] }
  else st2

/-- The loop over the columns of row `i`, from column `j` on. -/
def scan_row (schematic : List (List Char)) (i n : Nat) : Nat → List Char → Scan → Scan
  | _, [], st => st
  | j, c :: cs, st => scan_row schematic i n (j + 1) cs (visit schematic i n j c st)

/-- The variables declared at the start of the body of the loop over the rows. -/
def start_row (st : Scan) : Scan :=
  { st with number_start := none, number_end := none, is_part_number := false,
            adjacent_gears := [] }

/-- The loop over the rows, from row `i` on. -/
def scan_rows (schematic : List (List Char)) : Nat → List (List Char) → Scan → Scan
  | _, [], st => st
  | i, row :: rows, st =>
    scan_rows schematic (i + 1) rows (scan_row schematic i row.length 0 row (start_row st))

/-- The loop that adds up the products of the gears with two part numbers. -/
def gear_sum (gears_ratio : Ratios) : Nat :=
  gears_ratio.foldl
    (fun sum gear_ratio => if gear_ratio.2.1 = 2 then (sum + gear_ratio.2.2) % 2 ^ 64 else sum) 0

/-- The function `calculate`: the pair `(part_number_sum, gear_ratio_sum)`. -/
def calculate (schematic : List (List Char)) : Nat × Nat :=
  let st := scan_rows schematic 0 schematic
    { number_start := none, number_end := none, is_part_number := false,
      adjacent_gears := [], part_number_sum := 0, gears_ratio := [] }
  (st.part_number_sum, gear_sum st.gears_ratio)

/-- The function `parse_input`. -/
def parse_input (data : String) : List (List Char) := Day20.lines data.data

/-- The text of `test`. -/
def test_text : String :=
  "467..114..\n...*......\n..35..633.\n......#...\n617*......\n.....+.58.\n" ++
  "..592.....\n......755.\n...$.*....\n.664.598.."

/-! ### Numbers, part numbers and gears -/

/-- The maximal runs of digits of a row as pairs `(first, last)` of columns, from
left to right; `j` is the column of the first character of the list and `cur`
the first column of a run that reaches up to it. -/
def digit_runs_go : Nat → List Char → Option Nat → List (Nat × Nat)
  | j, [], cur =>
    match cur with
    | some s => [(s, j - 1)]
    | none => []
  | j, c :: cs, cur =>
    if char_is_digit c then digit_runs_go (j + 1) cs (if cur.isSome then cur else some j)
    else
      (match cur with
       | some s => [(s, j - 1)]
       | none => []) ++ digit_runs_go (j + 1) cs none

/-- The maximal runs of digits of a row as pairs `(first, last)` of columns. -/
def digit_runs (row : List Char) : List (Nat × Nat) := digit_runs_go 0 row none

/-- The characters of the columns `r.1 .. r.2` of a row. -/
def slice (row : List Char) (r : Nat × Nat) : List Char :=
  (row.drop r.1).take (r.2 + 1 - r.1)

/-- The value of the run `r` of a row: the number its digits write. -/
def run_value (row : List Char) (r : Nat × Nat) : Nat := Cxx.decimal (slice row r)

/-- The positions of the schematic. -/
def cells (schematic : List (List Char)) : List Pos :=
  (List.range schematic.length).flatMap
    (fun i => (List.range (schematic.getD i []).length).map (fun j => (i, j)))

/-- Two positions are adjacent, diagonals included (or equal). -/
def adjacent (p q : Pos) : Bool :=
  decide (p.1 ≤ q.1 + 1 ∧ q.1 ≤ p.1 + 1 ∧ p.2 ≤ q.2 + 1 ∧ q.2 ≤ p.2 + 1)

/-- The position is adjacent to a symbol of the schematic. -/
def touches_symbol (schematic : List (List Char)) (p : Pos) : Bool :=
  (cells schematic).any (fun q => adjacent p q && is_symbol (at_pos schematic q))

/-- The positions of the digits of the run `r` of row `i`. -/
def run_cells (i : Nat) (r : Nat × Nat) : List Pos :=
  (List.range' r.1 (r.2 + 1 - r.1)).map (fun j => (i, j))

/-- The run `r` of row `i` has a digit adjacent to a symbol. -/
def is_part (schematic : List (List Char)) (i : Nat) (r : Nat × Nat) : Bool :=
  (run_cells i r).any (touches_symbol schematic)

/-- The values of the runs of row `i` that have a digit adjacent to a symbol. -/
def row_part_numbers (schematic : List (List Char)) (i : Nat) (row : List Char) : List Nat :=
  ((digit_runs row).filter (is_part schematic i)).map (run_value row)

/-- The values of the part numbers of the rows `rows`, which start at row `i`. -/
def part_numbers_from (schematic : List (List Char)) : Nat → List (List Char) → List Nat
  | _, [] => []
  | i, row :: rows => row_part_numbers schematic i row ++ part_numbers_from schematic (i + 1) rows

/-- The sum of the values of all runs that have a digit adjacent to a symbol. -/
def part_sum (schematic : List (List Char)) : Nat :=
  (part_numbers_from schematic 0 schematic).sum

/-- All rows have the same length. -/
def rectangular (schematic : List (List Char)) : Prop :=
  ∀ row ∈ schematic, row.length = (schematic.headD []).length

instance (schematic : List (List Char)) : Decidable (rectangular schematic) :=
  inferInstanceAs (Decidable (∀ row ∈ schematic, row.length = (schematic.headD []).length))

/-- Every run of digits writes a number that fits into an `int`. -/
def values_fit (schematic : List (List Char)) : Prop :=
  ∀ row ∈ schematic, ∀ r ∈ digit_runs row, run_value row r < 2 ^ 31

instance (schematic : List (List Char)) : Decidable (values_fit schematic) :=
  inferInstanceAs (Decidable (∀ row ∈ schematic, ∀ r ∈ digit_runs row, run_value row r < 2 ^ 31))

/-- The first column among `s, s + 1, ..., s + k - 1` of row `i` at which
`is_symbol_adjacent` finds a symbol. -/
def first_hit (schematic : List (List Char)) (i s k : Nat) : Option Nat :=
  (List.range' s k).find? (fun j => (is_symbol_adjacent schematic i j).isSome)

/-- What `calculate` does with a run of digits `r` of row `i` when the run is
over: nothing when no digit has a symbol next to it; else it adds the value
`from_chars` reads, and registers the value for the gear `adjacent_gear_pos` finds
at the first digit with a symbol next to it. -/
def run_event (schematic : List (List Char)) (i : Nat) (row : List Char) (r : Nat × Nat) :
    Option (Nat × Option Pos) :=
  match first_hit schematic i r.1 (r.2 + 1 - r.1) with
  | none => none
  | some j => some ((Cxx.from_chars_int (slice row r)).toNat, adjacent_gear_pos schematic i j)

/-- The events of the runs of a row, from left to right. -/
def row_events (schematic : List (List Char)) (i : Nat) (row : List Char) :
    List (Nat × Option Pos) :=
  (digit_runs row).filterMap (run_event schematic i row)

/-- The events of the rows `rows`, which start at row `i`. -/
def events_from (schematic : List (List Char)) : Nat → List (List Char) →
    List (Nat × Option Pos)
  | _, [] => []
  | i, row :: rows => row_events schematic i row ++ events_from schematic (i + 1) rows

/-- The effect of an event on `part_number_sum` and `gears_ratio`. -/
def apply_event (acc : Nat × Ratios) (e : Nat × Option Pos) : Nat × Ratios :=
  ((acc.1 + e.1) % 2 ^ 64,
    match e.2 with
    | some gear => register e.1 acc.2 gear
    | none => acc.2)

/-- The two results of a scan: `part_number_sum` and `gears_ratio`. -/
def Scan.acc (st : Scan) : Nat × Ratios := (st.part_number_sum, st.gears_ratio)

/-- The effect of a run that is over on `part_number_sum` and `gears_ratio`. -/
def flush_acc (schematic : List (List Char)) (i : Nat) (row : List Char) (acc : Nat × Ratios)
    (r : Nat × Nat) : Nat × Ratios :=
  match run_event schematic i row r with
  | some e => apply_event acc e
  | none => acc

/-- The effect on the results of a character that is no digit at column `j`: the
run in progress, if any, is over. -/
def close_run (schematic : List (List Char)) (i : Nat) (row : List Char) (acc : Nat × Ratios)
    (j : Nat) : Option Nat → Nat × Ratios
  | some s => flush_acc schematic i row acc (s, j - 1)
  | none => acc

/-- The state of the run in progress at column `j`: no run, or a run from column
`s` whose digits have been visited. -/
def run_state (schematic : List (List Char)) (i j : Nat) (cur : Option Nat) (st : Scan) : Prop :=
  match cur with
  | none =>
    st.number_start = none ∧ st.number_end = none ∧ st.is_part_number = false ∧
      st.adjacent_gears = []
  | some s =>
    s < j ∧ st.number_start = some s ∧ st.number_end = some (j - 1) ∧
      st.is_part_number = (first_hit schematic i s (j - s)).isSome ∧
      st.adjacent_gears =
        ((first_hit schematic i s (j - s)).bind (adjacent_gear_pos schematic i)).toList

/-! ### Gears -/

/-- The numbers of the rows `rows`, which start at row `i`: the row, the run of
digits and its value, in the order of the scan. -/
def numbers_from : Nat → List (List Char) → List (Nat × (Nat × Nat) × Nat)
  | _, [] => []
  | i, row :: rows =>
    (digit_runs row).map (fun r => (i, r, run_value row r)) ++ numbers_from (i + 1) rows

/-- The numbers of the schematic. -/
def numbers (schematic : List (List Char)) : List (Nat × (Nat × Nat) × Nat) :=
  numbers_from 0 schematic

/-- The run `r` of row `i` has a digit adjacent to the position `g`. -/
def touches (i : Nat) (r : Nat × Nat) (g : Pos) : Bool :=
  (run_cells i r).any (fun p => adjacent p g)

/-- The values of the numbers adjacent to the position `g`. -/
def adjacent_values (schematic : List (List Char)) (g : Pos) : List Nat :=
  ((numbers schematic).filter (fun n => touches n.1 n.2.1 g)).map (fun n => n.2.2)

/-- The positions of the schematic that hold `*`. -/
def gear_cells (schematic : List (List Char)) : List Pos :=
  (cells schematic).filter (fun g => at_pos schematic g == '*')

/-- The product of the two numbers when there are exactly two, else 0. -/
def ratio (values : List Nat) : Nat := if values.length = 2 then values.prod else 0

/-- The sum, over every `*` adjacent to exactly two numbers, of the product of
the two. -/
def gear_ratio_spec (schematic : List (List Char)) : Nat :=
  ((gear_cells schematic).map (fun g => ratio (adjacent_values schematic g))).sum

/-- The positions of the symbols adjacent to a number. -/
def symbols_at (schematic : List (List Char)) (n : Nat × (Nat × Nat) × Nat) : List Pos :=
  (cells schematic).filter (fun p => is_symbol (at_pos schematic p) && touches n.1 n.2.1 p)

/-- No number is adjacent to two symbols at different positions. -/
def single_symbol (schematic : List (List Char)) : Prop :=
  ∀ n ∈ numbers schematic, (symbols_at schematic n).length ≤ 1

instance (schematic : List (List Char)) : Decidable (single_symbol schematic) :=
  inferInstanceAs (Decidable (∀ n ∈ numbers schematic, (symbols_at schematic n).length ≤ 1))

/-- The member `find` of the map `gears_ratio`. -/
def Ratios.find : Ratios → Pos → Option (Nat × Nat)
  | [], _ => none
  | (k, v) :: rest, g => if k = g then some v else Ratios.find rest g

/-- The values the events register for the gear `g`, in the order of the
events. -/
def tally (es : List (Nat × Option Pos)) (g : Pos) : List Nat :=
  (es.filter (fun e => decide (e.2 = some g))).map Prod.fst

/-- The entry of `gears_ratio` for a gear with the registered values `vs`. -/
def entry_of (vs : List Nat) : Option (Nat × Nat) :=
  if vs = [] then none else some (vs.length % 2 ^ 64, vs.prod % 2 ^ 64)

/-- The map `gears_ratio` holds, for every gear, the count and the product of
the values the events `es` register for it. -/
def ratios_hold (m : Ratios) (es : List (Nat × Option Pos)) : Prop :=
  (m.map Prod.fst).Nodup ∧ ∀ g, Ratios.find m g = entry_of (tally es g)

/-- A schematic in which a number is adjacent to a `#` and to a `*`. -/
def two_symbol_text : String := "1*2*3"

end Day3

namespace Day11

/-! ## Galaxies (`src/2023/11/main.cpp`)

The grid is the list of its rows. `grid.front()` on an empty grid is undefined:
`distance_sum` returns `none` there. An index out of range is undefined as well;
`at_pos` reads `Space` there, and every theorem is about rectangular grids, where
no such read occurs. The sets of empty rows and columns are lists; `size_t` sums
are modulo `2 ^ 64`. -/

/-- The enumeration `Symbol`. -/
inductive Symbol where
  | Space
  | Galaxy
deriving DecidableEq, Repr

/-- The type `Grid`. -/
abbrev Grid := List (List Symbol)

/-- The structure `Point`. -/
structure Point where
  x : Nat
  y : Nat
deriving DecidableEq, Repr

/-- The symbol `grid[y][x]`. -/
def at_pos (grid : Grid) (y x : Nat) : Symbol := (grid.getD y []).getD x Symbol.Space

/-- The set `empty_rows` after the first loop. -/
def empty_rows (grid : Grid) : List Nat :=
  (List.range grid.length).filter
    (fun y => (grid.getD y []).all (fun s => decide (s = Symbol.Space)))

/-- The galaxies the inner loop over `y` appends for the column `x`. -/
def column_galaxies (grid : Grid) (x : Nat) : List Point :=
  ((List.range grid.length).filter (fun y => decide (at_pos grid y x = Symbol.Galaxy))).map
    (fun y => { x := x, y := y })

/-- The flag `all_empty` after the inner loop over `y` for the column `x`. -/
def all_empty (grid : Grid) (x : Nat) : Bool :=
  (List.range grid.length).all (fun y => decide (at_pos grid y x = Symbol.Space))

/-- The vector `galaxies` after the loop over the columns. -/
def galaxies (grid : Grid) : List Point :=
  (List.range (grid.headD []).length).flatMap (column_galaxies grid)

/-- The set `empty_cols` after the loop over the columns. -/
def empty_cols (grid : Grid) : List Nat :=
  (List.range (grid.headD []).length).filter (all_empty grid)

/-- One of the two inner loops that add up `dist`: over the indices from `lo`
up to `hi`, excluding `hi`. -/
def add_steps (empty : List Nat) (spread_factor lo hi dist : Nat) : Nat :=
  (List.range' lo (hi - lo)).foldl
    (fun d k => (d + (if k ∈ empty then spread_factor else 1)) % 2 ^ 64) dist

/-- The value of `dist` for the galaxies `ga` and `gb`. -/
def dist (rows cols : List Nat) (spread_factor : Nat) (ga gb : Point) : Nat :=
  add_steps cols spread_factor (min ga.x gb.x) (max ga.x gb.x)
    (add_steps rows spread_factor (min ga.y gb.y) (max ga.y gb.y) 0)

/-- The two loops over `a` and `b > a`, from the galaxy list that is left and the
value of `dist_sum`. -/
def pair_loop (rows cols : List Nat) (spread_factor : Nat) : List Point → Nat → Nat
  | [], dist_sum => dist_sum
  | ga :: rest, dist_sum =>
    pair_loop rows cols spread_factor rest
      (rest.foldl (fun s gb => (s + dist rows cols spread_factor ga gb) % 2 ^ 64) dist_sum)

/-- The function `distance_sum`. -/
def distance_sum (grid : Grid) (spread_factor : Nat) : Option Nat :=
  match grid with
  | [] => none
  | _ => some (pair_loop (empty_rows grid) (empty_cols grid) spread_factor (galaxies grid) 0)

/-- The cast of a character of the input to `Symbol`; a character other than `.`
and `#` has no counterpart here. -/
def Symbol.ofChar (c : Char) : Option Symbol :=
  if c = '.' then some Symbol.Space
  else if c = '#' then some Symbol.Galaxy
  else none

/-- The symbols a line writes. -/
def parse_line : List Char → Option (List Symbol)
  | [] => some []
  | c :: cs =>
    match Symbol.ofChar c, parse_line cs with
    | some s, some ss => some (s :: ss)
    | _, _ => none

/-- The loop of `parse_input` over the lines. -/
def parse_lines : List (List Char) → Option Grid
  | [] => some []
  | line :: rest =>
    match parse_line line, parse_lines rest with
    | some r, some rs => some (r :: rs)
    | _, _ => none

/-- The function `parse_input`. -/
def parse_input (data : String) : Option Grid := parse_lines (Day20.lines data.data)

/-- The text of `test`. -/
def test_text : String :=
  "...#......\n.......#..\n#.........\n..........\n......#...\n.#........\n" ++
  ".........#\n..........\n.......#..\n#...#....."

/-! ### The distances after the expansion -/

/-- The row `y` holds no galaxy. -/
def row_free (grid : Grid) (y : Nat) : Bool :=
  (grid.getD y []).all (fun s => decide (s ≠ Symbol.Galaxy))

/-- The column `x` holds no galaxy. -/
def col_free (grid : Grid) (x : Nat) : Bool :=
  grid.all (fun row => decide (row.getD x Symbol.Space ≠ Symbol.Galaxy))

/-- The index of the row `y` after every row without galaxy has been replaced by `f`
rows. -/
def expanded_row (grid : Grid) (f : Nat) (y : Nat) : Nat :=
  ((List.range y).map (fun r => if row_free grid r then f else 1)).sum

/-- The index of the column `x` after every column without galaxy has been replaced
by `f` columns. -/
def expanded_col (grid : Grid) (f : Nat) (x : Nat) : Nat :=
  ((List.range x).map (fun c => if col_free grid c then f else 1)).sum

/-- The Manhattan distance of two positions after the expansion. -/
def expanded_dist (grid : Grid) (f : Nat) (p q : Point) : Nat :=
  Nat.dist (expanded_row grid f p.y) (expanded_row grid f q.y) +
    Nat.dist (expanded_col grid f p.x) (expanded_col grid f q.x)

/-- The galaxies of the grid, row by row. -/
def galaxy_cells (grid : Grid) : List Point :=
  (List.range grid.length).flatMap
    (fun y => ((List.range (grid.getD y []).length).filter
      (fun x => decide (at_pos grid y x = Symbol.Galaxy))).map (fun x => { x := x, y := y }))

/-- The sum of `d` over the pairs of two different places of a list. -/
def pairs_total (d : Point → Point → Nat) : List Point → Nat
  | [] => 0
  | p :: rest => (rest.map (d p)).sum + pairs_total d rest

/-- The sum over all pairs of galaxies of their distance after the expansion. -/
def expanded_sum (grid : Grid) (f : Nat) : Nat :=
  pairs_total (expanded_dist grid f) (galaxy_cells grid)

/-- All rows have the same length. -/
def rectangular (grid : Grid) : Prop :=
  ∀ row ∈ grid, row.length = (grid.headD []).length

instance (grid : Grid) : Decidable (rectangular grid) :=
  inferInstanceAs (Decidable (∀ row ∈ grid, row.length = (grid.headD []).length))

/-- The grid of `test`. -/
def test_grid : Grid :=
  match parse_input test_text with
  | some g => g
  | none => []

/-- A grid of one column: a galaxy, an empty row, a galaxy. -/
def narrow_grid : Grid := [[Symbol.Galaxy], [Symbol.Space], [Symbol.Galaxy]]

end Day11

namespace Day9

/-! ## Extrapolation of histories (`src/2023/9/main.cpp`)

A history is a list of `int` values. A difference that does not fit into an `int`
is undefined in the source, and for an empty history the vector of differences
would have `2 ^ 64 - 1` elements: `predict_value` returns `none` in both cases.
The result is a `size_t`: an `int` is converted modulo `2 ^ 64`, and sums and
differences are modulo `2 ^ 64`. The recursion is bounded by a budget of nested
calls, and `predict_value` supplies the length of the history, which is always
enough. -/

/-- The value fits into an `int`. -/
def in_int (v : Int) : Prop := -2 ^ 31 ≤ v ∧ v < 2 ^ 31

instance (v : Int) : Decidable (in_int v) :=
  inferInstanceAs (Decidable (-2 ^ 31 ≤ v ∧ v < 2 ^ 31))

/-- The conversion of an `int` to `size_t`. -/
def to_size (v : Int) : Nat := (v % 2 ^ 64).toNat

/-- The vector `diffs` after the loop; `none` when a difference does not fit into an
`int`. -/
def checked_diffs : List Int → Option (List Int)
  | a :: b :: t =>
    if in_int (b - a) then
      match checked_diffs (b :: t) with
      | some d => some ((b - a) :: d)
      | none => none
    else none
  | _ => some []

/-- The function `predict_value` with a budget of nested calls. -/
def predict_go : Nat → List Int → Bool → Option Nat
  | 0, _, _ => none
  | _, [], _ => none
  | fuel + 1, h :: t, forward =>
    match checked_diffs (h :: t) with
    | none => none
    | some diffs =>
      if diffs.all (fun num => decide (num = 0)) then
        some (to_size (if forward then h else (h :: t).getLast (List.cons_ne_nil h t)))
      else
        match predict_go fuel diffs forward with
        | none => none
        | some r =>
          if forward then
            some ((to_size ((h :: t).getLast (List.cons_ne_nil h t)) + r) % 2 ^ 64)
          else some ((to_size h + 2 ^ 64 - r) % 2 ^ 64)

/-- The function `predict_value`. -/
def predict_value (history : List Int) (forward : Bool) : Option Nat :=
  predict_go history.length history forward

/-- The numbers a line writes. -/
def parse_line (line : List Char) : List Int :=
  (Day20.split [' '] line).map Cxx.from_chars_int

/-- The function `parse_input`. -/
def parse_input (data : String) : List (List Int) :=
  (Day20.lines data.data).map parse_line

/-- The loop `prediction_sum += predict_value(history, forward)` of `test`, from the
value `sum`. -/
def sum_predictions (forward : Bool) (sum : Nat) : List (List Int) → Option Nat
  | [] => some sum
  | history :: rest =>
    match predict_value history forward with
    | none => none
    | some p => sum_predictions forward ((sum + p) % 2 ^ 64) rest

/-- The text of `test`. -/
def test_text : String := "0 3 6 9 12 15\n1 3 6 10 15 21\n10 13 16 21 30 45"

/-! ### Rows of differences -/

/-- The row of the consecutive differences of a row. -/
def delta : List Int → List Int
  | a :: b :: t => (b - a) :: delta (b :: t)
  | _ => []

/-- The sum over `k = 0 .. m - 1` of the last element of the `k`-th row of
differences; an empty row adds nothing. -/
def forward_upto (m : Nat) (h : List Int) : Int :=
  ((List.range m).map (fun k => (delta^[k] h).getLastD 0)).sum

/-- The sum over `k = 0 .. m - 1` of `(-1) ^ k` times the first element of the
`k`-th row of differences; an empty row adds nothing. -/
def backward_upto (m : Nat) (h : List Int) : Int :=
  ((List.range m).map (fun k => (-1) ^ k * (delta^[k] h).headD 0)).sum

/-- The sum over `k = 0 .. n - 1` of the last element of the `k`-th row of
differences of a history of `n` numbers. -/
def forward_sum (h : List Int) : Int := forward_upto h.length h

/-- The sum over `k = 0 .. n - 1` of `(-1) ^ k` times the first element of the
`k`-th row of differences of a history of `n` numbers. -/
def backward_sum (h : List Int) : Int := backward_upto h.length h

/-- The numbers of the history and of all its rows of differences fit into an
`int`. -/
def fits (h : List Int) : Prop :=
  ∀ k, k < h.length → ∀ v ∈ delta^[k] h, in_int v

instance (h : List Int) : Decidable (fits h) :=
  inferInstanceAs (Decidable (∀ k, k < h.length → ∀ v ∈ delta^[k] h, in_int v))

end Day9

namespace Day8

/-! ## Walking the network (`src/2023/8/main.cpp`)

The enumeration `Direction` has the underlying type `char`, so every character is a
value of it; `LEFT` is the character `L`, and the loop takes the second target for
every other value. An iterator of the node table is the entry it points to, or
`none` for `end()`. The loop of `start_to_end` has no bound of its own: the model
gives it a budget of iterations and returns `none` when the budget is used up, and
also where the source is undefined (an empty instruction list is indexed with
`i % 0`). The counter is a `size_t`. -/

/-- The enumeration `Direction : char`. -/
abbrev Direction := Char

/-- The value `Direction::LEFT`. -/
def Direction.LEFT : Direction := 'L'

/-- The value `Direction::RIGHT`. -/
def Direction.RIGHT : Direction := 'R'

/-- The table `NodesMap`. -/
abbrev NodesMap := Day20.UMap (String × String)

/-- The class `Network`. -/
structure Network where
  m_instructions : List Direction
  m_nodes : NodesMap
deriving DecidableEq

/-- An iterator of the node table: the entry, or `none` for `end()`. -/
abbrev Iter := Option (String × (String × String))

/-- The call `m_nodes.find(key)`. -/
def Network.find (net : Network) (key : String) : Iter :=
  match Day20.UMap.find net.m_nodes key with
  | some targets => some (key, targets)
  | none => none

/-- The assignment to `curr` at the end of the loop body. -/
def Network.next (net : Network) (instruction : Direction) (targets : String × String) :
    Iter :=
  if instruction = Direction.LEFT then net.find targets.1 else net.find targets.2

/-- The loop of `start_to_end` from the counter `i` and the iterator `curr`, with a
budget of iterations. -/
def Network.loop (net : Network) : Nat → Nat → Iter → Option (Option Nat)
  | 0, _, _ => none
  | fuel + 1, i, curr =>
    match curr with
    | none => some none
    | some (id, targets) =>
      if id = "ZZZ" then some (some i)
      else
        match net.m_instructions[i % net.m_instructions.length]? with
        | none => none
        | some instruction => net.loop fuel ((i + 1) % 2 ^ 64) (net.next instruction targets)

/-- The member `start_to_end` with a budget of iterations. -/
def Network.start_to_end (net : Network) (fuel : Nat) : Option (Option Nat) :=
  net.loop fuel 0 (net.find "AAA")

/-- One iteration of the loop over the node lines in `parse_input`. -/
def parse_node (nodes : NodesMap) (line : List Char) : Option NodesMap :=
  match Day20.split [' ', '=', ' '] line with
  | id :: map_part :: _ =>
    if map_part.length < 2 then none
    else
      match Day20.split [',', ' '] ((map_part.drop 1).dropLast) with
      | first :: second :: _ =>
        some (Day20.UMap.insert nodes (String.mk id) (String.mk first, String.mk second))
      | _ => none
  | _ => none

/-- The loop over the node lines in `parse_input`. -/
def parse_nodes : NodesMap → List (List Char) → Option NodesMap
  | nodes, [] => some nodes
  | nodes, line :: rest =>
    match parse_node nodes line with
    | some nodes' => parse_nodes nodes' rest
    | none => none

/-- The function `parse_input`. -/
def parse_input (data : String) : Option Network :=
  match Day20.lines data.data with
  | [] => none
  | front :: rest =>
    match parse_nodes [] rest with
    | some nodes => some { m_instructions := front, m_nodes := nodes }
    | none => none

/-- The text `input_single` of `test`. -/
def test_text : String := "LLR\n\nAAA = (BBB, BBB)\nBBB = (AAA, ZZZ)\nZZZ = (ZZZ, ZZZ)"

/-- The network of `input_single`. -/
def test_network : Network :=
  { m_instructions := ['L', 'L', 'R'],
    m_nodes := [("AAA", ("BBB", "BBB")), ("BBB", ("AAA", "ZZZ")), ("ZZZ", ("ZZZ", "ZZZ"))] }

/-! ### Following the instructions -/

/-- The entry reached from `AAA` after `n` steps, the step number `k` taking the
first target on `L` and the second target otherwise, by the instruction at
`k mod` the number of instructions; `none` when `AAA` or an identifier on the way
is not a node. -/
def Network.walk (net : Network) : Nat → Iter
  | 0 => net.find "AAA"
  | n + 1 =>
    match net.walk n with
    | none => none
    | some (_, targets) =>
      net.next (net.m_instructions.getD (n % net.m_instructions.length) Direction.LEFT) targets

/-- After `n` steps the walk is on the node `ZZZ`. -/
def Network.ends (net : Network) (n : Nat) : Prop :=
  (net.walk n).map Prod.fst = some "ZZZ"

instance (net : Network) (n : Nat) : Decidable (net.ends n) :=
  inferInstanceAs (Decidable ((net.walk n).map Prod.fst = some "ZZZ"))

end Day8

namespace Day13

/-! ## Lines of reflection (`src/2023/13/main.cpp`)

A line is a list of characters. The counters `i`, `j` and `k` of `reflection` are
`int64_t`; they stay between `-1` and the number of lines, and the model keeps
`j + 1` for `j`, so that the end `j = -1` of the inner loop is `0`. The outer loop
has a budget of iterations, and `reflection` supplies one more than the number of
lines, which is always enough.

In `transpose` the call `std::string(' ', m_lines.size())` makes a string of 32
characters (the value of the blank) that all have the number of lines as their
value. The capacity after `reserve` on the empty vector is taken to be the
requested one. An empty pattern (`front()`) and a write outside the rows or outside
their 32 characters are undefined in the source and give `none`. -/

/-- The class `Pattern`. -/
structure Pattern where
  m_lines : List (List Char)
deriving DecidableEq, Repr

/-- The inner loop of `reflection`, with `c = j + 1`: the value of `all_mirrored` after
the loop. -/
def mirrored (lines : List (List Char)) : Nat → Nat → Bool
  | 0, _ => true
  | c + 1, k =>
    if k < lines.length then
      if lines[c]? ≠ lines[k]? then false else mirrored lines c (k + 1)
    else true

/-- The outer loop of `reflection` from the counter `i`, with a budget of
iterations. -/
def reflection_from (lines : List (List Char)) : Nat → Nat → Option Nat
  | 0, _ => none
  | fuel + 1, i =>
    if i < lines.length then
      if mirrored lines i i then some i else reflection_from lines fuel (i + 1)
    else some 0

/-- The member `reflection`. -/
def Pattern.reflection (p : Pattern) : Option Nat :=
  reflection_from p.m_lines (p.m_lines.length + 1) 1

/-- The string `std::string(' ', n)`: 32 characters of the value `n`. -/
def filler (n : Nat) : List Char := List.replicate 32 (Char.ofNat (n % 256))

/-- The loop over `j` in `transpose`, for the line `i` from the column `j`. -/
def write_line (i : Nat) : List Char → Nat → List (List Char) → Option (List (List Char))
  | [], _, transposed => some transposed
  | c :: rest, j, transposed =>
    match transposed[j]? with
    | none => none
    | some row =>
      if i < row.length then write_line i rest (j + 1) (transposed.set j (row.set i c))
      else none

/-- The loop over `i` in `transpose`, from the line `i`. -/
def write_lines : List (List Char) → Nat → List (List Char) → Option (List (List Char))
  | [], _, transposed => some transposed
  | line :: rest, i, transposed =>
    match write_line i line 0 transposed with
    | none => none
    | some transposed' => write_lines rest (i + 1) transposed'

/-- The member `transpose`. -/
def Pattern.transpose (p : Pattern) : Option Pattern :=
  match p.m_lines with
  | [] => none
  | front :: _ =>
    match write_lines p.m_lines 0 (List.replicate front.length (filler p.m_lines.length)) with
    | none => none
    | some transposed => some { m_lines := transposed }

/-- The function `parse_input`. -/
def parse_input (data : String) : List Pattern :=
  ((Day20.split ['\n', '\n'] data.data).filter (fun r => !r.isEmpty)).map
    (fun block => { m_lines := (Day20.split ['\n'] block).filter (fun line => !line.isEmpty) })

/-- The loop of `test` for `reflection_sum`, from the value `sum`. -/
def sum_reflections (sum : Nat) : List Pattern → Option Nat
  | [] => some sum
  | block :: rest =>
    match block.reflection, block.transpose with
    | some r, some transposed =>
      match transposed.reflection with
      | some rt => sum_reflections (((sum + 100 * r % 2 ^ 64) % 2 ^ 64 + rt) % 2 ^ 64) rest
      | none => none
    | _, _ => none

/-- The text of `test`. -/
def test_text : String :=
  "\n#.##..##.\n..#.##.#.\n##......#\n##......#\n..#.##.#.\n..##..##.\n#.#.##.#.\n\n#...##..#\n#....#..#\n..##..###\n#####.##.\n#####.##.\n..##..###\n#....#..#"

/-! ### Mirrors -/

/-- Line `i - 1 - d` equals line `i + d` for every `d` for which both indices are
indices of lines. -/
def is_mirror (lines : List (List Char)) (i : Nat) : Prop :=
  ∀ d, d < i → i + d < lines.length → lines[i - 1 - d]? = lines[i + d]?

instance (lines : List (List Char)) (i : Nat) : Decidable (is_mirror lines i) :=
  inferInstanceAs (Decidable (∀ d, d < i → i + d < lines.length → lines[i - 1 - d]? = lines[i + d]?))

end Day13

namespace Day7

/-! ## Ranking hands (`src/2023/7/main.cpp`)

A card is the value of the enumeration `Card : uint8_t`; the parser casts a
character, so every value below 256 occurs. The constructor of `Hand` counts the
cards in a vector of 15 counters: a card of a value of 15 or more is counted outside
the vector, which is undefined in the source, and the constructor returns `none`.
The comparison of two hands reads the right-hand cards at the indices of the
left-hand cards; where the right hand has fewer cards the source is undefined, the
model answers `false`, and the theorems are about hands with equally many cards.
`std::sort` leaves the order of equivalent elements open: the model sorts by
insertion, and the theorems hold for every permutation that is sorted. The sum is
a `size_t`. -/

/-- The enumeration `HandKind`. -/
inductive HandKind where
  | HighCard
  | OnePair
  | TwoPair
  | ThreeOfAKind
  | FullHouse
  | FourOfAKind
  | FiveOfAKind
deriving DecidableEq, Repr

/-- The value of a kind. -/
def HandKind.value : HandKind → Nat
  | HighCard => 1
  | OnePair => 2
  | TwoPair => 3
  | ThreeOfAKind => 4
  | FullHouse => 5
  | FourOfAKind => 6
  | FiveOfAKind => 7

/-- The enumeration `Card`, by its value. -/
abbrev Card := Nat

/-- The value `Card::Joker`. -/
def Card.Joker : Card := 1

/-- The value `Card::T`. -/
def Card.T : Card := 10

/-- The value `Card::J`. -/
def Card.J : Card := 11

/-- The value `Card::Q`. -/
def Card.Q : Card := 12

/-- The value `Card::K`. -/
def Card.K : Card := 13

/-- The value `Card::A`. -/
def Card.A : Card := 14

/-- The class `Hand`. -/
structure Hand where
  m_cards : List Card
  m_bid : Nat
  m_kind : HandKind
deriving DecidableEq, Repr

/-- The first loop of the constructor, from the values of `joker_count` and `cache`. -/
def count_cards : List Card → Nat → List Nat → Option (Nat × List Nat)
  | [], joker_count, cache => some (joker_count, cache)
  | card :: rest, joker_count, cache =>
    if card = Card.Joker then count_cards rest (joker_count + 1) cache
    else if card < cache.length then
      count_cards rest joker_count (cache.set card (cache.getD card 0 + 1))
    else none

/-- The chain of conditions of the constructor, on `*first`, `*sec` and
`joker_count`. -/
def kind_of (first sec joker_count : Nat) : HandKind :=
  if first = 5 ∨ first + joker_count ≥ 5 then HandKind.FiveOfAKind
  else if first = 4 ∨ first + joker_count ≥ 4 then HandKind.FourOfAKind
  else if (first = 3 ∧ sec = 2) ∨ (first = 2 ∧ sec = 2 ∧ joker_count ≥ 1) ∨
      (first = 2 ∧ sec = 1 ∧ joker_count ≥ 2) ∨ joker_count = 3 then HandKind.FullHouse
  else if first = 3 ∨ first + joker_count ≥ 3 then HandKind.ThreeOfAKind
  else if (first = 2 ∧ sec = 2) ∨ (first = 2 ∧ joker_count = 1) then HandKind.TwoPair
  else if first = 2 ∨ joker_count = 1 then HandKind.OnePair
  else HandKind.HighCard

/-- The kind the constructor finds from the counters. -/
def kind_of_cache (joker_count : Nat) (cache : List Nat) : HandKind :=
  kind_of ((cache.insertionSort (fun a b => a ≥ b)).getD 0 0)
    ((cache.insertionSort (fun a b => a ≥ b)).getD 1 0) joker_count

/-- The constructor `Hand(cards, bid)`. -/
def Hand.make (cards : List Card) (bid : Nat) : Option Hand :=
  match count_cards cards 0 (List.replicate 15 0) with
  | none => none
  | some (joker_count, cache) =>
    some { m_cards := cards, m_bid := bid, m_kind := kind_of_cache joker_count cache }

/-- The loop of `operator<` over the cards. -/
def cards_less : List Card → List Card → Bool
  | [], _ => false
  | _ :: _, [] => false
  | a :: lhs, b :: rhs => if a ≠ b then decide (a < b) else cards_less lhs rhs

/-- The function `operator<` on hands. -/
def less (lhs rhs : Hand) : Bool :=
  if lhs.m_kind ≠ rhs.m_kind then decide (lhs.m_kind.value < rhs.m_kind.value)
  else cards_less lhs.m_cards rhs.m_cards

/-- A hand put into a sorted vector, before the first hand it is less than. -/
def insert_hand (hand : Hand) : List Hand → List Hand
  | [] => [hand]
  | x :: rest => if less hand x then hand :: x :: rest else x :: insert_hand hand rest

/-- The call `std::sort(hands.begin(), hands.end())`. -/
def sort : List Hand → List Hand
  | [] => []
  | hand :: rest => insert_hand hand (sort rest)

/-- The loop of `calc_rank_sum` from the index `i` and the value `rank_sum`. -/
def rank_sum_from : Nat → Nat → List Hand → Nat
  | _, rank_sum, [] => rank_sum
  | i, rank_sum, hand :: rest =>
    rank_sum_from (i + 1) ((rank_sum + (i + 1) * hand.m_bid % 2 ^ 64) % 2 ^ 64) rest

/-- The function `calc_rank_sum`. -/
def calc_rank_sum (hands : List Hand) : Nat :=
  rank_sum_from 0 0 (sort hands)

/-- The card a character stands for. -/
def Card.ofChar (with_joker : Bool) (c : Char) : Card :=
  if c = 'A' then Card.A
  else if c = 'K' then Card.K
  else if c = 'Q' then Card.Q
  else if c = 'J' then (if with_joker then Card.Joker else Card.J)
  else if c = 'T' then Card.T
  else (c.toNat + 208) % 256

/-- The characters before the first blank and the characters after it; `none`
without a blank. -/
def cut_at_blank : List Char → Option (List Char × List Char)
  | [] => none
  | c :: rest =>
    if c = ' ' then some ([], rest)
    else
      match cut_at_blank rest with
      | some (cards, bid) => some (c :: cards, bid)
      | none => none

/-- One iteration of the loop of `parse_input`. -/
def parse_hand (with_joker : Bool) (hand_range : List Char) : Option Hand :=
  match cut_at_blank hand_range with
  | none => none
  | some (cards_view, bid_view) =>
    Hand.make (cards_view.map (Card.ofChar with_joker)) (Cxx.from_chars_unsigned 64 bid_view)

/-- The loop of `parse_input` over the lines. -/
def parse_hands (with_joker : Bool) : List (List Char) → Option (List Hand)
  | [] => some []
  | line :: rest =>
    match parse_hand with_joker line, parse_hands with_joker rest with
    | some hand, some hands => some (hand :: hands)
    | _, _ => none

/-- The function `parse_input`. -/
def parse_input (data : String) (with_joker : Bool) : Option (List Hand) :=
  parse_hands with_joker (Day20.lines data.data)

/-- The text of `test`. -/
def test_text : String := "32T3K 765\nT55J5 684\nKK677 28\nKTJJT 220\nQQQJA 483"

/-- The hands of `test` without jokers. -/
def test_hands : List Hand :=
  [{ m_cards := [3, 2, 10, 3, 13], m_bid := 765, m_kind := HandKind.OnePair },
   { m_cards := [10, 5, 5, 11, 5], m_bid := 684, m_kind := HandKind.ThreeOfAKind },
   { m_cards := [13, 13, 6, 7, 7], m_bid := 28, m_kind := HandKind.TwoPair },
   { m_cards := [13, 10, 11, 11, 10], m_bid := 220, m_kind := HandKind.TwoPair },
   { m_cards := [12, 12, 12, 11, 14], m_bid := 483, m_kind := HandKind.ThreeOfAKind }]

/-- Two hands with a bid of `2 ^ 63` each. -/
def heavy_text : String := "23456 9223372036854775808\n23457 9223372036854775808"

/-- The hands of `heavy_text`. -/
def heavy_hands : List Hand :=
  [{ m_cards := [2, 3, 4, 5, 6], m_bid := 9223372036854775808, m_kind := HandKind.HighCard },
   { m_cards := [2, 3, 4, 5, 7], m_bid := 9223372036854775808, m_kind := HandKind.HighCard }]

/-! ### The order of the hands -/

/-- The hand `a` is weaker than the hand `b`: its kind is lower, or the kinds are
equal and at the first place from the left where the cards differ the card of `a` is
lower. -/
def weaker (a b : Hand) : Prop :=
  a.m_kind.value < b.m_kind.value ∨ (a.m_kind = b.m_kind ∧ a.m_cards < b.m_cards)

/-- No hand is weaker than a hand before it. -/
def weakest_first (hands : List Hand) : Prop :=
  hands.Pairwise (fun a b => ¬ weaker b a)

/-- The sum over the hands of the position times the bid, the first hand at the
position `i + 1`. -/
def position_sum_from : Nat → List Hand → Nat
  | _, [] => 0
  | i, hand :: rest => (i + 1) * hand.m_bid + position_sum_from (i + 1) rest

/-- The sum over the hands of the position, counted from 1, times the bid. -/
def position_sum (hands : List Hand) : Nat := position_sum_from 0 hands

/-- All hands have equally many cards. -/
def same_size (hands : List Hand) : Prop :=
  ∀ a ∈ hands, ∀ b ∈ hands, a.m_cards.length = b.m_cards.length

instance (hands : List Hand) : Decidable (same_size hands) :=
  inferInstanceAs (Decidable (∀ a ∈ hands, ∀ b ∈ hands, a.m_cards.length = b.m_cards.length))

/-- No two hands have the same cards. -/
def distinct_cards (hands : List Hand) : Prop :=
  (hands.map Hand.m_cards).Nodup

instance (hands : List Hand) : Decidable (distinct_cards hands) :=
  inferInstanceAs (Decidable ((hands.map Hand.m_cards).Nodup))

/-- The number of cards of the value `v` that the constructor counts: a joker is
counted apart. -/
def card_count (cards : List Card) (v : Nat) : Nat :=
  if v = Card.Joker then 0 else cards.count v

/-- The counts of the cards of the values 0 to 14. -/
def card_counts (cards : List Card) : List Nat :=
  (List.range 15).map (card_count cards)

end Day7

namespace Day20

/-- The count `seen` holds for the sender `f`, 0 without an entry. -/
def count_of (seen : UMap Nat) (f : String) : Nat := (UMap.find seen f).getD 0

/-- The number of the observations that are of the sender `f`. -/
def observed (f : String) (obs : List (Nat × String)) : Nat :=
  (obs.filter (fun e => decide (e.2 = f))).length

/-- A text in which the feeder `a` receives three signals in every trigger cycle and
sends `High` to the gate at the first and at the third, and the feeder `w` never
sends. -/
def triple_text : String := "broadcaster -> a, a, a\n%a -> g\n%w -> g\n&g -> rx\n"

/-- The table `parse_input` builds from `triple_text`. -/
def triple_graph : Graph :=
  [("broadcaster", Module.Broadcaster ["a", "a", "a"]), ("a", Module.FlipFlop ["g"] false),
   ("w", Module.FlipFlop ["g"] false),
   ("g", Module.Conjuction ["rx"] [("a", Pulse.Low), ("w", Pulse.Low)])]

end Day20

namespace Day13

/-- The pattern of the comment in `transpose`: two lines of four characters. -/
def two_by_four : Pattern :=
  { m_lines := [['1', '2', '3', '4'], ['5', '6', '7', '8']] }

end Day13

namespace Day17

/-! ## The cheapest walk with bounded runs (`src/2023/17/main.cpp`)

The coordinates of a position are `int64_t`; they stay within one step of the grid
or of the start, and they are integers here. The costs of the cells are `int`, the
cost of a queue entry is a `size_t`: a cell cost is converted and added modulo
`2 ^ 64`. The priority queue is the list of its entries, and `top` is the first
entry of the least cost; the order among entries of equal cost, which the heap
decides in the source, plays no part in the proofs. The set `seen` is the list of
its elements. The loop has a budget of iterations and returns `none` when it is
used up. -/

/-- The enumeration `Direction`. -/
inductive Direction where
  | Up
  | Down
  | Right
  | Left
  | None
deriving DecidableEq, Repr

/-- The value of a direction. -/
def Direction.value : Direction → Int
  | Up => -1
  | Down => 1
  | Right => 2
  | Left => -2
  | None => 0

/-- The function `opposite_dir`. -/
def opposite_dir (a b : Direction) : Bool :=
  decide (a.value.natAbs = b.value.natAbs)

/-- The structure `Pos`. -/
structure Pos where
  x : Int
  y : Int
deriving DecidableEq, Repr

/-- The member `Pos::move`. -/
def Pos.move (p : Pos) (delta : Int × Int) : Pos :=
  { x := p.x + delta.1, y := p.y + delta.2 }

/-- The structure `Cell`. -/
structure Cell where
  pos : Pos
  cost : Nat
  straight_moves : Nat
  dir : Direction
deriving DecidableEq, Repr

/-- The type `Grid`. -/
abbrev Grid := List (List Int)

/-- The table `direction_actions`; `at` throws for `None`. -/
def direction_actions : Direction → Option (Int × Int)
  | Direction.Up => some (0, -1)
  | Direction.Down => some (0, 1)
  | Direction.Right => some (1, 0)
  | Direction.Left => some (-1, 0)
  | Direction.None => none

/-- The condition `0 <= new_pos.y && new_pos.y < grid.size() && 0 <= new_pos.x &&
new_pos.x < grid[new_pos.y].size()`. -/
def inside (grid : Grid) (p : Pos) : Bool :=
  decide (0 ≤ p.y) && decide (p.y.toNat < grid.length) && decide (0 ≤ p.x) &&
    decide (p.x.toNat < (grid.getD p.y.toNat []).length)

/-- The conversion of an `int` to `size_t`. -/
def to_size (v : Int) : Nat := (v % 2 ^ 64).toNat

/-- The value `grid[new_pos.y][new_pos.x]`. -/
def cost_at (grid : Grid) (p : Pos) : Int :=
  (grid.getD p.y.toNat []).getD p.x.toNat 0

/-- The entry pushed for a move in the direction `dir` that gives `straight` moves in
a row, if the new position is in the grid. -/
def push_move (grid : Grid) (curr : Cell) (dir : Direction) (straight : Nat) : List Cell :=
  match direction_actions dir with
  | none => []
  | some delta =>
    if inside grid (curr.pos.move delta) then
      [{ pos := curr.pos.move delta,
         cost := (curr.cost + to_size (cost_at grid (curr.pos.move delta))) % 2 ^ 64,
         straight_moves := straight, dir := dir }]
    else []

/-- The entries one iteration pushes, in the order of the pushes. -/
def pushes (grid : Grid) (min_straight_moves max_straight_moves : Nat) (curr : Cell) :
    List Cell :=
  (if curr.straight_moves < max_straight_moves ∧ curr.dir ≠ Direction.None then
      push_move grid curr curr.dir ((curr.straight_moves + 1) % 2 ^ 64)
    else []) ++
  (if curr.straight_moves ≥ min_straight_moves ∨ curr.dir = Direction.None then
      [Direction.Up, Direction.Down, Direction.Right, Direction.Left].flatMap
        (fun dir =>
          if dir ≠ curr.dir ∧ opposite_dir dir curr.dir = false then push_move grid curr dir 1
          else [])
    else [])

/-- The least cost in the queue, at most `c`. -/
def least_cost (c : Nat) : List Cell → Nat
  | [] => c
  | d :: rest => least_cost (if d.cost < c then d.cost else c) rest

/-- The queue without its first entry of the cost `c`, after that entry. -/
def take_out (c : Nat) : List Cell → Option (Cell × List Cell)
  | [] => none
  | d :: rest =>
    if d.cost = c then some (d, rest)
    else
      match take_out c rest with
      | some (t, rest') => some (t, d :: rest')
      | none => none

/-- The calls `q.top()` and `q.pop()`: the first entry of the least cost and the
queue without it. -/
def pop (q : List Cell) : Option (Cell × List Cell) :=
  match q with
  | [] => none
  | d :: rest => take_out (least_cost d.cost rest) (d :: rest)

/-- The loop of `dijkstra` from the queue `q` and the set `seen`, with a budget of
iterations. -/
def loop (grid : Grid) (dest : Pos) (min_straight_moves max_straight_moves : Nat) :
    Nat → List Cell → List (Pos × Direction × Nat) → Option (Option Nat)
  | 0, _, _ => none
  | fuel + 1, q, seen =>
    match pop q with
    | none => some none
    | some (curr, q') =>
      if curr.pos = dest ∧ curr.straight_moves ≥ min_straight_moves then some (some curr.cost)
      else if (curr.pos, curr.dir, curr.straight_moves) ∈ seen then
        loop grid dest min_straight_moves max_straight_moves fuel q' seen
      else
        loop grid dest min_straight_moves max_straight_moves fuel
          (q' ++ pushes grid min_straight_moves max_straight_moves curr)
          ((curr.pos, curr.dir, curr.straight_moves) :: seen)

/-- The function `dijkstra` with a budget of iterations. -/
def dijkstra (fuel : Nat) (grid : Grid) (start dest : Pos)
    (min_straight_moves max_straight_moves : Nat) : Option (Option Nat) :=
  loop grid dest min_straight_moves max_straight_moves fuel
    [{ pos := start, cost := 0, straight_moves := 0, dir := Direction.None }] []

/-- The number a character of a line gives: `std::from_chars` on the one
character. -/
def cell_of (c : Char) : Int := Cxx.from_chars_int [c]

/-- The function `parse_input`. -/
def parse_input (data : String) : Grid :=
  (Day20.lines data.data).map (fun line => line.map cell_of)

/-- The text of `test`. -/
def test_text : String :=
  "2413432311323\n3215453535623\n3255245654254\n3446585845452\n4546657867536\n1438598798454\n4457876987766\n3637877979653\n4654967986887\n4564679986453\n1224686865563\n2546548887735\n4322674655533"

/-- The position `Pos{grid.front().size() - 1, grid.size() - 1}` of `test`. -/
def last_pos (grid : Grid) : Pos :=
  { x := ((grid.headD []).length : Int) - 1, y := (grid.length : Int) - 1 }

/-- The grid of `test`. -/
def test_grid : Grid :=
  [[2, 4, 1, 3, 4, 3, 2, 3, 1, 1, 3, 2, 3], [3, 2, 1, 5, 4, 5, 3, 5, 3, 5, 6, 2, 3],
   [3, 2, 5, 5, 2, 4, 5, 6, 5, 4, 2, 5, 4], [3, 4, 4, 6, 5, 8, 5, 8, 4, 5, 4, 5, 2],
   [4, 5, 4, 6, 6, 5, 7, 8, 6, 7, 5, 3, 6], [1, 4, 3, 8, 5, 9, 8, 7, 9, 8, 4, 5, 4],
   [4, 4, 5, 7, 8, 7, 6, 9, 8, 7, 7, 6, 6], [3, 6, 3, 7, 8, 7, 7, 9, 7, 9, 6, 5, 3],
   [4, 6, 5, 4, 9, 6, 7, 9, 8, 6, 8, 8, 7], [4, 5, 6, 4, 6, 7, 9, 9, 8, 6, 4, 5, 3],
   [1, 2, 2, 4, 6, 8, 6, 8, 6, 5, 5, 6, 3], [2, 5, 4, 6, 5, 4, 8, 8, 8, 7, 7, 3, 5],
   [4, 3, 2, 2, 6, 7, 4, 6, 5, 5, 5, 3, 3]]

/-- A grid of one line with two cells. -/
def pair_grid : Grid := [[1, 1]]

/-! ### Walks -/

/-- The state of a walk: the position, the direction of the last step (`None` before
the first) and the number of steps last made in a row in that direction. -/
abbrev State := Pos × Direction × Nat

/-- The state before the first step. -/
def start_state (start : Pos) : State := (start, Direction.None, 0)

/-- The state a queue entry stands for. -/
def Cell.key (c : Cell) : State := (c.pos, c.dir, c.straight_moves)

/-- The direction against a direction. -/
def Direction.reverse : Direction → Direction
  | Up => Down
  | Down => Up
  | Right => Left
  | Left => Right
  | None => None

/-- The number of steps in a row after a step in the direction `d`, when the last
`straight` steps were made in the direction `dir`; `none` when the step reverses the
direction, is one more than `max` steps in a row, or turns before `min` steps in a
row. -/
def allowed (min max : Nat) (dir : Direction) (straight : Nat) (d : Direction) : Option Nat :=
  if d = dir then (if straight < max then some (straight + 1) else none)
  else if dir ≠ Direction.None ∧ d = dir.reverse then none
  else if (dir = Direction.None ∨ min ≤ straight) ∧ 1 ≤ max then some 1
  else none

/-- One step of a walk in the direction `d`: the state after it and the cost of the
cell entered, or `none` when the step is not allowed or leaves the grid. -/
def advance (grid : Grid) (min max : Nat) (s : State) (d : Direction) : Option (State × Nat) :=
  match direction_actions d, allowed min max s.2.1 s.2.2 d with
  | some delta, some k =>
    if inside grid (s.1.move delta) then
      some ((s.1.move delta, d, k), (cost_at grid (s.1.move delta)).toNat)
    else none
  | _, _ => none

/-- The state and the cost after the steps of a walk, from the state `s` and the
cost `c`; `none` when a step is not allowed. -/
def follow (grid : Grid) (min max : Nat) : State → Nat → List Direction → Option (State × Nat)
  | s, c, [] => some (s, c)
  | s, c, d :: rest =>
    match advance grid min max s d with
    | none => none
    | some (s', w) => follow grid min max s' (c + w) rest

/-- The walk may stop in the state: it is at `dest` after at least `min` steps in a
row. -/
def goal (dest : Pos) (min : Nat) (s : State) : Prop := s.1 = dest ∧ min ≤ s.2.2

instance (dest : Pos) (min : Nat) (s : State) : Decidable (goal dest min s) :=
  inferInstanceAs (Decidable (s.1 = dest ∧ min ≤ s.2.2))

/-- The sum of the costs of the cells a walk from `start` enters, when the walk is
allowed and may stop at `dest`; `none` otherwise. -/
def walk_cost (grid : Grid) (start dest : Pos) (min max : Nat) (walk : List Direction) :
    Option Nat :=
  match follow grid min max (start_state start) 0 walk with
  | none => none
  | some (s, c) => if goal dest min s then some c else none

/-- Some walk from `start` ends in the state `s` with the cost `c`. -/
def Reach (grid : Grid) (start : Pos) (min max : Nat) (s : State) (c : Nat) : Prop :=
  ∃ walk, follow grid min max (start_state start) 0 walk = some (s, c)

/-- The result is the least cost of the walks that may stop at `dest`, or there is no
result and no such walk. -/
def least (grid : Grid) (start dest : Pos) (min max : Nat) (r : Option Nat) : Prop :=
  match r with
  | some c =>
    (∃ walk, walk_cost grid start dest min max walk = some c) ∧
      ∀ walk c', walk_cost grid start dest min max walk = some c' → c ≤ c'
  | none => ∀ walk, walk_cost grid start dest min max walk = none

/-- Every cell cost is at least 0. -/
def nonneg (grid : Grid) : Prop := ∀ row ∈ grid, ∀ v ∈ row, (0 : Int) ≤ v

instance (grid : Grid) : Decidable (nonneg grid) :=
  inferInstanceAs (Decidable (∀ row ∈ grid, ∀ v ∈ row, (0 : Int) ≤ v))

/-- The length of the longest line. -/
def width (grid : Grid) : Nat := (grid.map List.length).foldr max 0

/-- The largest cell cost. -/
def largest (grid : Grid) : Nat :=
  (grid.map (fun row => (row.map Int.toNat).foldr max 0)).foldr max 0

/-- A bound on the number of states of walks: positions, directions, steps in a row. -/
def state_count (grid : Grid) (max : Nat) : Nat :=
  (width grid * grid.length + 1) * 5 * (max + 1)

/-- A budget of iterations that is enough for the loop. -/
def fuel_bound (grid : Grid) (max : Nat) : Nat := 6 * state_count grid max + 2

/-- What holds of the queue and the set `seen` before every iteration of the loop:
the entries of the queue are ends of walks with their costs; the start is seen or in
the queue with the cost 0; a seen state was taken from the queue with its least
cost, and each step from it leads to a seen state or to an entry of the queue of at
most that cost plus the cost of the step; no seen state is one to stop in; the seen
states are different ends of walks; the costs in the queue are bounded. -/
def Inv (grid : Grid) (start dest : Pos) (min max : Nat) (q : List Cell) (seen : List State) :
    Prop :=
  (∀ e ∈ q, Reach grid start min max e.key e.cost) ∧
  (start_state start ∈ seen ∨ ∃ e ∈ q, e.key = start_state start ∧ e.cost = 0) ∧
  (∀ s ∈ seen, ∃ cs, (∀ c, Reach grid start min max s c → cs ≤ c) ∧
    ∀ d s' w, advance grid min max s d = some (s', w) →
      s' ∈ seen ∨ ∃ e ∈ q, e.key = s' ∧ e.cost ≤ cs + w) ∧
  (∀ s ∈ seen, ¬ goal dest min s) ∧
  seen.Nodup ∧
  (∀ s ∈ seen, ∃ c, Reach grid start min max s c) ∧
  (∀ e ∈ q, e.cost ≤ seen.length * largest grid)

/-- The position is `start` or in the box of the grid, and the steps in a row are at
most `max`. -/
def bounded (grid : Grid) (start : Pos) (max : Nat) (s : State) : Prop :=
  (s.1 = start ∨ (0 ≤ s.1.x ∧ s.1.x.toNat < width grid ∧ 0 ≤ s.1.y ∧ s.1.y.toNat < grid.length)) ∧
    s.2.2 ≤ max

/-- The state is the one before the first step, or a state on a cell of the grid
after 1 to `max` steps in a row. -/
def covered (grid : Grid) (start : Pos) (max : Nat) (s : State) : Prop :=
  s = start_state start ∨
    (inside grid s.1 = true ∧ s.2.1 ≠ Direction.None ∧ 1 ≤ s.2.2 ∧ s.2.2 ≤ max)

/-! ### Lower bounds for the test grid -/

/-- The place of a direction in a table of labels. -/
def dir_index : Direction → Nat
  | Direction.Up => 0
  | Direction.Down => 1
  | Direction.Right => 2
  | Direction.Left => 3
  | Direction.None => 4

/-- The labels of the states on a cell, by direction and steps in a row. -/
def cell_at (table : List (List (List (List Nat)))) (p : Pos) : List (List Nat) :=
  (table.getD p.y.toNat []).getD p.x.toNat []

/-- The labels of the states on a cell with the direction `d`, by steps in a row. -/
def dir_list (cell : List (List Nat)) (d : Direction) : List Nat :=
  cell.getD (dir_index d) []

/-- The label of a state in a table of labels by line, column, direction and steps
in a row; 0 before the first step. -/
def label (table : List (List (List (List Nat)))) (s : State) : Nat :=
  if s.2.1 = Direction.None then 0
  else (dir_list (cell_at table s.1) s.2.1).getD s.2.2 0

/-- No step from the state leads to a state whose label is more than the label of
the state plus the cost of the step. -/
def edges_hold (grid : Grid) (min max : Nat) (table : List (List (List (List Nat))))
    (s : State) : Bool :=
  [Direction.Up, Direction.Down, Direction.Right, Direction.Left].all (fun d =>
    match advance grid min max s d with
    | none => true
    | some (s', w) => decide (label table s' ≤ label table s + w))

/-- The label of a state in which a walk may stop is at least `bound`. -/
def goal_holds (dest : Pos) (min bound : Nat) (table : List (List (List (List Nat))))
    (s : State) : Bool :=
  if goal dest min s then decide (bound ≤ label table s) else true

/-- Every label of `b` but the first is at most the label before its place in `a`
plus `w`. -/
def chain_ok (w : Nat) : List Nat → List Nat → Bool
  | a :: rest, _ :: b :: more => decide (b ≤ a + w) && chain_ok w rest (b :: more)
  | [], _ :: _ :: _ => false
  | _, _ => true

/-- The list `a` has a label for `max` steps in a row, and `t` is at most each of its
labels from `min` steps in a row on plus `w`. -/
def turn_ok (w t min max : Nat) (a : List Nat) : Bool :=
  decide (max < a.length) && (a.drop min).all (fun e => decide (t ≤ e + w))

/-- The two directions across a direction. -/
def side_dirs : Direction → List Direction
  | Direction.Up => [Direction.Right, Direction.Left]
  | Direction.Down => [Direction.Right, Direction.Left]
  | Direction.Right => [Direction.Up, Direction.Down]
  | Direction.Left => [Direction.Up, Direction.Down]
  | Direction.None => []

/-- The condition of `edges_hold` for all the states on the cell `p` at once, for the
steps in the direction `d`. -/
def step_holds (grid : Grid) (min max : Nat) (table : List (List (List (List Nat))))
    (p : Pos) (d : Direction) : Bool :=
  match direction_actions d with
  | none => true
  | some delta =>
    if inside grid (p.move delta) then
      chain_ok (cost_at grid (p.move delta)).toNat (dir_list (cell_at table p) d)
        (dir_list (cell_at table (p.move delta)) d) &&
      (decide (max = 0) ||
        (side_dirs d).all (fun e =>
          turn_ok (cost_at grid (p.move delta)).toNat
            ((dir_list (cell_at table (p.move delta)) d).getD 1 0) min max
            (dir_list (cell_at table p) e)))
    else true

/-- The condition of `goal_holds` for all the states on the cell `dest` at once. -/
def stop_holds (dest : Pos) (min max bound : Nat) (table : List (List (List (List Nat)))) :
    Bool :=
  [Direction.Up, Direction.Down, Direction.Right, Direction.Left].all (fun d =>
    decide (max < (dir_list (cell_at table dest) d).length) &&
      ((dir_list (cell_at table dest) d).drop min).all (fun e => decide (bound ≤ e)))

/-- The two conditions on the labels, at the state before the first step and at every
state on a cell of the grid. -/
def labels_hold (grid : Grid) (start dest : Pos) (min max bound : Nat)
    (table : List (List (List (List Nat)))) : Bool :=
  edges_hold grid min max table (start_state start) &&
  goal_holds dest min bound table (start_state start) &&
  stop_holds dest min max bound table &&
  (List.range grid.length).all (fun y =>
    (List.range (grid.getD y []).length).all (fun x =>
      [Direction.Up, Direction.Down, Direction.Right, Direction.Left].all (fun d =>
        step_holds grid min max table { x := (x : Int), y := (y : Int) } d)))

/-- A walk through the test grid of the cost 102, with at most 3 steps in a row. -/
def walk_one : List Direction :=
  [Direction.Right, Direction.Right, Direction.Down, Direction.Right, Direction.Right,
   Direction.Right, Direction.Up, Direction.Right, Direction.Right, Direction.Right,
   Direction.Down, Direction.Right, Direction.Down, Direction.Right, Direction.Down,
   Direction.Down, Direction.Right, Direction.Down, Direction.Down, Direction.Down,
   Direction.Right, Direction.Down, Direction.Down, Direction.Down, Direction.Left,
   Direction.Down, Direction.Down, Direction.Right]

/-- A walk through the test grid of the cost 94, with 4 to 10 steps in a row. -/
def walk_two : List Direction :=
  [Direction.Right, Direction.Right, Direction.Right, Direction.Right, Direction.Right,
   Direction.Right, Direction.Right, Direction.Right, Direction.Down, Direction.Down,
   Direction.Down, Direction.Down, Direction.Right, Direction.Right, Direction.Right,
   Direction.Right, Direction.Down, Direction.Down, Direction.Down, Direction.Down,
   Direction.Down, Direction.Down, Direction.Down, Direction.Down]

/-- The least costs of the walks to the states of the test grid with at most 3 steps
in a row, by line, column, direction and steps in a row; 999 where there is no
walk. -/
def labels_one : List (List (List (List Nat))) :=
  [[[[999, 11, 15, 22], [999, 999, 999, 999], [999, 999, 999, 999], [999, 11, 13, 21]],
    [[999, 9, 14, 21], [999, 999, 999, 999], [999, 4, 999, 999], [999, 11, 19, 27]],
    [[999, 7, 14, 22], [999, 999, 999, 999], [999, 10, 5, 999], [999, 15, 23, 31]],
    [[999, 14, 24, 34], [999, 999, 999, 999], [999, 10, 13, 8], [999, 22, 30, 37]],
    [[999, 19, 26, 36], [999, 999, 999, 999], [999, 18, 14, 17], [999, 27, 34, 42]],
    [[999, 23, 29, 42], [999, 999, 999, 999], [999, 22, 21, 17], [999, 30, 38, 42]],
    [[999, 27, 31, 44], [999, 999, 999, 999], [999, 25, 24, 23], [999, 35, 39, 44]],
    [[999, 33, 40, 53], [999, 999, 999, 999], [999, 30, 28, 27], [999, 37, 42, 51]],
    [[999, 34, 44, 52], [999, 999, 999, 999], [999, 34, 31, 29], [999, 39, 48, 52]],
    [[999, 38, 47, 56], [999, 999, 999, 999], [999, 35, 35, 32], [999, 47, 51, 54]],
    [[999, 46, 52, 61], [999, 999, 999, 999], [999, 41, 38, 38], [999, 50, 53, 999]],
    [[999, 47, 52, 61], [999, 999, 999, 999], [999, 48, 43, 40], [999, 50, 999, 999]],
    [[999, 48, 57, 64], [999, 999, 999, 999], [999, 50, 51, 46], [999, 999, 999, 999]]],
   [[[999, 13, 20, 29], [999, 3, 999, 999], [999, 999, 999, 999], [999, 9, 11, 19]],
    [[999, 10, 17, 30], [999, 6, 999, 999], [999, 5, 999, 999], [999, 8, 16, 26]],
    [[999, 13, 21, 30], [999, 6, 999, 999], [999, 7, 6, 999], [999, 14, 24, 32]],
    [[999, 21, 31, 41], [999, 13, 999, 999], [999, 11, 12, 11], [999, 23, 31, 40]],
    [[999, 22, 32, 42], [999, 18, 999, 999], [999, 17, 15, 16], [999, 26, 35, 44]],
    [[999, 26, 39, 50], [999, 22, 999, 999], [999, 23, 22, 20], [999, 31, 40, 45]],
    [[999, 29, 42, 53], [999, 26, 999, 999], [999, 25, 26, 25], [999, 35, 40, 48]],
    [[999, 37, 50, 65], [999, 32, 999, 999], [999, 31, 30, 31], [999, 37, 45, 57]],
    [[999, 43, 51, 64], [999, 32, 999, 999], [999, 35, 34, 33], [999, 40, 52, 56]],
    [[999, 46, 55, 69], [999, 37, 999, 999], [999, 37, 40, 39], [999, 49, 53, 62]],
    [[999, 49, 58, 70], [999, 44, 999, 999], [999, 43, 43, 46], [999, 48, 57, 999]],
    [[999, 50, 59, 67], [999, 42, 999, 999], [999, 46, 45, 45], [999, 51, 999, 999]],
    [[999, 54, 61, 70], [999, 49, 999, 999], [999, 45, 49, 48], [999, 999, 999, 999]]],
   [[[999, 17, 26, 32], [999, 12, 6, 999], [999, 999, 999, 999], [999, 10, 16, 26]],
    [[999, 15, 28, 33], [999, 7, 8, 999], [999, 8, 999, 999], [999, 13, 23, 29]],
    [[999, 20, 29, 37], [999, 11, 11, 999], [999, 12, 13, 999], [999, 21, 27, 36]],
    [[999, 26, 36, 47], [999, 16, 18, 999], [999, 16, 17, 18], [999, 22, 31, 41]],
    [[999, 28, 38, 48], [999, 17, 20, 999], [999, 18, 18, 19], [999, 26, 36, 47]],
    [[999, 34, 45, 60], [999, 24, 26, 999], [999, 21, 22, 22], [999, 34, 45, 52]],
    [[999, 39, 50, 67], [999, 30, 31, 999], [999, 29, 26, 27], [999, 41, 48, 57]],
    [[999, 45, 60, 75], [999, 36, 38, 999], [999, 36, 35, 32], [999, 43, 52, 60]],
    [[999, 48, 61, 77], [999, 38, 37, 999], [999, 41, 41, 40], [999, 46, 54, 58]],
    [[999, 50, 64, 80], [999, 41, 41, 999], [999, 41, 45, 45], [999, 49, 53, 60]],
    [[999, 52, 64, 75], [999, 45, 46, 999], [999, 43, 43, 47], [999, 49, 56, 999]],
    [[999, 57, 65, 74], [999, 50, 47, 999], [999, 50, 48, 48], [999, 54, 999, 999]],
    [[999, 58, 67, 76], [999, 49, 53, 999], [999, 51, 54, 52], [999, 999, 999, 999]]],
   [[[999, 23, 29, 38], [999, 13, 15, 9], [999, 999, 999, 999], [999, 14, 22, 33]],
    [[999, 26, 31, 40], [999, 12, 11, 12], [999, 13, 999, 999], [999, 19, 30, 36]],
    [[999, 24, 32, 42], [999, 16, 15, 15], [999, 15, 17, 999], [999, 26, 32, 44]],
    [[999, 31, 42, 54], [999, 22, 22, 24], [999, 21, 21, 23], [999, 28, 40, 50]],
    [[999, 36, 46, 58], [999, 23, 22, 25], [999, 27, 26, 26], [999, 34, 44, 58]],
    [[999, 41, 56, 71], [999, 29, 32, 34], [999, 30, 35, 34], [999, 39, 53, 62]],
    [[999, 45, 62, 75], [999, 31, 35, 36], [999, 34, 35, 40], [999, 45, 54, 63]],
    [[999, 54, 69, 86], [999, 40, 44, 46], [999, 39, 42, 43], [999, 49, 58, 64]],
    [[999, 56, 72, 89], [999, 44, 42, 41], [999, 44, 43, 46], [999, 50, 56, 65]],
    [[999, 60, 76, 93], [999, 46, 46, 46], [999, 46, 49, 48], [999, 52, 61, 65]],
    [[999, 62, 73, 86], [999, 47, 49, 50], [999, 50, 50, 53], [999, 56, 60, 999]],
    [[999, 60, 69, 85], [999, 53, 55, 52], [999, 52, 55, 55], [999, 56, 999, 999]],
    [[999, 63, 72, 84], [999, 53, 51, 55], [999, 54, 54, 57], [999, 999, 999, 999]]],
   [[[999, 26, 35, 44], [999, 18, 17, 19], [999, 999, 999, 999], [999, 20, 28, 40]],
    [[999, 27, 36, 47], [999, 18, 17, 16], [999, 22, 999, 999], [999, 24, 36, 43]],
    [[999, 28, 38, 47], [999, 19, 20, 19], [999, 20, 26, 999], [999, 31, 38, 50]],
    [[999, 36, 48, 59], [999, 27, 28, 28], [999, 25, 26, 32], [999, 34, 46, 55]],
    [[999, 41, 53, 65], [999, 32, 29, 28], [999, 33, 31, 32], [999, 40, 49, 65]],
    [[999, 48, 63, 74], [999, 35, 34, 37], [999, 33, 38, 36], [999, 43, 59, 68]],
    [[999, 57, 70, 84], [999, 41, 38, 42], [999, 41, 40, 45], [999, 54, 63, 74]],
    [[999, 61, 78, 94], [999, 47, 48, 52], [999, 46, 49, 48], [999, 56, 67, 73]],
    [[999, 68, 85, 100], [999, 49, 50, 48], [999, 53, 52, 55], [999, 59, 65, 73]],
    [[999, 71, 88, 106], [999, 53, 53, 53], [999, 55, 60, 59], [999, 59, 67, 72]],
    [[999, 69, 82, 93], [999, 55, 52, 54], [999, 58, 60, 65], [999, 60, 65, 999]],
    [[999, 64, 80, 92], [999, 55, 56, 58], [999, 55, 61, 63], [999, 60, 999, 999]],
    [[999, 70, 82, 90], [999, 60, 59, 57], [999, 61, 61, 67], [999, 999, 999, 999]]],
   [[[999, 31, 40, 50], [999, 21, 19, 18], [999, 999, 999, 999], [999, 22, 27, 41]],
    [[999, 31, 42, 53], [999, 26, 22, 21], [999, 22, 999, 999], [999, 26, 40, 49]],
    [[999, 34, 43, 54], [999, 23, 22, 23], [999, 24, 25, 999], [999, 36, 45, 58]],
    [[999, 42, 53, 63], [999, 33, 35, 36], [999, 30, 32, 33], [999, 42, 55, 68]],
    [[999, 47, 59, 71], [999, 36, 37, 34], [999, 38, 35, 37], [999, 47, 60, 75]],
    [[999, 58, 69, 79], [999, 42, 44, 43], [999, 43, 47, 44], [999, 55, 70, 82]],
    [[999, 63, 77, 85], [999, 48, 49, 46], [999, 50, 51, 55], [999, 61, 73, 85]],
    [[999, 70, 86, 100], [999, 53, 54, 55], [999, 53, 57, 58], [999, 65, 77, 80]],
    [[999, 79, 94, 107], [999, 61, 58, 59], [999, 62, 62, 66], [999, 70, 73, 81]],
    [[999, 81, 99, 115], [999, 63, 61, 61], [999, 66, 70, 70], [999, 64, 72, 80]],
    [[999, 77, 88, 105], [999, 62, 59, 56], [999, 65, 70, 74], [999, 64, 72, 999]],
    [[999, 77, 89, 104], [999, 60, 60, 61], [999, 61, 70, 75], [999, 68, 999, 999]],
    [[999, 76, 84, 100], [999, 65, 64, 63], [999, 64, 65, 74], [999, 999, 999, 999]]],
   [[[999, 39, 49, 59], [999, 26, 25, 23], [999, 999, 999, 999], [999, 30, 35, 50]],
    [[999, 38, 49, 62], [999, 26, 30, 26], [999, 27, 999, 999], [999, 31, 46, 59]],
    [[999, 40, 51, 63], [999, 29, 28, 27], [999, 31, 32, 999], [999, 42, 55, 69]],
    [[999, 45, 55, 67], [999, 37, 40, 42], [999, 34, 38, 39], [999, 50, 64, 76]],
    [[999, 54, 66, 76], [999, 43, 44, 45], [999, 45, 42, 46], [999, 57, 69, 83]],
    [[999, 60, 70, 78], [999, 50, 49, 51], [999, 50, 52, 49], [999, 61, 75, 88]],
    [[999, 69, 77, 87], [999, 56, 54, 55], [999, 55, 56, 58], [999, 68, 81, 91]],
    [[999, 79, 93, 108], [999, 62, 62, 63], [999, 63, 64, 65], [999, 75, 85, 90]],
    [[999, 85, 98, 112], [999, 70, 69, 66], [999, 70, 71, 72], [999, 76, 81, 88]],
    [[999, 91, 107, 117], [999, 71, 70, 68], [999, 73, 77, 78], [999, 73, 80, 90]],
    [[999, 84, 101, 114], [999, 71, 69, 66], [999, 75, 80, 84], [999, 73, 83, 999]],
    [[999, 84, 99, 108], [999, 67, 66, 66], [999, 72, 81, 86], [999, 76, 999, 999]],
    [[999, 80, 96, 109], [999, 70, 71, 70], [999, 72, 78, 87], [999, 999, 999, 999]]],
   [[[999, 45, 55, 58], [999, 33, 29, 28], [999, 999, 999, 999], [999, 35, 40, 53]],
    [[999, 45, 58, 63], [999, 33, 32, 36], [999, 34, 999, 999], [999, 37, 50, 66]],
    [[999, 46, 58, 62], [999, 34, 32, 31], [999, 35, 37, 999], [999, 44, 60, 74]],
    [[999, 48, 60, 67], [999, 41, 44, 47], [999, 38, 42, 44], [999, 57, 71, 83]],
    [[999, 58, 68, 78], [999, 50, 51, 52], [999, 49, 46, 50], [999, 64, 76, 93]],
    [[999, 63, 71, 83], [999, 56, 57, 56], [999, 57, 56, 53], [999, 68, 85, 99]],
    [[999, 71, 81, 92], [999, 62, 63, 61], [999, 63, 64, 63], [999, 78, 92, 102]],
    [[999, 84, 99, 106], [999, 72, 71, 71], [999, 70, 72, 73], [999, 85, 95, 100]],
    [[999, 90, 104, 109], [999, 77, 77, 76], [999, 78, 77, 79], [999, 86, 91, 93]],
    [[999, 100, 110, 113], [999, 82, 80, 79], [999, 85, 87, 86], [999, 84, 86, 93]],
    [[999, 94, 107, 116], [999, 79, 77, 75], [999, 85, 91, 93], [999, 77, 84, 999]],
    [[999, 93, 102, 111], [999, 77, 72, 71], [999, 80, 90, 96], [999, 78, 999, 999]],
    [[999, 90, 103, 111], [999, 75, 73, 74], [999, 74, 83, 93], [999, 999, 999, 999]]],
   [[[999, 52, 55, 62], [999, 39, 37, 33], [999, 999, 999, 999], [999, 42, 47, 57]],
    [[999, 52, 57, 67], [999, 40, 39, 38], [999, 39, 999, 999], [999, 43, 53, 70]],
    [[999, 55, 59, 68], [999, 40, 39, 37], [999, 43, 44, 999], [999, 47, 64, 77]],
    [[999, 53, 60, 70], [999, 42, 45, 48], [999, 41, 47, 48], [999, 59, 72, 88]],
    [[999, 60, 70, 81], [999, 55, 59, 60], [999, 51, 50, 56], [999, 68, 84, 101]],
    [[999, 64, 76, 85], [999, 59, 62, 63], [999, 61, 57, 56], [999, 75, 92, 107]],
    [[999, 74, 85, 94], [999, 70, 69, 70], [999, 66, 68, 64], [999, 86, 101, 110]],
    [[999, 90, 97, 106], [999, 79, 81, 80], [999, 78, 75, 77], [999, 94, 103, 108]],
    [[999, 97, 102, 113], [999, 85, 85, 85], [999, 87, 86, 83], [999, 94, 99, 102]],
    [[999, 101, 104, 117], [999, 90, 88, 86], [999, 91, 93, 92], [999, 91, 94, 102]],
    [[999, 101, 110, 120], [999, 85, 87, 85], [999, 94, 99, 101], [999, 88, 96, 999]],
    [[999, 97, 106, 120], [999, 86, 85, 80], [999, 93, 102, 107], [999, 88, 999, 999]],
    [[999, 100, 108, 114], [999, 81, 82, 80], [999, 87, 100, 109], [999, 999, 999, 999]]],
   [[[999, 51, 58, 65], [999, 46, 43, 41], [999, 999, 999, 999], [999, 48, 54, 60]],
    [[999, 51, 61, 68], [999, 44, 45, 44], [999, 46, 999, 999], [999, 50, 56, 71]],
    [[999, 54, 63, 68], [999, 49, 46, 45], [999, 50, 52, 999], [999, 51, 66, 79]],
    [[999, 56, 66, 70], [999, 45, 46, 49], [999, 49, 54, 56], [999, 60, 73, 90]],
    [[999, 61, 72, 79], [999, 56, 61, 65], [999, 51, 55, 60], [999, 69, 86, 106]],
    [[999, 70, 79, 88], [999, 63, 66, 69], [999, 63, 58, 62], [999, 80, 100, 116]],
    [[999, 78, 87, 98], [999, 73, 79, 78], [999, 72, 72, 67], [999, 93, 109, 120]],
    [[999, 88, 97, 106], [999, 84, 88, 90], [999, 82, 81, 81], [999, 100, 111, 112]],
    [[999, 94, 105, 108], [999, 91, 93, 93], [999, 92, 90, 89], [999, 102, 103, 108]],
    [[999, 98, 111, 110], [999, 97, 96, 94], [999, 97, 98, 96], [999, 95, 100, 99]],
    [[999, 102, 112, 117], [999, 92, 89, 91], [999, 98, 101, 102], [999, 94, 93, 999]],
    [[999, 98, 112, 121], [999, 93, 91, 90], [999, 94, 103, 106], [999, 89, 999, 999]],
    [[999, 101, 107, 113], [999, 90, 84, 85], [999, 93, 97, 106], [999, 999, 999, 999]]],
   [[[999, 54, 61, 999], [999, 49, 47, 44], [999, 999, 999, 999], [999, 47, 51, 54]],
    [[999, 56, 63, 999], [999, 48, 46, 47], [999, 46, 999, 999], [999, 50, 53, 65]],
    [[999, 57, 62, 999], [999, 52, 51, 48], [999, 48, 48, 999], [999, 51, 63, 78]],
    [[999, 62, 66, 999], [999, 53, 49, 50], [999, 52, 52, 52], [999, 61, 76, 91]],
    [[999, 66, 73, 999], [999, 57, 62, 67], [999, 55, 58, 58], [999, 72, 87, 108]],
    [[999, 72, 81, 999], [999, 66, 71, 74], [999, 65, 63, 66], [999, 81, 102, 117]],
    [[999, 78, 89, 999], [999, 73, 79, 85], [999, 72, 71, 69], [999, 94, 109, 120]],
    [[999, 88, 97, 999], [999, 89, 92, 96], [999, 81, 80, 79], [999, 103, 114, 113]],
    [[999, 97, 100, 999], [999, 95, 97, 99], [999, 94, 87, 86], [999, 106, 105, 111]],
    [[999, 105, 104, 999], [999, 100, 102, 101], [999, 100, 99, 92], [999, 99, 105, 103]],
    [[999, 108, 113, 999], [999, 98, 97, 94], [999, 105, 105, 104], [999, 100, 98, 999]],
    [[999, 107, 116, 999], [999, 95, 99, 97], [999, 100, 111, 111], [999, 93, 999, 999]],
    [[999, 104, 110, 999], [999, 96, 93, 87], [999, 98, 103, 114], [999, 999, 999, 999]]],
   [[[999, 60, 999, 999], [999, 49, 51, 49], [999, 999, 999, 999], [999, 53, 59, 66]],
    [[999, 61, 999, 999], [999, 51, 53, 51], [999, 54, 999, 999], [999, 57, 64, 75]],
    [[999, 60, 999, 999], [999, 52, 56, 55], [999, 55, 58, 999], [999, 59, 70, 82]],
    [[999, 62, 999, 999], [999, 58, 59, 55], [999, 58, 61, 64], [999, 66, 78, 92]],
    [[999, 67, 999, 999], [999, 60, 62, 67], [999, 60, 63, 66], [999, 72, 86, 104]],
    [[999, 73, 999, 999], [999, 67, 70, 75], [999, 64, 64, 67], [999, 81, 99, 114]],
    [[999, 83, 999, 999], [999, 77, 81, 87], [999, 75, 72, 72], [999, 95, 110, 123]],
    [[999, 89, 999, 999], [999, 87, 97, 100], [999, 85, 83, 80], [999, 102, 115, 127]],
    [[999, 94, 999, 999], [999, 94, 103, 105], [999, 95, 93, 91], [999, 107, 119, 118]],
    [[999, 99, 999, 999], [999, 99, 107, 109], [999, 101, 102, 100], [999, 111, 110, 115]],
    [[999, 108, 999, 999], [999, 105, 105, 104], [999, 106, 108, 109], [999, 103, 108, 999]],
    [[999, 110, 999, 999], [999, 96, 98, 102], [999, 107, 109, 111], [999, 101, 999, 999]],
    [[999, 107, 999, 999], [999, 103, 101, 98], [999, 101, 112, 114], [999, 999, 999, 999]]],
   [[[999, 999, 999, 999], [999, 57, 53, 55], [999, 999, 999, 999], [999, 58, 61, 69]],
    [[999, 999, 999, 999], [999, 57, 54, 56], [999, 56, 999, 999], [999, 57, 65, 73]],
    [[999, 999, 999, 999], [999, 57, 54, 58], [999, 56, 58, 999], [999, 62, 70, 81]],
    [[999, 999, 999, 999], [999, 60, 60, 61], [999, 56, 58, 60], [999, 68, 79, 91]],
    [[999, 999, 999, 999], [999, 66, 66, 68], [999, 66, 62, 64], [999, 77, 89, 103]],
    [[999, 999, 999, 999], [999, 71, 74, 77], [999, 73, 73, 69], [999, 83, 97, 113]],
    [[999, 999, 999, 999], [999, 76, 81, 85], [999, 75, 77, 77], [999, 90, 106, 119]],
    [[999, 999, 999, 999], [999, 86, 93, 103], [999, 82, 81, 83], [999, 102, 115, 124]],
    [[999, 999, 999, 999], [999, 96, 99, 108], [999, 91, 87, 86], [999, 109, 118, 114]],
    [[999, 999, 999, 999], [999, 105, 104, 112], [999, 101, 96, 92], [999, 113, 109, 117]],
    [[999, 999, 999, 999], [999, 108, 110, 110], [999, 109, 106, 101], [999, 104, 112, 999]],
    [[999, 999, 999, 999], [999, 104, 99, 101], [999, 111, 112, 109], [999, 107, 999, 999]],
    [[999, 999, 999, 999], [999, 104, 106, 104], [999, 102, 114, 115], [999, 999, 999, 999]]]]

/-- The least costs of the walks to the states of the test grid with 4 to 10 steps in
a row, by line, column, direction and steps in a row; 999 where there is no walk. -/
def labels_two : List (List (List (List Nat))) :=
  [[[[999, 64, 80, 94, 59, 65, 78, 89, 101, 111, 111], [999, 999, 999, 999, 999, 999, 999, 999, 999, 999, 999], [999, 999, 999, 999, 999, 999, 999, 999, 999, 999, 999], [999, 72, 75, 97, 59, 73, 78, 95, 90, 100, 102]],
    [[999, 81, 95, 108, 70, 83, 98, 109, 121, 128, 133], [999, 999, 999, 999, 999, 999, 999, 999, 999, 999, 999], [999, 4, 999, 999, 999, 999, 999, 999, 999, 999, 999], [999, 73, 95, 57, 71, 76, 93, 88, 98, 100, 105]],
    [[999, 87, 98, 115, 69, 85, 96, 106, 115, 128, 137], [999, 999, 999, 999, 999, 999, 999, 999, 999, 999, 999], [999, 71, 5, 999, 999, 999, 999, 999, 999, 999, 999], [999, 91, 53, 67, 72, 89, 84, 94, 96, 101, 95]],
    [[999, 105, 117, 137, 90, 109, 124, 141, 153, 165, 172], [999, 999, 999, 999, 999, 999, 999, 999, 999, 999, 999], [999, 72, 74, 8, 999, 999, 999, 999, 999, 999, 999], [999, 52, 66, 71, 88, 83, 93, 95, 100, 94, 999]],
    [[999, 79, 95, 110, 49, 55, 68, 79, 91, 101, 101], [999, 999, 999, 999, 999, 999, 999, 999, 999, 999, 999], [999, 94, 76, 78, 12, 999, 999, 999, 999, 999, 999], [999, 63, 68, 85, 80, 90, 92, 97, 91, 999, 999]],
    [[999, 83, 99, 120, 59, 68, 83, 93, 103, 111, 113], [999, 999, 999, 999, 999, 999, 999, 999, 999, 999, 999], [999, 52, 97, 79, 81, 15, 999, 999, 999, 999, 999], [999, 64, 81, 76, 86, 88, 93, 87, 999, 999, 999]],
    [[999, 85, 101, 123, 61, 73, 85, 95, 105, 116, 117], [999, 999, 999, 999, 999, 999, 999, 999, 999, 999, 999], [999, 61, 54, 99, 81, 83, 17, 999, 999, 999, 999], [999, 78, 73, 83, 85, 90, 84, 999, 999, 999, 999]],
    [[999, 91, 110, 135, 76, 88, 101, 114, 126, 139, 139], [999, 999, 999, 999, 999, 999, 999, 999, 999, 999, 999], [999, 64, 64, 57, 102, 84, 86, 20, 999, 999, 999], [999, 71, 81, 83, 88, 82, 999, 999, 999, 999, 999]],
    [[999, 68, 84, 103, 68, 86, 100, 111, 122, 134, 131], [999, 999, 999, 999, 999, 999, 999, 999, 999, 999, 999], [999, 77, 65, 65, 58, 103, 85, 87, 21, 999, 999], [999, 78, 80, 85, 79, 999, 999, 999, 999, 999, 999]],
    [[999, 73, 90, 109, 77, 97, 109, 121, 131, 141, 135], [999, 999, 999, 999, 999, 999, 999, 999, 999, 999, 999], [999, 69, 78, 66, 66, 59, 104, 86, 88, 22, 999], [999, 79, 84, 78, 999, 999, 999, 999, 999, 999, 999]],
    [[999, 81, 95, 114, 78, 93, 106, 120, 130, 138, 131], [999, 999, 999, 999, 999, 999, 999, 999, 999, 999, 999], [999, 80, 72, 81, 69, 69, 62, 107, 89, 91, 25], [999, 83, 77, 999, 999, 999, 999, 999, 999, 999, 999]],
    [[999, 82, 95, 117, 80, 95, 110, 122, 137, 147, 156], [999, 999, 999, 999, 999, 999, 999, 999, 999, 999, 999], [999, 80, 82, 74, 83, 71, 71, 64, 109, 91, 93], [999, 74, 999, 999, 999, 999, 999, 999, 999, 999, 999]],
    [[999, 86, 101, 120, 72, 87, 104, 114, 131, 135, 145], [999, 999, 999, 999, 999, 999, 999, 999, 999, 999, 999], [999, 83, 83, 85, 77, 86, 74, 74, 67, 112, 94], [999, 999, 999, 999, 999, 999, 999, 999, 999, 999, 999]]],
   [[[999, 78, 92, 57, 63, 76, 87, 99, 109, 109, 118], [999, 3, 999, 999, 999, 999, 999, 999, 999, 999, 999], [999, 999, 999, 999, 999, 999, 999, 999, 999, 999, 999], [999, 82, 89, 112, 62, 80, 91, 108, 113, 127, 126]],
    [[999, 91, 104, 66, 79, 94, 105, 117, 124, 129, 137], [999, 73, 999, 999, 999, 999, 999, 999, 999, 999, 999], [999, 65, 999, 999, 999, 999, 999, 999, 999, 999, 999], [999, 86, 109, 59, 77, 88, 105, 110, 124, 123, 132]],
    [[999, 97, 114, 68, 84, 95, 105, 114, 127, 136, 146], [999, 73, 999, 999, 999, 999, 999, 999, 999, 999, 999], [999, 80, 66, 999, 999, 999, 999, 999, 999, 999, 999], [999, 107, 57, 75, 86, 103, 108, 122, 121, 130, 123]],
    [[999, 114, 134, 87, 106, 121, 138, 150, 162, 169, 181], [999, 88, 999, 999, 999, 999, 999, 999, 999, 999, 999], [999, 89, 85, 71, 999, 999, 999, 999, 999, 999, 999], [999, 56, 74, 85, 102, 107, 121, 120, 129, 122, 999]],
    [[999, 91, 106, 45, 51, 64, 75, 87, 97, 97, 146], [999, 16, 999, 999, 999, 999, 999, 999, 999, 999, 999], [999, 110, 93, 89, 75, 999, 999, 999, 999, 999, 999], [999, 69, 80, 97, 102, 116, 115, 124, 117, 999, 999]],
    [[999, 96, 117, 56, 65, 80, 90, 100, 108, 110, 157], [999, 20, 999, 999, 999, 999, 999, 999, 999, 999, 999], [999, 56, 115, 98, 94, 80, 999, 999, 999, 999, 999], [999, 76, 93, 98, 112, 111, 120, 113, 999, 999, 999]],
    [[999, 99, 121, 59, 71, 83, 93, 103, 114, 115, 162], [999, 20, 999, 999, 999, 999, 999, 999, 999, 999, 999], [999, 68, 59, 118, 101, 97, 83, 999, 999, 999, 999], [999, 88, 93, 107, 106, 115, 108, 999, 999, 999, 999]],
    [[999, 107, 132, 73, 85, 98, 111, 123, 136, 136, 185], [999, 25, 999, 999, 999, 999, 999, 999, 999, 999, 999], [999, 76, 73, 64, 123, 106, 102, 88, 999, 999, 999], [999, 90, 104, 103, 112, 105, 999, 999, 999, 999, 999]],
    [[999, 83, 102, 67, 85, 99, 110, 121, 133, 130, 163], [999, 24, 999, 999, 999, 999, 999, 999, 999, 999, 999], [999, 88, 79, 76, 67, 126, 109, 105, 91, 999, 999], [999, 99, 98, 107, 100, 999, 999, 999, 999, 999, 999]],
    [[999, 89, 108, 76, 96, 108, 120, 130, 140, 134, 168], [999, 27, 999, 999, 999, 999, 999, 999, 999, 999, 999], [999, 90, 93, 84, 81, 72, 131, 114, 110, 96, 999], [999, 95, 104, 97, 999, 999, 999, 999, 999, 999, 999]],
    [[999, 92, 111, 75, 90, 103, 117, 127, 135, 128, 164], [999, 31, 999, 999, 999, 999, 999, 999, 999, 999, 999], [999, 102, 96, 99, 90, 87, 78, 137, 120, 116, 102], [999, 99, 92, 999, 999, 999, 999, 999, 999, 999, 999]],
    [[999, 93, 115, 78, 93, 108, 120, 135, 145, 154, 166], [999, 66, 999, 999, 999, 999, 999, 999, 999, 999, 999], [999, 92, 104, 98, 101, 92, 89, 80, 139, 122, 118], [999, 86, 999, 999, 999, 999, 999, 999, 999, 999, 999]],
    [[999, 98, 117, 69, 84, 101, 111, 128, 132, 142, 162], [999, 70, 999, 999, 999, 999, 999, 999, 999, 999, 999], [999, 96, 95, 107, 101, 104, 95, 92, 83, 142, 125], [999, 999, 999, 999, 999, 999, 999, 999, 999, 999, 999]]],
   [[[999, 89, 54, 60, 73, 84, 96, 106, 106, 115, 112], [999, 65, 6, 999, 999, 999, 999, 999, 999, 999, 999], [999, 999, 999, 999, 999, 999, 999, 999, 999, 999, 999], [999, 95, 99, 126, 75, 92, 101, 119, 128, 140, 138]],
    [[999, 102, 64, 77, 92, 103, 115, 122, 127, 135, 137], [999, 79, 75, 999, 999, 999, 999, 999, 999, 999, 999], [999, 75, 999, 999, 999, 999, 999, 999, 999, 999, 999], [999, 96, 123, 72, 89, 98, 116, 125, 137, 135, 146]],
    [[999, 113, 67, 83, 94, 104, 113, 126, 135, 145, 147], [999, 91, 78, 999, 999, 999, 999, 999, 999, 999, 999], [999, 97, 80, 999, 999, 999, 999, 999, 999, 999, 999], [999, 121, 70, 87, 96, 114, 123, 135, 133, 144, 141]],
    [[999, 129, 82, 101, 116, 133, 145, 157, 164, 176, 178], [999, 107, 93, 999, 999, 999, 999, 999, 999, 999, 999], [999, 99, 102, 85, 999, 999, 999, 999, 999, 999, 999], [999, 65, 82, 91, 109, 118, 130, 128, 139, 136, 999]],
    [[999, 102, 41, 47, 60, 71, 83, 93, 93, 142, 144], [999, 77, 18, 999, 999, 999, 999, 999, 999, 999, 999], [999, 118, 101, 104, 87, 999, 999, 999, 999, 999, 999], [999, 77, 86, 104, 113, 125, 123, 134, 131, 999, 999]],
    [[999, 112, 51, 60, 75, 85, 95, 103, 105, 152, 156], [999, 84, 24, 999, 999, 999, 999, 999, 999, 999, 999], [999, 64, 122, 105, 108, 91, 999, 999, 999, 999, 999], [999, 84, 102, 111, 123, 121, 132, 129, 999, 999, 999]],
    [[999, 118, 56, 68, 80, 90, 100, 111, 112, 159, 163], [999, 88, 25, 999, 999, 999, 999, 999, 999, 999, 999], [999, 80, 69, 127, 110, 113, 96, 999, 999, 999, 999], [999, 98, 107, 119, 117, 128, 125, 999, 999, 999, 999]],
    [[999, 127, 68, 80, 93, 106, 118, 131, 131, 180, 182], [999, 94, 31, 999, 999, 999, 999, 999, 999, 999, 999], [999, 86, 86, 75, 133, 116, 119, 102, 999, 999, 999], [999, 102, 114, 112, 123, 120, 999, 999, 999, 999, 999]],
    [[999, 99, 64, 82, 96, 107, 118, 130, 127, 160, 163], [999, 72, 29, 999, 999, 999, 999, 999, 999, 999, 999], [999, 98, 91, 91, 80, 138, 121, 124, 107, 999, 999], [999, 108, 106, 117, 114, 999, 999, 999, 999, 999, 999]],
    [[999, 103, 71, 91, 103, 115, 125, 135, 129, 163, 163], [999, 76, 31, 999, 999, 999, 999, 999, 999, 999, 999], [999, 100, 102, 95, 95, 84, 142, 125, 128, 111, 999], [999, 101, 112, 109, 999, 999, 999, 999, 999, 999, 999]],
    [[999, 105, 69, 84, 97, 111, 121, 129, 122, 158, 156], [999, 80, 33, 999, 999, 999, 999, 999, 999, 999, 999], [999, 105, 102, 104, 97, 97, 86, 144, 127, 130, 113], [999, 108, 105, 999, 999, 999, 999, 999, 999, 999, 999]],
    [[999, 113, 76, 91, 106, 118, 133, 143, 152, 164, 158], [999, 85, 71, 999, 999, 999, 999, 999, 999, 999, 999], [999, 102, 110, 107, 109, 102, 102, 91, 149, 132, 135], [999, 103, 999, 999, 999, 999, 999, 999, 999, 999, 999]],
    [[999, 114, 66, 81, 98, 108, 125, 129, 139, 159, 153], [999, 87, 74, 999, 999, 999, 999, 999, 999, 999, 999], [999, 110, 106, 114, 111, 113, 106, 106, 95, 153, 136], [999, 999, 999, 999, 999, 999, 999, 999, 999, 999, 999]]],
   [[[999, 51, 57, 70, 81, 93, 103, 103, 112, 109, 999], [999, 78, 68, 9, 999, 999, 999, 999, 999, 999, 999], [999, 999, 999, 999, 999, 999, 999, 999, 999, 999, 999], [999, 104, 106, 139, 86, 103, 115, 135, 145, 158, 161]],
    [[999, 62, 75, 90, 101, 113, 120, 125, 133, 135, 999], [999, 93, 83, 79, 999, 999, 999, 999, 999, 999, 999], [999, 85, 999, 999, 999, 999, 999, 999, 999, 999, 999], [999, 103, 136, 83, 100, 112, 132, 142, 155, 158, 166]],
    [[999, 62, 78, 89, 99, 108, 121, 130, 140, 142, 999], [999, 100, 95, 82, 999, 999, 999, 999, 999, 999, 999], [999, 105, 89, 999, 999, 999, 999, 999, 999, 999, 999], [999, 132, 79, 96, 108, 128, 138, 151, 154, 162, 158]],
    [[999, 77, 96, 111, 128, 140, 152, 159, 171, 173, 999], [999, 115, 113, 99, 999, 999, 999, 999, 999, 999, 999], [999, 105, 111, 95, 999, 999, 999, 999, 999, 999, 999], [999, 75, 92, 104, 124, 134, 147, 150, 158, 154, 999]],
    [[999, 39, 45, 58, 69, 81, 91, 91, 140, 142, 999], [999, 92, 82, 23, 999, 999, 999, 999, 999, 999, 999], [999, 133, 110, 116, 100, 999, 999, 999, 999, 999, 999], [999, 86, 98, 118, 128, 141, 144, 152, 148, 999, 999]],
    [[999, 47, 56, 71, 81, 91, 99, 101, 148, 152, 999], [999, 99, 92, 32, 999, 999, 999, 999, 999, 999, 999], [999, 77, 141, 118, 124, 108, 999, 999, 999, 999, 999], [999, 93, 113, 123, 136, 139, 147, 143, 999, 999, 999]],
    [[999, 51, 63, 75, 85, 95, 106, 107, 154, 158, 999], [999, 101, 93, 30, 999, 999, 999, 999, 999, 999, 999], [999, 86, 82, 146, 123, 129, 113, 999, 999, 999, 999], [999, 105, 115, 128, 131, 139, 135, 999, 999, 999, 999]],
    [[999, 62, 74, 87, 100, 112, 125, 125, 174, 176, 999], [999, 110, 102, 39, 999, 999, 999, 999, 999, 999, 999], [999, 93, 94, 90, 154, 131, 137, 121, 999, 999, 999], [999, 110, 123, 126, 134, 130, 999, 999, 999, 999, 999]],
    [[999, 59, 77, 91, 102, 113, 125, 122, 155, 158, 999], [999, 84, 76, 33, 999, 999, 999, 999, 999, 999, 999], [999, 104, 97, 98, 94, 158, 135, 141, 125, 999, 999], [999, 115, 118, 126, 122, 999, 999, 999, 999, 999, 999]],
    [[999, 67, 87, 99, 111, 121, 131, 125, 159, 159, 999], [999, 89, 81, 36, 999, 999, 999, 999, 999, 999, 999], [999, 107, 109, 102, 103, 99, 163, 140, 146, 130, 999], [999, 114, 122, 118, 999, 999, 999, 999, 999, 999, 999]],
    [[999, 67, 82, 95, 109, 119, 127, 120, 156, 154, 999], [999, 90, 84, 37, 999, 999, 999, 999, 999, 999, 999], [999, 115, 111, 113, 106, 107, 103, 167, 144, 150, 134], [999, 117, 113, 999, 999, 999, 999, 999, 999, 999, 999]],
    [[999, 71, 86, 101, 113, 128, 138, 147, 159, 153, 999], [999, 96, 90, 76, 999, 999, 999, 999, 999, 999, 999], [999, 114, 120, 116, 118, 111, 112, 108, 172, 149, 155], [999, 109, 999, 999, 999, 999, 999, 999, 999, 999, 999]],
    [[999, 62, 77, 94, 104, 121, 125, 135, 155, 149, 999], [999, 97, 89, 76, 999, 999, 999, 999, 999, 999, 999], [999, 115, 116, 122, 118, 120, 113, 114, 110, 174, 151], [999, 999, 999, 999, 999, 999, 999, 999, 999, 999, 999]]],
   [[[999, 54, 67, 78, 90, 100, 100, 109, 106, 999, 999], [999, 90, 82, 72, 13, 999, 999, 999, 999, 999, 999], [999, 999, 999, 999, 999, 999, 999, 999, 999, 999, 999], [999, 88, 95, 118, 48, 62, 67, 84, 84, 94, 100]],
    [[999, 71, 86, 97, 109, 116, 121, 129, 131, 999, 999], [999, 105, 98, 88, 84, 999, 999, 999, 999, 999, 999], [999, 18, 999, 999, 999, 999, 999, 999, 999, 999, 999], [999, 91, 114, 44, 58, 63, 80, 80, 90, 96, 138]],
    [[999, 74, 85, 95, 104, 117, 126, 136, 138, 999, 999], [999, 112, 104, 99, 86, 999, 999, 999, 999, 999, 999], [999, 88, 22, 999, 999, 999, 999, 999, 999, 999, 999], [999, 109, 39, 53, 58, 75, 75, 85, 91, 133, 139]],
    [[999, 90, 105, 122, 134, 146, 153, 165, 167, 999, 999], [999, 130, 121, 119, 105, 999, 999, 999, 999, 999, 999], [999, 92, 94, 28, 999, 999, 999, 999, 999, 999, 999], [999, 35, 49, 54, 71, 71, 81, 87, 129, 135, 999]],
    [[999, 40, 53, 64, 76, 86, 86, 135, 137, 999, 999], [999, 106, 98, 88, 29, 999, 999, 999, 999, 999, 999], [999, 111, 98, 100, 34, 999, 999, 999, 999, 999, 999], [999, 43, 48, 65, 65, 75, 81, 123, 129, 999, 999]],
    [[999, 48, 63, 73, 83, 91, 93, 140, 144, 999, 999], [999, 113, 104, 97, 37, 999, 999, 999, 999, 999, 999], [999, 34, 116, 103, 105, 39, 999, 999, 999, 999, 999], [999, 42, 59, 59, 69, 75, 117, 123, 999, 999, 999]],
    [[999, 58, 70, 80, 90, 101, 102, 149, 153, 999, 999], [999, 120, 108, 100, 37, 999, 999, 999, 999, 999, 999], [999, 44, 41, 123, 110, 112, 46, 999, 999, 999, 999], [999, 54, 54, 64, 70, 112, 118, 999, 999, 999, 999]],
    [[999, 66, 79, 92, 104, 117, 117, 166, 168, 999, 999], [999, 129, 118, 110, 47, 999, 999, 999, 999, 999, 999], [999, 45, 52, 49, 131, 118, 120, 54, 999, 999, 999], [999, 47, 57, 63, 105, 111, 999, 999, 999, 999, 999]],
    [[999, 73, 87, 98, 109, 121, 118, 151, 154, 999, 999], [999, 100, 90, 82, 39, 999, 999, 999, 999, 999, 999], [999, 53, 51, 58, 55, 137, 124, 126, 60, 999, 999], [999, 49, 55, 97, 103, 999, 999, 999, 999, 999, 999]],
    [[999, 82, 94, 106, 116, 126, 120, 154, 154, 999, 999], [999, 106, 96, 88, 43, 999, 999, 999, 999, 999, 999], [999, 46, 60, 58, 65, 62, 144, 131, 133, 67, 999], [999, 49, 91, 97, 999, 999, 999, 999, 999, 999, 999]],
    [[999, 78, 91, 105, 115, 123, 116, 152, 150, 999, 999], [999, 108, 95, 89, 42, 999, 999, 999, 999, 999, 999], [999, 48, 51, 65, 63, 70, 67, 149, 136, 138, 72], [999, 84, 90, 999, 999, 999, 999, 999, 999, 999, 999]],
    [[999, 81, 96, 108, 123, 133, 142, 154, 148, 999, 999], [999, 111, 99, 93, 79, 999, 999, 999, 999, 999, 999], [999, 45, 51, 54, 68, 66, 73, 70, 152, 139, 141], [999, 85, 999, 999, 999, 999, 999, 999, 999, 999, 999]],
    [[999, 75, 92, 102, 119, 123, 133, 153, 147, 999, 999], [999, 116, 103, 95, 82, 999, 999, 999, 999, 999, 999], [999, 85, 51, 57, 60, 74, 72, 79, 76, 158, 145], [999, 999, 999, 999, 999, 999, 999, 999, 999, 999, 999]]],
   [[[999, 63, 74, 86, 96, 96, 105, 102, 999, 999, 999], [999, 49, 91, 83, 73, 14, 999, 999, 999, 999, 999], [999, 999, 999, 999, 999, 999, 999, 999, 999, 999, 999], [999, 89, 94, 121, 50, 67, 75, 92, 93, 105, 108]],
    [[999, 81, 92, 104, 111, 116, 124, 126, 999, 999, 999], [999, 62, 109, 102, 92, 88, 999, 999, 999, 999, 999], [999, 18, 999, 999, 999, 999, 999, 999, 999, 999, 999], [999, 93, 120, 49, 66, 74, 91, 92, 104, 107, 149]],
    [[999, 81, 91, 100, 113, 122, 132, 134, 999, 999, 999], [999, 61, 115, 107, 102, 89, 999, 999, 999, 999, 999], [999, 91, 21, 999, 999, 999, 999, 999, 999, 999, 999], [999, 116, 45, 62, 70, 87, 88, 100, 103, 145, 152]],
    [[999, 99, 116, 128, 140, 147, 159, 161, 999, 999, 999], [999, 79, 138, 129, 127, 113, 999, 999, 999, 999, 999], [999, 97, 99, 29, 999, 999, 999, 999, 999, 999, 999], [999, 42, 59, 67, 84, 85, 97, 100, 142, 149, 999]],
    [[999, 47, 58, 70, 80, 80, 129, 131, 999, 999, 999], [999, 39, 111, 103, 93, 34, 999, 999, 999, 999, 999], [999, 118, 102, 104, 34, 999, 999, 999, 999, 999, 999], [999, 51, 59, 76, 77, 89, 92, 134, 141, 999, 999]],
    [[999, 58, 68, 78, 86, 88, 135, 139, 999, 999, 999], [999, 48, 122, 113, 106, 46, 999, 999, 999, 999, 999], [999, 43, 127, 111, 113, 43, 999, 999, 999, 999, 999], [999, 54, 71, 72, 84, 87, 129, 136, 999, 999, 999]],
    [[999, 63, 73, 83, 94, 95, 142, 146, 999, 999, 999], [999, 54, 128, 116, 108, 45, 999, 999, 999, 999, 999], [999, 54, 51, 135, 119, 121, 51, 999, 999, 999, 999], [999, 62, 63, 75, 78, 120, 127, 999, 999, 999, 999]],
    [[999, 71, 84, 96, 109, 109, 158, 160, 999, 999, 999], [999, 61, 136, 125, 117, 54, 999, 999, 999, 999, 999], [999, 52, 61, 58, 142, 126, 128, 58, 999, 999, 999], [999, 55, 67, 70, 112, 119, 999, 999, 999, 999, 999]],
    [[999, 81, 92, 103, 115, 112, 145, 148, 999, 999, 999], [999, 64, 109, 99, 91, 48, 999, 999, 999, 999, 999], [999, 63, 61, 70, 67, 151, 135, 137, 67, 999, 999], [999, 60, 63, 105, 112, 999, 999, 999, 999, 999, 999]],
    [[999, 87, 99, 109, 119, 113, 147, 147, 999, 999, 999], [999, 70, 114, 104, 96, 51, 999, 999, 999, 999, 999], [999, 56, 71, 69, 78, 75, 159, 143, 145, 75, 999], [999, 54, 96, 103, 999, 999, 999, 999, 999, 999, 999]],
    [[999, 86, 100, 110, 118, 111, 147, 145, 999, 999, 999], [999, 67, 112, 99, 93, 46, 999, 999, 999, 999, 999], [999, 55, 60, 75, 73, 82, 79, 163, 147, 149, 79], [999, 88, 95, 999, 999, 999, 999, 999, 999, 999, 999]],
    [[999, 93, 105, 120, 130, 139, 151, 145, 999, 999, 999], [999, 71, 116, 104, 98, 84, 999, 999, 999, 999, 999], [999, 51, 60, 65, 80, 78, 87, 84, 168, 152, 154], [999, 91, 999, 999, 999, 999, 999, 999, 999, 999, 999]],
    [[999, 86, 96, 113, 117, 127, 147, 141, 999, 999, 999], [999, 64, 120, 107, 99, 86, 999, 999, 999, 999, 999], [999, 88, 55, 64, 69, 84, 82, 91, 88, 172, 156], [999, 999, 999, 999, 999, 999, 999, 999, 999, 999, 999]]],
   [[[999, 73, 85, 95, 95, 104, 101, 999, 999, 999, 999], [999, 54, 53, 95, 87, 77, 18, 999, 999, 999, 999], [999, 999, 999, 999, 999, 999, 999, 999, 999, 999, 999], [999, 96, 102, 133, 62, 81, 86, 104, 106, 116, 118]],
    [[999, 88, 100, 107, 112, 120, 122, 999, 999, 999, 999], [999, 70, 66, 113, 106, 96, 92, 999, 999, 999, 999], [999, 22, 999, 999, 999, 999, 999, 999, 999, 999, 999], [999, 98, 129, 58, 77, 82, 100, 102, 112, 114, 158]],
    [[999, 88, 97, 110, 119, 129, 131, 999, 999, 999, 999], [999, 75, 66, 120, 112, 107, 94, 999, 999, 999, 999], [999, 97, 27, 999, 999, 999, 999, 999, 999, 999, 999], [999, 125, 54, 73, 78, 96, 98, 108, 110, 154, 162]],
    [[999, 108, 120, 132, 139, 151, 153, 999, 999, 999, 999], [999, 91, 86, 145, 136, 134, 120, 999, 999, 999, 999], [999, 101, 104, 34, 999, 999, 999, 999, 999, 999, 999], [999, 49, 68, 73, 91, 93, 103, 105, 149, 157, 999]],
    [[999, 53, 65, 75, 75, 124, 126, 999, 999, 999, 999], [999, 42, 47, 119, 111, 101, 42, 999, 999, 999, 999], [999, 128, 109, 112, 42, 999, 999, 999, 999, 999, 999], [999, 61, 66, 84, 86, 96, 98, 142, 150, 999, 999]],
    [[999, 59, 69, 77, 79, 126, 130, 999, 999, 999, 999], [999, 50, 55, 129, 120, 113, 53, 999, 999, 999, 999], [999, 49, 135, 116, 119, 49, 999, 999, 999, 999, 999], [999, 58, 76, 78, 88, 90, 134, 142, 999, 999, 999]],
    [[999, 65, 75, 86, 87, 134, 138, 999, 999, 999, 999], [999, 57, 60, 134, 122, 114, 51, 999, 999, 999, 999], [999, 59, 55, 141, 122, 125, 55, 999, 999, 999, 999], [999, 69, 71, 81, 83, 127, 135, 999, 999, 999, 999]],
    [[999, 77, 89, 102, 102, 151, 153, 999, 999, 999, 999], [999, 67, 70, 145, 134, 126, 63, 999, 999, 999, 999], [999, 60, 68, 64, 150, 131, 134, 64, 999, 999, 999], [999, 65, 75, 77, 121, 129, 999, 999, 999, 999, 999]],
    [[999, 83, 94, 106, 103, 136, 139, 999, 999, 999, 999], [999, 75, 72, 117, 107, 99, 56, 999, 999, 999, 999], [999, 71, 68, 76, 72, 158, 139, 142, 72, 999, 999], [999, 66, 68, 112, 120, 999, 999, 999, 999, 999, 999]],
    [[999, 91, 101, 111, 105, 139, 139, 999, 999, 999, 999], [999, 82, 77, 121, 111, 103, 58, 999, 999, 999, 999], [999, 63, 78, 75, 83, 79, 165, 146, 149, 79, 999], [999, 60, 104, 112, 999, 999, 999, 999, 999, 999, 999]],
    [[999, 96, 106, 114, 107, 143, 141, 999, 999, 999, 999], [999, 80, 74, 119, 106, 100, 53, 999, 999, 999, 999], [999, 65, 70, 85, 82, 90, 86, 172, 153, 156, 86], [999, 97, 105, 999, 999, 999, 999, 999, 999, 999, 999]],
    [[999, 100, 115, 125, 134, 146, 140, 999, 999, 999, 999], [999, 84, 77, 122, 110, 104, 90, 999, 999, 999, 999], [999, 59, 71, 76, 91, 88, 96, 92, 178, 159, 162], [999, 98, 999, 999, 999, 999, 999, 999, 999, 999, 999]],
    [[999, 92, 109, 113, 123, 143, 137, 999, 999, 999, 999], [999, 75, 70, 126, 113, 105, 92, 999, 999, 999, 999], [999, 96, 65, 77, 82, 97, 94, 102, 98, 184, 165], [999, 999, 999, 999, 999, 999, 999, 999, 999, 999, 999]]],
   [[[999, 81, 91, 91, 100, 97, 999, 999, 999, 999, 999], [999, 65, 57, 56, 98, 90, 80, 21, 999, 999, 999], [999, 999, 999, 999, 999, 999, 999, 999, 999, 999, 999], [999, 101, 106, 139, 69, 87, 92, 113, 113, 124, 125]],
    [[999, 96, 103, 108, 116, 118, 999, 999, 999, 999, 999], [999, 83, 76, 72, 119, 112, 102, 98, 999, 999, 999], [999, 27, 999, 999, 999, 999, 999, 999, 999, 999, 999], [999, 103, 136, 66, 84, 89, 110, 110, 121, 122, 164]],
    [[999, 92, 105, 114, 124, 126, 999, 999, 999, 999, 999], [999, 81, 78, 69, 123, 115, 110, 97, 999, 999, 999], [999, 101, 30, 999, 999, 999, 999, 999, 999, 999, 999], [999, 130, 60, 78, 83, 104, 104, 115, 116, 158, 163]],
    [[999, 113, 125, 132, 144, 146, 999, 999, 999, 999, 999], [999, 98, 98, 93, 152, 143, 141, 127, 999, 999, 999], [999, 104, 108, 37, 999, 999, 999, 999, 999, 999, 999], [999, 57, 75, 80, 101, 101, 112, 113, 155, 160, 999]],
    [[999, 57, 67, 67, 116, 118, 999, 999, 999, 999, 999], [999, 50, 50, 55, 127, 119, 109, 50, 999, 999, 999], [999, 135, 112, 116, 45, 999, 999, 999, 999, 999, 999], [999, 68, 73, 94, 94, 105, 106, 148, 153, 999, 999]],
    [[999, 62, 70, 72, 119, 123, 999, 999, 999, 999, 999], [999, 56, 57, 62, 136, 127, 120, 60, 999, 999, 999], [999, 57, 142, 119, 123, 52, 999, 999, 999, 999, 999], [999, 65, 86, 86, 97, 98, 140, 145, 999, 999, 999]],
    [[999, 69, 80, 81, 128, 132, 999, 999, 999, 999, 999], [999, 62, 64, 67, 141, 129, 121, 58, 999, 999, 999], [999, 67, 64, 149, 126, 130, 59, 999, 999, 999, 999], [999, 79, 79, 90, 91, 133, 138, 999, 999, 999, 999]],
    [[999, 80, 93, 93, 142, 144, 999, 999, 999, 999, 999], [999, 73, 76, 79, 154, 143, 135, 72, 999, 999, 999], [999, 67, 76, 73, 158, 135, 139, 68, 999, 999, 999], [999, 72, 83, 84, 126, 131, 999, 999, 999, 999, 999]],
    [[999, 86, 98, 95, 128, 131, 999, 999, 999, 999, 999], [999, 79, 82, 79, 124, 114, 106, 63, 999, 999, 999], [999, 79, 74, 83, 80, 165, 142, 146, 75, 999, 999], [999, 74, 75, 117, 122, 999, 999, 999, 999, 999, 999]],
    [[999, 94, 104, 98, 132, 132, 999, 999, 999, 999, 999], [999, 88, 91, 86, 130, 120, 112, 67, 999, 999, 999], [999, 72, 88, 83, 92, 89, 174, 151, 155, 84, 999], [999, 68, 110, 115, 999, 999, 999, 999, 999, 999, 999]],
    [[999, 99, 107, 100, 136, 134, 999, 999, 999, 999, 999], [999, 88, 86, 80, 125, 112, 106, 59, 999, 999, 999], [999, 73, 78, 94, 89, 98, 95, 180, 157, 161, 90], [999, 101, 106, 999, 999, 999, 999, 999, 999, 999, 999]],
    [[999, 109, 119, 128, 140, 134, 999, 999, 999, 999, 999], [999, 93, 89, 82, 127, 115, 109, 95, 999, 999, 999], [999, 64, 78, 83, 99, 94, 103, 100, 185, 162, 166], [999, 100, 999, 999, 999, 999, 999, 999, 999, 999, 999]],
    [[999, 103, 107, 117, 137, 131, 999, 999, 999, 999, 999], [999, 85, 78, 73, 129, 116, 108, 95, 999, 999, 999], [999, 98, 67, 81, 86, 102, 97, 106, 103, 188, 165], [999, 999, 999, 999, 999, 999, 999, 999, 999, 999, 999]]],
   [[[999, 88, 88, 97, 94, 999, 999, 999, 999, 999, 999], [999, 73, 69, 61, 60, 102, 94, 84, 25, 999, 999], [999, 999, 999, 999, 999, 999, 999, 999, 999, 999, 999], [999, 82, 84, 112, 78, 94, 99, 122, 121, 131, 131]],
    [[999, 97, 102, 110, 112, 999, 999, 999, 999, 999, 999], [999, 90, 89, 82, 78, 125, 118, 108, 104, 999, 999], [999, 31, 999, 999, 999, 999, 999, 999, 999, 999, 999], [999, 80, 108, 74, 90, 95, 118, 117, 127, 127, 158]],
    [[999, 102, 111, 121, 123, 999, 999, 999, 999, 999, 999], [999, 88, 86, 83, 74, 128, 120, 115, 102, 999, 999], [999, 83, 36, 999, 999, 999, 999, 999, 999, 999, 999], [999, 102, 68, 84, 89, 112, 111, 121, 121, 152, 150]],
    [[999, 118, 125, 137, 139, 999, 999, 999, 999, 999, 999], [999, 105, 102, 102, 97, 156, 147, 145, 131, 999, 999], [999, 78, 87, 40, 999, 999, 999, 999, 999, 999, 999], [999, 63, 79, 84, 107, 106, 116, 116, 147, 145, 999]],
    [[999, 59, 59, 108, 110, 999, 999, 999, 999, 999, 999], [999, 54, 59, 59, 64, 136, 128, 118, 59, 999, 999], [999, 106, 87, 96, 49, 999, 999, 999, 999, 999, 999], [999, 75, 80, 103, 102, 112, 112, 143, 141, 999, 999]],
    [[999, 63, 65, 112, 116, 999, 999, 999, 999, 999, 999], [999, 58, 62, 63, 68, 142, 133, 126, 66, 999, 999], [999, 65, 112, 93, 102, 55, 999, 999, 999, 999, 999], [999, 71, 94, 93, 103, 103, 134, 132, 999, 999, 999]],
    [[999, 73, 74, 121, 125, 999, 999, 999, 999, 999, 999], [999, 66, 69, 71, 74, 148, 136, 128, 65, 999, 999], [999, 73, 72, 119, 100, 109, 62, 999, 999, 999, 999], [999, 88, 87, 97, 97, 128, 126, 999, 999, 999, 999]],
    [[999, 84, 84, 133, 135, 999, 999, 999, 999, 999, 999], [999, 77, 82, 85, 88, 163, 152, 144, 81, 999, 999], [999, 74, 82, 81, 128, 109, 118, 71, 999, 999, 999], [999, 80, 90, 90, 121, 119, 999, 999, 999, 999, 999]],
    [[999, 91, 88, 121, 124, 999, 999, 999, 999, 999, 999], [999, 83, 87, 90, 87, 132, 122, 114, 71, 999, 999], [999, 89, 82, 90, 89, 136, 117, 126, 79, 999, 999], [999, 81, 81, 112, 110, 999, 999, 999, 999, 999, 999]],
    [[999, 95, 89, 123, 123, 999, 999, 999, 999, 999, 999], [999, 90, 94, 97, 92, 136, 126, 118, 73, 999, 999], [999, 77, 95, 88, 96, 95, 142, 123, 132, 85, 999], [999, 73, 104, 102, 999, 999, 999, 999, 999, 999, 999]],
    [[999, 101, 94, 130, 128, 999, 999, 999, 999, 999, 999], [999, 97, 96, 94, 88, 133, 120, 114, 67, 999, 999], [999, 81, 85, 103, 96, 104, 103, 150, 131, 140, 93], [999, 98, 96, 999, 999, 999, 999, 999, 999, 999, 999]],
    [[999, 114, 123, 135, 129, 999, 999, 999, 999, 999, 999], [999, 102, 101, 97, 90, 135, 123, 117, 103, 999, 999], [999, 75, 89, 93, 111, 104, 112, 111, 158, 139, 148], [999, 88, 999, 999, 999, 999, 999, 999, 999, 999, 999]],
    [[999, 104, 114, 134, 128, 999, 999, 999, 999, 999, 999], [999, 93, 92, 85, 80, 136, 123, 115, 102, 999, 999], [999, 97, 82, 96, 100, 118, 111, 119, 118, 165, 146], [999, 999, 999, 999, 999, 999, 999, 999, 999, 999, 999]]],
   [[[999, 84, 93, 90, 999, 999, 999, 999, 999, 999, 999], [999, 82, 77, 73, 65, 64, 106, 98, 88, 29, 999], [999, 999, 999, 999, 999, 999, 999, 999, 999, 999, 999], [999, 87, 89, 116, 84, 95, 106, 131, 129, 137, 135]],
    [[999, 96, 104, 106, 999, 999, 999, 999, 999, 999, 999], [999, 95, 95, 94, 87, 83, 130, 123, 113, 109, 999], [999, 34, 999, 999, 999, 999, 999, 999, 999, 999, 999], [999, 85, 112, 80, 91, 102, 127, 125, 133, 131, 159]],
    [[999, 106, 116, 118, 999, 999, 999, 999, 999, 999, 999], [999, 95, 94, 92, 89, 80, 134, 126, 121, 108, 999], [999, 89, 40, 999, 999, 999, 999, 999, 999, 999, 999], [999, 107, 75, 86, 97, 122, 120, 128, 126, 154, 147]],
    [[999, 121, 133, 135, 999, 999, 999, 999, 999, 999, 999], [999, 110, 109, 106, 106, 101, 160, 151, 149, 135, 999], [999, 84, 93, 44, 999, 999, 999, 999, 999, 999, 999], [999, 69, 80, 91, 116, 114, 122, 120, 148, 141, 999]],
    [[999, 50, 99, 101, 999, 999, 999, 999, 999, 999, 999], [999, 55, 60, 65, 65, 70, 142, 134, 124, 65, 999], [999, 107, 90, 99, 50, 999, 999, 999, 999, 999, 999], [999, 76, 87, 112, 110, 118, 116, 144, 137, 999, 999]],
    [[999, 59, 106, 110, 999, 999, 999, 999, 999, 999, 999], [999, 62, 65, 69, 70, 75, 149, 140, 133, 73, 999], [999, 72, 114, 97, 106, 57, 999, 999, 999, 999, 999], [999, 81, 106, 104, 112, 110, 138, 131, 999, 999, 999]],
    [[999, 67, 114, 118, 999, 999, 999, 999, 999, 999, 999], [999, 71, 75, 78, 80, 83, 157, 145, 137, 74, 999], [999, 79, 81, 123, 106, 115, 66, 999, 999, 999, 999], [999, 99, 97, 105, 103, 131, 124, 999, 999, 999, 999]],
    [[999, 75, 124, 126, 999, 999, 999, 999, 999, 999, 999], [999, 80, 86, 91, 94, 97, 172, 161, 153, 90, 999], [999, 83, 88, 90, 132, 115, 124, 75, 999, 999, 999], [999, 88, 96, 94, 122, 115, 999, 999, 999, 999, 999]],
    [[999, 80, 113, 116, 999, 999, 999, 999, 999, 999, 999], [999, 87, 91, 95, 98, 95, 140, 130, 122, 79, 999], [999, 98, 91, 96, 98, 140, 123, 132, 83, 999, 999], [999, 87, 85, 113, 106, 999, 999, 999, 999, 999, 999]],
    [[999, 83, 117, 117, 999, 999, 999, 999, 999, 999, 999], [999, 91, 96, 100, 103, 98, 142, 132, 124, 79, 999], [999, 85, 104, 97, 102, 104, 146, 129, 138, 89, 999], [999, 77, 105, 98, 999, 999, 999, 999, 999, 999, 999]],
    [[999, 86, 122, 120, 999, 999, 999, 999, 999, 999, 999], [999, 97, 101, 100, 98, 92, 137, 124, 118, 71, 999], [999, 83, 89, 108, 101, 106, 108, 150, 133, 142, 93], [999, 99, 92, 999, 999, 999, 999, 999, 999, 999, 999]],
    [[999, 115, 127, 121, 999, 999, 999, 999, 999, 999, 999], [999, 109, 107, 106, 102, 95, 140, 128, 122, 108, 999], [999, 76, 88, 94, 113, 106, 111, 113, 155, 138, 147], [999, 88, 999, 999, 999, 999, 999, 999, 999, 999, 999]],
    [[999, 107, 127, 121, 999, 999, 999, 999, 999, 999, 999], [999, 103, 96, 95, 88, 83, 139, 126, 118, 105, 999], [999, 98, 79, 91, 97, 116, 109, 114, 116, 158, 141], [999, 999, 999, 999, 999, 999, 999, 999, 999, 999, 999]]],
   [[[999, 89, 86, 999, 999, 999, 999, 999, 999, 999, 999], [999, 85, 83, 78, 74, 66, 65, 107, 99, 89, 30], [999, 999, 999, 999, 999, 999, 999, 999, 999, 999, 999], [999, 86, 85, 110, 80, 92, 103, 127, 122, 127, 124]],
    [[999, 99, 101, 999, 999, 999, 999, 999, 999, 999, 999], [999, 93, 97, 97, 96, 89, 85, 132, 125, 115, 111], [999, 32, 999, 999, 999, 999, 999, 999, 999, 999, 999], [999, 84, 109, 79, 91, 102, 126, 121, 126, 123, 153]],
    [[999, 110, 112, 999, 999, 999, 999, 999, 999, 999, 999], [999, 99, 97, 96, 94, 91, 82, 136, 128, 123, 110], [999, 87, 34, 999, 999, 999, 999, 999, 999, 999, 999], [999, 107, 77, 89, 100, 124, 119, 124, 121, 151, 142]],
    [[999, 129, 131, 999, 999, 999, 999, 999, 999, 999, 999], [999, 118, 114, 113, 110, 110, 105, 164, 155, 153, 139], [999, 86, 91, 38, 999, 999, 999, 999, 999, 999, 999], [999, 75, 87, 98, 122, 117, 122, 119, 149, 140, 999]],
    [[999, 93, 95, 999, 999, 999, 999, 999, 999, 999, 999], [999, 56, 61, 66, 71, 71, 76, 148, 140, 130, 71], [999, 111, 92, 97, 44, 999, 999, 999, 999, 999, 999], [999, 83, 94, 118, 113, 118, 115, 145, 136, 999, 999]],
    [[999, 99, 103, 999, 999, 999, 999, 999, 999, 999, 999], [999, 65, 70, 73, 77, 78, 83, 157, 148, 141, 81], [999, 79, 119, 100, 105, 52, 999, 999, 999, 999, 999], [999, 88, 112, 107, 112, 109, 139, 130, 999, 999, 999]],
    [[999, 105, 109, 999, 999, 999, 999, 999, 999, 999, 999], [999, 72, 77, 81, 84, 86, 89, 163, 151, 143, 80], [999, 83, 85, 125, 106, 111, 58, 999, 999, 999, 999], [999, 104, 99, 104, 101, 131, 122, 999, 999, 999, 999]],
    [[999, 115, 117, 999, 999, 999, 999, 999, 999, 999, 999], [999, 83, 88, 94, 99, 102, 105, 180, 169, 161, 98], [999, 88, 91, 93, 133, 114, 119, 66, 999, 999, 999], [999, 93, 98, 95, 125, 116, 999, 999, 999, 999, 999]],
    [[999, 105, 108, 999, 999, 999, 999, 999, 999, 999, 999], [999, 89, 93, 97, 101, 104, 101, 146, 136, 128, 85], [999, 104, 94, 97, 99, 139, 120, 125, 72, 999, 999], [999, 90, 87, 117, 108, 999, 999, 999, 999, 999, 999]],
    [[999, 111, 111, 999, 999, 999, 999, 999, 999, 999, 999], [999, 94, 96, 101, 105, 108, 103, 147, 137, 129, 84], [999, 90, 109, 99, 102, 104, 144, 125, 130, 77, 999], [999, 81, 111, 102, 999, 999, 999, 999, 999, 999, 999]],
    [[999, 118, 116, 999, 999, 999, 999, 999, 999, 999, 999], [999, 98, 102, 106, 105, 103, 97, 142, 129, 123, 76], [999, 89, 95, 114, 104, 107, 109, 149, 130, 135, 82], [999, 106, 97, 999, 999, 999, 999, 999, 999, 999, 999]],
    [[999, 122, 116, 999, 999, 999, 999, 999, 999, 999, 999], [999, 112, 115, 113, 112, 108, 101, 146, 134, 128, 114], [999, 82, 95, 101, 120, 110, 113, 115, 155, 136, 141], [999, 92, 999, 999, 999, 999, 999, 999, 999, 999, 999]],
    [[999, 124, 118, 999, 999, 999, 999, 999, 999, 999, 999], [999, 100, 106, 99, 98, 91, 86, 142, 129, 121, 108], [999, 104, 85, 98, 104, 123, 113, 116, 118, 158, 139], [999, 999, 999, 999, 999, 999, 999, 999, 999, 999, 999]]],
   [[[999, 85, 999, 999, 999, 999, 999, 999, 999, 999, 999], [999, 82, 87, 85, 80, 76, 68, 67, 109, 101, 91], [999, 999, 999, 999, 999, 999, 999, 999, 999, 999, 999], [999, 92, 93, 122, 88, 99, 115, 136, 147, 158, 161]],
    [[999, 99, 999, 999, 999, 999, 999, 999, 999, 999, 999], [999, 96, 98, 102, 102, 101, 94, 90, 137, 130, 120], [999, 72, 999, 999, 999, 999, 999, 999, 999, 999, 999], [999, 91, 120, 86, 97, 113, 134, 145, 156, 159, 166]],
    [[999, 110, 999, 999, 999, 999, 999, 999, 999, 999, 999], [999, 104, 103, 101, 100, 98, 95, 86, 140, 132, 127], [999, 94, 76, 999, 999, 999, 999, 999, 999, 999, 999], [999, 115, 81, 92, 108, 129, 140, 151, 154, 161, 151]],
    [[999, 127, 999, 999, 999, 999, 999, 999, 999, 999, 999], [999, 123, 124, 120, 119, 116, 116, 111, 170, 161, 159], [999, 92, 100, 82, 999, 999, 999, 999, 999, 999, 999], [999, 77, 88, 104, 125, 136, 147, 150, 157, 147, 999]],
    [[999, 89, 999, 999, 999, 999, 999, 999, 999, 999, 999], [999, 49, 61, 66, 71, 76, 76, 81, 153, 145, 135], [999, 116, 97, 105, 87, 999, 999, 999, 999, 999, 999], [999, 82, 98, 119, 130, 141, 144, 151, 141, 999, 999]],
    [[999, 95, 999, 999, 999, 999, 999, 999, 999, 999, 999], [999, 56, 69, 74, 77, 81, 82, 87, 161, 152, 145], [999, 75, 120, 101, 109, 91, 999, 999, 999, 999, 999], [999, 93, 114, 125, 136, 139, 146, 136, 999, 999, 999]],
    [[999, 103, 999, 999, 999, 999, 999, 999, 999, 999, 999], [999, 66, 80, 85, 89, 92, 94, 97, 171, 159, 151], [999, 85, 83, 128, 109, 117, 99, 999, 999, 999, 999], [999, 110, 121, 132, 135, 142, 132, 999, 999, 999, 999]],
    [[999, 109, 999, 999, 999, 999, 999, 999, 999, 999, 999], [999, 74, 91, 96, 102, 107, 110, 113, 188, 177, 169], [999, 97, 93, 91, 136, 117, 125, 107, 999, 999, 999], [999, 113, 124, 127, 134, 124, 999, 999, 999, 999, 999]],
    [[999, 102, 999, 999, 999, 999, 999, 999, 999, 999, 999], [999, 80, 97, 101, 105, 109, 112, 109, 154, 144, 136], [999, 110, 105, 101, 99, 144, 125, 133, 115, 999, 999], [999, 116, 119, 126, 116, 999, 999, 999, 999, 999, 999]],
    [[999, 106, 999, 999, 999, 999, 999, 999, 999, 999, 999], [999, 84, 101, 103, 108, 112, 115, 110, 154, 144, 136], [999, 112, 117, 112, 108, 106, 151, 132, 140, 122, 999], [999, 111, 118, 108, 999, 999, 999, 999, 999, 999, 999]],
    [[999, 111, 999, 999, 999, 999, 999, 999, 999, 999, 999], [999, 89, 105, 109, 113, 112, 110, 104, 149, 136, 130], [999, 115, 119, 124, 119, 115, 113, 158, 139, 147, 129], [999, 111, 101, 999, 999, 999, 999, 999, 999, 999, 999]],
    [[999, 110, 999, 999, 999, 999, 999, 999, 999, 999, 999], [999, 113, 115, 118, 116, 115, 111, 104, 149, 137, 131], [999, 107, 118, 122, 127, 122, 118, 116, 161, 142, 150], [999, 94, 999, 999, 999, 999, 999, 999, 999, 999, 999]],
    [[999, 115, 999, 999, 999, 999, 999, 999, 999, 999, 999], [999, 109, 105, 111, 104, 103, 96, 91, 147, 134, 126], [999, 109, 112, 123, 127, 132, 127, 123, 121, 166, 147], [999, 999, 999, 999, 999, 999, 999, 999, 999, 999, 999]]],
   [[[999, 999, 999, 999, 999, 999, 999, 999, 999, 999, 999], [999, 92, 86, 91, 89, 84, 80, 72, 71, 113, 105], [999, 999, 999, 999, 999, 999, 999, 999, 999, 999, 999], [999, 97, 95, 122, 83, 98, 113, 130, 140, 147, 153]],
    [[999, 999, 999, 999, 999, 999, 999, 999, 999, 999, 999], [999, 100, 99, 101, 105, 105, 104, 97, 93, 140, 133], [999, 74, 999, 999, 999, 999, 999, 999, 999, 999, 999], [999, 91, 118, 79, 94, 109, 126, 136, 143, 149, 152]],
    [[999, 999, 999, 999, 999, 999, 999, 999, 999, 999, 999], [999, 110, 106, 105, 103, 102, 100, 97, 88, 142, 134], [999, 95, 76, 999, 999, 999, 999, 999, 999, 999, 999], [999, 115, 76, 91, 106, 123, 133, 140, 146, 149, 139]],
    [[999, 999, 999, 999, 999, 999, 999, 999, 999, 999, 999], [999, 127, 125, 126, 122, 121, 118, 118, 113, 172, 163], [999, 90, 97, 78, 999, 999, 999, 999, 999, 999, 999], [999, 74, 89, 104, 121, 131, 138, 144, 147, 137, 999]],
    [[999, 999, 999, 999, 999, 999, 999, 999, 999, 999, 999], [999, 93, 55, 67, 72, 77, 82, 82, 87, 159, 151], [999, 119, 96, 103, 84, 999, 999, 999, 999, 999, 999], [999, 87, 102, 119, 129, 136, 142, 145, 135, 999, 999]],
    [[999, 999, 999, 999, 999, 999, 999, 999, 999, 999, 999], [999, 98, 63, 76, 81, 84, 88, 89, 94, 168, 159], [999, 79, 126, 103, 110, 91, 999, 999, 999, 999, 999], [999, 96, 113, 123, 130, 136, 139, 129, 999, 999, 999]],
    [[999, 999, 999, 999, 999, 999, 999, 999, 999, 999, 999], [999, 103, 70, 84, 89, 93, 96, 98, 101, 175, 163], [999, 85, 83, 130, 107, 114, 95, 999, 999, 999, 999], [999, 106, 116, 123, 129, 132, 122, 999, 999, 999, 999]],
    [[999, 999, 999, 999, 999, 999, 999, 999, 999, 999, 999], [999, 113, 80, 97, 102, 108, 113, 116, 119, 194, 183], [999, 95, 91, 89, 136, 113, 120, 101, 999, 999, 999], [999, 112, 119, 125, 128, 118, 999, 999, 999, 999, 999]],
    [[999, 999, 999, 999, 999, 999, 999, 999, 999, 999, 999], [999, 104, 85, 102, 106, 110, 114, 117, 114, 159, 149], [999, 107, 100, 96, 94, 141, 118, 125, 106, 999, 999], [999, 113, 119, 122, 112, 999, 999, 999, 999, 999, 999]],
    [[999, 999, 999, 999, 999, 999, 999, 999, 999, 999, 999], [999, 111, 89, 106, 108, 113, 117, 120, 115, 159, 149], [999, 111, 112, 105, 101, 99, 146, 123, 130, 111, 999], [999, 114, 117, 107, 999, 999, 999, 999, 999, 999, 999]],
    [[999, 999, 999, 999, 999, 999, 999, 999, 999, 999, 999], [999, 118, 94, 110, 114, 118, 117, 115, 109, 154, 141], [999, 113, 116, 117, 110, 106, 104, 151, 128, 135, 116], [999, 112, 102, 999, 999, 999, 999, 999, 999, 999, 999]],
    [[999, 999, 999, 999, 999, 999, 999, 999, 999, 999, 999], [999, 119, 116, 118, 121, 119, 118, 114, 107, 152, 140], [999, 112, 116, 119, 120, 113, 109, 107, 154, 131, 138], [999, 97, 999, 999, 999, 999, 999, 999, 999, 999, 999]],
    [[999, 999, 999, 999, 999, 999, 999, 999, 999, 999, 999], [999, 124, 112, 108, 114, 107, 106, 99, 94, 150, 137], [999, 110, 115, 119, 122, 123, 116, 112, 110, 157, 134], [999, 999, 999, 999, 999, 999, 999, 999, 999, 999, 999]]]]

end Day17

namespace Day20

/-- In the `n`-th trigger cycle of the run from the table `g`, an event that carries
`Low` to `rx` comes to the front of the queue: `rx` receives `Low` during that
cycle. -/
def low_at_rx (g : Graph) (n : Nat) : Prop :=
  ∃ k o rest, (Run.steps n k (Run.start g)).i = n ∧
    (Run.steps n k (Run.start g)).sched.q = (o, "rx", Pulse.Low) :: rest

end Day20

namespace Day20

/-! ## A potential that falls with every dispatched event -/

/-- The weight of an event: that of its target for the signal it carries, plus
one. -/
def event_weight (wl wh : String → Nat) (e : Event) : Nat :=
  (if e.2.2 = Pulse.Low then wl e.2.1 else wh e.2.1) + 1

/-- The weight of the events a module sends over its fan-out, for the weights `w`
of the signal sent. -/
def fanout_weight (w : String → Nat) (nx : List String) : Nat :=
  (nx.map (fun out => w out + 1)).sum

/-- The charge of a module: `ph` of its name for a `FlipFlop` that is on, nothing
otherwise. -/
def Module.charge (ph : String → Nat) (k : String) : Module → Nat
  | Module.FlipFlop _ true => ph k
  | _ => 0

/-- The charge of the table. -/
def charge (ph : String → Nat) (g : Graph) : Nat :=
  (g.map (fun p => p.2.charge ph p.1)).sum

/-- What the weights `wl` (of a `Low` event, by target), `wh` (of a `High` event)
and the charges `ph` have to satisfy at the module named `k`: a `Broadcaster`
passes the signal on, so its fan-out weighs at most as much as the event, signal
by signal; a `FlipFlop` that goes on sends `High` and takes up its charge, one
that goes off sends `Low` and gives the charge back; a `Conjuction` may answer
either signal with either signal. -/
def Module.balanced (wl wh ph : String → Nat) (k : String) : Module → Prop
  | Module.Broadcaster nx => fanout_weight wl nx ≤ wl k ∧ fanout_weight wh nx ≤ wh k
  | Module.FlipFlop nx _ =>
    fanout_weight wh nx + ph k ≤ wl k ∧ fanout_weight wl nx ≤ wl k + ph k
  | Module.Conjuction nx _ =>
    fanout_weight wl nx ≤ wl k ∧ fanout_weight wl nx ≤ wh k ∧
      fanout_weight wh nx ≤ wl k ∧ fanout_weight wh nx ≤ wh k

instance (wl wh ph : String → Nat) (k : String) (m : Module) :
    Decidable (Module.balanced wl wh ph k m) := by
  cases m <;> unfold Module.balanced <;> infer_instance

/-- A potential of the table: weights and charges that are balanced at every
module. -/
def balanced (wl wh ph : String → Nat) (g : Graph) : Prop :=
  ∀ p ∈ g, Module.balanced wl wh ph p.1 p.2

instance (wl wh ph : String → Nat) (g : Graph) : Decidable (balanced wl wh ph g) :=
  inferInstanceAs (Decidable (∀ p ∈ g, Module.balanced wl wh ph p.1 p.2))

/-- The potential of a scheduler state: the weight of the queued events and the
charge of the table. -/
def sched_weight (wl wh ph : String → Nat) (s : Sched) : Nat :=
  (s.q.map (event_weight wl wh)).sum + charge ph s.modules

/-- Weights of `Low` events for the five-line example. -/
def example_low (k : String) : Nat :=
  if k = "broadcaster" then 15 else if k = "a" then 3 else if k = "b" then 4
  else if k = "c" then 5 else if k = "inv" then 4 else 0

/-- Weights of `High` events for the five-line example. -/
def example_high (k : String) : Nat :=
  if k = "broadcaster" then 3 else if k = "inv" then 4 else 0

/-- Charges for the five-line example. -/
def example_charge (k : String) : Nat :=
  if k = "a" then 2 else if k = "b" then 2 else 0

end Day20

namespace Day19

/-- A text in which the second comparison of `x` has its bound above the range that
reaches it. -/
def nested_text : String := "in{x<10:a,R}\na{x<20:A,R}\n\n{x=15,m=1,a=1,s=1}"

/-- The workflows of `nested_text`. -/
def nested_workflows : Workflows :=
  [("in", { m_id := "in",
            m_rules := [{ m_c := 'x', m_op := Operation.LT, m_comp := 10,
                          m_res := WorkflowResult.Workflow "a" },
                        { m_c := ' ', m_op := Operation.None, m_comp := 0,
                          m_res := WorkflowResult.Rejected }] }),
   ("a", { m_id := "a",
           m_rules := [{ m_c := 'x', m_op := Operation.LT, m_comp := 20,
                         m_res := WorkflowResult.Accepted },
                       { m_c := ' ', m_op := Operation.None, m_comp := 0,
                         m_res := WorkflowResult.Rejected }] })]

end Day19

/-! ## Theorems -/

namespace Day20

/-! ### The scheduler loop -/

theorem drain_add (k : Nat) : ∀ (fuel : Nat) (s r : Sched),
    drain fuel s = some r → drain (fuel + k) s = some r := by
  intro fuel
  induction fuel with
  | zero =>
    intro s r h
    by_cases hq : s.q = []
    · cases k <;> simp_all [drain]
    · simp [drain, hq] at h
  | succ n ih =>
    intro s r h
    by_cases hq : s.q = []
    · have e : n + 1 + k = (n + k) + 1 := by omega
      rw [e]
      simp_all [drain]
    · have e : n + 1 + k = (n + k) + 1 := by omega
      rw [e]
      simp only [drain, hq, if_false] at h ⊢
      exact ih _ _ h

/-- Claim C1: on the graph parsed from the five-line example, one trigger cycle from
the freshly built state dispatches exactly twelve events (twelve iterations drain
the queue, eleven do not), of which 8 are `Low` and 4 are `High`, and ends with an
empty queue; a larger budget gives the same result, and so does the loop nest run
for one cycle (one step to seed the queue, twelve to drain it). -/
theorem example_one_cycle_counts :
    ∃ g s, parse_input example_text = some g ∧
      trigger_cycle 11 (initial_sched g) = none ∧
      (∀ k, trigger_cycle (12 + k) (initial_sched g) = some s) ∧
      Run.steps 1 13 (Run.start g) = { sched := s, i := 1 } ∧
      s.low = 8 ∧ s.high = 4 ∧ s.low + s.high = 12 ∧ s.q = [] := by
  refine ⟨[("broadcaster", Module.Broadcaster ["a", "b", "c"]),
      ("a", Module.FlipFlop ["b"] false), ("b", Module.FlipFlop ["c"] false),
      ("c", Module.FlipFlop ["inv"] false),
      ("inv", Module.Conjuction ["a"] [("c", Pulse.Low)])],
    { modules := [("broadcaster", Module.Broadcaster ["a", "b", "c"]),
        ("a", Module.FlipFlop ["b"] false), ("b", Module.FlipFlop ["c"] false),
        ("c", Module.FlipFlop ["inv"] false),
        ("inv", Module.Conjuction ["a"] [("c", Pulse.Low)])],
      q := [], low := 8, high := 4 }, by decide, by decide, ?_, by decide, rfl, rfl, rfl, rfl⟩
  intro k
  exact drain_add k 12 _ _ (by decide)

/-! ### Module behaviour -/

/-- Claim C2: a `Conjuction` always returns its fan-out, stores `p` under the sender,
and the returned signal is `Low` exactly when, after that update, every entry of
the memory is `High`; otherwise it is `High`. -/
theorem conjuction_send_spec (nx : List String) (m_inputs : UMap Pulse) (p : Pulse)
    (sender : String) :
    ((Module.Conjuction nx m_inputs).send p sender).2.2 = some nx ∧
    ((Module.Conjuction nx m_inputs).send p sender).1 =
      Module.Conjuction nx (UMap.insert_or_assign m_inputs sender p) ∧
    (((Module.Conjuction nx m_inputs).send p sender).2.1 = Pulse.Low ↔
      ∀ kv ∈ UMap.insert_or_assign m_inputs sender p, kv.2 = Pulse.High) ∧
    (((Module.Conjuction nx m_inputs).send p sender).2.1 = Pulse.High ↔
      ¬ ∀ kv ∈ UMap.insert_or_assign m_inputs sender p, kv.2 = Pulse.High) := by
  have hall : (UMap.insert_or_assign m_inputs sender p).all
      (fun kv => decide (kv.2 = Pulse.High)) = true ↔
      ∀ kv ∈ UMap.insert_or_assign m_inputs sender p, kv.2 = Pulse.High := by
    rw [List.all_eq_true]
    constructor
    · intro h kv hkv
      exact of_decide_eq_true (h kv hkv)
    · intro h kv hkv
      exact decide_eq_true (h kv hkv)
  rw [← hall]
  cases hb : (UMap.insert_or_assign m_inputs sender p).all
      (fun kv => decide (kv.2 = Pulse.High)) <;>
    simp [Module.send, Module.Conjuction_send, hb]

theorem feed_append (m : Module) (xs ys : List (Pulse × String)) :
    feed m (xs ++ ys) = feed (feed m xs) ys := by
  simp [feed, List.foldl_append]

theorem feed_flipflop (nx : List String) (inputs : List (Pulse × String)) :
    feed (Module.FlipFlop nx false) inputs =
      Module.FlipFlop nx (decide (count_low inputs % 2 = 1)) := by
  induction inputs using List.reverseRecOn with
  | nil => simp [feed, count_low]
  | append_singleton xs x ih =>
    rw [feed_append, ih]
    obtain ⟨p, sender⟩ := x
    have hc : count_low (xs ++ [(p, sender)]) =
        count_low xs + (if p = Pulse.Low then 1 else 0) := by
      cases p <;> simp [count_low, List.filter_append]
    rw [hc]
    cases p
    · rcases Nat.mod_two_eq_zero_or_one (count_low xs) with h | h
      · have h2 : (count_low xs + 1) % 2 = 1 := by omega
        simp [feed, Module.send, Module.FlipFlop_send, h, h2]
      · have h2 : (count_low xs + 1) % 2 = 0 := by omega
        simp [feed, Module.send, Module.FlipFlop_send, h, h2]
    · simp [feed, Module.send, Module.FlipFlop_send]

/-- Claim C3: let a `FlipFlop` that starts off receive any sequence `pre` of signals.
A `High` input arriving next leaves the module as it is and returns no fan-out; a
`Low` input arriving next, the k-th `Low` of the whole sequence, returns the
fan-out and the signal `High` when k is odd, `Low` when k is even. -/
theorem flipflop_sequence (nx : List String) (pre : List (Pulse × String))
    (sender : String) :
    ((feed (Module.FlipFlop nx false) pre).send Pulse.High sender).1 =
      feed (Module.FlipFlop nx false) pre ∧
    ((feed (Module.FlipFlop nx false) pre).send Pulse.High sender).2.2 = none ∧
    ((feed (Module.FlipFlop nx false) pre).send Pulse.Low sender).2.2 = some nx ∧
    ((feed (Module.FlipFlop nx false) pre).send Pulse.Low sender).2.1 =
      (if (count_low pre + 1) % 2 = 1 then Pulse.High else Pulse.Low) := by
  rw [feed_flipflop]
  rcases Nat.mod_two_eq_zero_or_one (count_low pre) with h | h
  · have h2 : (count_low pre + 1) % 2 = 1 := by omega
    simp [Module.send, Module.FlipFlop_send, h, h2]
  · have h2 : (count_low pre + 1) % 2 = 0 := by omega
    simp [Module.send, Module.FlipFlop_send, h, h2]

/-- Claim C4: for a `FlipFlop` with state bit `b`, `send(High, _)` returns no fan-out
and keeps the bit; `send(Low, _)` stores the negated bit and returns the fan-out
with `High` when the new bit is set and `Low` when it is not; the sender never
matters. -/
theorem flipflop_send_spec (nx : List String) (b : Bool) (sender other : String)
    (p : Pulse) :
    ((Module.FlipFlop nx b).send Pulse.High sender).2.2 = none ∧
    ((Module.FlipFlop nx b).send Pulse.High sender).1 = Module.FlipFlop nx b ∧
    ((Module.FlipFlop nx b).send Pulse.Low sender).1 = Module.FlipFlop nx (!b) ∧
    ((Module.FlipFlop nx b).send Pulse.Low sender).2 =
      (if (!b) = true then Pulse.High else Pulse.Low, some nx) ∧
    (Module.FlipFlop nx b).send p sender = (Module.FlipFlop nx b).send p other := by
  cases b <;> cases p <;> simp [Module.send, Module.FlipFlop_send]

/-- Claim C5: a `Broadcaster` always returns its whole fan-out together with the very
signal it received, whoever the sender is, and the module is the same afterwards. -/
theorem broadcaster_send_spec (nx : List String) (p : Pulse) (sender : String) :
    (Module.Broadcaster nx).send p sender = (Module.Broadcaster nx, p, some nx) := by
  simp [Module.send, Module.Broadcaster_send]

/-! ### Splitting a rendered line -/

theorem splitGo_ne_nil (sep : List Char) : ∀ (s : List Char) (k : Nat),
    splitGo sep s k ≠ [] := by
  intro s
  induction s with
  | nil => intro k; simp [splitGo]
  | cons c cs ih =>
    intro k
    cases k with
    | succ k => simpa [splitGo] using ih k
    | zero =>
      unfold splitGo
      split
      · simp
      · split <;> simp

theorem splitGo_skip (sep : List Char) (r : List Char) : ∀ l : List Char,
    splitGo sep (l ++ r) l.length = splitGo sep r 0 := by
  intro l
  induction l with
  | nil => simp
  | cons c l ih => simpa [splitGo] using ih

theorem splitGo_sep (x : Char) (sep r : List Char) :
    splitGo (x :: sep) (x :: sep ++ r) 0 = [] :: splitGo (x :: sep) r 0 := by
  have hp : (x :: sep).isPrefixOf (x :: (sep ++ r)) = true := by
    simp [List.isPrefixOf]
  have e : x :: sep ++ r = x :: (sep ++ r) := rfl
  rw [e, splitGo, if_pos hp]
  simpa using splitGo_skip (x :: sep) r sep

theorem splitGo_append (sep r p : List Char) (ps : List (List Char))
    (hr : splitGo sep r 0 = p :: ps) : ∀ a : List Char,
    (∀ u c v, a = u ++ c :: v → sep.isPrefixOf (c :: (v ++ r)) = false) →
    splitGo sep (a ++ r) 0 = (a ++ p) :: ps := by
  intro a
  induction a with
  | nil => intro _; simpa using hr
  | cons c a ih =>
    intro h
    have h0 : sep.isPrefixOf (c :: (a ++ r)) = false := h [] c a rfl
    have ih' := ih (fun u d v e => h (c :: u) d v (by simp [e]))
    have e : c :: a ++ r = c :: (a ++ r) := rfl
    rw [e, splitGo]
    simp [h0, ih']

theorem join_targets_cons (t : String) (ts : List String) (hts : ts ≠ []) :
    join_targets (t :: ts) = t.data ++ comma ++ join_targets ts := by
  cases ts with
  | nil => exact absurd rfl hts
  | cons t2 ts => rfl

theorem join_targets_shape (ts : List String) :
    join_targets ts = [] ∨ ∃ t r, t ∈ ts ∧ join_targets ts = t.data ++ r ∧
      (r = [] ∨ ∃ r', r = ',' :: r') := by
  cases ts with
  | nil => exact Or.inl rfl
  | cons t ts =>
    right
    cases ts with
    | nil => exact ⟨t, [], by simp, by simp [join_targets], Or.inl rfl⟩
    | cons t2 ts =>
      exact ⟨t, comma ++ join_targets (t2 :: ts), by simp, by simp [join_targets],
        Or.inr ⟨' ' :: join_targets (t2 :: ts), rfl⟩⟩

theorem arrow_no_match_head (c : Char) (t : List Char) (hc : c ≠ ' ') :
    arrow.isPrefixOf (c :: t) = false := by
  simp [arrow, List.isPrefixOf, Ne.symm hc]

theorem arrow_no_match_blank (t r : List Char) (ht : ∀ c ∈ t, c ≠ ' ') (hne : t ≠ [])
    (hr : r = [] ∨ ∃ r', r = ',' :: r') :
    arrow.isPrefixOf (' ' :: (t ++ r)) = false := by
  rcases t with _ | ⟨c1, _ | ⟨c2, _ | ⟨c3, t⟩⟩⟩
  · exact absurd rfl hne
  · rcases hr with rfl | ⟨r', rfl⟩ <;> simp [arrow, List.isPrefixOf]
  · rcases hr with rfl | ⟨r', rfl⟩ <;> simp [arrow, List.isPrefixOf]
  · have h3 : c3 ≠ ' ' := ht c3 (by simp)
    simp [arrow, List.isPrefixOf, Ne.symm h3]

theorem comma_no_match (c : Char) (v r : List Char) (hv : ∀ d ∈ v, d ≠ ' ')
    (hr : r = [] ∨ ∃ r', r = ',' :: r') :
    comma.isPrefixOf (c :: (v ++ r)) = false := by
  rcases v with _ | ⟨d, v⟩
  · rcases hr with rfl | ⟨r', rfl⟩ <;> simp [comma, List.isPrefixOf]
  · have hd : d ≠ ' ' := hv d (by simp)
    simp [comma, List.isPrefixOf, Ne.symm hd]

theorem splitGo_arrow_name (t : List Char) (ht : ∀ c ∈ t, c ≠ ' ') :
    splitGo arrow t 0 = [t] := by
  have h := splitGo_append arrow [] [] [] (by simp [splitGo]) t (by
    intro u c v e
    exact arrow_no_match_head c _ (ht c (by simp [e])))
  simpa using h

theorem splitGo_arrow_targets : ∀ ts : List String,
    (∀ t ∈ ts, t.data ≠ [] ∧ blank_free t) →
    splitGo arrow (join_targets ts) 0 = [join_targets ts] := by
  intro ts
  induction ts with
  | nil => intro _; simp [join_targets, splitGo]
  | cons t ts ih =>
    intro h
    cases ts with
    | nil => exact splitGo_arrow_name t.data (h t (by simp)).2
    | cons t2 ts =>
      have ih' := ih (fun x hx => h x (by simp [hx]))
      have hJ : arrow.isPrefixOf (' ' :: join_targets (t2 :: ts)) = false := by
        rcases join_targets_shape (t2 :: ts) with e | ⟨x, r, hx, e, hr⟩
        · rw [e]; simp [arrow, List.isPrefixOf]
        · rw [e]
          have hx' := h x (by simp at hx ⊢; tauto)
          exact arrow_no_match_blank x.data r hx'.2 hx'.1 hr
      have hr : splitGo arrow (comma ++ join_targets (t2 :: ts)) 0 =
          [comma ++ join_targets (t2 :: ts)] := by
        have e : comma ++ join_targets (t2 :: ts) =
            ',' :: ' ' :: join_targets (t2 :: ts) := rfl
        rw [e, splitGo, if_neg (by simp [arrow_no_match_head]), splitGo, if_neg (by simp [hJ]),
          ih']
      have h2 := splitGo_append arrow _ _ _ hr t.data (by
        intro u c v e
        exact arrow_no_match_head c _ ((h t (by simp)).2 c (by simp [e])))
      simpa [join_targets] using h2

theorem splitGo_comma_targets : ∀ ts : List String, ts ≠ [] →
    (∀ t ∈ ts, t.data ≠ [] ∧ blank_free t) →
    splitGo comma (join_targets ts) 0 = ts.map String.data := by
  intro ts
  induction ts with
  | nil => intro h; exact absurd rfl h
  | cons t ts ih =>
    intro _ h
    have ht : ∀ d ∈ t.data, d ≠ ' ' := (h t (by simp)).2
    cases ts with
    | nil =>
      have h2 := splitGo_append comma [] [] [] (by simp [splitGo]) t.data (by
        intro u c v e
        have := comma_no_match c v [] (fun d hd => ht d (by simp [e, hd])) (Or.inl rfl)
        simpa using this)
      simpa [join_targets] using h2
    | cons t2 ts =>
      have ih' := ih (by simp) (fun x hx => h x (by simp [hx]))
      have hr : splitGo comma (comma ++ join_targets (t2 :: ts)) 0 =
          [] :: (t2 :: ts).map String.data := by
        rw [← ih']
        exact splitGo_sep ',' [' '] _
      have h2 := splitGo_append comma _ _ _ hr t.data (by
        intro u c v e
        exact comma_no_match c v _ (fun d hd => ht d (by simp [e, hd]))
          (Or.inr ⟨' ' :: join_targets (t2 :: ts), rfl⟩))
      simpa [join_targets] using h2

theorem split_comma_targets (ts : List String)
    (h : ∀ t ∈ ts, t.data ≠ [] ∧ blank_free t) :
    (split comma (join_targets ts)).map String.mk = ts := by
  cases ts with
  | nil => simp [join_targets, split]
  | cons t ts =>
    have hne : join_targets (t :: ts) ≠ [] := by
      have := (h t (by simp)).1
      cases ts <;> simp [join_targets, this]
    have e : split comma (join_targets (t :: ts)) = splitGo comma (join_targets (t :: ts)) 0 := by
      unfold split
      split
      · next e => exact absurd e hne
      · rfl
    rw [e, splitGo_comma_targets (t :: ts) (by simp) h]
    simp [List.map_map, Function.comp_def]

theorem split_arrow_render (d : Decl) (h : well_formed d) :
    split arrow (render d) = [marker d.kind ++ d.id.data, join_targets d.targets] := by
  have hne : render d ≠ [] := by simp [render, arrow]
  have e : split arrow (render d) = splitGo arrow (render d) 0 := by
    unfold split
    split
    · next e => exact absurd e hne
    · rfl
  have hr : splitGo arrow (arrow ++ join_targets d.targets) 0 =
      [] :: [join_targets d.targets] := by
    rw [← splitGo_arrow_targets d.targets h.2.1]
    exact splitGo_sep ' ' ['-', '>', ' '] _
  have h2 := splitGo_append arrow _ _ _ hr (marker d.kind ++ d.id.data) (by
    intro u c v e
    apply arrow_no_match_head
    have hc : c ∈ marker d.kind ++ d.id.data := by simp [e]
    rcases List.mem_append.1 hc with hm | hi
    · cases hk : d.kind <;> simp [hk, marker] at hm <;> simp [hm]
    · exact h.1 c hi)
  rw [e]
  simpa [render, List.append_assoc] using h2

theorem parse_line_render (g : Graph) (d : Decl) (h : well_formed d) :
    parse_line g (render d) = some (UMap.insert g d.id d.module) := by
  have hs := split_arrow_render d h
  have hc := split_comma_targets d.targets h.2.1
  obtain ⟨kind, id, targets⟩ := d
  cases kind with
  | Relay =>
    have hid := h.2.2 rfl
    have hfront : (render ⟨Kind.Relay, id, targets⟩).head? ≠ some '%' ∧
        (render ⟨Kind.Relay, id, targets⟩).head? ≠ some '&' := by
      rcases hdata : id.data with _ | ⟨c, cs⟩
      · simp [render, marker, hdata, arrow]
      · simpa [render, marker, hdata] using hid
    simp only [parse_line, hs, List.tail_cons, List.head?_cons, hc, List.headD_cons,
      if_neg hfront.1, if_neg hfront.2]
    simp [marker, Decl.module]
  | Toggle =>
    have hfront : (render ⟨Kind.Toggle, id, targets⟩).head? = some '%' := by
      simp [render, marker]
    simp only [parse_line, hs, List.tail_cons, List.head?_cons, hc, List.headD_cons,
      if_pos hfront]
    simp [marker, Decl.module]
  | AllHighGate =>
    have hfront : (render ⟨Kind.AllHighGate, id, targets⟩).head? = some '&' := by
      simp [render, marker]
    have hne : (render ⟨Kind.AllHighGate, id, targets⟩).head? ≠ some '%' := by
      rw [hfront]; decide
    simp only [parse_line, hs, List.tail_cons, List.head?_cons, hc, List.headD_cons,
      if_neg hne, if_pos hfront]
    simp [marker, Decl.module]

theorem parse_lines_render : ∀ (ds : List Decl) (g : Graph),
    (∀ d ∈ ds, well_formed d) →
    parse_lines g (ds.map render) =
      some (ds.foldl (fun g d => UMap.insert g d.id d.module) g) := by
  intro ds
  induction ds with
  | nil => intro g _; simp [parse_lines]
  | cons d ds ih =>
    intro g h
    simp only [List.map_cons, parse_lines, parse_line_render g d (h d (by simp)),
      List.foldl_cons]
    exact ih _ (fun x hx => h x (by simp [hx]))

/-! ### Association lists -/

theorem find_insert_or_assign {V : Type} (key : String) (v : V) : ∀ (m : UMap V) (k : String),
    UMap.find (UMap.insert_or_assign m key v) k =
      if key = k then some v else UMap.find m k := by
  intro m
  induction m with
  | nil => intro k; simp [UMap.insert_or_assign, UMap.find]
  | cons e m ih =>
    intro k
    obtain ⟨a, w⟩ := e
    by_cases h : a = key
    · subst h
      by_cases h2 : a = k <;> simp [UMap.insert_or_assign, UMap.find, h2]
    · by_cases h2 : a = k
      · subst h2
        have h3 : ¬ key = a := fun e => h e.symm
        simp [UMap.insert_or_assign, UMap.find, h, h3]
      · simp [UMap.insert_or_assign, UMap.find, h, h2, ih]

theorem keys_insert_or_assign {V : Type} (key : String) (v : V) : ∀ m : UMap V,
    UMap.keys (UMap.insert_or_assign m key v) =
      if key ∈ UMap.keys m then UMap.keys m else UMap.keys m ++ [key] := by
  intro m
  induction m with
  | nil => simp [UMap.insert_or_assign, UMap.keys]
  | cons e m ih =>
    obtain ⟨a, w⟩ := e
    by_cases h : a = key
    · subst h
      simp [UMap.insert_or_assign, UMap.keys]
    · have h3 : ¬ key = a := fun e => h e.symm
      simp only [UMap.keys] at ih
      by_cases h4 : key ∈ List.map Prod.fst m
      · simp [UMap.insert_or_assign, UMap.keys, h, h3, ih, h4]
      · simp [UMap.insert_or_assign, UMap.keys, h, h3, ih, h4]

theorem find_insert {V : Type} (key : String) (v : V) : ∀ (m : UMap V) (k : String),
    UMap.find (UMap.insert m key v) k =
      match UMap.find m k with
      | some w => some w
      | none => if key = k then some v else none := by
  intro m
  induction m with
  | nil => intro k; simp [UMap.insert, UMap.find]
  | cons e m ih =>
    intro k
    obtain ⟨a, w⟩ := e
    by_cases h : a = key
    · subst h
      by_cases h2 : a = k <;> simp [UMap.insert, UMap.find, h2]
      split <;> simp_all
    · by_cases h2 : a = k
      · subst h2
        simp [UMap.insert, UMap.find, h]
      · simp [UMap.insert, UMap.find, h, h2, ih]

theorem keys_insert {V : Type} (key : String) (v : V) : ∀ m : UMap V,
    UMap.keys (UMap.insert m key v) =
      if key ∈ UMap.keys m then UMap.keys m else UMap.keys m ++ [key] := by
  intro m
  induction m with
  | nil => simp [UMap.insert, UMap.keys]
  | cons e m ih =>
    obtain ⟨a, w⟩ := e
    by_cases h : a = key
    · subst h
      simp [UMap.insert, UMap.keys]
    · have h3 : ¬ key = a := fun e => h e.symm
      simp only [UMap.keys] at ih
      by_cases h4 : key ∈ List.map Prod.fst m
      · simp [UMap.insert, UMap.keys, h, h3, ih, h4]
      · simp [UMap.insert, UMap.keys, h, h3, ih, h4]

theorem insert_of_not_mem {V : Type} (key : String) (v : V) : ∀ m : UMap V,
    key ∉ UMap.keys m → UMap.insert m key v = m ++ [(key, v)] := by
  intro m
  induction m with
  | nil => intro _; simp [UMap.insert]
  | cons e m ih =>
    intro h
    obtain ⟨a, w⟩ := e
    simp only [UMap.keys, List.map_cons, List.mem_cons, not_or] at h
    have h3 : ¬ a = key := fun e => h.1 e.symm
    simp [UMap.insert, h3, ih h.2]

theorem find_eq_none_iff {V : Type} : ∀ (m : UMap V) (k : String),
    UMap.find m k = none ↔ k ∉ UMap.keys m := by
  intro m
  induction m with
  | nil => intro k; simp [UMap.find, UMap.keys]
  | cons e m ih =>
    intro k
    obtain ⟨a, w⟩ := e
    by_cases h : a = k
    · subst h; simp [UMap.find, UMap.keys]
    · have h3 : ¬ k = a := fun e => h e.symm
      simp only [UMap.keys] at ih
      simp [UMap.find, UMap.keys, h, h3, ih]

theorem mem_of_find {V : Type} : ∀ (m : UMap V) (k : String) (v : V),
    UMap.find m k = some v → (k, v) ∈ m := by
  intro m
  induction m with
  | nil => intro k v h; simp [UMap.find] at h
  | cons e m ih =>
    intro k v h
    obtain ⟨a, w⟩ := e
    by_cases h2 : a = k
    · subst h2
      simp [UMap.find] at h
      simp [h]
    · simp [UMap.find, h2] at h
      exact List.mem_cons_of_mem _ (ih k v h)

theorem find_of_mem {V : Type} : ∀ (m : UMap V) (k : String) (v : V),
    (UMap.keys m).Nodup → (k, v) ∈ m → UMap.find m k = some v := by
  intro m
  induction m with
  | nil => intro k v _ h; simp at h
  | cons e m ih =>
    intro k v hn h
    obtain ⟨a, w⟩ := e
    simp only [UMap.keys, List.map_cons, List.nodup_cons] at hn
    rcases List.mem_cons.1 h with h1 | h1
    · cases h1
      simp [UMap.find]
    · have hk : k ∈ List.map Prod.fst m := List.mem_map.2 ⟨(k, v), h1, rfl⟩
      have h2 : ¬ a = k := fun e => hn.1 (e ▸ hk)
      simp only [UMap.find, h2, if_false]
      exact ih k v hn.2 h1

theorem find_map {V : Type} (f : V → V) : ∀ (m : UMap V) (k : String),
    UMap.find (m.map (fun p => (p.1, f p.2))) k = (UMap.find m k).map f := by
  intro m
  induction m with
  | nil => intro k; simp [UMap.find]
  | cons e m ih =>
    intro k
    obtain ⟨a, w⟩ := e
    by_cases h : a = k <;> simp [UMap.find, h, ih]

theorem map_insert_or_assign {V : Type} (f : V → V) (key : String) (v w : V)
    (hf : f w = f v) : ∀ m : UMap V, UMap.find m key = some v →
    (UMap.insert_or_assign m key w).map (fun p => (p.1, f p.2)) =
      m.map (fun p => (p.1, f p.2)) := by
  intro m
  induction m with
  | nil => intro h; simp [UMap.find] at h
  | cons e m ih =>
    intro h
    obtain ⟨a, u⟩ := e
    by_cases h2 : a = key
    · subst h2
      simp [UMap.find] at h
      simp [UMap.insert_or_assign, h, hf]
    · simp [UMap.find, h2] at h
      simp [UMap.insert_or_assign, h2, ih h]

/-! ### The two loops of `parse_input` -/

theorem forget_inputs_m_next (m : Module) : m.forget_inputs.m_next = m.m_next := by
  cases m <;> rfl

theorem forget_state_m_next (m : Module) : m.forget_state.m_next = m.m_next := by
  cases m <;> rfl

theorem connect_all_eq (g : Graph) :
    connect_all g = (edges g).foldl (fun acc e => connect acc e.1 e.2) g := by
  have h : ∀ (l : Graph) (acc : Graph),
      l.foldl (fun g p => p.2.m_next.foldl (fun g m => connect g p.1 m) g) acc =
        (edges l).foldl (fun acc e => connect acc e.1 e.2) acc := by
    intro l
    induction l with
    | nil => intro acc; simp [edges]
    | cons p l ih =>
      intro acc
      simp only [List.foldl_cons, ih]
      simp [edges, List.foldl_append, List.foldl_map]
  exact h g g

theorem unconnected_connect (g : Graph) (s m : String) :
    unconnected (connect g s m) = unconnected g := by
  unfold connect
  split
  · next nx inp h =>
    exact map_insert_or_assign Module.forget_inputs m (Module.Conjuction nx inp)
      (Module.Conjuction nx (Module.add_input inp s)) rfl g h
  · rfl

theorem unconnected_foldl : ∀ (es : List (String × String)) (g : Graph),
    unconnected (es.foldl (fun acc e => connect acc e.1 e.2) g) = unconnected g := by
  intro es
  induction es with
  | nil => intro g; rfl
  | cons e es ih => intro g; simp [List.foldl_cons, ih, unconnected_connect]

theorem unconnected_connect_all (g : Graph) : unconnected (connect_all g) = unconnected g := by
  rw [connect_all_eq, unconnected_foldl]

theorem keys_unconnected (g : Graph) : UMap.keys (unconnected g) = UMap.keys g := by
  simp [unconnected, UMap.keys, Function.comp_def]

theorem keys_wiring (g : Graph) : UMap.keys (wiring g) = UMap.keys g := by
  simp [wiring, UMap.keys, Function.comp_def]

theorem forget_inputs_decl (d : Decl) : d.module.forget_inputs = d.module := by
  obtain ⟨k, i, t⟩ := d
  cases k <;> rfl

theorem parse_line_fresh (g g' : Graph) (line : List Char) (h : parse_line g line = some g') :
    ∃ k m, g' = UMap.insert g k m ∧ m.forget_inputs = m := by
  simp only [parse_line] at h
  split at h
  · simp at h
  · split at h
    · exact ⟨_, _, (Option.some.inj h).symm, rfl⟩
    · split at h
      · exact ⟨_, _, (Option.some.inj h).symm, rfl⟩
      · exact ⟨_, _, (Option.some.inj h).symm, rfl⟩

theorem insert_fresh (g : Graph) (k : String) (m : Module) (hm : m.forget_inputs = m)
    (hg : unconnected g = g) (hn : (UMap.keys g).Nodup) :
    unconnected (UMap.insert g k m) = UMap.insert g k m ∧
      (UMap.keys (UMap.insert g k m)).Nodup := by
  by_cases hk : k ∈ UMap.keys g
  · have e : UMap.insert g k m = g := by
      clear hg hn
      induction g with
      | nil => simp [UMap.keys] at hk
      | cons e g ih =>
        obtain ⟨a, w⟩ := e
        by_cases h : a = k
        · simp [UMap.insert, h]
        · have hk' : k ∈ UMap.keys g := by
            simp only [UMap.keys, List.map_cons, List.mem_cons] at hk
            rcases hk with hk | hk
            · exact absurd hk.symm h
            · exact hk
          simp [UMap.insert, h, ih hk']
    rw [e]; exact ⟨hg, hn⟩
  · rw [insert_of_not_mem k m g hk]
    constructor
    · simp only [unconnected, List.map_append, List.map_cons, List.map_nil, hm]
      simp only [unconnected] at hg
      rw [hg]
    · simp only [UMap.keys, List.map_append, List.map_cons, List.map_nil]
      simp only [UMap.keys] at hk hn
      exact List.Nodup.append hn (List.nodup_singleton k) (by simpa using hk)

theorem parse_lines_fresh : ∀ (ls : List (List Char)) (g g' : Graph),
    parse_lines g ls = some g' → unconnected g = g → (UMap.keys g).Nodup →
    unconnected g' = g' ∧ (UMap.keys g').Nodup := by
  intro ls
  induction ls with
  | nil =>
    intro g g' h hg hn
    simp [parse_lines] at h
    subst h; exact ⟨hg, hn⟩
  | cons l ls ih =>
    intro g g' h hg hn
    simp only [parse_lines] at h
    split at h
    · simp at h
    · next g1 h1 =>
      obtain ⟨k, m, e, hm⟩ := parse_line_fresh g g1 l h1
      subst e
      obtain ⟨a, b⟩ := insert_fresh g k m hm hg hn
      exact ih _ _ h a b

theorem foldl_insert_decls : ∀ (ds : List Decl) (g : Graph),
    (UMap.keys g ++ ds.map Decl.id).Nodup →
    ds.foldl (fun g d => UMap.insert g d.id d.module) g =
      g ++ ds.map (fun d => (d.id, d.module)) := by
  intro ds
  induction ds with
  | nil => intro g _; simp
  | cons d ds ih =>
    intro g h
    have hk : d.id ∉ UMap.keys g := by
      intro hk
      have := (List.nodup_append.1 h).2.2
      exact this hk (by simp)
    simp only [List.foldl_cons, insert_of_not_mem d.id d.module g hk]
    rw [ih]
    · simp
    · simpa [UMap.keys] using h

theorem parse_input_decls (data : String) (ds : List Decl)
    (hlines : lines data.data = ds.map render) (hwf : ∀ d ∈ ds, well_formed d)
    (hid : (ds.map Decl.id).Nodup) :
    ∃ g, parse_input data = some g ∧ UMap.keys g = ds.map Decl.id ∧
      unconnected g = ds.map (fun d => (d.id, d.module)) := by
  have h1 : parse_lines [] (lines data.data) = some (ds.map (fun d => (d.id, d.module))) := by
    rw [hlines, parse_lines_render ds [] hwf, foldl_insert_decls ds [] (by simpa [UMap.keys] using hid)]
    simp
  have hu : unconnected (ds.map (fun d => (d.id, d.module))) =
      ds.map (fun d => (d.id, d.module)) := by
    simp [unconnected, forget_inputs_decl]
  refine ⟨connect_all (ds.map (fun d => (d.id, d.module))), by simp [parse_input, h1], ?_, ?_⟩
  · rw [← keys_unconnected, unconnected_connect_all, hu]
    simp [UMap.keys, Function.comp_def]
  · rw [unconnected_connect_all, hu]

theorem find_decls (g : Graph) (ds : List Decl) (hid : (ds.map Decl.id).Nodup)
    (hg : unconnected g = ds.map (fun d => (d.id, d.module))) (d : Decl) (hd : d ∈ ds) :
    ∃ m, UMap.find g d.id = some m ∧ m.forget_inputs = d.module := by
  have h1 : UMap.find (ds.map (fun d => (d.id, d.module))) d.id = some d.module := by
    apply find_of_mem
    · simpa [UMap.keys, Function.comp_def] using hid
    · exact List.mem_map.2 ⟨d, hd, rfl⟩
  rw [← hg, unconnected, find_map] at h1
  cases hf : UMap.find g d.id with
  | none => simp [hf] at h1
  | some m => exact ⟨m, rfl, by simpa [hf] using h1⟩

/-- Claim C6: when the non-empty lines of the input are the declarations `ds`
(blank-free names, non-empty targets, pairwise distinct identifiers),
`parse_input` returns a table with exactly one module per line, keyed by the
identifier without its marker, whose kind follows the marker (`%` a `FlipFlop`,
`&` a `Conjuction`, none a `Broadcaster`), whose fan-out is the written target
list in order with duplicates kept, and every `FlipFlop` starts off. -/
theorem parse_input_declarations (data : String) (ds : List Decl)
    (hlines : lines data.data = ds.map render) (hwf : ∀ d ∈ ds, well_formed d)
    (hid : (ds.map Decl.id).Nodup) :
    ∃ g, parse_input data = some g ∧ (UMap.keys g).Perm (ds.map Decl.id) ∧
      g.length = ds.length ∧
      ∀ d ∈ ds, ∃ m, UMap.find g d.id = some m ∧ m.m_next = d.targets ∧
        match d.kind with
        | Kind.Relay => m = Module.Broadcaster d.targets
        | Kind.Toggle => m = Module.FlipFlop d.targets false
        | Kind.AllHighGate => ∃ inp, m = Module.Conjuction d.targets inp := by
  obtain ⟨g, hg, hk, hu⟩ := parse_input_decls data ds hlines hwf hid
  refine ⟨g, hg, by rw [hk], ?_, ?_⟩
  · have := congrArg List.length hk
    simpa [UMap.keys] using this
  · intro d hd
    obtain ⟨m, hm, hf⟩ := find_decls g ds hid hu d hd
    refine ⟨m, hm, ?_, ?_⟩
    · rw [← forget_inputs_m_next, hf]
      obtain ⟨k, i, t⟩ := d
      cases k <;> rfl
    · obtain ⟨k, i, t⟩ := d
      cases k <;> cases m <;> simp_all [Decl.module, Module.forget_inputs]

/-- Witness for C6: the five-line example meets the hypotheses. -/
theorem parse_input_declarations_witness :
    lines example_text.data = example_decls.map render ∧
    (∀ d ∈ example_decls, well_formed d) ∧ (example_decls.map Decl.id).Nodup ∧
    ∃ g, parse_input example_text = some g ∧ (UMap.keys g).Perm (example_decls.map Decl.id) ∧
      g.length = example_decls.length ∧
      ∀ d ∈ example_decls, ∃ m, UMap.find g d.id = some m ∧ m.m_next = d.targets ∧
        match d.kind with
        | Kind.Relay => m = Module.Broadcaster d.targets
        | Kind.Toggle => m = Module.FlipFlop d.targets false
        | Kind.AllHighGate => ∃ inp, m = Module.Conjuction d.targets inp :=
  ⟨by decide, by decide, by decide,
    parse_input_declarations example_text example_decls (by decide) (by decide) (by decide)⟩

theorem mem_insert_or_assign {V : Type} (key : String) (v : V) : ∀ (m : UMap V) (kv : String × V),
    kv ∈ UMap.insert_or_assign m key v → kv ∈ m ∨ kv = (key, v) := by
  intro m
  induction m with
  | nil => intro kv h; simpa [UMap.insert_or_assign] using h
  | cons e m ih =>
    intro kv h
    obtain ⟨a, w⟩ := e
    by_cases h2 : a = key
    · subst h2
      simp [UMap.insert_or_assign] at h
      rcases h with h | h
      · exact Or.inr h
      · exact Or.inl (List.mem_cons_of_mem _ h)
    · simp [UMap.insert_or_assign, h2] at h
      rcases h with h | h
      · exact Or.inl (by simp [h])
      · rcases ih kv h with h | h
        · exact Or.inl (List.mem_cons_of_mem _ h)
        · exact Or.inr h

theorem memories_connect (g : Graph) (visited : List (String × String)) (s m : String)
    (h : memories_hold g visited) : memories_hold (connect g s m) (visited ++ [(s, m)]) := by
  intro G nx' inp' hG
  unfold connect at hG
  split at hG
  · next nx inp hm =>
    rw [find_insert_or_assign] at hG
    by_cases e : m = G
    · subst e
      simp only [if_true, Option.some.injEq, Module.Conjuction.injEq] at hG
      obtain ⟨h1, h2, h3⟩ := h m nx inp hm
      obtain ⟨rfl, rfl⟩ := hG
      have hk := keys_insert_or_assign s Pulse.Low inp
      refine ⟨?_, ?_, ?_⟩
      · intro s'
        simp only [Module.add_input, hk]
        by_cases hs : s ∈ UMap.keys inp
        · simp only [hs, if_true, List.mem_append, List.mem_singleton, Prod.mk.injEq, and_true]
          rw [h1 s']
          constructor
          · exact Or.inl
          · rintro (h | h)
            · exact h
            · rw [h]; exact (h1 s).1 hs
        · simp [hs, h1 s']
      · intro kv hkv
        rcases mem_insert_or_assign s Pulse.Low inp kv hkv with h | h
        · exact h2 kv h
        · rw [h]
      · simp only [Module.add_input, hk]
        by_cases hs : s ∈ UMap.keys inp
        · simpa [hs] using h3
        · simp only [hs, if_false]
          exact List.Nodup.append h3 (List.nodup_singleton s) (by simpa using hs)
    · simp only [e, if_false] at hG
      obtain ⟨h1, h2, h3⟩ := h G nx' inp' hG
      refine ⟨?_, h2, h3⟩
      intro s'
      have e' : ¬ G = m := fun x => e x.symm
      simp [h1 s', e']
  · next hm =>
    have e : ¬ G = m := by
      intro e
      subst e
      exact hm nx' inp' hG
    obtain ⟨h1, h2, h3⟩ := h G nx' inp' hG
    refine ⟨?_, h2, h3⟩
    intro s'
    simp [h1 s', e]

theorem memories_foldl : ∀ (es visited : List (String × String)) (g : Graph),
    memories_hold g visited →
    memories_hold (es.foldl (fun acc e => connect acc e.1 e.2) g) (visited ++ es) := by
  intro es
  induction es with
  | nil => intro visited g h; simpa using h
  | cons e es ih =>
    intro visited g h
    have := ih (visited ++ [e]) _ (memories_connect g visited e.1 e.2 h)
    simpa using this

theorem mem_edges (g : Graph) (s G : String) :
    (s, G) ∈ edges g ↔ ∃ m, (s, m) ∈ g ∧ G ∈ m.m_next := by
  simp only [edges, List.mem_flatMap, List.mem_map, Prod.mk.injEq]
  constructor
  · rintro ⟨⟨k, m⟩, hp, t, ht, rfl, rfl⟩
    exact ⟨m, hp, ht⟩
  · rintro ⟨m, hp, ht⟩
    exact ⟨(s, m), hp, G, ht, rfl, rfl⟩

theorem parse_input_shape (data : String) (g : Graph) (h : parse_input data = some g) :
    ∃ g1, g = connect_all g1 ∧ unconnected g1 = g1 ∧ (UMap.keys g1).Nodup := by
  unfold parse_input at h
  split at h
  · simp at h
  · next g1 h1 =>
    obtain ⟨a, b⟩ := parse_lines_fresh _ [] g1 h1 rfl (by simp [UMap.keys])
    exact ⟨g1, (Option.some.inj h).symm, a, b⟩

theorem memories_parse_input (data : String) (g : Graph) (h : parse_input data = some g) :
    ∀ G nx inp, UMap.find g G = some (Module.Conjuction nx inp) →
      (∀ s, s ∈ UMap.keys inp ↔ ∃ m, UMap.find g s = some m ∧ G ∈ m.m_next) ∧
      (∀ kv ∈ inp, kv.2 = Pulse.Low) ∧ (UMap.keys inp).Nodup := by
  obtain ⟨g1, rfl, hu, hn⟩ := parse_input_shape data g h
  have h0 : memories_hold g1 [] := by
    intro G nx inp hG
    have := find_map Module.forget_inputs g1 G
    rw [show g1.map (fun p => (p.1, p.2.forget_inputs)) = g1 from hu, hG] at this
    simp [Module.forget_inputs] at this
    subst this
    simp [UMap.keys]
  have h1 := memories_foldl (edges g1) [] g1 h0
  rw [← connect_all_eq, List.nil_append] at h1
  intro G nx inp hG
  obtain ⟨a, b, c⟩ := h1 G nx inp hG
  refine ⟨?_, b, c⟩
  intro s
  rw [a s, mem_edges]
  have hf : UMap.find g1 s = (UMap.find (connect_all g1) s).map Module.forget_inputs := by
    rw [← find_map, ← unconnected, unconnected_connect_all, hu]
  constructor
  · rintro ⟨m, hm, ht⟩
    have h2 := find_of_mem g1 s m hn hm
    rw [hf] at h2
    cases hc : UMap.find (connect_all g1) s with
    | none => simp [hc] at h2
    | some m' =>
      simp [hc] at h2
      exact ⟨m', rfl, by rw [← forget_inputs_m_next, h2]; exact ht⟩
  · rintro ⟨m, hm, ht⟩
    rw [hm] at hf
    exact ⟨m.forget_inputs, mem_of_find g1 s _ hf, by rw [forget_inputs_m_next]; exact ht⟩

/-- Claim C7: after `parse_input` returns, the memory of every `Conjuction` G of the
table has as keys exactly the identifiers of the declared modules whose fan-out
contains G (each once), and every stored value is `Low`. -/
theorem parse_input_memories (data : String) (g : Graph) (h : parse_input data = some g)
    (G : String) (nx : List String) (inp : UMap Pulse)
    (hG : UMap.find g G = some (Module.Conjuction nx inp)) :
    (∀ s, s ∈ UMap.keys inp ↔ ∃ m, UMap.find g s = some m ∧ G ∈ m.m_next) ∧
    (∀ kv ∈ inp, kv.2 = Pulse.Low) ∧ (UMap.keys inp).Nodup :=
  memories_parse_input data g h G nx inp hG

/-- Witness for C7: a `Conjuction` with two senders. -/
theorem parse_input_memories_witness :
    parse_input two_sender_text = some two_sender_graph ∧
    UMap.find two_sender_graph "con" =
      some (Module.Conjuction ["out"] [("a", Pulse.Low), ("b", Pulse.Low)]) ∧
    (∀ s, s ∈ UMap.keys [("a", Pulse.Low), ("b", Pulse.Low)] ↔
        ∃ m, UMap.find two_sender_graph s = some m ∧ "con" ∈ m.m_next) ∧
    (∀ kv ∈ [("a", Pulse.Low), ("b", Pulse.Low)], kv.2 = Pulse.Low) ∧
    (UMap.keys [("a", Pulse.Low), ("b", Pulse.Low)]).Nodup :=
  ⟨by decide, by decide,
    parse_input_memories two_sender_text two_sender_graph (by decide) "con" ["out"]
      [("a", Pulse.Low), ("b", Pulse.Low)] (by decide)⟩

/-! ### What dispatching leaves fixed -/

theorem send_fanout (m : Module) (p : Pulse) (o : String) (l : List String)
    (h : (m.send p o).2.2 = some l) : l = m.m_next := by
  cases m with
  | Broadcaster nx => simpa [Module.send, Module.Broadcaster_send, Module.m_next, eq_comm] using h
  | FlipFlop nx b =>
    cases p <;> simp [Module.send, Module.FlipFlop_send, Module.m_next] at h ⊢
    exact h.symm
  | Conjuction nx inp =>
    simp only [Module.send, Module.Conjuction_send] at h
    split at h <;> simpa [Module.m_next, eq_comm] using h

theorem send_forget_state (m : Module) (p : Pulse) (o : String) :
    (m.send p o).1.forget_state = m.forget_state := by
  cases m with
  | Broadcaster nx => rfl
  | FlipFlop nx b => cases p <;> simp [Module.send, Module.FlipFlop_send, Module.forget_state]
  | Conjuction nx inp =>
    simp only [Module.send, Module.Conjuction_send]
    split <;> rfl

theorem dispatch_nil (s : Sched) (hq : s.q = []) : dispatch s = s := by
  simp only [dispatch, hq]

theorem dispatch_none (s : Sched) (o t : String) (p : Pulse) (rest : List Event)
    (hq : s.q = (o, t, p) :: rest) (hm : UMap.find s.modules t = none) :
    dispatch s = { modules := s.modules, q := rest,
                   low := if p = Pulse.Low then incr s.low else s.low,
                   high := if p = Pulse.Low then s.high else incr s.high } := by
  simp only [dispatch, hq, hm]

theorem dispatch_some (s : Sched) (o t : String) (p : Pulse) (rest : List Event) (m : Module)
    (hq : s.q = (o, t, p) :: rest) (hm : UMap.find s.modules t = some m) :
    dispatch s = { modules := UMap.insert_or_assign s.modules t (m.send p o).1,
                   q := match (m.send p o).2.2 with
                     | some targets_out =>
                       rest ++ targets_out.map (fun out => (t, out, (m.send p o).2.1))
                     | none => rest,
                   low := if p = Pulse.Low then incr s.low else s.low,
                   high := if p = Pulse.Low then s.high else incr s.high } := by
  simp only [dispatch, hq, hm]

theorem dispatch_cases (s : Sched) :
    s.q = [] ∨ (∃ o t p rest, s.q = (o, t, p) :: rest ∧ UMap.find s.modules t = none) ∨
    ∃ o t p rest m, s.q = (o, t, p) :: rest ∧ UMap.find s.modules t = some m := by
  rcases hq : s.q with _ | ⟨⟨o, t, p⟩, rest⟩
  · exact Or.inl rfl
  · right
    cases hm : UMap.find s.modules t with
    | none => exact Or.inl ⟨o, t, p, rest, rfl, hm⟩
    | some m => exact Or.inr ⟨o, t, p, rest, m, rfl, hm⟩

theorem wiring_dispatch (s : Sched) : wiring (dispatch s).modules = wiring s.modules := by
  rcases dispatch_cases s with hq | ⟨o, t, p, rest, hq, hm⟩ | ⟨o, t, p, rest, m, hq, hm⟩
  · rw [dispatch_nil s hq]
  · rw [dispatch_none s o t p rest hq hm]
  · rw [dispatch_some s o t p rest m hq hm]
    exact map_insert_or_assign Module.forget_state t m _ (send_forget_state m p o) _ hm

theorem wiring_step (cycles : Nat) (r : Run) :
    wiring (Run.step cycles r).sched.modules = wiring r.sched.modules := by
  unfold Run.step
  split
  · exact wiring_dispatch _
  · split <;> rfl

theorem wiring_steps (cycles : Nat) : ∀ (k : Nat) (r : Run),
    wiring (Run.steps cycles k r).sched.modules = wiring r.sched.modules := by
  intro k
  induction k with
  | zero => intro r; rfl
  | succ k ih => intro r; rw [Run.steps, ih, wiring_step]

theorem forget_values_m_next (m : Module) : m.forget_values.m_next = m.m_next := by
  cases m <;> rfl

theorem keys_reset (inp : UMap Pulse) :
    UMap.keys (inp.map (fun kv => (kv.1, Pulse.Low))) = UMap.keys inp := by
  simp [UMap.keys, Function.comp_def]

theorem forget_values_conj (m : Module) (nx : List String) (inp : UMap Pulse)
    (h : m.forget_values = (Module.Conjuction nx inp).forget_values) :
    ∃ inp', m = Module.Conjuction nx inp' ∧ UMap.keys inp' = UMap.keys inp := by
  cases m with
  | Broadcaster nx' => simp [Module.forget_values] at h
  | FlipFlop nx' b => simp [Module.forget_values] at h
  | Conjuction nx' inp' =>
    simp only [Module.forget_values, Module.Conjuction.injEq] at h
    refine ⟨inp', by rw [h.1], ?_⟩
    rw [← keys_reset inp', h.2, keys_reset]

theorem send_forget_values (m : Module) (p : Pulse) (o : String)
    (h : ∀ nx inp, m = Module.Conjuction nx inp → o ∈ UMap.keys inp) :
    (m.send p o).1.forget_values = m.forget_values := by
  cases m with
  | Broadcaster nx => rfl
  | FlipFlop nx b => cases p <;> simp [Module.send, Module.FlipFlop_send, Module.forget_values]
  | Conjuction nx inp =>
    have ho := h nx inp rfl
    have hf : ∃ v, UMap.find inp o = some v := by
      cases hv : UMap.find inp o with
      | none => exact absurd ho ((find_eq_none_iff inp o).1 hv)
      | some v => exact ⟨v, rfl⟩
    obtain ⟨v, hv⟩ := hf
    have hmap := map_insert_or_assign (fun _ => Pulse.Low) o v p rfl inp hv
    simp only [Module.send, Module.Conjuction_send]
    split <;> simp only [Module.forget_values, hmap]

theorem find_layout (a b : Graph) (h : layout a = layout b) (k : String) (m : Module)
    (hm : UMap.find a k = some m) :
    ∃ m', UMap.find b k = some m' ∧ m'.forget_values = m.forget_values := by
  have h1 := find_map Module.forget_values a k
  have h2 := find_map Module.forget_values b k
  rw [show a.map (fun p => (p.1, p.2.forget_values)) = layout a from rfl, h, hm] at h1
  rw [show b.map (fun p => (p.1, p.2.forget_values)) = layout b from rfl, h1] at h2
  cases hb : UMap.find b k with
  | none => simp [hb] at h2
  | some m' => exact ⟨m', rfl, by simpa [hb] using h2.symm⟩

theorem layout_dispatch (g : Graph) (s : Sched)
    (hg : ∀ G nx inp, UMap.find g G = some (Module.Conjuction nx inp) →
      ∀ x, x ∈ UMap.keys inp ↔ ∃ m, UMap.find g x = some m ∧ G ∈ m.m_next)
    (hl : layout s.modules = layout g) (hq : queue_known g s.q) :
    layout (dispatch s).modules = layout g ∧ queue_known g (dispatch s).q := by
  rcases dispatch_cases s with h0 | ⟨o, t, p, rest, h0, hm⟩ | ⟨o, t, p, rest, m, h0, hm⟩
  · rw [dispatch_nil s h0]; exact ⟨hl, hq⟩
  · rw [dispatch_none s o t p rest h0 hm]
    refine ⟨hl, ?_⟩
    intro e he
    exact hq e (by rw [h0]; exact List.mem_cons_of_mem _ he)
  · rw [dispatch_some s o t p rest m h0 hm]
    obtain ⟨m0, hm0, hfv⟩ := find_layout s.modules g hl t m hm
    have hkey : ∀ nx inp, m = Module.Conjuction nx inp → o ∈ UMap.keys inp := by
      intro nx inp e
      subst e
      obtain ⟨inp0, e0, hk⟩ := forget_values_conj m0 nx inp hfv
      subst e0
      have := hq (o, t, p) (by rw [h0]; simp) nx inp0 hm0
      rw [← hk]; exact this
    refine ⟨?_, ?_⟩
    · rw [← hl]
      exact map_insert_or_assign Module.forget_values t m _ (send_forget_values m p o hkey) _ hm
    · have hrest : queue_known g rest := by
        intro e he
        exact hq e (by rw [h0]; exact List.mem_cons_of_mem _ he)
      cases hout : (m.send p o).2.2 with
      | none => exact hrest
      | some l =>
        have hl' := send_fanout m p o l hout
        intro e he
        rcases List.mem_append.1 he with he | he
        · exact hrest e he
        · obtain ⟨out, hmem, rfl⟩ := List.mem_map.1 he
          intro nx inp hfind
          refine (hg out nx inp hfind t).2 ⟨m0, hm0, ?_⟩
          rw [← forget_values_m_next m0, hfv, forget_values_m_next, ← hl']
          exact hmem

theorem layout_steps (g : Graph) (cycles : Nat)
    (hg : ∀ G nx inp, UMap.find g G = some (Module.Conjuction nx inp) →
      ∀ x, x ∈ UMap.keys inp ↔ ∃ m, UMap.find g x = some m ∧ G ∈ m.m_next)
    (hb : ∀ nx inp, UMap.find g "broadcaster" = some (Module.Conjuction nx inp) →
      "initial" ∈ UMap.keys inp) :
    ∀ (k : Nat) (r : Run), layout r.sched.modules = layout g → queue_known g r.sched.q →
      layout (Run.steps cycles k r).sched.modules = layout g ∧
      queue_known g (Run.steps cycles k r).sched.q := by
  intro k
  induction k with
  | zero => intro r hl hq; exact ⟨hl, hq⟩
  | succ k ih =>
    intro r hl hq
    rw [Run.steps]
    have hstep : layout (Run.step cycles r).sched.modules = layout g ∧
        queue_known g (Run.step cycles r).sched.q := by
      unfold Run.step
      split
      · exact layout_dispatch g r.sched hg hl hq
      · split
        · refine ⟨hl, ?_⟩
          intro e he nx inp hf
          simp only [List.mem_singleton] at he
          subst he
          exact hb nx inp hf
        · exact ⟨hl, hq⟩
    exact ih _ hstep.1 hstep.2

/-- Counterexample to C8 as stated: with the entry point declared as a `Conjuction`
that nothing wires into, its memory is empty after `parse_input`, and the seed
event of the first trigger cycle adds the key `initial`, no declared module. -/
theorem memory_key_added_by_seed :
    parse_input gate_entry_text = some [("broadcaster", Module.Conjuction ["a"] [])] ∧
    UMap.find [("broadcaster", Module.Conjuction ["a"] [])] "initial" = none ∧
    (Run.steps 1 2 (Run.start [("broadcaster", Module.Conjuction ["a"] [])])).sched.modules =
      [("broadcaster", Module.Conjuction ["a"] [("initial", Pulse.Low)])] := by
  decide

/-- Claim C8 (amended): for a table built by `parse_input` in which `broadcaster`
is not a `Conjuction` lacking the key `initial`, at every point of a run of any
number of trigger cycles every `Conjuction` is still a `Conjuction` with the same
fan-out and the same keys in its memory as when the table was built, and these
keys are exactly the identifiers of the modules whose fan-out contains it. -/
theorem memory_keys_fixed (data : String) (g : Graph) (h : parse_input data = some g)
    (hb : ∀ nx inp, UMap.find g "broadcaster" = some (Module.Conjuction nx inp) →
      "initial" ∈ UMap.keys inp)
    (cycles k : Nat) :
    (∀ G nx inp, UMap.find g G = some (Module.Conjuction nx inp) →
      ∃ inp', UMap.find (Run.steps cycles k (Run.start g)).sched.modules G =
        some (Module.Conjuction nx inp') ∧ UMap.keys inp' = UMap.keys inp) ∧
    (∀ G nx inp', UMap.find (Run.steps cycles k (Run.start g)).sched.modules G =
        some (Module.Conjuction nx inp') →
      (∃ inp, UMap.find g G = some (Module.Conjuction nx inp) ∧
        UMap.keys inp' = UMap.keys inp) ∧
      ∀ s, s ∈ UMap.keys inp' ↔
        ∃ m, UMap.find (Run.steps cycles k (Run.start g)).sched.modules s = some m ∧
          G ∈ m.m_next) := by
  have hg := fun G nx inp hG => (memories_parse_input data g h G nx inp hG).1
  have hq0 : queue_known g (Run.start g).sched.q := by
    intro e he
    simp [Run.start, initial_sched] at he
  obtain ⟨hl, _⟩ := layout_steps g cycles hg hb k (Run.start g) rfl hq0
  constructor
  · intro G nx inp hG
    obtain ⟨m', hm', hfv⟩ := find_layout g _ hl.symm G _ hG
    obtain ⟨inp', e, hk⟩ := forget_values_conj m' nx inp hfv
    subst e
    exact ⟨inp', hm', hk⟩
  · intro G nx inp' hG
    obtain ⟨m0, hm0, hfv⟩ := find_layout _ g hl G _ hG
    obtain ⟨inp, e, hk⟩ := forget_values_conj m0 nx inp' hfv
    subst e
    refine ⟨⟨inp, hm0, hk.symm⟩, ?_⟩
    intro s
    rw [← hk, hg G nx inp hm0 s]
    constructor
    · rintro ⟨m, hm, ht⟩
      obtain ⟨m', hm', hfv'⟩ := find_layout g _ hl.symm s m hm
      exact ⟨m', hm', by rw [← forget_values_m_next, hfv', forget_values_m_next]; exact ht⟩
    · rintro ⟨m, hm, ht⟩
      obtain ⟨m', hm', hfv'⟩ := find_layout _ g hl s m hm
      exact ⟨m', hm', by rw [← forget_values_m_next, hfv', forget_values_m_next]; exact ht⟩

/-- Witness for C8: the table with a two-sender `Conjuction`, seven steps into a run. -/
theorem memory_keys_fixed_witness :
    parse_input two_sender_text = some two_sender_graph ∧
    (∀ nx inp, UMap.find two_sender_graph "broadcaster" = some (Module.Conjuction nx inp) →
      "initial" ∈ UMap.keys inp) ∧
    ((∀ G nx inp, UMap.find two_sender_graph G = some (Module.Conjuction nx inp) →
      ∃ inp', UMap.find (Run.steps 1000 7 (Run.start two_sender_graph)).sched.modules G =
        some (Module.Conjuction nx inp') ∧ UMap.keys inp' = UMap.keys inp) ∧
    (∀ G nx inp', UMap.find (Run.steps 1000 7 (Run.start two_sender_graph)).sched.modules G =
        some (Module.Conjuction nx inp') →
      (∃ inp, UMap.find two_sender_graph G = some (Module.Conjuction nx inp) ∧
        UMap.keys inp' = UMap.keys inp) ∧
      ∀ s, s ∈ UMap.keys inp' ↔
        ∃ m, UMap.find (Run.steps 1000 7 (Run.start two_sender_graph)).sched.modules s =
          some m ∧ G ∈ m.m_next)) :=
  ⟨by decide, fun nx inp hf => by simp [two_sender_graph, UMap.find] at hf,
    memory_keys_fixed two_sender_text two_sender_graph (by decide)
      (fun nx inp hf => by simp [two_sender_graph, UMap.find] at hf) 1000 7⟩

/-! ### Undeclared targets -/

/-- Claim C9: a target that no line declares is no error. When the non-empty lines
are well-formed declarations, `parse_input` returns a table, the undeclared
target `t` has no entry in it and stays in the fan-out of the module that lists
it; and at any point of a run, when the front event is addressed to `t`, the
loop iteration pops it, counts it as `Low` or `High` (an increment of the
`size_t` counter), leaves the module table as it is and appends no event. -/
theorem undeclared_target_sink (data : String) (ds : List Decl)
    (hlines : lines data.data = ds.map render) (hwf : ∀ d ∈ ds, well_formed d)
    (hid : (ds.map Decl.id).Nodup) (d : Decl) (hd : d ∈ ds) (t : String)
    (ht : t ∈ d.targets) (hu : t ∉ ds.map Decl.id) :
    ∃ g, parse_input data = some g ∧ UMap.find g t = none ∧
      (∃ m, UMap.find g d.id = some m ∧ t ∈ m.m_next) ∧
      ∀ (cycles k : Nat) (origin : String) (pulse : Pulse) (rest : List Event),
        (Run.steps cycles k (Run.start g)).sched.q = (origin, t, pulse) :: rest →
        dispatch (Run.steps cycles k (Run.start g)).sched =
          { modules := (Run.steps cycles k (Run.start g)).sched.modules,
            q := rest,
            low := if pulse = Pulse.Low then incr (Run.steps cycles k (Run.start g)).sched.low
              else (Run.steps cycles k (Run.start g)).sched.low,
            high := if pulse = Pulse.Low then (Run.steps cycles k (Run.start g)).sched.high
              else incr (Run.steps cycles k (Run.start g)).sched.high } := by
  obtain ⟨g, hg, hk, hun⟩ := parse_input_decls data ds hlines hwf hid
  have hnone : UMap.find g t = none := (find_eq_none_iff g t).2 (by rw [hk]; exact hu)
  refine ⟨g, hg, hnone, ?_, ?_⟩
  · obtain ⟨m, hm, hf⟩ := find_decls g ds hid hun d hd
    refine ⟨m, hm, ?_⟩
    rw [← forget_inputs_m_next, hf]
    obtain ⟨kd, i, ts⟩ := d
    cases kd <;> exact ht
  · intro cycles k origin pulse rest hq
    have hw := wiring_steps cycles k (Run.start g)
    have hkeys : UMap.keys (Run.steps cycles k (Run.start g)).sched.modules = UMap.keys g := by
      have := congrArg UMap.keys hw
      rw [keys_wiring, keys_wiring] at this
      exact this
    have hn : UMap.find (Run.steps cycles k (Run.start g)).sched.modules t = none :=
      (find_eq_none_iff _ t).2 (by rw [hkeys, hk]; exact hu)
    exact dispatch_none _ origin t pulse rest hq hn

/-- Witness for C9: in `two_sender_text` the target `out` of `con` is never declared. -/
theorem undeclared_target_sink_witness :
    lines two_sender_text.data = two_sender_decls.map render ∧
    (∀ d ∈ two_sender_decls, well_formed d) ∧ (two_sender_decls.map Decl.id).Nodup ∧
    (⟨Kind.AllHighGate, "con", ["out"]⟩ : Decl) ∈ two_sender_decls ∧
    "out" ∉ two_sender_decls.map Decl.id ∧
    ∃ g, parse_input two_sender_text = some g ∧ UMap.find g "out" = none ∧
      (∃ m, UMap.find g "con" = some m ∧ "out" ∈ m.m_next) ∧
      ∀ (cycles k : Nat) (origin : String) (pulse : Pulse) (rest : List Event),
        (Run.steps cycles k (Run.start g)).sched.q = (origin, "out", pulse) :: rest →
        dispatch (Run.steps cycles k (Run.start g)).sched =
          { modules := (Run.steps cycles k (Run.start g)).sched.modules,
            q := rest,
            low := if pulse = Pulse.Low then incr (Run.steps cycles k (Run.start g)).sched.low
              else (Run.steps cycles k (Run.start g)).sched.low,
            high := if pulse = Pulse.Low then (Run.steps cycles k (Run.start g)).sched.high
              else incr (Run.steps cycles k (Run.start g)).sched.high } :=
  ⟨by decide, by decide, by decide, by decide, by decide,
    undeclared_target_sink two_sender_text two_sender_decls (by decide) (by decide) (by decide)
      ⟨Kind.AllHighGate, "con", ["out"]⟩ (by decide) "out" (by decide) (by decide)⟩

/-! ### Lines without a proper separator -/

theorem splitGo_of_infix (x : Char) (sep : List Char) : ∀ l : List Char,
    (x :: sep) <:+: l → ∃ a b rest, splitGo (x :: sep) l 0 = a :: b :: rest := by
  intro l
  induction l with
  | nil => intro h; simp at h
  | cons c cs ih =>
    intro h
    rw [splitGo]
    by_cases hp : (x :: sep).isPrefixOf (c :: cs) = true
    · rw [if_pos hp]
      rcases hs : splitGo (x :: sep) cs ((x :: sep).length - 1) with _ | ⟨b, rest⟩
      · exact absurd hs (splitGo_ne_nil _ _ _)
      · exact ⟨[], b, rest, rfl⟩
    · rw [if_neg hp]
      have hin : (x :: sep) <:+: cs := by
        rcases List.infix_cons_iff.1 h with h1 | h1
        · exact absurd (List.isPrefixOf_iff_prefix.2 h1) hp
        · exact h1
      obtain ⟨a, b, rest, e⟩ := ih hin
      exact ⟨c :: a, b, rest, by rw [e]⟩

theorem parse_line_of_arrow (g : Graph) (l : List Char) (h : arrow <:+: l) :
    ∃ g', parse_line g l = some g' := by
  obtain ⟨a, b, rest, e⟩ := splitGo_of_infix ' ' ['-', '>', ' '] l h
  have hne : l ≠ [] := by
    rintro rfl
    simp [arrow] at h
  have hs : split arrow l = a :: b :: rest := by
    cases l with
    | nil => exact absurd rfl hne
    | cons c cs => exact e
  simp only [parse_line, hs, List.tail_cons, List.head?_cons]
  split
  · exact ⟨_, rfl⟩
  · split
    · exact ⟨_, rfl⟩
    · exact ⟨_, rfl⟩

theorem parse_lines_of_arrow : ∀ (ls : List (List Char)) (g : Graph),
    (∀ l ∈ ls, arrow <:+: l) → ∃ g', parse_lines g ls = some g' := by
  intro ls
  induction ls with
  | nil => intro g _; exact ⟨g, rfl⟩
  | cons l ls ih =>
    intro g h
    obtain ⟨g1, h1⟩ := parse_line_of_arrow g l (h l (by simp))
    obtain ⟨g2, h2⟩ := ih g1 (fun x hx => h x (by simp [hx]))
    exact ⟨g2, by simp only [parse_lines, h1, h2]⟩

/-- Counterexample to C10 as stated: the only line of `two_arrow_text` is not empty
and splitting it at `" -> "` gives three pieces, not an identifier and a target
list; `parse_input` reports nothing and returns a table in which `a` has the
fan-out `[b]`. -/
theorem two_arrow_line_accepted :
    (∃ l ∈ lines two_arrow_text.data, l ≠ [] ∧ (split arrow l).length ≠ 2) ∧
    parse_input two_arrow_text = some [("a", Module.Broadcaster ["b"])] := by
  decide

/-- Claim C10 (amended): `parse_input` has no error result; whenever every non-empty
line contains the separator `" -> "` at least once it returns a table. -/
theorem parse_input_total_with_arrows (data : String)
    (h : ∀ l ∈ lines data.data, arrow <:+: l) : ∃ g, parse_input data = some g := by
  obtain ⟨g1, h1⟩ := parse_lines_of_arrow (lines data.data) [] h
  exact ⟨connect_all g1, by simp [parse_input, h1]⟩

/-- Witness for C10: every line of `two_arrow_text` contains the separator. -/
theorem parse_input_total_with_arrows_witness :
    (∀ l ∈ lines two_arrow_text.data, arrow <:+: l) ∧
    ∃ g, parse_input two_arrow_text = some g :=
  ⟨by decide, parse_input_total_with_arrows two_arrow_text (by decide)⟩

/-! ### The queue discipline -/

theorem dispatch_queue (s : Sched) (o t : String) (p : Pulse) (rest : List Event)
    (hq : s.q = (o, t, p) :: rest) :
    (dispatch s).q = rest ++
      match UMap.find s.modules t with
      | none => []
      | some m =>
        match (m.send p o).2.2 with
        | none => []
        | some _ => m.m_next.map (fun out => (t, out, (m.send p o).2.1)) := by
  cases hm : UMap.find s.modules t with
  | none => simp [dispatch_none s o t p rest hq hm]
  | some m =>
    rw [dispatch_some s o t p rest m hq hm]
    cases hout : (m.send p o).2.2 with
    | none => simp [hout]
    | some l => simp [hout, send_fanout m p o l hout]

theorem dispatched_front : ∀ (pre post : List Event) (s : Sched),
    s.q = pre ++ post → dispatched pre.length s = pre := by
  intro pre
  induction pre with
  | nil => intro post s _; rfl
  | cons e pre ih =>
    intro post s hq
    obtain ⟨o, t, p⟩ := e
    have hq' : s.q = (o, t, p) :: (pre ++ post) := by simpa using hq
    have hd := dispatch_queue s o t p (pre ++ post) hq'
    rw [List.append_assoc] at hd
    simp only [List.length_cons, dispatched, hq']
    rw [ih _ (dispatch s) hd]

/-- Claim C11: the inner loop works the queue first in, first out. The events it
pops next are the queued events in the order they stand in the queue; and one
iteration removes the front event `(o, t, p)` and appends, when `t` names a
module that returns its fan-out, one event `(t, out, signal)` for every entry
`out` of that fan-out, in fan-out order and once per duplicate; when the
module returns no fan-out, or `t` names no module, it appends nothing. -/
theorem dispatch_fifo (s : Sched) (o t : String) (p : Pulse) (rest : List Event)
    (hq : s.q = (o, t, p) :: rest) :
    dispatched s.q.length s = s.q ∧
    (UMap.find s.modules t = none → (dispatch s).q = rest) ∧
    (∀ m, UMap.find s.modules t = some m →
      ((m.send p o).2.2 = none → (dispatch s).q = rest) ∧
      ((m.send p o).2.2 ≠ none →
        (dispatch s).q = rest ++ m.m_next.map (fun out => (t, out, (m.send p o).2.1)))) := by
  have hd := dispatch_queue s o t p rest hq
  refine ⟨dispatched_front s.q [] s (by simp), ?_, ?_⟩
  · intro hm
    simpa [hm] using hd
  · intro m hm
    constructor
    · intro hn
      simpa [hm, hn] using hd
    · intro hn
      cases hout : (m.send p o).2.2 with
      | none => exact absurd hout hn
      | some l => simpa [hm, hout] using hd

/-- Witness for C11: the front event of the example after the seed has been
dispatched, addressed to the flip-flop `a`. -/
theorem dispatch_fifo_witness :
    (dispatch (seeded (initial_sched example_graph))).q =
      ("broadcaster", "a", Pulse.Low) ::
        [("broadcaster", "b", Pulse.Low), ("broadcaster", "c", Pulse.Low)] ∧
    (dispatched (dispatch (seeded (initial_sched example_graph))).q.length
        (dispatch (seeded (initial_sched example_graph))) =
      (dispatch (seeded (initial_sched example_graph))).q ∧
    (UMap.find (dispatch (seeded (initial_sched example_graph))).modules "a" = none →
      (dispatch (dispatch (seeded (initial_sched example_graph)))).q =
        [("broadcaster", "b", Pulse.Low), ("broadcaster", "c", Pulse.Low)]) ∧
    (∀ m, UMap.find (dispatch (seeded (initial_sched example_graph))).modules "a" = some m →
      ((m.send Pulse.Low "broadcaster").2.2 = none →
        (dispatch (dispatch (seeded (initial_sched example_graph)))).q =
          [("broadcaster", "b", Pulse.Low), ("broadcaster", "c", Pulse.Low)]) ∧
      ((m.send Pulse.Low "broadcaster").2.2 ≠ none →
        (dispatch (dispatch (seeded (initial_sched example_graph)))).q =
          [("broadcaster", "b", Pulse.Low), ("broadcaster", "c", Pulse.Low)] ++
            m.m_next.map (fun out => ("a", out, (m.send Pulse.Low "broadcaster").2.1))))) :=
  ⟨by decide, dispatch_fifo _ "broadcaster" "a" Pulse.Low
    [("broadcaster", "b", Pulse.Low), ("broadcaster", "c", Pulse.Low)] (by decide)⟩

/-! ### Counters, iterations and whole cycles -/

theorem incr_lt (n : Nat) : incr n < 2 ^ 64 := by
  unfold incr
  exact Nat.mod_lt _ (by norm_num)

theorem dispatch_low (s : Sched) :
    (dispatch s).low =
      match s.q with
      | [] => s.low
      | e :: _ => if e.2.2 = Pulse.Low then incr s.low else s.low := by
  rcases dispatch_cases s with hq | ⟨o, t, p, rest, hq, hm⟩ | ⟨o, t, p, rest, m, hq, hm⟩
  · rw [dispatch_nil s hq, hq]
  · rw [dispatch_none s o t p rest hq hm, hq]
  · rw [dispatch_some s o t p rest m hq hm, hq]

theorem dispatch_high (s : Sched) :
    (dispatch s).high =
      match s.q with
      | [] => s.high
      | e :: _ => if e.2.2 = Pulse.Low then s.high else incr s.high := by
  rcases dispatch_cases s with hq | ⟨o, t, p, rest, hq, hm⟩ | ⟨o, t, p, rest, m, hq, hm⟩
  · rw [dispatch_nil s hq, hq]
  · rw [dispatch_none s o t p rest hq hm, hq]
  · rw [dispatch_some s o t p rest m hq hm, hq]

theorem dispatch_core (s s' : Sched) (hm : s.modules = s'.modules) (hq : s.q = s'.q) :
    (dispatch s).modules = (dispatch s').modules ∧ (dispatch s).q = (dispatch s').q := by
  rcases dispatch_cases s with h0 | ⟨o, t, p, rest, h0, h1⟩ | ⟨o, t, p, rest, m, h0, h1⟩
  · rw [dispatch_nil s h0, dispatch_nil s' (hq ▸ h0)]
    exact ⟨hm, hq⟩
  · rw [dispatch_none s o t p rest h0 h1, dispatch_none s' o t p rest (hq ▸ h0) (hm ▸ h1)]
    exact ⟨hm, rfl⟩
  · rw [dispatch_some s o t p rest m h0 h1, dispatch_some s' o t p rest m (hq ▸ h0) (hm ▸ h1)]
    exact ⟨by rw [hm], rfl⟩

theorem dispatch_shift (cl ch : Nat) (s s' : Sched) (hm : s.modules = s'.modules)
    (hq : s.q = s'.q) (hl : s.low = (cl + s'.low) % 2 ^ 64)
    (hh : s.high = (ch + s'.high) % 2 ^ 64) :
    (dispatch s).modules = (dispatch s').modules ∧ (dispatch s).q = (dispatch s').q ∧
    (dispatch s).low = (cl + (dispatch s').low) % 2 ^ 64 ∧
    (dispatch s).high = (ch + (dispatch s').high) % 2 ^ 64 := by
  obtain ⟨a, b⟩ := dispatch_core s s' hm hq
  refine ⟨a, b, ?_, ?_⟩
  · rw [dispatch_low, dispatch_low, ← hq]
    cases s.q with
    | nil => exact hl
    | cons e r =>
      by_cases hp : e.2.2 = Pulse.Low
      · simp only [hp, if_true, incr, hl]
        omega
      · simp only [hp, if_false]
        exact hl
  · rw [dispatch_high, dispatch_high, ← hq]
    cases s.q with
    | nil => exact hh
    | cons e r =>
      by_cases hp : e.2.2 = Pulse.Low
      · simp only [hp, if_true]
        exact hh
      · simp only [hp, if_false, incr, hh]
        omega

theorem dispatch_n_shift (cl ch : Nat) : ∀ (k : Nat) (s s' : Sched),
    s.modules = s'.modules → s.q = s'.q → s.low = (cl + s'.low) % 2 ^ 64 →
    s.high = (ch + s'.high) % 2 ^ 64 →
    (dispatch_n k s).modules = (dispatch_n k s').modules ∧
    (dispatch_n k s).q = (dispatch_n k s').q ∧
    (dispatch_n k s).low = (cl + (dispatch_n k s').low) % 2 ^ 64 ∧
    (dispatch_n k s).high = (ch + (dispatch_n k s').high) % 2 ^ 64 := by
  intro k
  induction k with
  | zero => intro s s' hm hq hl hh; exact ⟨hm, hq, hl, hh⟩
  | succ k ih =>
    intro s s' hm hq hl hh
    obtain ⟨a, b, c, d⟩ := dispatch_shift cl ch s s' hm hq hl hh
    exact ih _ _ a b c d

theorem dispatch_n_zeroed (k : Nat) (s : Sched) (hl : s.low < 2 ^ 64) (hh : s.high < 2 ^ 64) :
    dispatch_n k s =
      { modules := (dispatch_n k (zeroed s)).modules, q := (dispatch_n k (zeroed s)).q,
        low := (s.low + (dispatch_n k (zeroed s)).low) % 2 ^ 64,
        high := (s.high + (dispatch_n k (zeroed s)).high) % 2 ^ 64 } := by
  obtain ⟨a, b, c, d⟩ := dispatch_n_shift s.low s.high k s (zeroed s) rfl rfl
    (by simp only [zeroed, Nat.add_zero]; exact (Nat.mod_eq_of_lt hl).symm)
    (by simp only [zeroed, Nat.add_zero]; exact (Nat.mod_eq_of_lt hh).symm)
  cases hs : dispatch_n k s with
  | mk m q l h =>
    rw [hs] at a b c d
    simp only at a b c d
    rw [a, b, c, d]

theorem dispatch_n_add (a : Nat) : ∀ (b : Nat) (s : Sched),
    dispatch_n (a + b) s = dispatch_n b (dispatch_n a s) := by
  induction a with
  | zero => intro b s; simp [dispatch_n]
  | succ a ih =>
    intro b s
    have e : a + 1 + b = (a + b) + 1 := by omega
    rw [e, dispatch_n, dispatch_n, ih]

theorem dispatch_n_empty : ∀ (k : Nat) (s : Sched), s.q = [] → dispatch_n k s = s := by
  intro k
  induction k with
  | zero => intro s _; rfl
  | succ k ih =>
    intro s h
    rw [dispatch_n, dispatch_nil s h, ih s h]

theorem steps_dispatch (cycles : Nat) : ∀ (n : Nat) (s : Sched) (i : Nat),
    (dispatch_n n s).q ≠ [] →
    Run.steps cycles (n + 1) { sched := s, i := i } = { sched := dispatch_n (n + 1) s, i := i } := by
  intro n
  induction n with
  | zero =>
    intro s i h
    have h' : s.q ≠ [] := h
    simp [Run.steps, Run.step, h', dispatch_n]
  | succ n ih =>
    intro s i h
    have hq : s.q ≠ [] := by
      intro e
      rw [dispatch_n_empty _ s e] at h
      exact h e
    have h2 : (dispatch_n n (dispatch s)).q ≠ [] := h
    rw [Run.steps, dispatch_n]
    have e : Run.step cycles { sched := s, i := i } = { sched := dispatch s, i := i } := by
      simp [Run.step, hq]
    rw [e]
    exact ih (dispatch s) i h2

theorem steps_add (cycles a : Nat) : ∀ (b : Nat) (r : Run),
    Run.steps cycles (a + b) r = Run.steps cycles b (Run.steps cycles a r) := by
  induction a with
  | zero => intro b r; simp [Run.steps]
  | succ a ih =>
    intro b r
    have e : a + 1 + b = (a + b) + 1 := by omega
    rw [e, Run.steps, Run.steps, ih]

theorem steps_cycle (cycles n : Nat) (s : Sched) (i : Nat) (hq : s.q = []) (hi : i < cycles)
    (hn : (dispatch_n n (seeded s)).q ≠ []) :
    Run.steps cycles (n + 2) { sched := s, i := i } =
      { sched := dispatch_n (n + 1) (seeded s), i := i + 1 } := by
  have e : n + 2 = (n + 1) + 1 := rfl
  rw [e, Run.steps]
  have e1 : Run.step cycles { sched := s, i := i } = { sched := seeded s, i := i + 1 } := by
    simp [Run.step, hq, hi, seeded]
  rw [e1]
  exact steps_dispatch cycles n (seeded s) (i + 1) hn

theorem step_low (cycles : Nat) (r : Run) :
    (Run.step cycles r).sched.low =
      match r.sched.q with
      | [] => r.sched.low
      | e :: _ => if e.2.2 = Pulse.Low then incr r.sched.low else r.sched.low := by
  unfold Run.step
  cases hq : r.sched.q with
  | nil =>
    simp only [ne_eq, not_true_eq_false, if_false]
    split <;> rfl
  | cons e rest =>
    simp only [ne_eq, not_false_eq_true, if_true, reduceCtorEq]
    rw [dispatch_low, hq]

theorem step_high (cycles : Nat) (r : Run) :
    (Run.step cycles r).sched.high =
      match r.sched.q with
      | [] => r.sched.high
      | e :: _ => if e.2.2 = Pulse.Low then r.sched.high else incr r.sched.high := by
  unfold Run.step
  cases hq : r.sched.q with
  | nil =>
    simp only [ne_eq, not_true_eq_false, if_false]
    split <;> rfl
  | cons e rest =>
    simp only [ne_eq, not_false_eq_true, if_true, reduceCtorEq]
    rw [dispatch_high, hq]

theorem count_pulse_cons (p : Pulse) (e : Event) (es : List Event) :
    count_pulse p (e :: es) = (if e.2.2 = p then 1 else 0) + count_pulse p es := by
  unfold count_pulse
  by_cases h : e.2.2 = p <;> simp [List.filter_cons, h]
  omega

theorem steps_low (cycles : Nat) : ∀ (k : Nat) (r : Run), r.sched.low < 2 ^ 64 →
    (Run.steps cycles k r).sched.low =
      (r.sched.low + count_pulse Pulse.Low (Run.trace cycles k r)) % 2 ^ 64 := by
  intro k
  induction k with
  | zero =>
    intro r h
    simp only [Run.steps, Run.trace, count_pulse, List.filter_nil, List.length_nil, Nat.add_zero]
    exact (Nat.mod_eq_of_lt h).symm
  | succ k ih =>
    intro r h
    have hs := step_low cycles r
    rw [Run.steps, Run.trace]
    cases hq : r.sched.q with
    | nil =>
      rw [hq] at hs
      simp only at hs ⊢
      rw [ih _ (by rw [hs]; exact h), hs]
    | cons e rest =>
      rw [hq] at hs
      simp only at hs ⊢
      by_cases hp : e.2.2 = Pulse.Low
      · simp only [hp, if_true] at hs
        rw [ih _ (by rw [hs]; exact incr_lt _), hs, count_pulse_cons, incr]
        simp only [hp, if_true]
        omega
      · simp only [hp, if_false] at hs
        rw [ih _ (by rw [hs]; exact h), hs, count_pulse_cons]
        simp only [hp, if_false]
        omega

theorem steps_high (cycles : Nat) : ∀ (k : Nat) (r : Run), r.sched.high < 2 ^ 64 →
    (Run.steps cycles k r).sched.high =
      (r.sched.high + count_pulse Pulse.High (Run.trace cycles k r)) % 2 ^ 64 := by
  intro k
  induction k with
  | zero =>
    intro r h
    simp only [Run.steps, Run.trace, count_pulse, List.filter_nil, List.length_nil, Nat.add_zero]
    exact (Nat.mod_eq_of_lt h).symm
  | succ k ih =>
    intro r h
    have hs := step_high cycles r
    rw [Run.steps, Run.trace]
    cases hq : r.sched.q with
    | nil =>
      rw [hq] at hs
      simp only at hs ⊢
      rw [ih _ (by rw [hs]; exact h), hs]
    | cons e rest =>
      rw [hq] at hs
      simp only at hs ⊢
      by_cases hp : e.2.2 = Pulse.Low
      · have hp' : ¬ e.2.2 = Pulse.High := by rw [hp]; decide
        simp only [hp, if_true] at hs
        rw [ih _ (by rw [hs]; exact h), hs, count_pulse_cons]
        simp only [hp', if_false]
        omega
      · have hp' : e.2.2 = Pulse.High := by
          cases hc : e.2.2 with
          | Low => exact absurd hc hp
          | High => rfl
        simp only [hp, if_false] at hs
        rw [ih _ (by rw [hs]; exact incr_lt _), hs, count_pulse_cons, incr]
        simp only [hp', if_true]
        omega

theorem cycle_transfer (cycles n : Nat) (g g' : Graph) (a b l h i : Nat)
    (hl : l < 2 ^ 64) (hh : h < 2 ^ 64) (hi : i < cycles)
    (hrun : dispatch_n (n + 1) { modules := g, q := [seed], low := 0, high := 0 } =
      { modules := g', q := [], low := a, high := b })
    (hne : (dispatch_n n { modules := g, q := [seed], low := 0, high := 0 }).q ≠ []) :
    Run.steps cycles (n + 2) { sched := { modules := g, q := [], low := l, high := h }, i := i } =
      { sched := { modules := g', q := [], low := (l + a) % 2 ^ 64, high := (h + b) % 2 ^ 64 },
        i := i + 1 } := by
  have hz : zeroed (seeded { modules := g, q := [], low := l, high := h }) =
      { modules := g, q := [seed], low := 0, high := 0 } := rfl
  have hne' : (dispatch_n n (seeded { modules := g, q := [], low := l, high := h })).q ≠ [] := by
    rw [dispatch_n_zeroed n _ hl hh, hz]
    exact hne
  rw [steps_cycle cycles n _ i rfl hi hne', dispatch_n_zeroed (n + 1) _ hl hh, hz, hrun]
  rfl

theorem block_repeat (cycles K c a b : Nat) (g : Graph)
    (hblock : ∀ l h i, l < 2 ^ 64 → h < 2 ^ 64 → i + c ≤ cycles →
      Run.steps cycles K { sched := { modules := g, q := [], low := l, high := h }, i := i } =
        { sched := { modules := g, q := [], low := (l + a) % 2 ^ 64, high := (h + b) % 2 ^ 64 },
          i := i + c }) :
    ∀ j, c * j ≤ cycles →
      Run.steps cycles (K * j) (Run.start g) =
        { sched := { modules := g, q := [], low := (a * j) % 2 ^ 64, high := (b * j) % 2 ^ 64 },
          i := c * j } := by
  intro j
  induction j with
  | zero => intro _; simp [Run.steps, Run.start, initial_sched]
  | succ j ih =>
    intro hj
    have hj' : c * j ≤ cycles := by
      have : c * j ≤ c * (j + 1) := Nat.mul_le_mul_left c (Nat.le_succ j)
      omega
    have e : K * (j + 1) = K * j + K := by ring
    rw [e, steps_add, ih hj', hblock _ _ _ (Nat.mod_lt _ (by norm_num)) (Nat.mod_lt _ (by norm_num))
      (by have : c * (j + 1) = c * j + c := by ring
          omega)]
    have e1 : (a * j % 2 ^ 64 + a) % 2 ^ 64 = a * (j + 1) % 2 ^ 64 := by
      have : a * (j + 1) = a * j + a := by ring
      rw [this]
      omega
    have e2 : (b * j % 2 ^ 64 + b) % 2 ^ 64 = b * (j + 1) % 2 ^ 64 := by
      have : b * (j + 1) = b * j + b := by ring
      rw [this]
      omega
    have e3 : c * j + c = c * (j + 1) := by ring
    rw [e1, e2, e3]

theorem steps_halted (cycles : Nat) : ∀ (k : Nat) (r : Run), r.sched.q = [] → r.i = cycles →
    Run.steps cycles k r = r := by
  intro k
  induction k with
  | zero => intro r _ _; rfl
  | succ k ih =>
    intro r hq hi
    have e : Run.step cycles r = r := by
      simp [Run.step, hq, hi]
    rw [Run.steps, e]
    exact ih r hq hi

theorem part_one_add (fuel k : Nat) (g : Graph) (v : Nat) (g' : Graph)
    (h : part_one fuel g = some (v, g')) : part_one (fuel + k) g = some (v, g') := by
  unfold part_one at h ⊢
  simp only at h ⊢
  split at h
  · next hc =>
    rw [steps_add, steps_halted 1000 k _ hc.1 hc.2, if_pos hc]
    exact h
  · simp at h

theorem example_steps (j : Nat) (hj : j ≤ 1000) :
    Run.steps 1000 (13 * j) (Run.start example_graph) =
      { sched := { modules := example_graph, q := [], low := (8 * j) % 2 ^ 64,
                   high := (4 * j) % 2 ^ 64 },
        i := j } := by
  have h := block_repeat 1000 13 1 8 4 example_graph (by
    intro l h i hl hh hi
    exact cycle_transfer 1000 11 example_graph example_graph 8 4 l h i hl hh (by omega)
      (by decide) (by decide)) j (by omega)
  simpa using h

theorem part_one_example : part_one 13000 example_graph = some (32000000, example_graph) := by
  have h := example_steps 1000 (le_refl _)
  unfold part_one
  simp only [show 13 * 1000 = 13000 from rfl] at h
  rw [h]
  decide

/-! ### A wide fan-out: counting beyond the range of `size_t` products -/

theorem dispatch_n_low : ∀ (k : Nat) (s : Sched), s.low < 2 ^ 64 →
    (dispatch_n k s).low = (s.low + count_pulse Pulse.Low (dispatched k s)) % 2 ^ 64 := by
  intro k
  induction k with
  | zero =>
    intro s h
    simp only [dispatch_n, dispatched, count_pulse, List.filter_nil, List.length_nil, Nat.add_zero]
    exact (Nat.mod_eq_of_lt h).symm
  | succ k ih =>
    intro s h
    have hs := dispatch_low s
    rw [dispatch_n, dispatched]
    cases hq : s.q with
    | nil =>
      rw [dispatch_nil s hq, dispatch_n_empty k s hq]
      simp only [count_pulse, List.filter_nil, List.length_nil, Nat.add_zero]
      exact (Nat.mod_eq_of_lt h).symm
    | cons e rest =>
      rw [hq] at hs
      simp only at hs ⊢
      by_cases hp : e.2.2 = Pulse.Low
      · simp only [hp, if_true] at hs
        rw [ih _ (by rw [hs]; exact incr_lt _), hs, count_pulse_cons, incr]
        simp only [hp, if_true]
        omega
      · simp only [hp, if_false] at hs
        rw [ih _ (by rw [hs]; exact h), hs, count_pulse_cons]
        simp only [hp, if_false]
        omega

theorem dispatch_n_high : ∀ (k : Nat) (s : Sched), s.high < 2 ^ 64 →
    (dispatch_n k s).high = (s.high + count_pulse Pulse.High (dispatched k s)) % 2 ^ 64 := by
  intro k
  induction k with
  | zero =>
    intro s h
    simp only [dispatch_n, dispatched, count_pulse, List.filter_nil, List.length_nil, Nat.add_zero]
    exact (Nat.mod_eq_of_lt h).symm
  | succ k ih =>
    intro s h
    have hs := dispatch_high s
    rw [dispatch_n, dispatched]
    cases hq : s.q with
    | nil =>
      rw [dispatch_nil s hq, dispatch_n_empty k s hq]
      simp only [count_pulse, List.filter_nil, List.length_nil, Nat.add_zero]
      exact (Nat.mod_eq_of_lt h).symm
    | cons e rest =>
      rw [hq] at hs
      simp only at hs ⊢
      by_cases hp : e.2.2 = Pulse.Low
      · have hp' : ¬ e.2.2 = Pulse.High := by rw [hp]; decide
        simp only [hp, if_true] at hs
        rw [ih _ (by rw [hs]; exact h), hs, count_pulse_cons]
        simp only [hp', if_false]
        omega
      · have hp' : e.2.2 = Pulse.High := by
          cases hc : e.2.2 with
          | Low => exact absurd hc hp
          | High => rfl
        simp only [hp, if_false] at hs
        rw [ih _ (by rw [hs]; exact incr_lt _), hs, count_pulse_cons, incr]
        simp only [hp', if_true]
        omega

theorem dispatched_add (a : Nat) : ∀ (b : Nat) (s : Sched),
    dispatched (a + b) s = dispatched a s ++ dispatched b (dispatch_n a s) := by
  induction a with
  | zero => intro b s; simp [dispatched, dispatch_n]
  | succ a ih =>
    intro b s
    have e : a + 1 + b = (a + b) + 1 := by omega
    rw [e, dispatched, dispatched, dispatch_n]
    cases hq : s.q with
    | nil =>
      rw [dispatch_nil s hq, dispatch_n_empty a s hq]
      cases b with
      | zero => rfl
      | succ b => simp [dispatched, hq]
    | cons e rest =>
      simp only [List.cons_append]
      rw [ih]

theorem emitted_length : ∀ (k : Nat) (b : Bool), (emitted k b).length = k := by
  intro k
  induction k with
  | zero => intro b; rfl
  | succ k ih => intro b; simp [emitted, ih]

theorem wide_broadcast (n : Nat) (b : Bool) (s : Sched) (hm : s.modules = wide_graph n b)
    (hq : s.q = [seed]) :
    (dispatch s).modules = wide_graph n b ∧
    (dispatch s).q = List.replicate n ("broadcaster", "x", Pulse.Low) := by
  have hf : UMap.find s.modules "broadcaster" =
      some (Module.Broadcaster (List.replicate n "x")) := by
    rw [hm]; simp [wide_graph, UMap.find]
  rw [dispatch_some s "initial" "broadcaster" Pulse.Low [] _ (by rw [hq]; rfl) hf]
  constructor
  · rw [hm]
    simp [wide_graph, UMap.insert_or_assign, Module.send, Module.Broadcaster_send]
  · simp [Module.send, Module.Broadcaster_send]

theorem wide_toggle : ∀ (k n : Nat) (b : Bool) (tail : List Event) (s : Sched),
    s.modules = wide_graph n b →
    s.q = List.replicate k ("broadcaster", "x", Pulse.Low) ++ tail →
    (dispatch_n k s).modules = wide_graph n (if k % 2 = 1 then !b else b) ∧
    (dispatch_n k s).q = tail ++ emitted k b := by
  intro k
  induction k with
  | zero =>
    intro n b tail s hm hq
    simpa [dispatch_n, emitted, hm] using hq
  | succ k ih =>
    intro n b tail s hm hq
    have hq' : s.q = ("broadcaster", "x", Pulse.Low) ::
        (List.replicate k ("broadcaster", "x", Pulse.Low) ++ tail) := by
      rw [hq, List.replicate_succ]; rfl
    have hf : UMap.find s.modules "x" = some (Module.FlipFlop ["o"] b) := by
      rw [hm]; simp [wide_graph, UMap.find]
    have hd := dispatch_some s "broadcaster" "x" Pulse.Low _ _ hq' hf
    have hm2 : (dispatch s).modules = wide_graph n (!b) := by
      rw [hd, hm]
      simp [wide_graph, UMap.insert_or_assign, Module.send, Module.FlipFlop_send]
    have hq2 : (dispatch s).q = List.replicate k ("broadcaster", "x", Pulse.Low) ++
        (tail ++ [("x", "o", if (!b) = true then Pulse.High else Pulse.Low)]) := by
      rw [hd]
      simp [Module.send, Module.FlipFlop_send]
    obtain ⟨a, c⟩ := ih n (!b) _ (dispatch s) hm2 hq2
    rw [dispatch_n]
    constructor
    · rw [a]
      rcases Nat.mod_two_eq_zero_or_one k with h | h
      · have h2 : (k + 1) % 2 = 1 := by omega
        simp [h, h2]
      · have h2 : (k + 1) % 2 = 0 := by omega
        simp [h, h2]
    · rw [c]
      simp [emitted]

theorem sink_events (g : Graph) : ∀ (evs tail : List Event) (s : Sched),
    s.modules = g → s.q = evs ++ tail → (∀ e ∈ evs, UMap.find g e.2.1 = none) →
    (dispatch_n evs.length s).modules = g ∧ (dispatch_n evs.length s).q = tail := by
  intro evs
  induction evs with
  | nil => intro tail s hm hq _; exact ⟨hm, by simpa using hq⟩
  | cons e evs ih =>
    intro tail s hm hq h
    obtain ⟨o, t, p⟩ := e
    have hn : UMap.find s.modules t = none := by
      rw [hm]; exact h (o, t, p) (by simp)
    have hd := dispatch_none s o t p (evs ++ tail) (by simpa using hq) hn
    simp only [List.length_cons, dispatch_n]
    exact ih tail (dispatch s) (by rw [hd]; exact hm) (by rw [hd])
      (fun x hx => h x (List.mem_cons_of_mem _ hx))

theorem emitted_target : ∀ (k : Nat) (b : Bool), ∀ e ∈ emitted k b, e.2.1 = "o" := by
  intro k
  induction k with
  | zero => intro b e h; simp [emitted] at h
  | succ k ih =>
    intro b e h
    simp only [emitted, List.mem_cons] at h
    rcases h with h | h
    · rw [h]
    · exact ih _ e h

theorem emitted_counts : ∀ m : Nat,
    count_pulse Pulse.Low (emitted (2 * m) false) = m ∧
    count_pulse Pulse.High (emitted (2 * m) false) = m := by
  intro m
  induction m with
  | zero => simp [emitted, count_pulse]
  | succ m ih =>
    have e : 2 * (m + 1) = (2 * m + 1) + 1 := by ring
    rw [e, emitted, emitted, count_pulse_cons, count_pulse_cons, count_pulse_cons,
      count_pulse_cons]
    simp only [Bool.not_false, Bool.not_true, if_true]
    obtain ⟨a, b⟩ := ih
    rw [a, b]
    simp
    omega

theorem count_pulse_append (p : Pulse) (xs ys : List Event) :
    count_pulse p (xs ++ ys) = count_pulse p xs + count_pulse p ys := by
  simp [count_pulse, List.filter_append]

theorem count_pulse_replicate (n : Nat) :
    count_pulse Pulse.Low (List.replicate n ("broadcaster", "x", Pulse.Low)) = n ∧
    count_pulse Pulse.High (List.replicate n ("broadcaster", "x", Pulse.Low)) = 0 := by
  induction n with
  | zero => simp [count_pulse]
  | succ n ih =>
    rw [List.replicate_succ, count_pulse_cons, count_pulse_cons, ih.1, ih.2]
    simp
    omega

theorem sched_eq (s : Sched) (m : Graph) (q : List Event) (l h : Nat) (hm : s.modules = m)
    (hq : s.q = q) (hl : s.low = l) (hh : s.high = h) :
    s = { modules := m, q := q, low := l, high := h } := by
  cases s
  simp_all

theorem trace_length_le (cycles : Nat) : ∀ (k : Nat) (r : Run),
    (Run.trace cycles k r).length ≤ k := by
  intro k
  induction k with
  | zero => intro r; simp [Run.trace]
  | succ k ih =>
    intro r
    rw [Run.trace]
    split
    · exact Nat.le_succ_of_le (ih _)
    · simpa using ih _

theorem count_pulse_le (p : Pulse) (es : List Event) : count_pulse p es ≤ es.length := by
  unfold count_pulse
  exact List.length_filter_le _ _

theorem wide_cycle (m : Nat) (hm : 0 < m) :
    dispatch_n (4 * m + 1)
        { modules := wide_graph (2 * m) false, q := [seed], low := 0, high := 0 } =
      { modules := wide_graph (2 * m) false, q := [], low := (3 * m + 1) % 2 ^ 64,
        high := m % 2 ^ 64 } ∧
    (dispatch_n (4 * m)
        { modules := wide_graph (2 * m) false, q := [seed], low := 0, high := 0 }).q ≠ [] := by
  obtain ⟨a1, b1⟩ := wide_broadcast (2 * m) false
    { modules := wide_graph (2 * m) false, q := [seed], low := 0, high := 0 } rfl rfl
  have h1 : dispatch_n 1 { modules := wide_graph (2 * m) false, q := [seed], low := 0, high := 0 } =
      dispatch { modules := wide_graph (2 * m) false, q := [seed], low := 0, high := 0 } := rfl
  obtain ⟨a2, b2⟩ := wide_toggle (2 * m) (2 * m) false [] _ a1 (by rw [b1]; simp)
  have hev : (2 * m) % 2 = 0 := by omega
  simp only [hev, List.nil_append] at a2 b2
  have a2' : (dispatch_n (2 * m) (dispatch
      { modules := wide_graph (2 * m) false, q := [seed], low := 0, high := 0 })).modules =
      wide_graph (2 * m) false := by simpa using a2
  constructor
  · have e : 4 * m + 1 = 1 + (2 * m + 2 * m) := by omega
    obtain ⟨a3, b3⟩ := sink_events (wide_graph (2 * m) false) (emitted (2 * m) false) [] _ a2'
      (by rw [b2]; simp) (by
        intro e he
        rw [emitted_target _ _ e he]
        simp [wide_graph, UMap.find])
    rw [emitted_length] at a3 b3
    have hd : dispatched (4 * m + 1)
        { modules := wide_graph (2 * m) false, q := [seed], low := 0, high := 0 } =
        [seed] ++ (List.replicate (2 * m) ("broadcaster", "x", Pulse.Low) ++
          emitted (2 * m) false) := by
      rw [e, dispatched_add, dispatched_add, h1]
      have d1 : dispatched 1
          { modules := wide_graph (2 * m) false, q := [seed], low := 0, high := 0 } = [seed] :=
        dispatched_front [seed] [] _ rfl
      have d2 := dispatched_front (List.replicate (2 * m) ("broadcaster", "x", Pulse.Low)) []
        _ (by rw [b1]; simp)
      have d3 := dispatched_front (emitted (2 * m) false) [] _ (by rw [b2]; simp)
      rw [List.length_replicate] at d2
      rw [emitted_length] at d3
      rw [d1, d2, d3]
    apply sched_eq
    · rw [e, dispatch_n_add, dispatch_n_add, h1]; exact a3
    · rw [e, dispatch_n_add, dispatch_n_add, h1]; exact b3
    · rw [dispatch_n_low _ _ (by norm_num), hd, count_pulse_append, count_pulse_append,
        (count_pulse_replicate (2 * m)).1, (emitted_counts m).1]
      simp [count_pulse, seed]
      congr 1
      omega
    · rw [dispatch_n_high _ _ (by norm_num), hd, count_pulse_append, count_pulse_append,
        (count_pulse_replicate (2 * m)).2, (emitted_counts m).2]
      simp [count_pulse, seed]
  · have e : 4 * m = 1 + (2 * m + (2 * m - 1)) := by omega
    have hsplit : emitted (2 * m) false =
        (emitted (2 * m) false).take (2 * m - 1) ++ (emitted (2 * m) false).drop (2 * m - 1) :=
      (List.take_append_drop _ _).symm
    obtain ⟨_, b3⟩ := sink_events (wide_graph (2 * m) false)
      ((emitted (2 * m) false).take (2 * m - 1)) ((emitted (2 * m) false).drop (2 * m - 1)) _ a2'
      (by rw [b2]; exact hsplit) (by
        intro e he
        rw [emitted_target _ _ e (List.mem_of_mem_take he)]
        simp [wide_graph, UMap.find])
    have hlen : ((emitted (2 * m) false).take (2 * m - 1)).length = 2 * m - 1 := by
      rw [List.length_take, emitted_length]
      omega
    rw [hlen] at b3
    rw [e, dispatch_n_add, dispatch_n_add, h1, b3]
    intro hnil
    have := congrArg List.length hnil
    rw [List.length_drop, emitted_length] at this
    simp at this
    omega

theorem wide_steps (m : Nat) (hm : 0 < m) (j : Nat) (hj : j ≤ 1000) :
    Run.steps 1000 ((4 * m + 2) * j) (Run.start (wide_graph (2 * m) false)) =
      { sched := { modules := wide_graph (2 * m) false, q := [],
                   low := ((3 * m + 1) % 2 ^ 64 * j) % 2 ^ 64,
                   high := (m % 2 ^ 64 * j) % 2 ^ 64 },
        i := j } := by
  obtain ⟨hrun, hne⟩ := wide_cycle m hm
  have h := block_repeat 1000 (4 * m + 2) 1 ((3 * m + 1) % 2 ^ 64) (m % 2 ^ 64)
    (wide_graph (2 * m) false) (by
      intro l h i hl hh hi
      exact cycle_transfer 1000 (4 * m) _ _ _ _ l h i hl hh (by omega) hrun hne) j (by omega)
  simpa using h

theorem wide_run :
    Run.steps 1000 16777218000 (Run.start (wide_graph 8388608 false)) =
      { sched := { modules := wide_graph 8388608 false, q := [], low := 12582913000,
                   high := 4194304000 },
        i := 1000 } := by
  have h := wide_steps 4194304 (by norm_num) 1000 (le_refl _)
  have e1 : (4 * 4194304 + 2) * 1000 = 16777218000 := by norm_num
  have e2 : 2 * 4194304 = 8388608 := by norm_num
  have e3 : ((3 * 4194304 + 1) % 2 ^ 64 * 1000) % 2 ^ 64 = 12582913000 := by norm_num
  have e4 : (4194304 % 2 ^ 64 * 1000) % 2 ^ 64 = 4194304000 := by norm_num
  rw [e1, e2, e3, e4] at h
  exact h

theorem trace_count_exact (cycles k : Nat) (g : Graph) (hk : k < 2 ^ 64) :
    count_pulse Pulse.Low (Run.trace cycles k (Run.start g)) =
      (Run.steps cycles k (Run.start g)).sched.low ∧
    count_pulse Pulse.High (Run.trace cycles k (Run.start g)) =
      (Run.steps cycles k (Run.start g)).sched.high := by
  have hl := steps_low cycles k (Run.start g) (by simp [Run.start, initial_sched])
  have hh := steps_high cycles k (Run.start g) (by simp [Run.start, initial_sched])
  have b1 := Nat.le_trans (count_pulse_le Pulse.Low _) (trace_length_le cycles k (Run.start g))
  have b2 := Nat.le_trans (count_pulse_le Pulse.High _) (trace_length_le cycles k (Run.start g))
  simp only [Run.start, initial_sched, Nat.zero_add] at hl hh b1 b2 ⊢
  rw [hl, hh]
  constructor
  · exact (Nat.mod_eq_of_lt (by omega)).symm
  · exact (Nat.mod_eq_of_lt (by omega)).symm

/-- Counterexample to C12 as stated: on the table of `broadcaster -> x, ..., x`
(8388608 times `x`) and `%x -> o`, the 1000 trigger cycles dispatch 12582913000
`Low` and 4194304000 `High` events, and `part_one` returns 15883074180132896768,
the product reduced modulo `2 ^ 64`, not the product. -/
theorem part_one_product_wraps :
    part_one 16777218000 (wide_graph 8388608 false) =
      some (15883074180132896768, wide_graph 8388608 false) ∧
    count_pulse Pulse.Low (Run.trace 1000 16777218000 (Run.start (wide_graph 8388608 false))) =
      12582913000 ∧
    count_pulse Pulse.High (Run.trace 1000 16777218000 (Run.start (wide_graph 8388608 false))) =
      4194304000 ∧
    15883074180132896768 ≠ 12582913000 * 4194304000 := by
  obtain ⟨c1, c2⟩ := trace_count_exact 1000 16777218000 (wide_graph 8388608 false) (by norm_num)
  rw [wide_run] at c1 c2
  refine ⟨?_, c1, c2, by norm_num⟩
  unfold part_one
  simp only [wide_run]
  norm_num

/-- Claim C12 (amended): when `part_one` returns, the loop nest has begun exactly
1000 trigger cycles on the one module table (a new cycle starts from the
modules as the previous one left them), the queue is empty, and the returned
value is the product of the number of `High` and the number of `Low` events
dispatched over all cycles, reduced modulo `2 ^ 64`; more fuel changes nothing.
On the five-line example every cycle ends with the module table of the start,
and `part_one` returns 8000 * 4000 = 32000000. -/
theorem part_one_product (fuel : Nat) (g : Graph) (v : Nat) (g' : Graph)
    (h : part_one fuel g = some (v, g')) :
    (Run.steps 1000 fuel (Run.start g)).i = 1000 ∧
    (Run.steps 1000 fuel (Run.start g)).sched.q = [] ∧
    g' = (Run.steps 1000 fuel (Run.start g)).sched.modules ∧
    v = (count_pulse Pulse.High (Run.trace 1000 fuel (Run.start g)) *
      count_pulse Pulse.Low (Run.trace 1000 fuel (Run.start g))) % 2 ^ 64 ∧
    (∀ k, part_one (fuel + k) g = some (v, g')) ∧
    (∀ (c : Nat) (r : Run), r.sched.q = [] →
      (Run.step c r).sched.modules = r.sched.modules) ∧
    parse_input example_text = some example_graph ∧
    (∀ j, j ≤ 1000 → Run.steps 1000 (13 * j) (Run.start example_graph) =
      { sched := { modules := example_graph, q := [], low := 8 * j, high := 4 * j }, i := j }) ∧
    (∀ k, part_one (13000 + k) example_graph = some (32000000, example_graph)) := by
  have hl := steps_low 1000 fuel (Run.start g) (by simp [Run.start, initial_sched])
  have hh := steps_high 1000 fuel (Run.start g) (by simp [Run.start, initial_sched])
  simp only [Run.start, initial_sched, Nat.zero_add] at hl hh
  have h0 := h
  unfold part_one at h
  simp only at h
  split at h
  · next hc =>
    simp only [Option.some.injEq, Prod.mk.injEq] at h
    refine ⟨hc.2, hc.1, h.2.symm, ?_, fun k => part_one_add fuel k g v g' h0, ?_, by decide, ?_,
      fun k => part_one_add 13000 k _ _ _ part_one_example⟩
    · rw [← h.1]
      simp only [Run.start, initial_sched]
      rw [hl, hh, ← Nat.mul_mod]
    · intro c r hq
      unfold Run.step
      simp only [hq, ne_eq, not_true_eq_false, if_false]
      split <;> rfl
    · intro j hj
      rw [example_steps j hj]
      have e1 : (8 * j) % 2 ^ 64 = 8 * j := Nat.mod_eq_of_lt (by omega)
      have e2 : (4 * j) % 2 ^ 64 = 4 * j := Nat.mod_eq_of_lt (by omega)
      rw [e1, e2]
  · simp at h

/-- Witness for C12: the five-line example, where `part_one` returns. -/
theorem part_one_product_witness :
    part_one 13000 example_graph = some (32000000, example_graph) ∧
    (Run.steps 1000 13000 (Run.start example_graph)).i = 1000 ∧
    32000000 = (count_pulse Pulse.High (Run.trace 1000 13000 (Run.start example_graph)) *
      count_pulse Pulse.Low (Run.trace 1000 13000 (Run.start example_graph))) % 2 ^ 64 :=
  ⟨part_one_example,
    (part_one_product 13000 example_graph 32000000 example_graph part_one_example).1,
    (part_one_product 13000 example_graph 32000000 example_graph part_one_example).2.2.2.1⟩

/-! ### The gate and its feeders -/

theorem find_feed_mem : ∀ g : Graph, (∃ p ∈ g, "rx" ∈ p.2.m_next) →
    ∃ m, (find_feed g, m) ∈ g ∧ "rx" ∈ m.m_next := by
  intro g
  induction g with
  | nil => rintro ⟨p, hp, _⟩; simp at hp
  | cons e g ih =>
    rintro ⟨p, hp, hrx⟩
    obtain ⟨k, m⟩ := e
    by_cases h : "rx" ∈ m.m_next
    · exact ⟨m, by simp [find_feed, h], h⟩
    · have hp' : p ∈ g := by
        rcases List.mem_cons.1 hp with e | e
        · subst e; exact absurd hrx h
        · exact e
      obtain ⟨m', hm', hr'⟩ := ih ⟨p, hp', hrx⟩
      exact ⟨m', by simp [find_feed, h, hm'], hr'⟩

theorem initial_seen_foldl (feed : String) : ∀ (l : Graph) (acc : UMap Nat),
    (∀ kv ∈ acc, kv.2 = 0) → (UMap.keys acc).Nodup →
    (∀ f, f ∈ UMap.keys (l.foldl (fun seen p =>
        if feed ∈ p.2.m_next then UMap.insert_or_assign seen p.1 0 else seen) acc) ↔
      f ∈ UMap.keys acc ∨ ∃ m, (f, m) ∈ l ∧ feed ∈ m.m_next) ∧
    (∀ kv ∈ l.foldl (fun seen p =>
        if feed ∈ p.2.m_next then UMap.insert_or_assign seen p.1 0 else seen) acc, kv.2 = 0) ∧
    (UMap.keys (l.foldl (fun seen p =>
        if feed ∈ p.2.m_next then UMap.insert_or_assign seen p.1 0 else seen) acc)).Nodup := by
  intro l
  induction l with
  | nil => intro acc h0 hn; exact ⟨by simp, h0, hn⟩
  | cons e l ih =>
    intro acc h0 hn
    obtain ⟨k, m⟩ := e
    simp only [List.foldl_cons]
    by_cases h : feed ∈ m.m_next
    · simp only [h, if_true]
      have hk := keys_insert_or_assign k 0 acc
      have h0' : ∀ kv ∈ UMap.insert_or_assign acc k 0, kv.2 = 0 := by
        intro kv hkv
        rcases mem_insert_or_assign k 0 acc kv hkv with e | e
        · exact h0 kv e
        · rw [e]
      have hn' : (UMap.keys (UMap.insert_or_assign acc k 0)).Nodup := by
        rw [hk]
        by_cases hm : k ∈ UMap.keys acc
        · simpa [hm] using hn
        · simp only [hm, if_false]
          exact List.Nodup.append hn (List.nodup_singleton k) (by simpa using hm)
      obtain ⟨a, b, c⟩ := ih _ h0' hn'
      refine ⟨?_, b, c⟩
      intro f
      rw [a f, hk]
      constructor
      · rintro (h1 | ⟨m', hm', hf⟩)
        · by_cases hm : k ∈ UMap.keys acc
          · simp only [hm, if_true] at h1
            exact Or.inl h1
          · simp only [hm, if_false, List.mem_append, List.mem_singleton] at h1
            rcases h1 with h1 | h1
            · exact Or.inl h1
            · exact Or.inr ⟨m, by rw [h1]; simp, h⟩
        · exact Or.inr ⟨m', List.mem_cons_of_mem _ hm', hf⟩
      · rintro (h1 | ⟨m', hm', hf⟩)
        · left
          by_cases hm : k ∈ UMap.keys acc
          · simpa [hm] using h1
          · simp only [hm, if_false, List.mem_append]
            exact Or.inl h1
        · rcases List.mem_cons.1 hm' with e | e
          · left
            have e1 : f = k := (Prod.mk.inj e).1
            by_cases hm : k ∈ UMap.keys acc
            · simp only [hm, if_true]; rw [e1]; exact hm
            · simp [hm, e1]
          · exact Or.inr ⟨m', e, hf⟩
    · simp only [h, if_false]
      obtain ⟨a, b, c⟩ := ih acc h0 hn
      refine ⟨?_, b, c⟩
      intro f
      rw [a f]
      constructor
      · rintro (h1 | ⟨m', hm', hf⟩)
        · exact Or.inl h1
        · exact Or.inr ⟨m', List.mem_cons_of_mem _ hm', hf⟩
      · rintro (h1 | ⟨m', hm', hf⟩)
        · exact Or.inl h1
        · rcases List.mem_cons.1 hm' with e | e
          · have e2 : m' = m := (Prod.mk.inj e).2
            rw [e2] at hf
            exact absurd hf h
          · exact Or.inr ⟨m', e, hf⟩

theorem initial_seen_spec (feed : String) (g : Graph) :
    (∀ f, f ∈ UMap.keys (initial_seen feed g) ↔ ∃ m, (f, m) ∈ g ∧ feed ∈ m.m_next) ∧
    (∀ kv ∈ initial_seen feed g, kv.2 = 0) ∧ (UMap.keys (initial_seen feed g)).Nodup := by
  obtain ⟨a, b, c⟩ := initial_seen_foldl feed g [] (by simp) (by simp [UMap.keys])
  refine ⟨?_, b, c⟩
  intro f
  have := a f
  simpa [UMap.keys, initial_seen] using this

/-- Claim C17: on a module table in which some module `k` has `rx` in its fan-out,
`part_two` takes as gate a declared module whose fan-out contains `rx`, and `k`
itself when it is the only such module; the map `seen` it starts with has as
keys exactly the declared modules whose fan-out contains the gate (each once),
every count is 0, and no period is recorded yet. -/
theorem part_two_gate (g : Graph) (hn : (UMap.keys g).Nodup) (k : String) (m : Module)
    (hk : UMap.find g k = some m) (hrx : "rx" ∈ m.m_next) :
    (∃ m', UMap.find g (find_feed g) = some m' ∧ "rx" ∈ m'.m_next) ∧
    ((∀ k' m', UMap.find g k' = some m' → "rx" ∈ m'.m_next → k' = k) → find_feed g = k) ∧
    (∀ f, f ∈ UMap.keys (Analysis.start g).seen ↔
      ∃ m', UMap.find g f = some m' ∧ find_feed g ∈ m'.m_next) ∧
    (∀ kv ∈ (Analysis.start g).seen, kv.2 = 0) ∧
    (UMap.keys (Analysis.start g).seen).Nodup ∧
    (Analysis.start g).cycle_lengths = [] ∧
    (∀ fuel, part_two fuel g = Analysis.run (find_feed g) fuel (Analysis.start g)) := by
  obtain ⟨m', hm', hr'⟩ := find_feed_mem g ⟨(k, m), mem_of_find g k m hk, hrx⟩
  have hf' := find_of_mem g _ _ hn hm'
  obtain ⟨a, b, c⟩ := initial_seen_spec (find_feed g) g
  refine ⟨⟨m', hf', hr'⟩, ?_, ?_, b, c, rfl, fun _ => rfl⟩
  · intro hu
    exact hu _ _ hf' hr'
  · intro f
    rw [show (Analysis.start g).seen = initial_seen (find_feed g) g from rfl, a f]
    constructor
    · rintro ⟨x, hx, hfx⟩
      exact ⟨x, find_of_mem g _ _ hn hx, hfx⟩
    · rintro ⟨x, hx, hfx⟩
      exact ⟨x, mem_of_find g _ _ hx, hfx⟩

/-- Witness for C17: the table of `rx_text`, whose gate is `g` with the one
feeder `a`. -/
theorem part_two_gate_witness :
    (UMap.keys rx_graph).Nodup ∧
    UMap.find rx_graph "g" = some (Module.Conjuction ["rx"] [("a", Pulse.Low)]) ∧
    find_feed rx_graph = "g" ∧ (Analysis.start rx_graph).seen = [("a", 0)] ∧
    (∃ m', UMap.find rx_graph (find_feed rx_graph) = some m' ∧ "rx" ∈ m'.m_next) :=
  ⟨by decide, by decide, by decide, by decide,
    (part_two_gate rx_graph (by decide) "g" (Module.Conjuction ["rx"] [("a", Pulse.Low)])
      (by decide) (by decide)).1⟩

/-! ### Invariants of the analysis -/

theorem find_wiring (a b : Graph) (h : wiring a = wiring b) (k : String) (m : Module)
    (hm : UMap.find a k = some m) :
    ∃ m', UMap.find b k = some m' ∧ m'.forget_state = m.forget_state := by
  have h1 := find_map Module.forget_state a k
  have h2 := find_map Module.forget_state b k
  rw [show a.map (fun p => (p.1, p.2.forget_state)) = wiring a from rfl, h, hm] at h1
  rw [show b.map (fun p => (p.1, p.2.forget_state)) = wiring b from rfl, h1] at h2
  cases hb : UMap.find b k with
  | none => simp [hb] at h2
  | some m' => exact ⟨m', rfl, by simpa [hb] using h2.symm⟩

theorem wired_dispatch (g : Graph) (s : Sched) (hw : wiring s.modules = wiring g)
    (hq : queue_wired g s.q) :
    wiring (dispatch s).modules = wiring g ∧ queue_wired g (dispatch s).q := by
  refine ⟨by rw [wiring_dispatch, hw], ?_⟩
  rcases dispatch_cases s with h0 | ⟨o, t, p, rest, h0, hm⟩ | ⟨o, t, p, rest, m, h0, hm⟩
  · rw [dispatch_nil s h0]; exact hq
  · rw [dispatch_none s o t p rest h0 hm]
    intro e he
    exact hq e (by rw [h0]; exact List.mem_cons_of_mem _ he)
  · rw [dispatch_some s o t p rest m h0 hm]
    have hrest : queue_wired g rest := by
      intro e he
      exact hq e (by rw [h0]; exact List.mem_cons_of_mem _ he)
    cases hout : (m.send p o).2.2 with
    | none => exact hrest
    | some l =>
      have hl := send_fanout m p o l hout
      obtain ⟨m0, hm0, hfs⟩ := find_wiring s.modules g hw t m hm
      intro e he
      rcases List.mem_append.1 he with he | he
      · exact hrest e he
      · obtain ⟨out, hmem, rfl⟩ := List.mem_map.1 he
        right
        refine ⟨m0, mem_of_find g t m0 hm0, ?_⟩
        rw [← forget_state_m_next m0, hfs, forget_state_m_next, ← hl]
        exact hmem

theorem keys_bump (seen : UMap Nat) (o : String) (ho : o ∈ UMap.keys seen) :
    UMap.keys (bump seen o) = UMap.keys seen := by
  unfold bump
  rw [keys_insert_or_assign]
  simp [ho]

theorem find_bump (seen : UMap Nat) (o f : String) :
    UMap.find (bump seen o) f =
      if o = f then some ((UMap.find seen o).getD 0 + 1) else UMap.find seen f := by
  unfold bump
  rw [find_insert_or_assign]

theorem mem_keys_of_find {V : Type} (m : UMap V) (k : String) (v : V)
    (h : UMap.find m k = some v) : k ∈ UMap.keys m := by
  by_contra hk
  rw [(find_eq_none_iff m k).2 hk] at h
  exact Option.noConfusion h

theorem observe_ok (g : Graph) (feed : String) (a : Analysis) (o : String)
    (hok : analysis_ok g feed a) (ho : o ∈ UMap.keys a.seen) :
    analysis_ok g feed (observe a o).state ∧
    (observe a o).state.modules = a.modules ∧ (observe a o).state.q = a.q := by
  obtain ⟨h1, h2, h3, h4, h5⟩ := hok
  have hkb := keys_bump a.seen o ho
  have key : ∀ cl : UMap Nat, (∀ f, f ∈ UMap.keys cl → f ∈ UMap.keys a.seen) →
      o ∈ UMap.keys cl → (∀ f, f ∈ UMap.keys a.cycle_lengths → f ∈ UMap.keys cl) →
      analysis_ok g feed
        { modules := a.modules, q := a.q, button_pressed := a.button_pressed,
          cycle_lengths := cl, seen := bump a.seen o } := by
    intro cl c1 c2 c3
    refine ⟨h1, h2, ?_, ?_, ?_⟩
    · intro f
      simp only [hkb]
      exact h3 f
    · intro f hf
      simp only [hkb]
      exact c1 f hf
    · intro f n hf hn
      simp only [find_bump] at hf
      by_cases e : o = f
      · rw [← e]; exact c2
      · simp only [e, if_false] at hf
        exact c3 f (h5 f n hf hn)
  unfold observe
  simp only
  cases hc : UMap.find a.cycle_lengths o with
  | none =>
    have hki := keys_insert o a.button_pressed a.cycle_lengths
    have hno : o ∉ UMap.keys a.cycle_lengths := (find_eq_none_iff _ _).1 hc
    simp only [hno, if_false] at hki
    have hk := key (UMap.insert a.cycle_lengths o a.button_pressed)
      (by
        intro f hf
        rw [hki, List.mem_append, List.mem_singleton] at hf
        rcases hf with hf | hf
        · exact h4 f hf
        · rw [hf]; exact ho)
      (by rw [hki]; simp)
      (by intro f hf; rw [hki]; exact List.mem_append_left _ hf)
    simp only
    split
    · split
      · exact ⟨hk, rfl, rfl⟩
      · exact ⟨hk, rfl, rfl⟩
    · exact ⟨hk, rfl, rfl⟩
  | some c =>
    have hk := key a.cycle_lengths h4 (mem_keys_of_find _ _ _ hc) (fun f hf => hf)
    simp only
    split
    · rename_i hchk
      split at hchk
      · exact absurd hchk (by simp)
      · exact ⟨hk, rfl, rfl⟩
    · rename_i cl' hchk
      split at hchk
      · simp only [Option.some.injEq] at hchk
        subst hchk
        split
        · split
          · exact ⟨hk, rfl, rfl⟩
          · exact ⟨hk, rfl, rfl⟩
        · exact ⟨hk, rfl, rfl⟩
      · exact absurd hchk (by simp)

theorem observe_returned (a : Analysis) (o : String) (x : Nat) (a' : Analysis)
    (h : observe a o = Outcome.returned x a') :
    a'.seen.all (fun p => decide (0 < p.2)) = true ∧ lcm_all 1 a'.cycle_lengths = some x := by
  unfold observe at h
  simp only at h
  split at h
  · exact Outcome.noConfusion h
  · split at h
    · rename_i hall
      split at h
      · rename_i y hy
        simp only [Outcome.returned.injEq] at h
        obtain ⟨rfl, rfl⟩ := h
        exact ⟨hall, hy⟩
      · exact Outcome.noConfusion h
    · exact Outcome.noConfusion h

theorem step_cases (feed : String) (a : Analysis) :
    (a.q = [] ∧ Analysis.step feed a = Outcome.running
      { modules := a.modules, q := [seed], button_pressed := a.button_pressed + 1,
        cycle_lengths := a.cycle_lengths, seen := a.seen }) ∨
    (∃ o t p rest, a.q = (o, t, p) :: rest ∧ ¬ (t = feed ∧ p = Pulse.High) ∧
      Analysis.step feed a = Outcome.running
        { modules := (dispatch { modules := a.modules, q := a.q, low := 0, high := 0 }).modules,
          q := (dispatch { modules := a.modules, q := a.q, low := 0, high := 0 }).q,
          button_pressed := a.button_pressed, cycle_lengths := a.cycle_lengths,
          seen := a.seen }) ∨
    (∃ o p rest, a.q = (o, feed, p) :: rest ∧ p = Pulse.High ∧
      ((∃ a', observe a o = Outcome.running a' ∧ Analysis.step feed a = Outcome.running
        { modules := (dispatch { modules := a'.modules, q := a'.q, low := 0, high := 0 }).modules,
          q := (dispatch { modules := a'.modules, q := a'.q, low := 0, high := 0 }).q,
          button_pressed := a'.button_pressed, cycle_lengths := a'.cycle_lengths,
          seen := a'.seen }) ∨
       ((∀ a', observe a o ≠ Outcome.running a') ∧ Analysis.step feed a = observe a o))) := by
  rcases hq : a.q with _ | ⟨⟨o, t, p⟩, rest⟩
  · left
    exact ⟨rfl, by simp only [Analysis.step, hq]⟩
  · right
    by_cases hc : t = feed ∧ p = Pulse.High
    · right
      obtain ⟨rfl, rfl⟩ := hc
      refine ⟨o, Pulse.High, rest, rfl, rfl, ?_⟩
      cases ho : observe a o with
      | running a' =>
        left
        exact ⟨a', rfl, by simp only [Analysis.step, hq, and_self, if_true, ho]⟩
      | returned x a' =>
        right
        exact ⟨fun _ h => Outcome.noConfusion h,
          by simp only [Analysis.step, hq, and_self, if_true, ho]⟩
      | assertion_failed a' =>
        right
        exact ⟨fun _ h => Outcome.noConfusion h,
          by simp only [Analysis.step, hq, and_self, if_true, ho]⟩
      | lcm_undefined a' =>
        right
        exact ⟨fun _ h => Outcome.noConfusion h,
          by simp only [Analysis.step, hq, and_self, if_true, ho]⟩
    · left
      exact ⟨o, t, p, rest, rfl, hc, by simp only [Analysis.step, hq, hc, if_false]⟩

theorem dispatch_ok (g : Graph) (feed : String) (a : Analysis) (hok : analysis_ok g feed a) :
    analysis_ok g feed
      { modules := (dispatch { modules := a.modules, q := a.q, low := 0, high := 0 }).modules,
        q := (dispatch { modules := a.modules, q := a.q, low := 0, high := 0 }).q,
        button_pressed := a.button_pressed, cycle_lengths := a.cycle_lengths,
        seen := a.seen } := by
  obtain ⟨h1, h2, h3, h4, h5⟩ := hok
  obtain ⟨w1, w2⟩ := wired_dispatch g { modules := a.modules, q := a.q, low := 0, high := 0 }
    h1 h2
  exact ⟨w1, w2, h3, h4, h5⟩

theorem observed_known (g : Graph) (feed : String) (a : Analysis) (o : String)
    (rest : List Event) (hok : analysis_ok g feed a)
    (hq : a.q = (o, feed, Pulse.High) :: rest) : o ∈ UMap.keys a.seen := by
  obtain ⟨_, h2, h3, _, _⟩ := hok
  rcases h2 (o, feed, Pulse.High) (by rw [hq]; simp) with e | ⟨m, hm, hf⟩
  · simp [seed] at e
  · exact (h3 o).2 ⟨m, hm, hf⟩

theorem step_ok (g : Graph) (feed : String) (a : Analysis) (hok : analysis_ok g feed a) :
    analysis_ok g feed (Analysis.step feed a).state := by
  rcases step_cases feed a with ⟨hq, hs⟩ | ⟨o, t, p, rest, hq, hc, hs⟩ |
      ⟨o, p, rest, hq, hp, ⟨a', ho, hs⟩ | ⟨ho, hs⟩⟩
  · rw [hs]
    obtain ⟨h1, _, h3, h4, h5⟩ := hok
    refine ⟨h1, ?_, h3, h4, h5⟩
    intro e he
    simp only [Outcome.state, List.mem_singleton] at he
    exact Or.inl he
  · rw [hs]
    exact dispatch_ok g feed a hok
  · rw [hs]
    subst hp
    have hob := observe_ok g feed a o hok (observed_known g feed a o rest hok hq)
    rw [ho] at hob
    exact dispatch_ok g feed a' hob.1
  · rw [hs]
    subst hp
    exact (observe_ok g feed a o hok (observed_known g feed a o rest hok hq)).1

theorem run_ok (g : Graph) (feed : String) : ∀ (k : Nat) (a : Analysis),
    analysis_ok g feed a → analysis_ok g feed (Analysis.run feed k a).state := by
  intro k
  induction k with
  | zero => intro a h; exact h
  | succ k ih =>
    intro a h
    have hs := step_ok g feed a h
    rw [Analysis.run]
    cases hst : Analysis.step feed a with
    | running a' => rw [hst] at hs; exact ih a' hs
    | returned x a' => rw [hst] at hs; exact hs
    | assertion_failed a' => rw [hst] at hs; exact hs
    | lcm_undefined a' => rw [hst] at hs; exact hs

theorem step_returned (feed : String) (a : Analysis) (x : Nat) (a' : Analysis)
    (h : Analysis.step feed a = Outcome.returned x a') :
    a'.seen.all (fun p => decide (0 < p.2)) = true ∧ lcm_all 1 a'.cycle_lengths = some x := by
  rcases step_cases feed a with ⟨_, hs⟩ | ⟨o, t, p, rest, _, _, hs⟩ |
      ⟨o, p, rest, _, _, ⟨a', _, hs⟩ | ⟨_, hs⟩⟩
  · rw [hs] at h; exact Outcome.noConfusion h
  · rw [hs] at h; exact Outcome.noConfusion h
  · rw [hs] at h; exact Outcome.noConfusion h
  · rw [hs] at h; exact observe_returned a o x a' h

theorem run_returned (feed : String) : ∀ (k : Nat) (a : Analysis) (x : Nat) (a' : Analysis),
    Analysis.run feed k a = Outcome.returned x a' →
    a'.seen.all (fun p => decide (0 < p.2)) = true ∧ lcm_all 1 a'.cycle_lengths = some x := by
  intro k
  induction k with
  | zero => intro a x a' h; exact Outcome.noConfusion h
  | succ k ih =>
    intro a x a' h
    rw [Analysis.run] at h
    cases hst : Analysis.step feed a with
    | running a1 => rw [hst] at h; exact ih a1 x a' h
    | returned y a1 =>
      rw [hst] at h
      simp only [Outcome.returned.injEq] at h
      obtain ⟨rfl, rfl⟩ := h
      exact step_returned feed a y a1 hst
    | assertion_failed a1 => rw [hst] at h; exact Outcome.noConfusion h
    | lcm_undefined a1 => rw [hst] at h; exact Outcome.noConfusion h

theorem start_ok (g : Graph) : analysis_ok g (find_feed g) (Analysis.start g) := by
  obtain ⟨a, b, _⟩ := initial_seen_spec (find_feed g) g
  refine ⟨rfl, ?_, a, ?_, ?_⟩
  · intro e he
    simp [Analysis.start] at he
  · intro f hf
    simp [Analysis.start, UMap.keys] at hf
  · intro f n hf hn
    have := b (f, n) (mem_of_find _ f n hf)
    simp only at this
    omega

theorem lcm_all_eq : ∀ (l : UMap Nat) (x y : Nat), lcm_all x l = some y →
    y = l.foldl (fun z cl => Nat.lcm z cl.2) x ∧ y < 2 ^ 64 ∨ (l = [] ∧ y = x) := by
  intro l
  induction l with
  | nil =>
    intro x y h
    simp only [lcm_all, Option.some.injEq] at h
    exact Or.inr ⟨rfl, h.symm⟩
  | cons c l ih =>
    intro x y h
    left
    simp only [lcm_all, lcm_size] at h
    split at h
    · exact Option.noConfusion h
    · rename_i z hz
      split at hz
      · rename_i hlt
        simp only [Option.some.injEq] at hz
        subst hz
        rcases ih _ _ h with ⟨e, hy⟩ | ⟨e1, e2⟩
        · exact ⟨by simpa using e, hy⟩
        · subst e1
          subst e2
          exact ⟨by simp, hlt⟩
      · exact Option.noConfusion hz

theorem foldl_lcm_spec : ∀ (l : UMap Nat) (x : Nat),
    (x ∣ l.foldl (fun z cl => Nat.lcm z cl.2) x) ∧
    (∀ c ∈ l, c.2 ∣ l.foldl (fun z cl => Nat.lcm z cl.2) x) ∧
    (∀ y, x ∣ y → (∀ c ∈ l, c.2 ∣ y) → l.foldl (fun z cl => Nat.lcm z cl.2) x ∣ y) := by
  intro l
  induction l with
  | nil => intro x; simp
  | cons c l ih =>
    intro x
    obtain ⟨a, b, d⟩ := ih (Nat.lcm x c.2)
    simp only [List.foldl_cons]
    refine ⟨Nat.dvd_trans (Nat.dvd_lcm_left x c.2) a, ?_, ?_⟩
    · intro c' hc'
      rcases List.mem_cons.1 hc' with e | e
      · rw [e]; exact Nat.dvd_trans (Nat.dvd_lcm_right x c.2) a
      · exact b c' e
    · intro y hx hy
      exact d y (Nat.lcm_dvd hx (hy c (by simp))) (fun c' hc' => hy c' (List.mem_cons_of_mem _ hc'))

/-- Claim C14: whenever `part_two` returns, every module of the table whose fan-out
contains the gate has a recorded period, nothing else has one, and the returned
value is the least common multiple of the recorded periods: every period
divides it and it divides every common multiple. -/
theorem part_two_periods (fuel : Nat) (g : Graph) (hn : (UMap.keys g).Nodup) (x : Nat)
    (a : Analysis) (h : part_two fuel g = Outcome.returned x a) :
    (∀ f, (∃ m, UMap.find g f = some m ∧ find_feed g ∈ m.m_next) →
      ∃ p, UMap.find a.cycle_lengths f = some p) ∧
    (∀ f p, UMap.find a.cycle_lengths f = some p →
      ∃ m, UMap.find g f = some m ∧ find_feed g ∈ m.m_next) ∧
    x = a.cycle_lengths.foldl (fun z cl => Nat.lcm z cl.2) 1 ∧
    (∀ c ∈ a.cycle_lengths, c.2 ∣ x) ∧
    (∀ y, (∀ c ∈ a.cycle_lengths, c.2 ∣ y) → x ∣ y) := by
  have hok := run_ok g (find_feed g) fuel (Analysis.start g) (start_ok g)
  have hr := run_returned (find_feed g) fuel (Analysis.start g) x a h
  rw [show Analysis.run (find_feed g) fuel (Analysis.start g) = Outcome.returned x a from h] at hok
  obtain ⟨_, _, h3, h4, h5⟩ := hok
  simp only [Outcome.state] at h3 h4 h5
  obtain ⟨hall, hlcm⟩ := hr
  have hx : x = a.cycle_lengths.foldl (fun z cl => Nat.lcm z cl.2) 1 := by
    rcases lcm_all_eq _ _ _ hlcm with ⟨e, _⟩ | ⟨e1, e2⟩
    · exact e
    · rw [e1, e2]; rfl
  obtain ⟨_, s2, s3⟩ := foldl_lcm_spec a.cycle_lengths 1
  refine ⟨?_, ?_, hx, ?_, ?_⟩
  · rintro f ⟨m, hm, hf⟩
    have hk : f ∈ UMap.keys a.seen := (h3 f).2 ⟨m, mem_of_find g f m hm, hf⟩
    cases hs : UMap.find a.seen f with
    | none => exact absurd hk ((find_eq_none_iff _ _).1 hs)
    | some n =>
      have hpos : 0 < n := by
        have := List.all_eq_true.1 hall (f, n) (mem_of_find _ f n hs)
        simpa using this
      have hc := h5 f n hs hpos
      cases hp : UMap.find a.cycle_lengths f with
      | none => exact absurd hc ((find_eq_none_iff _ _).1 hp)
      | some p => exact ⟨p, rfl⟩
  · intro f p hp
    obtain ⟨m, hm, hf⟩ := (h3 f).1 (h4 f (mem_keys_of_find _ _ _ hp))
    exact ⟨m, find_of_mem g f m hn hm, hf⟩
  · rw [hx]; exact s2
  · intro y hy
    rw [hx]
    exact s3 y (Nat.one_dvd y) hy

/-- Witness for C14: on the table of `rx_text` the analysis returns 1001 in the
fourth step. -/
theorem part_two_periods_witness :
    (UMap.keys rx_graph).Nodup ∧ part_two 4 rx_graph = Outcome.returned 1001 rx_final ∧
    (∀ c ∈ rx_final.cycle_lengths, c.2 ∣ 1001) :=
  ⟨by decide, by decide,
    (part_two_periods 4 rx_graph (by decide) 1001 rx_final (by decide)).2.2.2.1⟩

theorem observe_cycle_lengths (a : Analysis) (o f : String) :
    UMap.find (observe a o).state.cycle_lengths f =
      (match UMap.find a.cycle_lengths f with
      | some p => some p
      | none => if o = f then some a.button_pressed else none) ∧
    (observe a o).state.button_pressed = a.button_pressed := by
  have key : ∀ chk : Option (UMap Nat),
      (match chk with
        | none => a.cycle_lengths
        | some cl => cl) =
      (match chk with
        | none =>
          Outcome.assertion_failed
            { modules := a.modules, q := a.q, button_pressed := a.button_pressed,
              cycle_lengths := a.cycle_lengths, seen := bump a.seen o }
        | some cycle_lengths =>
          if (bump a.seen o).all (fun p => decide (0 < p.2)) then
            match lcm_all 1 cycle_lengths with
            | some x =>
              Outcome.returned x
                { modules := a.modules, q := a.q, button_pressed := a.button_pressed,
                  cycle_lengths := cycle_lengths, seen := bump a.seen o }
            | none =>
              Outcome.lcm_undefined
                { modules := a.modules, q := a.q, button_pressed := a.button_pressed,
                  cycle_lengths := cycle_lengths, seen := bump a.seen o }
          else
            Outcome.running
              { modules := a.modules, q := a.q, button_pressed := a.button_pressed,
                cycle_lengths := cycle_lengths, seen := bump a.seen o }).state.cycle_lengths ∧
      a.button_pressed =
      (match chk with
        | none =>
          Outcome.assertion_failed
            { modules := a.modules, q := a.q, button_pressed := a.button_pressed,
              cycle_lengths := a.cycle_lengths, seen := bump a.seen o }
        | some cycle_lengths =>
          if (bump a.seen o).all (fun p => decide (0 < p.2)) then
            match lcm_all 1 cycle_lengths with
            | some x =>
              Outcome.returned x
                { modules := a.modules, q := a.q, button_pressed := a.button_pressed,
                  cycle_lengths := cycle_lengths, seen := bump a.seen o }
            | none =>
              Outcome.lcm_undefined
                { modules := a.modules, q := a.q, button_pressed := a.button_pressed,
                  cycle_lengths := cycle_lengths, seen := bump a.seen o }
          else
            Outcome.running
              { modules := a.modules, q := a.q, button_pressed := a.button_pressed,
                cycle_lengths := cycle_lengths, seen := bump a.seen o }).state.button_pressed := by
    intro chk
    cases chk with
    | none => exact ⟨rfl, rfl⟩
    | some cl =>
      simp only
      split
      · split <;> exact ⟨rfl, rfl⟩
      · exact ⟨rfl, rfl⟩
  unfold observe
  simp only
  obtain ⟨k1, k2⟩ := key (match UMap.find a.cycle_lengths o with
    | none => some (UMap.insert a.cycle_lengths o a.button_pressed)
    | some cl =>
      if a.button_pressed = (UMap.find (bump a.seen o) o).getD 0 * cl then some a.cycle_lengths
      else none)
  rw [← k1, ← k2]
  refine ⟨?_, rfl⟩
  cases ho : UMap.find a.cycle_lengths o with
  | none =>
    simp only
    rw [find_insert]
    cases hf : UMap.find a.cycle_lengths f <;> rfl
  | some c =>
    have e : (match (if a.button_pressed = (UMap.find (bump a.seen o) o).getD 0 * c
          then some a.cycle_lengths else none) with
        | none => a.cycle_lengths
        | some cl => cl) = a.cycle_lengths := by
      split
      · rfl
      · rename_i cl hcl
        split at hcl
        · exact (Option.some.inj hcl).symm
        · exact Option.noConfusion hcl
    simp only [e]
    cases hf : UMap.find a.cycle_lengths f with
    | some p => rfl
    | none =>
      by_cases e2 : o = f
      · rw [e2, hf] at ho; exact Option.noConfusion ho
      · simp [e2]

theorem run_of_running (feed : String) (k : Nat) (a a1 : Analysis)
    (hs : Analysis.step feed a = Outcome.running a1) :
    Analysis.run feed (k + 1) a = Analysis.run feed k a1 := by
  rw [Analysis.run, hs]

theorem run_of_terminal (feed : String) (k : Nat) (a : Analysis)
    (hs : ∀ a1, Analysis.step feed a ≠ Outcome.running a1) :
    Analysis.run feed (k + 1) a = Analysis.step feed a := by
  rw [Analysis.run]
  cases h : Analysis.step feed a with
  | running a1 => exact absurd h (hs a1)
  | returned x a1 => rfl
  | assertion_failed a1 => rfl
  | lcm_undefined a1 => rfl

theorem observations_nil (feed : String) (j k : Nat) (a a1 : Analysis) (hq : a.q = [])
    (hs : Analysis.step feed a = Outcome.running a1) :
    Analysis.observations feed j (k + 1) a = Analysis.observations feed (j + 1) k a1 := by
  rw [Analysis.observations]
  simp only [hq, hs]

theorem observations_cons (feed : String) (j k : Nat) (a : Analysis) (o t : String)
    (p : Pulse) (rest : List Event) (hq : a.q = (o, t, p) :: rest) :
    Analysis.observations feed j (k + 1) a =
      (if t = feed ∧ p = Pulse.High then [(j, o)] else []) ++
        match Analysis.step feed a with
        | Outcome.running a' => Analysis.observations feed j k a'
        | _ => [] := by
  rw [Analysis.observations]
  simp only [hq]

theorem step_running_fields (feed : String) (a a1 : Analysis)
    (hs : Analysis.step feed a = Outcome.running a1) :
    (a.q = [] ∧ a1.button_pressed = a.button_pressed + 1 ∧
      a1.cycle_lengths = a.cycle_lengths) ∨
    (∃ o t p rest, a.q = (o, t, p) :: rest ∧ ¬ (t = feed ∧ p = Pulse.High) ∧
      a1.button_pressed = a.button_pressed ∧ a1.cycle_lengths = a.cycle_lengths) ∨
    (∃ o rest a', a.q = (o, feed, Pulse.High) :: rest ∧ observe a o = Outcome.running a' ∧
      a1.button_pressed = a'.button_pressed ∧ a1.cycle_lengths = a'.cycle_lengths) := by
  rcases step_cases feed a with ⟨hq, h⟩ | ⟨o, t, p, rest, hq, hc, h⟩ |
      ⟨o, p, rest, hq, hp, ⟨a', ho, h⟩ | ⟨ho, h⟩⟩
  · rw [h] at hs
    have e := Outcome.running.inj hs
    subst e
    exact Or.inl ⟨hq, rfl, rfl⟩
  · rw [h] at hs
    have e := Outcome.running.inj hs
    subst e
    exact Or.inr (Or.inl ⟨o, t, p, rest, hq, hc, rfl, rfl⟩)
  · rw [h] at hs
    have e := Outcome.running.inj hs
    subst e
    subst hp
    exact Or.inr (Or.inr ⟨o, rest, a', hq, ho, rfl, rfl⟩)
  · rw [h] at hs
    exact absurd hs (ho a1)

theorem step_terminal (feed : String) (a : Analysis)
    (hs : ∀ a1, Analysis.step feed a ≠ Outcome.running a1) :
    ∃ o rest, a.q = (o, feed, Pulse.High) :: rest ∧ Analysis.step feed a = observe a o := by
  rcases step_cases feed a with ⟨_, h⟩ | ⟨o, t, p, rest, _, _, h⟩ |
      ⟨o, p, rest, hq, hp, ⟨a', _, h⟩ | ⟨_, h⟩⟩
  · exact absurd h (hs _)
  · exact absurd h (hs _)
  · exact absurd h (hs _)
  · subst hp
    exact ⟨o, rest, hq, h⟩

theorem run_cycle_lengths (feed : String) : ∀ (k j : Nat) (a : Analysis),
    a.button_pressed = 1000 + j → ∀ f,
    UMap.find (Analysis.run feed k a).state.cycle_lengths f =
      match UMap.find a.cycle_lengths f with
      | some p => some p
      | none =>
        ((Analysis.observations feed j k a).find? (fun e => decide (e.2 = f))).map
          (fun e => 1000 + e.1) := by
  intro k
  induction k with
  | zero =>
    intro j a _ f
    simp only [Analysis.run, Outcome.state, Analysis.observations, List.find?_nil, Option.map_none']
    cases UMap.find a.cycle_lengths f <;> rfl
  | succ k ih =>
    intro j a hb f
    by_cases hrun : ∃ a1, Analysis.step feed a = Outcome.running a1
    · obtain ⟨a1, hs⟩ := hrun
      rw [run_of_running feed k a a1 hs]
      rcases step_running_fields feed a a1 hs with ⟨hq, b1, b2⟩ |
          ⟨o, t, p, rest, hq, hc, b1, b2⟩ | ⟨o, rest, a', hq, ho, b1, b2⟩
      · rw [observations_nil feed j k a a1 hq hs, ih (j + 1) a1 (by rw [b1, hb]; omega) f, b2]
      · rw [observations_cons feed j k a o t p rest hq, hs,
          ih j a1 (by rw [b1, hb]) f, b2]
        simp only [hc, if_false, List.nil_append]
      · obtain ⟨c1, c2⟩ := observe_cycle_lengths a o f
        rw [ho] at c1 c2
        simp only [Outcome.state] at c1 c2
        rw [observations_cons feed j k a o feed _ rest hq, hs,
          ih j a1 (by rw [b1, c2, hb]) f, b2, c1]
        simp only [and_self, if_true, List.singleton_append, List.find?_cons]
        cases hf : UMap.find a.cycle_lengths f with
        | some p => rfl
        | none =>
          by_cases e : o = f
          · simp [e, hb]
          · simp [e]
    · have hterm : ∀ a1, Analysis.step feed a ≠ Outcome.running a1 :=
        fun a1 h1 => hrun ⟨a1, h1⟩
      obtain ⟨o, rest, hq, hs⟩ := step_terminal feed a hterm
      rw [run_of_terminal feed k a hterm, observations_cons feed j k a o feed _ rest hq]
      have e0 : (match Analysis.step feed a with
          | Outcome.running a' => Analysis.observations feed j k a'
          | _ => []) = [] := by
        cases h : Analysis.step feed a with
        | running a1 => exact absurd h (hterm a1)
        | returned x a1 => rfl
        | assertion_failed a1 => rfl
        | lcm_undefined a1 => rfl
      rw [e0, hs]
      obtain ⟨c1, _⟩ := observe_cycle_lengths a o f
      rw [c1]
      simp only [and_self, if_true, List.append_nil, List.find?_cons, List.find?_nil]
      cases hf : UMap.find a.cycle_lengths f with
      | some p => rfl
      | none =>
        by_cases e : o = f
        · simp [e, hb]
        · simp [e]

/-- Claim C15: at every point of the analysis, the period recorded for a sender
`f` is 1000 plus the number of the trigger cycle of the analysis (the first being
1) in which `f` was for the first time observed sending `High` to the gate, and
no period is recorded for a sender not observed so far. The analysis starts its
counter at 1000, the number of trigger cycles `part_one` has run on the same
table, so this is the index of that cycle counted from the building of the
table. -/
theorem recorded_period_first_observation (fuel : Nat) (g : Graph) (f : String) :
    UMap.find (part_two fuel g).state.cycle_lengths f =
      ((Analysis.observations (find_feed g) 0 fuel (Analysis.start g)).find?
        (fun e => decide (e.2 = f))).map (fun e => 1000 + e.1) := by
  have h := run_cycle_lengths (find_feed g) fuel 0 (Analysis.start g) rfl f
  simpa [part_two, Analysis.start, UMap.find] using h

/-- Claim C16: when the front event carries `High` to the gate from a sender `o`
that has a recorded period `p`, and the current trigger cycle `button_pressed` is
not a multiple of `p`, the loop iteration ends in the failed assertion, and so
does every run that goes through this state: no value is returned. -/
theorem irregular_period_asserts (feed : String) (a : Analysis) (o : String)
    (rest : List Event) (p : Nat) (hq : a.q = (o, feed, Pulse.High) :: rest)
    (hp : UMap.find a.cycle_lengths o = some p) (hn : ¬ p ∣ a.button_pressed) :
    (∃ a', Analysis.step feed a = Outcome.assertion_failed a') ∧
    (∀ k, ∃ a', Analysis.run feed (k + 1) a = Outcome.assertion_failed a') := by
  have hobs : ∃ a', observe a o = Outcome.assertion_failed a' := by
    unfold observe
    simp only [hp]
    have hne : ¬ a.button_pressed = (UMap.find (bump a.seen o) o).getD 0 * p := by
      intro e
      exact hn ⟨_, by rw [e, Nat.mul_comm]⟩
    simp only [hne, if_false]
    exact ⟨_, rfl⟩
  obtain ⟨a', ha'⟩ := hobs
  have hstep : Analysis.step feed a = Outcome.assertion_failed a' := by
    simp only [Analysis.step, hq, and_self, if_true, ha']
  refine ⟨⟨a', hstep⟩, fun k => ⟨a', ?_⟩⟩
  rw [run_of_terminal feed k a (by rw [hstep]; intro a1 h1; exact Outcome.noConfusion h1), hstep]

/-- Witness for C16: the analysis of `irregular_graph` reaches, in trigger cycle
1003, a front event from `a`, whose recorded period is 1001. -/
theorem irregular_period_asserts_witness :
    part_two 19 irregular_graph = Outcome.running irregular_state ∧
    irregular_state.q = ("a", "g", Pulse.High) :: [("x", "y", Pulse.High)] ∧
    UMap.find irregular_state.cycle_lengths "a" = some 1001 ∧
    ¬ 1001 ∣ irregular_state.button_pressed ∧
    (∃ a', Analysis.step "g" irregular_state = Outcome.assertion_failed a') :=
  ⟨by decide, by decide, by decide, by decide,
    (irregular_period_asserts "g" irregular_state "a" [("x", "y", Pulse.High)] 1001
      (by decide) (by decide) (by decide)).1⟩

/-! ### What the returned value is, and what it is not -/

theorem mem_insert {V : Type} (key : String) (v : V) : ∀ (m : UMap V) (kv : String × V),
    kv ∈ UMap.insert m key v → kv ∈ m ∨ kv = (key, v) := by
  intro m
  induction m with
  | nil => intro kv h; simpa [UMap.insert] using h
  | cons e m ih =>
    intro kv h
    obtain ⟨a, w⟩ := e
    by_cases h2 : a = key
    · simp [UMap.insert, h2] at h
      exact Or.inl (by simpa [h2] using h)
    · simp [UMap.insert, h2] at h
      rcases h with h | h
      · exact Or.inl (by simp [h])
      · rcases ih kv h with h | h
        · exact Or.inl (List.mem_cons_of_mem _ h)
        · exact Or.inr h

theorem observe_state_cl (a : Analysis) (o : String) :
    (observe a o).state.cycle_lengths =
      match UMap.find a.cycle_lengths o with
      | none => UMap.insert a.cycle_lengths o a.button_pressed
      | some _ => a.cycle_lengths := by
  unfold observe
  simp only
  cases ho : UMap.find a.cycle_lengths o with
  | none =>
    simp only
    split
    · split <;> rfl
    · rfl
  | some c =>
    simp only
    by_cases hchk : a.button_pressed = (UMap.find (bump a.seen o) o).getD 0 * c
    · simp only [hchk, if_true]
      split
      · split <;> rfl
      · rfl
    · simp only [hchk, if_false]
      rfl

theorem observe_bounded (a : Analysis) (o : String) (rest : List Event) (t : String)
    (p : Pulse) (hq : a.q = (o, t, p) :: rest) (hb : periods_bounded a) :
    periods_bounded (observe a o).state := by
  obtain ⟨h1, h2, h3⟩ := hb
  have hbp := (observe_cycle_lengths a o o).2
  have hge : 1001 ≤ a.button_pressed := h2 (by rw [hq]; simp)
  refine ⟨by rw [hbp]; exact h1, fun _ => by rw [hbp]; exact hge, ?_⟩
  intro c hc
  rw [hbp]
  rw [observe_state_cl] at hc
  cases ho : UMap.find a.cycle_lengths o with
  | none =>
    rw [ho] at hc
    rcases mem_insert o a.button_pressed _ c hc with e | e
    · exact h3 c e
    · rw [e]; exact ⟨hge, le_refl _⟩
  | some v =>
    rw [ho] at hc
    exact h3 c hc

theorem step_bounded (feed : String) (a : Analysis) (hb : periods_bounded a) :
    periods_bounded (Analysis.step feed a).state := by
  rcases step_cases feed a with ⟨hq, hs⟩ | ⟨o, t, p, rest, hq, hc, hs⟩ |
      ⟨o, p, rest, hq, hp, ⟨a', ho, hs⟩ | ⟨ho, hs⟩⟩
  · rw [hs]
    obtain ⟨h1, _, h3⟩ := hb
    refine ⟨by simp only [Outcome.state]; omega, fun _ => by simp only [Outcome.state]; omega, ?_⟩
    intro c hc
    have := h3 c hc
    simp only [Outcome.state]
    omega
  · rw [hs]
    obtain ⟨h1, h2, h3⟩ := hb
    have hge : 1001 ≤ a.button_pressed := h2 (by rw [hq]; simp)
    exact ⟨h1, fun _ => hge, h3⟩
  · rw [hs]
    have hob := observe_bounded a o rest feed p hq hb
    rw [ho] at hob
    obtain ⟨h1, _, h3⟩ := hob
    have hge : 1001 ≤ a.button_pressed := hb.2.1 (by rw [hq]; simp)
    have hbp := (observe_cycle_lengths a o o).2
    rw [ho] at hbp
    simp only [Outcome.state] at hbp h1 h3
    exact ⟨h1, fun _ => by simp only [Outcome.state, hbp]; exact hge, h3⟩
  · rw [hs]
    exact observe_bounded a o rest feed p hq hb

theorem run_bounded (feed : String) : ∀ (k : Nat) (a : Analysis),
    periods_bounded a → periods_bounded (Analysis.run feed k a).state := by
  intro k
  induction k with
  | zero => intro a h; exact h
  | succ k ih =>
    intro a h
    have hs := step_bounded feed a h
    rw [Analysis.run]
    cases hst : Analysis.step feed a with
    | running a' => rw [hst] at hs; exact ih a' hs
    | returned x a' => rw [hst] at hs; exact hs
    | assertion_failed a' => rw [hst] at hs; exact hs
    | lcm_undefined a' => rw [hst] at hs; exact hs

theorem run_returned_key (feed : String) : ∀ (k : Nat) (a : Analysis) (x : Nat)
    (a' : Analysis), Analysis.run feed k a = Outcome.returned x a' →
    ∃ o p, UMap.find a'.cycle_lengths o = some p := by
  intro k
  induction k with
  | zero => intro a x a' h; exact Outcome.noConfusion h
  | succ k ih =>
    intro a x a' h
    by_cases hrun : ∃ a1, Analysis.step feed a = Outcome.running a1
    · obtain ⟨a1, hs⟩ := hrun
      rw [run_of_running feed k a a1 hs] at h
      exact ih a1 x a' h
    · have hterm : ∀ a1, Analysis.step feed a ≠ Outcome.running a1 :=
        fun a1 h1 => hrun ⟨a1, h1⟩
      obtain ⟨o, rest, _, hs⟩ := step_terminal feed a hterm
      rw [run_of_terminal feed k a hterm, hs] at h
      have hc := (observe_cycle_lengths a o o).1
      rw [h] at hc
      simp only [Outcome.state] at hc
      refine ⟨o, ?_⟩
      cases hf : UMap.find a.cycle_lengths o with
      | some p => rw [hf] at hc; exact ⟨p, hc⟩
      | none => rw [hf] at hc; exact ⟨a.button_pressed, by simpa using hc⟩

theorem foldl_lcm_pos : ∀ (l : UMap Nat) (x : Nat), 0 < x → (∀ c ∈ l, 0 < c.2) →
    0 < l.foldl (fun z cl => Nat.lcm z cl.2) x := by
  intro l
  induction l with
  | nil => intro x hx _; exact hx
  | cons c l ih =>
    intro x hx h
    simp only [List.foldl_cons]
    exact ih _ (Nat.lcm_pos hx (h c (by simp))) (fun c' hc' => h c' (List.mem_cons_of_mem _ hc'))

theorem rx_steps (j : Nat) (hj : 2 * j ≤ 1000) :
    Run.steps 1000 (10 * j) (Run.start rx_graph) =
      { sched := { modules := rx_graph, q := [], low := (6 * j) % 2 ^ 64,
                   high := (2 * j) % 2 ^ 64 },
        i := 2 * j } := by
  have h := block_repeat 1000 10 2 6 2 rx_graph (by
    intro l h i hl hh hi
    have c1 := cycle_transfer 1000 3 rx_graph rx_graph_odd 3 1 l h i hl hh (by omega)
      (by decide) (by decide)
    have c2 := cycle_transfer 1000 3 rx_graph_odd rx_graph 3 1 ((l + 3) % 2 ^ 64)
      ((h + 1) % 2 ^ 64) (i + 1) (Nat.mod_lt _ (by norm_num)) (Nat.mod_lt _ (by norm_num))
      (by omega) (by decide) (by decide)
    rw [show 10 = 5 + 5 from rfl, steps_add, c1, c2]
    have e1 : ((l + 3) % 2 ^ 64 + 3) % 2 ^ 64 = (l + 6) % 2 ^ 64 := by omega
    have e2 : ((h + 1) % 2 ^ 64 + 1) % 2 ^ 64 = (h + 2) % 2 ^ 64 := by omega
    rw [e1, e2]) j hj
  exact h

theorem part_one_rx : part_one 5000 rx_graph = some (3000000, rx_graph) := by
  have h := rx_steps 500 (by norm_num)
  unfold part_one
  simp only [show 10 * 500 = 5000 from rfl, show 2 * 500 = 1000 from rfl] at h
  rw [h]
  decide

theorem drain_never (fuel : Nat) : ∀ s : Sched, (∀ j, (dispatch_n j s).q ≠ []) →
    drain fuel s = none := by
  induction fuel with
  | zero =>
    intro s h
    have h0 : s.q ≠ [] := h 0
    simp [drain, h0]
  | succ fuel ih =>
    intro s h
    have h0 : s.q ≠ [] := h 0
    simp only [drain, h0, if_false]
    exact ih (dispatch s) (fun j => h (j + 1))

theorem loop_fixed : ∀ (k : Nat) (s : Sched), s.modules = loop_graph_high →
    s.q = [("a", "a", Pulse.High)] →
    (dispatch_n k s).modules = loop_graph_high ∧
    (dispatch_n k s).q = [("a", "a", Pulse.High)] := by
  intro k
  induction k with
  | zero => intro s hm hq; exact ⟨hm, hq⟩
  | succ k ih =>
    intro s hm hq
    obtain ⟨a, b⟩ := dispatch_core s
      { modules := loop_graph_high, q := [("a", "a", Pulse.High)], low := 0, high := 0 } hm hq
    rw [dispatch_n]
    exact ih _ (by rw [a]; decide) (by rw [b]; decide)

theorem weight_dispatch (w : String → Nat) (g : Graph) (s : Sched) (hr : ranked w g)
    (hw : wiring s.modules = wiring g) (hq : s.q ≠ []) :
    queue_weight w (dispatch s).q < queue_weight w s.q := by
  rcases dispatch_cases s with h0 | ⟨o, t, p, rest, h0, hm⟩ | ⟨o, t, p, rest, m, h0, hm⟩
  · exact absurd h0 hq
  · rw [dispatch_none s o t p rest h0 hm, h0]
    simp only [queue_weight, List.map_cons, List.sum_cons]
    omega
  · rw [dispatch_some s o t p rest m h0 hm, h0]
    obtain ⟨m0, hm0, hfs⟩ := find_wiring s.modules g hw t m hm
    have hrank := hr (t, m0) (mem_of_find g t m0 hm0)
    have hnx : m0.m_next = m.m_next := by
      rw [← forget_state_m_next m0, hfs, forget_state_m_next]
    simp only [hnx] at hrank
    cases hout : (m.send p o).2.2 with
    | none =>
      simp only [queue_weight, List.map_cons, List.sum_cons]
      omega
    | some l =>
      have hl := send_fanout m p o l hout
      simp only [queue_weight, List.map_cons, List.sum_cons, List.map_append, List.sum_append,
        List.map_map, hl]
      have e : (List.map ((fun e : Event => w e.2.1 + 1) ∘
          fun out => (t, out, (m.send p o).2.1)) m.m_next) =
          List.map (fun out => w out + 1) m.m_next := by
        apply List.map_congr_left
        intro x _
        rfl
      rw [e]
      omega

theorem drain_ranked (w : String → Nat) (g : Graph) (hr : ranked w g) : ∀ (n : Nat) (s : Sched),
    wiring s.modules = wiring g → queue_weight w s.q ≤ n →
    ∃ s', drain n s = some s' ∧ s'.q = [] ∧ wiring s'.modules = wiring g := by
  intro n
  induction n with
  | zero =>
    intro s hw hq
    have he : s.q = [] := by
      cases h : s.q with
      | nil => rfl
      | cons e r =>
        rw [h] at hq
        simp [queue_weight] at hq
    exact ⟨s, by simp [drain, he], he, hw⟩
  | succ n ih =>
    intro s hw hq
    by_cases he : s.q = []
    · exact ⟨s, by simp [drain, he], he, hw⟩
    · have hlt := weight_dispatch w g s hr hw he
      obtain ⟨s', h1, h2, h3⟩ := ih (dispatch s) (by rw [wiring_dispatch, hw]) (by omega)
      exact ⟨s', by simp only [drain, he, if_false]; exact h1, h2, h3⟩

/-- On a table that has a ranking `w` (a wiring without feedback loop), from every
module state with that wiring one trigger cycle ends: the queue seeded with
`(initial, broadcaster, Low)` runs empty after at most `w broadcaster + 1`
dispatched events, and the wiring is still the same. -/
theorem ranked_cycle_terminates (w : String → Nat) (g : Graph) (hr : ranked w g) (s : Sched)
    (hw : wiring s.modules = wiring g) :
    ∃ s', trigger_cycle (w "broadcaster" + 1) s = some s' ∧ s'.q = [] ∧
      wiring s'.modules = wiring g := by
  unfold trigger_cycle
  exact drain_ranked w g hr _ _ hw (by simp [queue_weight, seed])

/-! ### Termination on wirings with feedback -/

theorem sum_fanout (wl wh : String → Nat) (t : String) (q : Pulse) (nx : List String) :
    ((nx.map (fun out => ((t, out, q) : Event))).map (event_weight wl wh)).sum =
      if q = Pulse.Low then fanout_weight wl nx else fanout_weight wh nx := by
  induction nx with
  | nil => cases q <;> simp [fanout_weight]
  | cons a nx ih =>
    simp only [List.map_cons, List.sum_cons, ih]
    cases q <;> simp [event_weight, fanout_weight]

theorem charge_assign (ph : String → Nat) : ∀ (g : Graph) (t : String) (m m' : Module),
    UMap.find g t = some m →
    charge ph (UMap.insert_or_assign g t m') + Module.charge ph t m =
      charge ph g + Module.charge ph t m' := by
  intro g
  induction g with
  | nil => intro t m m' h; simp [UMap.find] at h
  | cons e g ih =>
    intro t m m' h
    obtain ⟨k, v⟩ := e
    by_cases hk : k = t
    · subst hk
      simp only [UMap.find, if_true, Option.some.injEq] at h
      subst h
      simp only [UMap.insert_or_assign, if_true, charge, List.map_cons, List.sum_cons]
      omega
    · simp only [UMap.find, hk, if_false] at h
      have := ih t m m' h
      simp only [UMap.insert_or_assign, hk, if_false, charge, List.map_cons, List.sum_cons] at this ⊢
      omega

theorem balanced_forget (wl wh ph : String → Nat) (k : String) (m m' : Module)
    (h : m'.forget_state = m.forget_state) (hb : Module.balanced wl wh ph k m') :
    Module.balanced wl wh ph k m := by
  cases m <;> cases m' <;> simp only [Module.forget_state, Module.Broadcaster.injEq,
    Module.FlipFlop.injEq, Module.Conjuction.injEq, and_true, reduceCtorEq] at h
  all_goals (subst h; exact hb)

theorem sched_weight_dispatch (wl wh ph : String → Nat) (g : Graph) (s : Sched)
    (hb : balanced wl wh ph g) (hw : wiring s.modules = wiring g) (hq : s.q ≠ []) :
    sched_weight wl wh ph (dispatch s) < sched_weight wl wh ph s := by
  rcases dispatch_cases s with h0 | ⟨o, t, p, rest, h0, hm⟩ | ⟨o, t, p, rest, m, h0, hm⟩
  · exact absurd h0 hq
  · rw [dispatch_none s o t p rest h0 hm]
    simp only [sched_weight, h0, List.map_cons, List.sum_cons, event_weight]
    omega
  · obtain ⟨m0, hm0, hfs⟩ := find_wiring s.modules g hw t m hm
    have hbm : Module.balanced wl wh ph t m :=
      balanced_forget wl wh ph t m m0 hfs (hb (t, m0) (mem_of_find g t m0 hm0))
    have hc := charge_assign ph s.modules t m (m.send p o).1 hm
    rw [dispatch_some s o t p rest m h0 hm]
    simp only [sched_weight, h0, List.map_cons, List.sum_cons]
    cases m with
    | Broadcaster nx =>
      simp only [Module.send, Module.Broadcaster_send, Module.charge] at hc ⊢
      simp only [List.map_append, List.sum_append, sum_fanout]
      simp only [Module.balanced] at hbm
      cases p <;> simp only [event_weight, reduceCtorEq, if_true, if_false] <;> omega
    | FlipFlop nx st =>
      simp only [Module.balanced] at hbm
      cases p <;> cases st <;>
        simp only [Module.send, Module.FlipFlop_send, Module.charge, reduceCtorEq, if_true,
          if_false, Bool.not_true, Bool.not_false, List.map_append, List.sum_append, sum_fanout,
          event_weight, Bool.false_eq_true] at hc ⊢ <;>
        omega
    | Conjuction nx inp =>
      simp only [Module.balanced] at hbm
      simp only [Module.send, Module.Conjuction_send] at hc ⊢
      by_cases hall : (UMap.insert_or_assign inp o p).all (fun kv => decide (kv.2 = Pulse.High)) = true
      · simp only [hall, if_true, Module.charge, List.map_append, List.sum_append, sum_fanout,
          event_weight] at hc ⊢
        cases p <;> simp only [reduceCtorEq, if_true, if_false] <;> omega
      · simp only [hall, if_false, Module.charge, List.map_append, List.sum_append, sum_fanout,
          event_weight, reduceCtorEq, Bool.false_eq_true] at hc ⊢
        cases p <;> simp only [reduceCtorEq, if_true, if_false] <;> omega

theorem charge_zero : ∀ g : Graph, charge (fun _ => 0) g = 0 := by
  intro g
  induction g with
  | nil => rfl
  | cons e g ih =>
    obtain ⟨k, m⟩ := e
    simp only [charge, List.map_cons, List.sum_cons] at ih ⊢
    rw [ih]
    cases m with
    | Broadcaster nx => rfl
    | FlipFlop nx st => cases st <;> rfl
    | Conjuction nx inp => rfl

theorem drain_balanced (wl wh ph : String → Nat) (g : Graph) (hb : balanced wl wh ph g) :
    ∀ (n : Nat) (s : Sched), wiring s.modules = wiring g → sched_weight wl wh ph s ≤ n →
    ∃ s', drain n s = some s' ∧ s'.q = [] ∧ wiring s'.modules = wiring g := by
  intro n
  induction n with
  | zero =>
    intro s hw hq
    have he : s.q = [] := by
      cases h : s.q with
      | nil => rfl
      | cons e r =>
        simp only [sched_weight, h, List.map_cons, List.sum_cons, event_weight] at hq
        omega
    exact ⟨s, by simp [drain, he], he, hw⟩
  | succ n ih =>
    intro s hw hq
    by_cases he : s.q = []
    · exact ⟨s, by simp [drain, he], he, hw⟩
    · have hlt := sched_weight_dispatch wl wh ph g s hb hw he
      obtain ⟨s', h1, h2, h3⟩ := ih (dispatch s) (by rw [wiring_dispatch, hw]) (by omega)
      exact ⟨s', by simp only [drain, he, if_false]; exact h1, h2, h3⟩

theorem ranked_balanced (w : String → Nat) (g : Graph) (hr : ranked w g) :
    balanced w w (fun _ => 0) g := by
  intro p hp
  have h := hr p hp
  obtain ⟨k, m⟩ := p
  cases m <;> simp only [Module.balanced, fanout_weight, Module.m_next] at h ⊢ <;> omega

theorem loop_not_balanced (wl wh ph : String → Nat) : ¬ balanced wl wh ph loop_graph := by
  intro h
  have ha := h ("a", Module.Conjuction ["a"] [("broadcaster", Pulse.Low), ("a", Pulse.Low)])
    (by simp [loop_graph])
  simp only [Module.balanced, fanout_weight, List.map_cons, List.map_nil, List.sum_cons,
    List.sum_nil] at ha
  omega

theorem mem_same_find (a b : UMap Pulse) (h : mem_same a b) (k : String) :
    UMap.find a k = UMap.find b k := by
  by_cases hk : k ∈ UMap.keys a ++ UMap.keys b
  · exact h.2.2 k hk
  · rw [List.mem_append, not_or] at hk
    rw [(find_eq_none_iff a k).2 hk.1, (find_eq_none_iff b k).2 hk.2]

theorem all_high_iff (a : UMap Pulse) (hn : (UMap.keys a).Nodup) :
    a.all (fun kv => decide (kv.2 = Pulse.High)) = true ↔
      ∀ k v, UMap.find a k = some v → v = Pulse.High := by
  rw [List.all_eq_true]
  constructor
  · intro h k v hf
    have := h (k, v) (mem_of_find a k v hf)
    simpa using this
  · intro h kv hkv
    have := h kv.1 kv.2 (find_of_mem a kv.1 kv.2 hn hkv)
    simpa using this

theorem all_high_same (a b : UMap Pulse) (h : mem_same a b) :
    a.all (fun kv => decide (kv.2 = Pulse.High)) = b.all (fun kv => decide (kv.2 = Pulse.High)) := by
  have e : (a.all (fun kv => decide (kv.2 = Pulse.High)) = true) ↔
      (b.all (fun kv => decide (kv.2 = Pulse.High)) = true) := by
    rw [all_high_iff a h.1, all_high_iff b h.2.1]
    constructor
    · intro hh k v hf; exact hh k v (by rw [mem_same_find a b h]; exact hf)
    · intro hh k v hf; exact hh k v (by rw [← mem_same_find a b h]; exact hf)
  cases ha : a.all (fun kv => decide (kv.2 = Pulse.High)) <;>
    cases hb : b.all (fun kv => decide (kv.2 = Pulse.High)) <;> simp_all

theorem nodup_insert_or_assign {V : Type} (m : UMap V) (k : String) (v : V)
    (hn : (UMap.keys m).Nodup) : (UMap.keys (UMap.insert_or_assign m k v)).Nodup := by
  rw [keys_insert_or_assign]
  by_cases hm : k ∈ UMap.keys m
  · simpa [hm] using hn
  · simp only [hm, if_false]
    exact List.Nodup.append hn (List.nodup_singleton k) (by simpa using hm)

theorem mem_same_insert (a b : UMap Pulse) (h : mem_same a b) (k : String) (v : Pulse) :
    mem_same (UMap.insert_or_assign a k v) (UMap.insert_or_assign b k v) := by
  refine ⟨nodup_insert_or_assign a k v h.1, nodup_insert_or_assign b k v h.2.1, ?_⟩
  intro x _
  rw [find_insert_or_assign, find_insert_or_assign, mem_same_find a b h]

theorem same_m_next (m m' : Module) (h : Module.same m m') : m.m_next = m'.m_next := by
  cases m <;> cases m' <;> simp_all [Module.same, Module.m_next]

theorem send_same (m m' : Module) (h : Module.same m m') (p : Pulse) (o : String) :
    (m.send p o).2 = (m'.send p o).2 ∧ Module.same (m.send p o).1 (m'.send p o).1 := by
  cases m with
  | Broadcaster nx =>
    have e : m' = Module.Broadcaster nx := h
    subst e
    exact ⟨rfl, rfl⟩
  | FlipFlop nx st =>
    have e : m' = Module.FlipFlop nx st := h
    subst e
    refine ⟨rfl, ?_⟩
    cases p <;> simp [Module.send, Module.FlipFlop_send, Module.same]
  | Conjuction nx a =>
    cases m' with
    | Broadcaster nx' => exact absurd h (by simp [Module.same])
    | FlipFlop nx' st => exact absurd h (by simp [Module.same])
    | Conjuction nx' b =>
      obtain ⟨e, hab⟩ : nx = nx' ∧ mem_same a b := h
      subst e
      have hs := mem_same_insert a b hab o p
      have hall := all_high_same _ _ hs
      simp only [Module.send, Module.Conjuction_send, hall]
      split
      · exact ⟨rfl, rfl, hs⟩
      · exact ⟨rfl, rfl, hs⟩

theorem graph_same_find (g g' : Graph) (h : Graph.same g g') (k : String) :
    (UMap.find g k = none ∧ UMap.find g' k = none) ∨
    ∃ m m', UMap.find g k = some m ∧ UMap.find g' k = some m' ∧ Module.same m m' := by
  by_cases hk : k ∈ UMap.keys g ++ UMap.keys g'
  · have := h k hk
    cases h1 : UMap.find g k with
    | none => rw [h1] at this; exact absurd this (by simp [found_same])
    | some m =>
      cases h2 : UMap.find g' k with
      | none => rw [h1, h2] at this; exact absurd this (by simp [found_same])
      | some m' =>
        rw [h1, h2] at this
        exact Or.inr ⟨m, m', rfl, rfl, this⟩
  · rw [List.mem_append, not_or] at hk
    exact Or.inl ⟨(find_eq_none_iff g k).2 hk.1, (find_eq_none_iff g' k).2 hk.2⟩

theorem graph_same_of_find (g g' : Graph)
    (h : ∀ k, (UMap.find g k = none ∧ UMap.find g' k = none) ∨
      ∃ m m', UMap.find g k = some m ∧ UMap.find g' k = some m' ∧ Module.same m m') :
    Graph.same g g' := by
  intro k hk
  rcases h k with ⟨h1, h2⟩ | ⟨m, m', h1, h2, hs⟩
  · rw [List.mem_append] at hk
    rcases hk with hk | hk
    · exact absurd hk ((find_eq_none_iff g k).1 h1)
    · exact absurd hk ((find_eq_none_iff g' k).1 h2)
  · rw [h1, h2]
    exact hs

theorem dispatch_same (s s' : Sched) (hg : Graph.same s.modules s'.modules) (hq : s.q = s'.q)
    (hl : s.low = s'.low) (hh : s.high = s'.high) :
    Graph.same (dispatch s).modules (dispatch s').modules ∧ (dispatch s).q = (dispatch s').q ∧
    (dispatch s).low = (dispatch s').low ∧ (dispatch s).high = (dispatch s').high := by
  have hlow : (dispatch s).low = (dispatch s').low := by
    rw [dispatch_low, dispatch_low, hq, hl]
  have hhigh : (dispatch s).high = (dispatch s').high := by
    rw [dispatch_high, dispatch_high, hq, hh]
  refine ⟨?_, ?_, hlow, hhigh⟩
  · rcases dispatch_cases s with h0 | ⟨o, t, p, rest, h0, hm⟩ | ⟨o, t, p, rest, m, h0, hm⟩
    · rw [dispatch_nil s h0, dispatch_nil s' (hq ▸ h0)]; exact hg
    · rcases graph_same_find _ _ hg t with ⟨_, h2⟩ | ⟨m, m', h1, _, _⟩
      · rw [dispatch_none s o t p rest h0 hm, dispatch_none s' o t p rest (hq ▸ h0) h2]
        exact hg
      · rw [hm] at h1; exact Option.noConfusion h1
    · rcases graph_same_find _ _ hg t with ⟨h1, _⟩ | ⟨m1, m', h1, h2, hs⟩
      · rw [hm] at h1; exact Option.noConfusion h1
      · rw [hm] at h1
        have e := Option.some.inj h1
        subst e
        rw [dispatch_some s o t p rest m h0 hm, dispatch_some s' o t p rest m' (hq ▸ h0) h2]
        apply graph_same_of_find
        intro k
        simp only [find_insert_or_assign]
        by_cases e : t = k
        · simp only [e, if_true]
          exact Or.inr ⟨_, _, rfl, rfl, (send_same m m' hs p o).2⟩
        · simp only [e, if_false]
          exact graph_same_find _ _ hg k
  · rcases dispatch_cases s with h0 | ⟨o, t, p, rest, h0, hm⟩ | ⟨o, t, p, rest, m, h0, hm⟩
    · rw [dispatch_nil s h0, dispatch_nil s' (hq ▸ h0)]; exact hq
    · rcases graph_same_find _ _ hg t with ⟨_, h2⟩ | ⟨m, m', h1, _, _⟩
      · rw [dispatch_none s o t p rest h0 hm, dispatch_none s' o t p rest (hq ▸ h0) h2]
      · rw [hm] at h1; exact Option.noConfusion h1
    · rcases graph_same_find _ _ hg t with ⟨h1, _⟩ | ⟨m1, m', h1, h2, hs⟩
      · rw [hm] at h1; exact Option.noConfusion h1
      · rw [hm] at h1
        have e := Option.some.inj h1
        subst e
        rw [dispatch_some s o t p rest m h0 hm, dispatch_some s' o t p rest m' (hq ▸ h0) h2]
        simp only [(send_same m m' hs p o).1]

theorem step_same (cycles : Nat) (r r' : Run)
    (hg : Graph.same r.sched.modules r'.sched.modules) (hq : r.sched.q = r'.sched.q)
    (hl : r.sched.low = r'.sched.low) (hh : r.sched.high = r'.sched.high) (hi : r.i = r'.i) :
    Graph.same (Run.step cycles r).sched.modules (Run.step cycles r').sched.modules ∧
    (Run.step cycles r).sched.q = (Run.step cycles r').sched.q ∧
    (Run.step cycles r).sched.low = (Run.step cycles r').sched.low ∧
    (Run.step cycles r).sched.high = (Run.step cycles r').sched.high ∧
    (Run.step cycles r).i = (Run.step cycles r').i := by
  unfold Run.step
  rw [← hq, ← hi]
  by_cases he : r.sched.q = []
  · simp only [he, ne_eq, not_true_eq_false, if_false]
    by_cases hc : r.i < cycles
    · simp only [hc, if_true]
      refine ⟨hg, ?_, hl, hh, ?_⟩ <;> trivial
    · simp only [hc, if_false]
      refine ⟨hg, ?_, hl, hh, ?_⟩
      · rw [← hq]
      · rw [← hi]
  · simp only [he, ne_eq, not_false_eq_true, if_true]
    obtain ⟨a, b, c, d⟩ := dispatch_same r.sched r'.sched hg hq hl hh
    refine ⟨a, b, c, d, ?_⟩
    trivial

theorem steps_same (cycles : Nat) : ∀ (k : Nat) (r r' : Run),
    Graph.same r.sched.modules r'.sched.modules → r.sched.q = r'.sched.q →
    r.sched.low = r'.sched.low → r.sched.high = r'.sched.high → r.i = r'.i →
    Run.trace cycles k r = Run.trace cycles k r' ∧
    Graph.same (Run.steps cycles k r).sched.modules (Run.steps cycles k r').sched.modules ∧
    (Run.steps cycles k r).sched.q = (Run.steps cycles k r').sched.q ∧
    (Run.steps cycles k r).sched.low = (Run.steps cycles k r').sched.low ∧
    (Run.steps cycles k r).sched.high = (Run.steps cycles k r').sched.high ∧
    (Run.steps cycles k r).i = (Run.steps cycles k r').i := by
  intro k
  induction k with
  | zero => intro r r' hg hq hl hh hi; exact ⟨rfl, hg, hq, hl, hh, hi⟩
  | succ k ih =>
    intro r r' hg hq hl hh hi
    obtain ⟨a, b, c, d, e⟩ := step_same cycles r r' hg hq hl hh hi
    obtain ⟨t, rest⟩ := ih _ _ a b c d e
    refine ⟨?_, rest⟩
    rw [Run.trace, Run.trace, ← hq, t]

theorem graph_same_refl (g : Graph)
    (h : ∀ k nx inp, UMap.find g k = some (Module.Conjuction nx inp) → (UMap.keys inp).Nodup) :
    Graph.same g g := by
  apply graph_same_of_find
  intro k
  cases hk : UMap.find g k with
  | none => exact Or.inl ⟨rfl, rfl⟩
  | some m =>
    right
    refine ⟨m, m, rfl, rfl, ?_⟩
    cases m with
    | Broadcaster nx => rfl
    | FlipFlop nx st => rfl
    | Conjuction nx inp => exact ⟨rfl, h k nx inp hk, h k nx inp hk, fun _ _ => rfl⟩

/-- Claim C19: let `g` be the table built from a text. A table built from the same
text again is the same table; and for every table `g'` that holds the same
modules in the same states, in whatever iteration order of the table and
of the memories, the run from `g'` pops the same events in the same order as the
run from `g`, step by step, with the same `Low` and `High` counters, the same
queue and cycle count, and the same state of every module afterwards. -/
theorem builds_run_alike (data : String) (g g' : Graph) (h : parse_input data = some g)
    (hs : Graph.same g g') (cycles k : Nat) :
    (∀ g2, parse_input data = some g2 → g2 = g ∧ Graph.same g g2) ∧
    Run.trace cycles k (Run.start g) = Run.trace cycles k (Run.start g') ∧
    (Run.steps cycles k (Run.start g)).sched.low =
      (Run.steps cycles k (Run.start g')).sched.low ∧
    (Run.steps cycles k (Run.start g)).sched.high =
      (Run.steps cycles k (Run.start g')).sched.high ∧
    (Run.steps cycles k (Run.start g)).sched.q = (Run.steps cycles k (Run.start g')).sched.q ∧
    (Run.steps cycles k (Run.start g)).i = (Run.steps cycles k (Run.start g')).i ∧
    Graph.same (Run.steps cycles k (Run.start g)).sched.modules
      (Run.steps cycles k (Run.start g')).sched.modules := by
  obtain ⟨t, a, b, c, d, e⟩ := steps_same cycles k (Run.start g) (Run.start g') hs rfl rfl rfl rfl
  refine ⟨?_, t, c, d, b, e, a⟩
  intro g2 h2
  have e2 : g2 = g := by
    rw [h] at h2
    exact (Option.some.inj h2).symm
  subst e2
  exact ⟨rfl, graph_same_refl g2
    (fun k nx inp hk => (memories_parse_input data g2 h k nx inp hk).2.2)⟩

/-- Witness for C19: the table of `two_sender_text` and the same modules in another
iteration order, with the memory of `con` in another order. -/
theorem builds_run_alike_witness :
    parse_input two_sender_text = some two_sender_graph ∧
    Graph.same two_sender_graph two_sender_graph_other ∧
    Run.trace 1000 40 (Run.start two_sender_graph) =
      Run.trace 1000 40 (Run.start two_sender_graph_other) :=
  ⟨by decide, by decide,
    (builds_run_alike two_sender_text two_sender_graph two_sender_graph_other (by decide)
      (by decide) 1000 40).2.1⟩

/-! ### The order of a fan-out list -/

theorem twice_steps (j : Nat) (hj : 2 * j ≤ 1000) :
    Run.steps 1000 (22 * j) (Run.start (twice_graph ["x", "y", "y"] false)) =
      { sched := { modules := twice_graph ["x", "y", "y"] false, q := [],
                   low := (12 * j) % 2 ^ 64, high := (8 * j) % 2 ^ 64 },
        i := 2 * j } := by
  have h := block_repeat 1000 22 2 12 8 (twice_graph ["x", "y", "y"] false) (by
    intro l h i hl hh hi
    have c1 := cycle_transfer 1000 9 (twice_graph ["x", "y", "y"] false)
      (twice_graph ["x", "y", "y"] true) 6 4 l h i hl hh (by omega) (by decide) (by decide)
    have c2 := cycle_transfer 1000 9 (twice_graph ["x", "y", "y"] true)
      (twice_graph ["x", "y", "y"] false) 6 4 ((l + 6) % 2 ^ 64)
      ((h + 4) % 2 ^ 64) (i + 1) (Nat.mod_lt _ (by norm_num)) (Nat.mod_lt _ (by norm_num))
      (by omega) (by decide) (by decide)
    rw [show 22 = 11 + 11 from rfl, steps_add, c1, c2]
    have e1 : ((l + 6) % 2 ^ 64 + 6) % 2 ^ 64 = (l + 12) % 2 ^ 64 := by omega
    have e2 : ((h + 4) % 2 ^ 64 + 4) % 2 ^ 64 = (h + 8) % 2 ^ 64 := by omega
    rw [e1, e2]) j hj
  exact h

theorem twice_steps_moved (j : Nat) (hj : 2 * j ≤ 1000) :
    Run.steps 1000 (22 * j) (Run.start (twice_graph ["y", "x", "y"] false)) =
      { sched := { modules := twice_graph ["y", "x", "y"] false, q := [],
                   low := (13 * j) % 2 ^ 64, high := (7 * j) % 2 ^ 64 },
        i := 2 * j } := by
  have h := block_repeat 1000 22 2 13 7 (twice_graph ["y", "x", "y"] false) (by
    intro l h i hl hh hi
    have c1 := cycle_transfer 1000 9 (twice_graph ["y", "x", "y"] false)
      (twice_graph ["y", "x", "y"] true) 6 4 l h i hl hh (by omega) (by decide) (by decide)
    have c2 := cycle_transfer 1000 9 (twice_graph ["y", "x", "y"] true)
      (twice_graph ["y", "x", "y"] false) 7 3 ((l + 6) % 2 ^ 64)
      ((h + 4) % 2 ^ 64) (i + 1) (Nat.mod_lt _ (by norm_num)) (Nat.mod_lt _ (by norm_num))
      (by omega) (by decide) (by decide)
    rw [show 22 = 11 + 11 from rfl, steps_add, c1, c2]
    have e1 : ((l + 6) % 2 ^ 64 + 7) % 2 ^ 64 = (l + 13) % 2 ^ 64 := by omega
    have e2 : ((h + 4) % 2 ^ 64 + 3) % 2 ^ 64 = (h + 7) % 2 ^ 64 := by omega
    rw [e1, e2]) j hj
  exact h

theorem part_one_twice : part_one 11000 (twice_graph ["x", "y", "y"] false) =
    some (24000000, twice_graph ["x", "y", "y"] false) := by
  have h := twice_steps 500 (by norm_num)
  unfold part_one
  simp only [show 22 * 500 = 11000 from rfl, show 2 * 500 = 1000 from rfl] at h
  rw [h]
  decide

theorem part_one_twice_moved : part_one 11000 (twice_graph ["y", "x", "y"] false) =
    some (22750000, twice_graph ["y", "x", "y"] false) := by
  have h := twice_steps_moved 500 (by norm_num)
  unfold part_one
  simp only [show 22 * 500 = 11000 from rfl, show 2 * 500 = 1000 from rfl] at h
  rw [h]
  decide

/-- Counterexample to C20 as stated. The texts `twice_text` and `twice_text_moved`
differ only in the order of the fan-out of `broadcaster`; `part_one` returns
24000000 for one table (6000 `Low`, 4000 `High`) and 22750000 for the other
(6500 `Low`, 3500 `High`). Without a repeated name: `order_text` and
`order_text_swapped` differ in the same way, and three trigger cycles, over
after 29 steps each, count 15 `Low` and 11 `High` events in one run, 14 and 12 in
the other. -/
theorem fanout_order_changes_counts :
    parse_input twice_text = some (twice_graph ["x", "y", "y"] false) ∧
    parse_input twice_text_moved =
      some (reorder (twice_graph ["x", "y", "y"] false) "broadcaster" ["y", "x", "y"]) ∧
    List.Perm ["y", "x", "y"] ["x", "y", "y"] ∧
    part_one 11000 (twice_graph ["x", "y", "y"] false) =
      some (24000000, twice_graph ["x", "y", "y"] false) ∧
    part_one 11000 (reorder (twice_graph ["x", "y", "y"] false) "broadcaster" ["y", "x", "y"]) =
      some (22750000,
        reorder (twice_graph ["x", "y", "y"] false) "broadcaster" ["y", "x", "y"]) ∧
    (Run.steps 1000 11000 (Run.start (twice_graph ["x", "y", "y"] false))).sched.low = 6000 ∧
    (Run.steps 1000 11000 (Run.start (twice_graph ["x", "y", "y"] false))).sched.high = 4000 ∧
    (Run.steps 1000 11000 (Run.start
      (reorder (twice_graph ["x", "y", "y"] false) "broadcaster" ["y", "x", "y"]))).sched.low =
        6500 ∧
    (Run.steps 1000 11000 (Run.start
      (reorder (twice_graph ["x", "y", "y"] false) "broadcaster" ["y", "x", "y"]))).sched.high =
        3500 ∧
    parse_input order_text = some order_graph ∧
    parse_input order_text_swapped = some (reorder order_graph "broadcaster" ["y", "x"]) ∧
    List.Perm ["y", "x"] ["x", "y"] ∧
    (Run.steps 3 29 (Run.start order_graph)).sched.q = [] ∧
    (Run.steps 3 29 (Run.start order_graph)).i = 3 ∧
    (Run.steps 3 29 (Run.start order_graph)).sched.low = 15 ∧
    (Run.steps 3 29 (Run.start order_graph)).sched.high = 11 ∧
    (Run.steps 3 29 (Run.start (reorder order_graph "broadcaster" ["y", "x"]))).sched.q = [] ∧
    (Run.steps 3 29 (Run.start (reorder order_graph "broadcaster" ["y", "x"]))).i = 3 ∧
    (Run.steps 3 29 (Run.start (reorder order_graph "broadcaster" ["y", "x"]))).sched.low = 14 ∧
    (Run.steps 3 29 (Run.start (reorder order_graph "broadcaster" ["y", "x"]))).sched.high = 12 := by
  have e : reorder (twice_graph ["x", "y", "y"] false) "broadcaster" ["y", "x", "y"] =
      twice_graph ["y", "x", "y"] false := by decide
  have s1 := twice_steps 500 (by norm_num)
  have s2 := twice_steps_moved 500 (by norm_num)
  simp only [show 22 * 500 = 11000 from rfl] at s1 s2
  rw [e]
  refine ⟨by decide, by decide, by decide, part_one_twice, part_one_twice_moved, ?_, ?_, ?_, ?_,
    by decide, by decide, by decide, ?_, ?_, ?_, ?_, ?_, ?_, ?_, ?_⟩
  · rw [s1]; decide
  · rw [s1]; decide
  · rw [s2]; decide
  · rw [s2]; decide
  all_goals decide

theorem with_next_send (m : Module) (l : List String) (p : Pulse) (o : String) :
    (m.with_next l).send p o =
      ((m.send p o).1.with_next l, (m.send p o).2.1, (m.send p o).2.2.map (fun _ => l)) := by
  cases m with
  | Broadcaster nx => rfl
  | FlipFlop nx st => cases p <;> rfl
  | Conjuction nx inp =>
    simp only [Module.with_next, Module.send, Module.Conjuction_send]
    split <;> rfl

theorem insert_or_assign_twice {V : Type} (k : String) (a b : V) : ∀ g : UMap V,
    UMap.insert_or_assign (UMap.insert_or_assign g k a) k b = UMap.insert_or_assign g k b := by
  intro g
  induction g with
  | nil => simp [UMap.insert_or_assign]
  | cons e g ih =>
    obtain ⟨x, w⟩ := e
    by_cases h : x = k
    · simp [UMap.insert_or_assign, h]
    · simp [UMap.insert_or_assign, h, ih]

theorem insert_or_assign_comm {V : Type} (k t : String) (a b : V) (hkt : k ≠ t) :
    ∀ g : UMap V, k ∈ UMap.keys g →
    UMap.insert_or_assign (UMap.insert_or_assign g k a) t b =
      UMap.insert_or_assign (UMap.insert_or_assign g t b) k a := by
  intro g
  induction g with
  | nil => intro h; simp [UMap.keys] at h
  | cons e g ih =>
    intro h
    obtain ⟨x, w⟩ := e
    by_cases h1 : x = k
    · subst h1
      have h2 : ¬ x = t := hkt
      simp [UMap.insert_or_assign, h2]
    · have hk : k ∈ UMap.keys g := by
        simp only [UMap.keys, List.map_cons, List.mem_cons] at h
        rcases h with h | h
        · exact absurd h.symm h1
        · exact h
      by_cases h2 : x = t
      · subst h2
        simp [UMap.insert_or_assign, h1]
      · simp [UMap.insert_or_assign, h1, h2, ih hk]

theorem reorder_dispatch (s s' : Sched) (k : String) (m : Module) (l : List String)
    (hm : UMap.find s.modules k = some m) (hp : l.Perm m.m_next)
    (hmod : s'.modules = reorder s.modules k l) (hq : s'.q = s.q) (hl : s'.low = s.low)
    (hh : s'.high = s.high) :
    (dispatch s').q.Perm (dispatch s).q ∧ (dispatch s').low = (dispatch s).low ∧
    (dispatch s').high = (dispatch s).high ∧
    (dispatch s').modules = reorder (dispatch s).modules k l := by
  have hre : s'.modules = UMap.insert_or_assign s.modules k (m.with_next l) := by
    rw [hmod]; simp only [reorder, hm]
  have hkin : k ∈ UMap.keys s.modules := by
    by_contra hc
    rw [(find_eq_none_iff s.modules k).mpr hc] at hm
    exact Option.noConfusion hm
  refine ⟨?_, ?_, ?_, ?_⟩
  · rcases dispatch_cases s with h0 | ⟨o, t, p, rest, h0, h1⟩ | ⟨o, t, p, rest, m1, h0, h1⟩
    · rw [dispatch_nil s h0, dispatch_nil s' (hq.trans h0), hq]
    · have hkt : ¬ k = t := by
        intro e; rw [e, h1] at hm; exact Option.noConfusion hm
      rw [dispatch_none s o t p rest h0 h1,
        dispatch_none s' o t p rest (hq.trans h0) (by
          rw [hre, find_insert_or_assign, if_neg hkt]; exact h1)]
    · by_cases hkt : k = t
      · subst hkt
        rw [hm] at h1
        have e := Option.some.inj h1
        subst e
        rw [dispatch_some s o k p rest m h0 hm,
          dispatch_some s' o k p rest (m.with_next l) (hq.trans h0) (by
            rw [hre, find_insert_or_assign, if_pos rfl])]
        simp only [with_next_send]
        cases hout : (m.send p o).2.2 with
        | none => simp
        | some l0 =>
          have hl0 := send_fanout m p o l0 hout
          simp only [Option.map_some']
          apply List.Perm.append_left
          rw [hl0]
          exact List.Perm.map _ hp
      · rw [dispatch_some s o t p rest m1 h0 h1,
          dispatch_some s' o t p rest m1 (hq.trans h0) (by
            rw [hre, find_insert_or_assign, if_neg hkt]; exact h1)]
  · rw [dispatch_low, dispatch_low, hq, hl]
  · rw [dispatch_high, dispatch_high, hq, hh]
  · rcases dispatch_cases s with h0 | ⟨o, t, p, rest, h0, h1⟩ | ⟨o, t, p, rest, m1, h0, h1⟩
    · rw [dispatch_nil s h0, dispatch_nil s' (hq.trans h0), hmod]
    · have hkt : ¬ k = t := by
        intro e; rw [e, h1] at hm; exact Option.noConfusion hm
      rw [dispatch_none s o t p rest h0 h1,
        dispatch_none s' o t p rest (hq.trans h0) (by
          rw [hre, find_insert_or_assign, if_neg hkt]; exact h1)]
      exact hmod
    · by_cases hkt : k = t
      · subst hkt
        rw [hm] at h1
        have e := Option.some.inj h1
        subst e
        rw [dispatch_some s o k p rest m h0 hm,
          dispatch_some s' o k p rest (m.with_next l) (hq.trans h0) (by
            rw [hre, find_insert_or_assign, if_pos rfl])]
        simp only [with_next_send, hre, insert_or_assign_twice, reorder, find_insert_or_assign,
          if_true]
      · rw [dispatch_some s o t p rest m1 h0 h1,
          dispatch_some s' o t p rest m1 (hq.trans h0) (by
            rw [hre, find_insert_or_assign, if_neg hkt]; exact h1)]
        have htk : ¬ t = k := fun e => hkt e.symm
        simp only [hre, reorder, find_insert_or_assign, htk, if_false, hm]
        exact insert_or_assign_comm k t _ _ hkt _ hkin

/-- Claim C20 (amended): the order of a fan-out list does not affect what one
dispatched event does. Let the table of the second scheduler be the table of `s`
with the fan-out of one module `k` permuted, queue and counters being the same.
After one iteration of the loop both have the same `Low` and `High` counters,
the queue of one is a permutation of the queue of the other, and the tables
again differ only in the fan-out of `k`. -/
theorem fanout_order_one_dispatch (s : Sched) (k : String) (m : Module) (l : List String)
    (hm : UMap.find s.modules k = some m) (hp : l.Perm m.m_next) :
    (dispatch { modules := reorder s.modules k l, q := s.q, low := s.low, high := s.high }).q.Perm
      (dispatch s).q ∧
    (dispatch { modules := reorder s.modules k l, q := s.q, low := s.low,
                high := s.high }).low = (dispatch s).low ∧
    (dispatch { modules := reorder s.modules k l, q := s.q, low := s.low,
                high := s.high }).high = (dispatch s).high ∧
    (dispatch { modules := reorder s.modules k l, q := s.q, low := s.low,
                high := s.high }).modules = reorder (dispatch s).modules k l :=
  reorder_dispatch s _ k m l hm hp rfl rfl rfl rfl

/-- Witness for C20: the first dispatch of the seeded example, with the fan-out of
`broadcaster` in another order. -/
theorem fanout_order_one_dispatch_witness :
    UMap.find (seeded (initial_sched example_graph)).modules "broadcaster" =
      some (Module.Broadcaster ["a", "b", "c"]) ∧
    List.Perm ["c", "a", "b"] (Module.Broadcaster ["a", "b", "c"]).m_next ∧
    (dispatch { modules := reorder (seeded (initial_sched example_graph)).modules
                  "broadcaster" ["c", "a", "b"],
                q := (seeded (initial_sched example_graph)).q,
                low := (seeded (initial_sched example_graph)).low,
                high := (seeded (initial_sched example_graph)).high }).q.Perm
      (dispatch (seeded (initial_sched example_graph))).q :=
  ⟨by decide, by decide,
    (fanout_order_one_dispatch (seeded (initial_sched example_graph)) "broadcaster"
      (Module.Broadcaster ["a", "b", "c"]) ["c", "a", "b"] (by decide) (by decide)).1⟩

end Day20

namespace Day20

/-! ### The topology is a frame of the run -/

theorem same_wiring_iff (m m' : Module) :
    Module.same_wiring m m' ↔ m'.forget_state = m.forget_state := by
  cases m <;> cases m' <;> simp [Module.same_wiring, Module.forget_state, eq_comm]

theorem same_wiring_kind (m m' : Module) (h : Module.same_wiring m m') :
    m'.kind = m.kind ∧ m'.m_next = m.m_next ∧
      (m.kind = Kind.Relay → m' = m) := by
  cases m <;> cases m' <;> simp [Module.same_wiring] at h <;>
    simp [Module.kind, Module.m_next, h]

theorem wiring_dispatch_n : ∀ (j : Nat) (s : Sched),
    wiring (dispatch_n j s).modules = wiring s.modules := by
  intro j
  induction j with
  | zero => intro s; rfl
  | succ j ih => intro s; rw [dispatch_n, ih, wiring_dispatch]

theorem same_wiring_of_wiring (a b : Graph) (h : wiring a = wiring b) :
    UMap.keys a = UMap.keys b ∧
    (∀ k m, UMap.find b k = some m →
      ∃ m', UMap.find a k = some m' ∧ Module.same_wiring m m' ∧ m'.kind = m.kind ∧
        m'.m_next = m.m_next ∧ (m.kind = Kind.Relay → m' = m)) ∧
    (∀ k, UMap.find b k = none → UMap.find a k = none) := by
  have hk : UMap.keys a = UMap.keys b := by
    rw [← keys_wiring a, ← keys_wiring b, h]
  refine ⟨hk, ?_, ?_⟩
  · intro k m hm
    obtain ⟨m', h1, h2⟩ := find_wiring b a h.symm k m hm
    have hs := (same_wiring_iff m m').mpr h2
    exact ⟨m', h1, hs, same_wiring_kind m m' hs⟩
  · intro k hn
    rw [find_eq_none_iff] at hn ⊢
    rw [hk]
    exact hn

/-- Claim C21: a run never changes the topology of the table. For every table
`g` (in particular one built by `parse_input`), at every point of a run of any
number of trigger cycles, and after any number of events dispatched from any
queue, the identifiers are the same in the same table order, and every module
has the kind and fan-out it had in `g`: it differs at most in the state bit
of a `FlipFlop` or in the memory of a `Conjuction`, and a `Broadcaster` is
unchanged. No identifier is added. -/
theorem topology_fixed (g : Graph) (cycles k j : Nat) (q : List Event) (low high : Nat) :
    wiring (Run.steps cycles k (Run.start g)).sched.modules = wiring g ∧
    UMap.keys (Run.steps cycles k (Run.start g)).sched.modules = UMap.keys g ∧
    (∀ id m, UMap.find g id = some m →
      ∃ m', UMap.find (Run.steps cycles k (Run.start g)).sched.modules id = some m' ∧
        Module.same_wiring m m' ∧ m'.kind = m.kind ∧ m'.m_next = m.m_next ∧
        (m.kind = Kind.Relay → m' = m)) ∧
    (∀ id, UMap.find g id = none →
      UMap.find (Run.steps cycles k (Run.start g)).sched.modules id = none) ∧
    wiring (dispatch_n j { modules := g, q := q, low := low, high := high }).modules =
      wiring g ∧
    UMap.keys (dispatch_n j { modules := g, q := q, low := low, high := high }).modules =
      UMap.keys g ∧
    (∀ id m, UMap.find g id = some m →
      ∃ m', UMap.find (dispatch_n j { modules := g, q := q, low := low,
                                      high := high }).modules id = some m' ∧
        Module.same_wiring m m' ∧ m'.kind = m.kind ∧ m'.m_next = m.m_next ∧
        (m.kind = Kind.Relay → m' = m)) := by
  have h1 : wiring (Run.steps cycles k (Run.start g)).sched.modules = wiring g :=
    wiring_steps cycles k (Run.start g)
  have h2 : wiring (dispatch_n j { modules := g, q := q, low := low, high := high }).modules =
      wiring g := wiring_dispatch_n j _
  obtain ⟨a1, a2, a3⟩ := same_wiring_of_wiring _ _ h1
  obtain ⟨b1, b2, _⟩ := same_wiring_of_wiring _ _ h2
  exact ⟨h1, a1, a2, a3, h2, b1, b2⟩

end Day20

namespace Day12

/-! ### Counting arrangements: the recurrences -/

theorem filter_map_length {α β : Type} (f : α → β) (p : β → Bool) (l : List α) :
    ((l.map f).filter p).length = (l.filter (fun a => p (f a))).length := by
  induction l with
  | nil => rfl
  | cons a l ih =>
    by_cases h : p (f a) = true
    · simp [List.filter_cons, h, ih]
    · simp [List.filter_cons, h, ih]

theorem filter_false_length {α : Type} (p : α → Bool) (l : List α) (h : ∀ a ∈ l, p a = false) :
    (l.filter p).length = 0 := by
  rw [List.length_eq_zero, List.filter_eq_nil_iff]
  intro a ha
  simp [h a ha]

theorem arrangements_eq (springs : List Spring) (blocks : List Nat) :
    arrangements springs blocks = arrangements_from 0 springs blocks := rfl

theorem arr_nil (n : Nat) (bs : List Nat) :
    arrangements_from n [] bs = if runs_from n [] = bs then 1 else 0 := by
  by_cases h : runs_from n [] = bs <;> simp [arrangements_from, replacements, h]

theorem arr_broken (n : Nat) (ss : List Spring) (bs : List Nat) :
    arrangements_from n (Spring.Broken :: ss) bs = arrangements_from (n + 1) ss bs := by
  simp only [arrangements_from, replacements, filter_map_length, runs_from]

theorem arr_op_zero (ss : List Spring) (bs : List Nat) :
    arrangements_from 0 (Spring.Operational :: ss) bs = arrangements_from 0 ss bs := by
  simp [arrangements_from, replacements, filter_map_length, runs_from]

theorem arr_op_pos (n : Nat) (hn : 0 < n) (ss : List Spring) (b : Nat) (bs : List Nat) :
    arrangements_from n (Spring.Operational :: ss) (b :: bs) =
      if b = n then arrangements_from 0 ss bs else 0 := by
  have h0 : n ≠ 0 := by omega
  simp only [arrangements_from, replacements, filter_map_length, runs_from, h0, if_false,
    List.singleton_append, List.cons.injEq]
  by_cases hb : b = n
  · subst hb
    simp
  · have hb' : ¬ n = b := fun e => hb e.symm
    simp [hb, hb']

theorem arr_op_pos_nil (n : Nat) (hn : 0 < n) (ss : List Spring) :
    arrangements_from n (Spring.Operational :: ss) [] = 0 := by
  have h0 : n ≠ 0 := by omega
  simp [arrangements_from, replacements, filter_map_length, runs_from, h0]

theorem arr_unknown (n : Nat) (ss : List Spring) (bs : List Nat) :
    arrangements_from n (Spring.Unknown :: ss) bs =
      arrangements_from n (Spring.Operational :: ss) bs +
        arrangements_from n (Spring.Broken :: ss) bs := by
  simp only [arrangements_from, replacements, List.filter_append, List.length_append]

theorem runs_from_head : ∀ (r : List Spring) (n : Nat), 0 < n →
    ∃ b bs, runs_from n r = b :: bs ∧ n ≤ b := by
  intro r
  induction r with
  | nil =>
    intro n hn
    have h0 : n ≠ 0 := by omega
    exact ⟨n, [], by simp [runs_from, h0], le_refl _⟩
  | cons s r ih =>
    intro n hn
    have h0 : n ≠ 0 := by omega
    cases s with
    | Broken =>
      obtain ⟨b, bs, h1, h2⟩ := ih (n + 1) (by omega)
      exact ⟨b, bs, by simpa [runs_from] using h1, by omega⟩
    | Operational => exact ⟨n, runs_from 0 r, by simp [runs_from, h0], le_refl _⟩
    | Unknown => exact ⟨n, runs_from 0 r, by simp [runs_from, h0], le_refl _⟩

theorem arr_long (n : Nat) (ss : List Spring) (b : Nat) (bs : List Nat) (h : b < n) :
    arrangements_from n ss (b :: bs) = 0 := by
  unfold arrangements_from
  apply filter_false_length
  intro r _
  obtain ⟨b', bs', h1, h2⟩ := runs_from_head r n (by omega)
  simp only [h1, decide_eq_false_iff_not, List.cons.injEq, not_and]
  intro e
  omega

theorem arr_pos_nil (n : Nat) (hn : 0 < n) (ss : List Spring) :
    arrangements_from n ss [] = 0 := by
  unfold arrangements_from
  apply filter_false_length
  intro r _
  obtain ⟨b', bs', h1, _⟩ := runs_from_head r n hn
  simp [h1]

theorem arr_nil_blocks : ∀ ss : List Spring,
    arrangements_from 0 ss [] =
      if ss.any (fun x => decide (x = Spring.Broken)) then 0 else 1 := by
  intro ss
  induction ss with
  | nil => simp [arr_nil, runs_from]
  | cons s ss ih =>
    cases s with
    | Operational => rw [arr_op_zero, ih]; simp
    | Broken => rw [arr_broken, arr_pos_nil 1 (by omega)]; simp
    | Unknown =>
      rw [arr_unknown, arr_op_zero, arr_broken, arr_pos_nil 1 (by omega), ih]
      simp

theorem block_fits_iff (d : Nat) (ss : List Spring) :
    block_fits d ss = true ↔
      d ≤ ss.length ∧ (∀ x ∈ ss.take d, x ≠ Spring.Operational) ∧
        (d = ss.length ∨ ss.get? d ≠ some Spring.Broken) := by
  simp [block_fits, and_assoc]

theorem block_fits_zero_op (ss : List Spring) :
    block_fits 0 (Spring.Operational :: ss) = true := by
  rw [block_fits_iff]; simp

theorem block_fits_zero_unknown (ss : List Spring) :
    block_fits 0 (Spring.Unknown :: ss) = true := by
  rw [block_fits_iff]; simp

theorem block_fits_zero_broken (ss : List Spring) :
    block_fits 0 (Spring.Broken :: ss) = false := by
  rw [Bool.eq_false_iff, Ne, block_fits_iff]; simp

theorem block_fits_succ_op (d : Nat) (ss : List Spring) :
    block_fits (d + 1) (Spring.Operational :: ss) = false := by
  rw [Bool.eq_false_iff, Ne, block_fits_iff]; simp

theorem block_fits_succ (d : Nat) (s : Spring) (hs : s ≠ Spring.Operational)
    (ss : List Spring) : block_fits (d + 1) (s :: ss) = block_fits d ss := by
  rw [Bool.eq_iff_iff, block_fits_iff, block_fits_iff]
  simp [hs]

/-- A run of `n` broken springs that has to reach the size `b` is completed by
placing the rest of the block at the front of the row. -/
theorem arr_block (b : Nat) (bs : List Nat) : ∀ (ss : List Spring) (n : Nat), 0 < n → n ≤ b →
    arrangements_from n ss (b :: bs) =
      if block_fits (b - n) ss = true then arrangements_from 0 (ss.drop (b - n + 1)) bs
      else 0 := by
  intro ss
  induction ss with
  | nil =>
    intro n h0 hn
    have hz : n ≠ 0 := by omega
    rw [arr_nil]
    simp only [runs_from, hz, if_false, List.cons.injEq, List.drop_nil, arr_nil]
    by_cases e : n = b
    · subst e
      have : block_fits 0 [] = true := by rw [block_fits_iff]; simp
      simp [this, runs_from]
    · have : block_fits (b - n) [] = false := by
        rw [Bool.eq_false_iff, Ne, block_fits_iff]
        simp
        omega
      simp [this, e]
  | cons s ss ih =>
    intro n h0 hn
    by_cases e : n = b
    · subst e
      cases s with
      | Operational =>
        rw [arr_op_pos n h0, Nat.sub_self, block_fits_zero_op]
        simp
      | Broken =>
        rw [arr_broken, arr_long (n + 1) ss n bs (by omega), Nat.sub_self,
          block_fits_zero_broken]
        simp
      | Unknown =>
        rw [arr_unknown, arr_op_pos n h0, arr_broken, arr_long (n + 1) ss n bs (by omega),
          Nat.sub_self, block_fits_zero_unknown]
        simp
    · have hd : b - n = (b - (n + 1)) + 1 := by omega
      have e' : ¬ b = n := fun h => e h.symm
      cases s with
      | Operational =>
        rw [arr_op_pos n h0, hd, block_fits_succ_op]
        simp [e']
      | Broken =>
        rw [arr_broken, ih (n + 1) (by omega) (by omega), hd,
          block_fits_succ _ _ (by decide)]
        simp
      | Unknown =>
        rw [arr_unknown, arr_op_pos n h0, arr_broken, ih (n + 1) (by omega) (by omega), hd,
          block_fits_succ _ _ (by decide)]
        simp [e']

/-- The second branch of `count_internal`: the arrangements that put a broken
spring at the front of the row. -/
theorem arr_front_broken (s : Spring) (hs : s ≠ Spring.Operational) (ss : List Spring)
    (b : Nat) (hb : 0 < b) (bs : List Nat) :
    arrangements_from 0 (Spring.Broken :: ss) (b :: bs) =
      if block_fits b (s :: ss) = true then
        arrangements_from 0
          (if b = (s :: ss).length then [] else (s :: ss).drop (b + 1)) bs
      else 0 := by
  rw [arr_broken, arr_block b bs ss 1 (by omega) hb]
  have hd : b = (b - 1) + 1 := by omega
  have hf : block_fits b (s :: ss) = block_fits (b - 1) ss := by
    rw [hd, block_fits_succ _ _ hs]; simp
  rw [hf]
  by_cases hfit : block_fits (b - 1) ss = true
  · simp only [hfit, if_true]
    have hdrop : (s :: ss).drop (b + 1) = ss.drop (b - 1 + 1) := by
      rw [← hd]; rfl
    by_cases hl : b = (s :: ss).length
    · rw [if_pos hl]
      have : ss.drop (b - 1 + 1) = [] := by
        apply List.drop_eq_nil_of_le
        simp at hl
        omega
      rw [this]
    · rw [if_neg hl, hdrop]
  · simp [hfit]


/-! ### The cache -/

theorem cache_find_insert (cache : Cache) (k : Nat × Nat) (v : Nat) (k' : Nat × Nat) (v' : Nat)
    (h : Cache.find (Cache.insert cache k v) k' = some v') :
    Cache.find cache k' = some v' ∨ (k' = k ∧ v' = v) := by
  unfold Cache.insert at h
  cases hf : Cache.find cache k with
  | some w => rw [hf] at h; exact Or.inl h
  | none =>
    rw [hf] at h
    simp only [Cache.find] at h
    by_cases e : k = k'
    · rw [if_pos e] at h
      exact Or.inr ⟨e.symm, (Option.some.inj h).symm⟩
    · rw [if_neg e] at h
      exact Or.inl h

theorem suffix_unique {α : Type} (a b S : List α) (ha : a <:+ S) (hb : b <:+ S)
    (hl : a.length = b.length) : a = b := by
  rw [List.suffix_iff_eq_drop] at ha hb
  rw [ha, hb, hl]

theorem cache_ok_insert (S : List Spring) (B : List Nat) (cache : Cache)
    (hc : cache_ok S B cache) (springs : List Spring) (blocks : List Nat)
    (hs : springs <:+ S) (hb : blocks <:+ B) :
    cache_ok S B (Cache.insert cache (springs.length, blocks.length)
      (arrangements springs blocks % 2 ^ 64)) := by
  intro i j v hfind ss bs hss hbs hi hj
  rcases cache_find_insert _ _ _ _ _ hfind with h | ⟨hk, hv⟩
  · exact hc i j v h ss bs hss hbs hi hj
  · have e := Prod.mk.inj hk
    have e1 : ss = springs := suffix_unique ss springs S hss hs (by rw [hi]; exact e.1)
    have e2 : bs = blocks := suffix_unique bs blocks B hbs hb (by rw [hj]; exact e.2)
    rw [hv, e1, e2]

theorem count_internal_sound (S : List Spring) (B : List Nat) (hB : ∀ b ∈ B, 0 < b) :
    ∀ (fuel : Nat) (springs : List Spring) (blocks : List Nat) (cache : Cache),
      springs <:+ S → blocks <:+ B → cache_ok S B cache → springs.length < fuel →
      ∃ cache', count_internal fuel springs blocks cache =
          some (arrangements springs blocks % 2 ^ 64, cache') ∧ cache_ok S B cache' := by
  intro fuel
  induction fuel with
  | zero => intro springs blocks cache _ _ _ h; omega
  | succ fuel ih =>
    intro springs blocks cache hs hb hc hf
    cases springs with
    | nil =>
      refine ⟨cache, ?_, hc⟩
      rw [arrangements_eq, arr_nil]
      by_cases e : blocks = []
      · subst e; simp [count_internal, runs_from]
      · have e' : ¬ [] = blocks := fun h => e h.symm
        simp [count_internal, runs_from, e, e']
    | cons s ss =>
      have hss : ss <:+ S := List.IsSuffix.trans (List.suffix_cons s ss) hs
      cases blocks with
      | nil =>
        refine ⟨cache, ?_, hc⟩
        rw [arrangements_eq, arr_nil_blocks]
        by_cases e : (s :: ss).any (fun x => decide (x = Spring.Broken)) = true
        · simp only [count_internal, e, if_true]; rfl
        · simp only [count_internal, e, if_false]; rfl
      | cons b bs =>
        have hbs : bs <:+ B := List.IsSuffix.trans (List.suffix_cons b bs) hb
        have hbpos : 0 < b := hB b (hb.subset (List.mem_cons_self b bs))
        cases hfind : Cache.find cache ((s :: ss).length, (b :: bs).length) with
        | some v =>
          refine ⟨cache, ?_, hc⟩
          have hv := hc _ _ v hfind (s :: ss) (b :: bs) hs hb rfl rfl
          simp only [count_internal, hfind, hv]
        | none =>
          have h1 : ∃ c1, (if s = Spring.Operational ∨ s = Spring.Unknown
              then count_internal fuel ss (b :: bs) cache else some (0, cache)) =
              some ((if s = Spring.Operational ∨ s = Spring.Unknown
                then arrangements ss (b :: bs) else 0) % 2 ^ 64, c1) ∧ cache_ok S B c1 := by
            by_cases e : s = Spring.Operational ∨ s = Spring.Unknown
            · rw [if_pos e, if_pos e]
              exact ih ss (b :: bs) cache hss hb hc (by simp at hf; omega)
            · rw [if_neg e, if_neg e]
              exact ⟨cache, rfl, hc⟩
          obtain ⟨c1, e1, hc1⟩ := h1
          have hsub : (if b = (s :: ss).length then [] else (s :: ss).drop (b + 1)) <:+ S := by
            split
            · exact List.nil_suffix
            · exact List.IsSuffix.trans (List.drop_suffix _ _) hs
          have hlen : (if b = (s :: ss).length then [] else (s :: ss).drop (b + 1)).length <
              fuel := by
            split
            · simp at hf ⊢; omega
            · simp at hf ⊢; omega
          have h2 : ∃ c2, (if (s = Spring.Broken ∨ s = Spring.Unknown) ∧
                block_fits b (s :: ss) = true
              then count_internal fuel
                (if b = (s :: ss).length then [] else (s :: ss).drop (b + 1)) bs c1
              else some (0, c1)) =
              some ((if (s = Spring.Broken ∨ s = Spring.Unknown) ∧ block_fits b (s :: ss) = true
                then arrangements
                  (if b = (s :: ss).length then [] else (s :: ss).drop (b + 1)) bs
                else 0) % 2 ^ 64, c2) ∧ cache_ok S B c2 := by
            by_cases e : (s = Spring.Broken ∨ s = Spring.Unknown) ∧ block_fits b (s :: ss) = true
            · rw [if_pos e, if_pos e]
              exact ih _ bs c1 hsub hbs hc1 hlen
            · rw [if_neg e, if_neg e]
              exact ⟨c1, rfl, hc1⟩
          obtain ⟨c2, e2, hc2⟩ := h2
          have hval : ((if s = Spring.Operational ∨ s = Spring.Unknown
                then arrangements ss (b :: bs) else 0) % 2 ^ 64 +
              (if (s = Spring.Broken ∨ s = Spring.Unknown) ∧ block_fits b (s :: ss) = true
                then arrangements
                  (if b = (s :: ss).length then [] else (s :: ss).drop (b + 1)) bs
                else 0) % 2 ^ 64) % 2 ^ 64 = arrangements (s :: ss) (b :: bs) % 2 ^ 64 := by
            rw [← Nat.add_mod]
            congr 1
            simp only [arrangements_eq]
            cases s with
            | Operational => simp [arr_op_zero]
            | Broken =>
              rw [arr_front_broken Spring.Broken (by decide) ss b hbpos bs]
              by_cases hfit : block_fits b (Spring.Broken :: ss) = true <;> simp [hfit]
            | Unknown =>
              rw [arr_unknown, arr_op_zero,
                arr_front_broken Spring.Unknown (by decide) ss b hbpos bs]
              by_cases hfit : block_fits b (Spring.Unknown :: ss) = true <;> simp [hfit]
          refine ⟨Cache.insert c2 ((s :: ss).length, (b :: bs).length)
            (arrangements (s :: ss) (b :: bs) % 2 ^ 64), ?_, cache_ok_insert S B c2 hc2 _ _ hs hb⟩
          simp only [count_internal, hfind, e1, e2, hval]

theorem cache_ok_nil (S : List Spring) (B : List Nat) : cache_ok S B [] := by
  intro i j v h
  simp [Cache.find] at h


/-! ### The count of a record -/

/-- Counterexample to C22 as stated: the line `? 0` is read as the row of one unknown
spring with the block list `[0]`. No replacement of the row has a run of length 0,
so there is no arrangement, and `count` returns 1. -/
theorem zero_block_counted :
    parse_input "? 0" = some [{ m_springs := [Spring.Unknown], m_block_sizes := [0] }] ∧
    ConditionRecord.count { m_springs := [Spring.Unknown], m_block_sizes := [0] } = some 1 ∧
    replacements [Spring.Unknown] = [[Spring.Operational], [Spring.Broken]] ∧
    runs [Spring.Operational] = [] ∧ runs [Spring.Broken] = [1] ∧
    arrangements [Spring.Unknown] [0] = 0 := by
  decide

/-- Claim C22 (amended): for every row and every list of positive block sizes,
`count` returns the number of replacements of the unknown springs whose maximal
runs of broken springs are exactly the block sizes, reduced modulo `2 ^ 64`. The
cache does not change the result: from every cache that holds only such numbers
for the ends of the row and of the block list, and with every budget above the
length of the row, `count_internal` returns the same number. The text of `test`
is read as six records; their counts are 1, 4, 1, 1, 4, 10 with sum 21, and after
`unfold(5)` they are 1, 16384, 1, 16, 2500, 506250 with sum 525152. -/
theorem count_arrangements (r : ConditionRecord) (hpos : ∀ b ∈ r.m_block_sizes, 0 < b) :
    r.count = some (arrangements r.m_springs r.m_block_sizes % 2 ^ 64) ∧
    (∀ (fuel : Nat) (cache : Cache), cache_ok r.m_springs r.m_block_sizes cache →
      r.m_springs.length < fuel →
      (count_internal fuel r.m_springs r.m_block_sizes cache).map Prod.fst =
        some (arrangements r.m_springs r.m_block_sizes % 2 ^ 64)) ∧
    parse_input test_text = some test_records ∧
    test_records.map (fun t => t.count) =
      [some 1, some 4, some 1, some 1, some 4, some 10] ∧
    sum_counts 0 test_records = some 21 ∧
    test_records.map (fun t => (t.unfold 5).count) =
      [some 1, some 16384, some 1, some 16, some 2500, some 506250] ∧
    sum_counts 0 (test_records.map (fun t => t.unfold 5)) = some 525152 := by
  have key : ∀ (fuel : Nat) (cache : Cache), cache_ok r.m_springs r.m_block_sizes cache →
      r.m_springs.length < fuel →
      (count_internal fuel r.m_springs r.m_block_sizes cache).map Prod.fst =
        some (arrangements r.m_springs r.m_block_sizes % 2 ^ 64) := by
    intro fuel cache hc hf
    obtain ⟨c', h, _⟩ := count_internal_sound r.m_springs r.m_block_sizes hpos fuel
      r.m_springs r.m_block_sizes cache (List.suffix_refl _) (List.suffix_refl _) hc hf
    rw [h]; rfl
  refine ⟨?_, key, by decide, by decide, by decide, by decide, by decide⟩
  exact key _ [] (cache_ok_nil _ _) (Nat.lt_succ_self _)

/-- Witness for C22: the first record of `test`. -/
theorem count_arrangements_witness :
    (∀ b ∈ [1, 1, 3], 0 < b) ∧
    ConditionRecord.count
      { m_springs := [Spring.Unknown, Spring.Unknown, Spring.Unknown, Spring.Operational,
                      Spring.Broken, Spring.Broken, Spring.Broken],
        m_block_sizes := [1, 1, 3] } =
      some (arrangements [Spring.Unknown, Spring.Unknown, Spring.Unknown, Spring.Operational,
                      Spring.Broken, Spring.Broken, Spring.Broken] [1, 1, 3] % 2 ^ 64) :=
  ⟨by decide,
    (count_arrangements
      { m_springs := [Spring.Unknown, Spring.Unknown, Spring.Unknown, Spring.Operational,
                      Spring.Broken, Spring.Broken, Spring.Broken],
        m_block_sizes := [1, 1, 3] } (by decide)).1⟩

end Day12

namespace Day19

/-! ### Maps keyed by a character -/

theorem find_assign {V : Type} (c : Char) (v : V) : ∀ (R : CMap V) (k : Char),
    CMap.find (CMap.assign R c v) k = if c = k then some v else CMap.find R k := by
  intro R
  induction R with
  | nil => intro k; simp [CMap.assign, CMap.find]
  | cons e R ih =>
    intro k
    obtain ⟨x, w⟩ := e
    by_cases h : x = c
    · subst h
      by_cases hk : x = k <;> simp [CMap.assign, CMap.find, hk]
    · by_cases hk : x = k
      · subst hk
        have h' : ¬ c = x := fun e => h e.symm
        simp [CMap.assign, CMap.find, h, h']
      · simp [CMap.assign, CMap.find, h, hk, ih]

theorem find_some_mem_keys {V : Type} : ∀ (R : CMap V) (c : Char) (v : V),
    CMap.find R c = some v → c ∈ R.map Prod.fst := by
  intro R
  induction R with
  | nil => intro c v h; simp [CMap.find] at h
  | cons e R ih =>
    intro c v h
    obtain ⟨x, w⟩ := e
    by_cases hx : x = c
    · simp [hx]
    · simp only [CMap.find, hx, if_false] at h
      simp only [List.map_cons, List.mem_cons]
      exact Or.inr (ih c v h)

theorem keys_assign {V : Type} (c : Char) (v : V) : ∀ (R : CMap V),
    c ∈ R.map Prod.fst → (CMap.assign R c v).map Prod.fst = R.map Prod.fst := by
  intro R
  induction R with
  | nil => intro h; simp at h
  | cons e R ih =>
    intro h
    obtain ⟨x, w⟩ := e
    by_cases hx : x = c
    · simp [CMap.assign, hx]
    · simp only [List.map_cons, List.mem_cons] at h
      rcases h with h | h
      · exact absurd h.symm hx
      · simp [CMap.assign, hx, ih h]

theorem valid_assign (R : CMap (Nat × Nat)) (hv : valid R) (c : Char) (r v : Nat × Nat)
    (hf : CMap.find R c = some r) (h1 : max v.1 1 ≤ v.2) (h2 : v.2 ≤ 4000) :
    valid (CMap.assign R c v) := by
  refine ⟨?_, ?_⟩
  · rw [keys_assign c v R (find_some_mem_keys R c r hf)]
    exact hv.1
  · intro k r' hk
    rw [find_assign] at hk
    by_cases e : c = k
    · rw [if_pos e] at hk
      have := Option.some.inj hk
      subst this
      exact ⟨h1, h2⟩
    · rw [if_neg e] at hk
      exact hv.2 k r' hk

theorem mem_box_assign (R : CMap (Nat × Nat)) (c : Char) (v : Nat × Nat)
    (t : Nat × Nat × Nat × Nat) :
    t ∈ box (CMap.assign R c v) ↔
      holds v (value t c) ∧ ∀ k r, k ≠ c → CMap.find R k = some r → holds r (value t k) := by
  constructor
  · intro h
    refine ⟨h c v (by rw [find_assign, if_pos rfl]), ?_⟩
    intro k r hk hf
    exact h k r (by rw [find_assign, if_neg (fun e => hk e.symm)]; exact hf)
  · rintro ⟨h1, h2⟩ k r hf
    rw [find_assign] at hf
    by_cases e : c = k
    · rw [if_pos e] at hf
      have := Option.some.inj hf
      subst this
      subst e
      exact h1
    · rw [if_neg e] at hf
      exact h2 k r (fun e' => e e'.symm) hf

theorem mem_box_find (R : CMap (Nat × Nat)) (c : Char) (r : Nat × Nat)
    (hf : CMap.find R c = some r) (t : Nat × Nat × Nat × Nat) :
    t ∈ box R ↔
      holds r (value t c) ∧ ∀ k r', k ≠ c → CMap.find R k = some r' → holds r' (value t k) := by
  constructor
  · intro h
    exact ⟨h c r hf, fun k r' _ hk => h k r' hk⟩
  · rintro ⟨h1, h2⟩ k r' hk
    by_cases e : k = c
    · subst e
      rw [hf] at hk
      have := Option.some.inj hk
      subst this
      exact h1
    · exact h2 k r' e hk

/-! ### A comparison cuts a range in two -/

theorem holds_true_half (rule : Rule) (low high : Nat) (hs : splits rule low high = true)
    (hh : high ≤ 4000) (v : Nat) :
    holds (true_half rule low high) v ↔ holds (low, high) v ∧ rule.passes v := by
  unfold splits at hs
  unfold true_half Rule.passes holds
  cases hop : rule.m_op with
  | LT =>
    simp only [hop, decide_eq_true_eq] at hs
    have e : (rule.m_comp + 2 ^ 64 - 1) % 2 ^ 64 = rule.m_comp - 1 := by omega
    simp only [e]
    omega
  | GT =>
    simp only [hop, decide_eq_true_eq] at hs
    have e : (rule.m_comp + 1) % 2 ^ 64 = rule.m_comp + 1 := by omega
    simp only [e]
    omega
  | None => simp [hop] at hs

theorem holds_false_half (rule : Rule) (low high : Nat) (hs : splits rule low high = true)
    (v : Nat) :
    holds (false_half rule low high) v ↔ holds (low, high) v ∧ ¬ rule.passes v := by
  unfold splits at hs
  unfold false_half Rule.passes holds
  cases hop : rule.m_op with
  | LT =>
    simp only [hop, decide_eq_true_eq] at hs
    simp only
    omega
  | GT =>
    simp only [hop, decide_eq_true_eq] at hs
    simp only
    omega
  | None => simp [hop] at hs

theorem halves_valid (rule : Rule) (low high : Nat) (hs : splits rule low high = true)
    (hh : high ≤ 4000) :
    (true_half rule low high).1 ≤ (true_half rule low high).2 ∧
    max (true_half rule low high).1 1 ≤ (true_half rule low high).2 ∧
    (true_half rule low high).2 ≤ 4000 ∧
    (false_half rule low high).1 ≤ (false_half rule low high).2 ∧
    max (false_half rule low high).1 1 ≤ (false_half rule low high).2 ∧
    (false_half rule low high).2 ≤ 4000 := by
  unfold splits at hs
  unfold true_half false_half
  cases hop : rule.m_op with
  | LT =>
    simp only [hop, decide_eq_true_eq] at hs
    have e : (rule.m_comp + 2 ^ 64 - 1) % 2 ^ 64 = rule.m_comp - 1 := by omega
    simp only [e]
    omega
  | GT =>
    simp only [hop, decide_eq_true_eq] at hs
    have e : (rule.m_comp + 1) % 2 ^ 64 = rule.m_comp + 1 := by omega
    simp only [e]
    omega
  | None => simp [hop] at hs

/-! ### Commands -/

theorem find_command (t : Nat × Nat × Nat × Nat) (c : Char)
    (hc : c ∈ ['x', 'm', 'a', 's']) : CMap.find (command t) c = some (value t c) := by
  simp only [List.mem_cons, List.mem_singleton, List.not_mem_nil, or_false] at hc
  rcases hc with h | h | h | h <;> subst h <;> rfl

theorem rule_apply_command (rule : Rule) (t : Nat × Nat × Nat × Nat)
    (hc : rule.m_c ∈ ['x', 'm', 'a', 's']) (hop : rule.m_op ≠ Operation.None) :
    rule.apply (command t) = if rule.passes (value t rule.m_c) then some rule.m_res else none := by
  obtain ⟨c, op, n, res⟩ := rule
  have hf := find_command t c hc
  cases op with
  | LT => simp [Rule.apply, Rule.passes, hf]
  | GT => simp [Rule.apply, Rule.passes, hf]
  | None => exact absurd rfl hop

theorem rule_apply_none (rule : Rule) (inp : CMap Nat) (hop : rule.m_op = Operation.None) :
    rule.apply inp = some rule.m_res := by
  unfold Rule.apply
  cases CMap.find inp rule.m_c <;> simp [hop]


/-! ### The tuples of a box -/

theorem valid_shape (R : CMap (Nat × Nat)) (hv : valid R) :
    ∃ rx rm ra rs, R = [('x', rx), ('m', rm), ('a', ra), ('s', rs)] := by
  obtain ⟨hk, _⟩ := hv
  match R, hk with
  | [(c1, rx), (c2, rm), (c3, ra), (c4, rs)], hk =>
    simp only [List.map_cons, List.map_nil, List.cons.injEq, and_true] at hk
    obtain ⟨h1, h2, h3, h4⟩ := hk
    subst h1 h2 h3 h4
    exact ⟨rx, rm, ra, rs, rfl⟩

theorem holds_iff (r : Nat × Nat) (v : Nat) : holds r v ↔ v ∈ Finset.Icc (max r.1 1) r.2 := by
  unfold holds
  rw [Finset.mem_Icc]
  omega

theorem box_eq (rx rm ra rs : Nat × Nat) :
    box [('x', rx), ('m', rm), ('a', ra), ('s', rs)] =
      ↑(Finset.Icc (max rx.1 1) rx.2 ×ˢ (Finset.Icc (max rm.1 1) rm.2 ×ˢ
        (Finset.Icc (max ra.1 1) ra.2 ×ˢ Finset.Icc (max rs.1 1) rs.2))) := by
  ext t
  obtain ⟨x, m, a, s⟩ := t
  simp only [Finset.coe_product, Set.mem_prod, Finset.mem_coe, ← holds_iff]
  constructor
  · intro h
    exact ⟨h 'x' rx rfl, h 'm' rm rfl, h 'a' ra rfl, h 's' rs rfl⟩
  · rintro ⟨h1, h2, h3, h4⟩ c r hf
    simp only [CMap.find] at hf
    split at hf
    · next e => cases Option.some.inj hf; subst e; exact h1
    · split at hf
      · next e => cases Option.some.inj hf; subst e; exact h2
      · split at hf
        · next e => cases Option.some.inj hf; subst e; exact h3
        · split at hf
          · next e => cases Option.some.inj hf; subst e; exact h4
          · exact Option.noConfusion hf

theorem box_finite (R : CMap (Nat × Nat)) (hv : valid R) : (box R).Finite := by
  obtain ⟨rx, rm, ra, rs, e⟩ := valid_shape R hv
  rw [e, box_eq]
  exact Finset.finite_toSet _

theorem ncard_box (rx rm ra rs : Nat × Nat) :
    (box [('x', rx), ('m', rm), ('a', ra), ('s', rs)]).ncard =
      (rx.2 + 1 - max rx.1 1) * ((rm.2 + 1 - max rm.1 1) *
        ((ra.2 + 1 - max ra.1 1) * (rs.2 + 1 - max rs.1 1))) := by
  rw [box_eq, Set.ncard_coe_Finset]
  simp only [Finset.card_product, Nat.card_Icc]

theorem factor_eq (r : Nat × Nat) (h1 : max r.1 1 ≤ r.2) (h2 : r.2 ≤ 4000) :
    (r.2 + 2 ^ 64 - (if r.1 = 0 then 1 else r.1) + 1) % 2 ^ 64 = r.2 + 1 - max r.1 1 ∧
    r.2 + 1 - max r.1 1 ≤ 4000 := by
  split <;> omega

theorem product_eq (R : CMap (Nat × Nat)) (hv : valid R) :
    product R = (box R).ncard ∧ (box R).ncard ≤ 4000 ^ 4 := by
  obtain ⟨rx, rm, ra, rs, e⟩ := valid_shape R hv
  subst e
  obtain ⟨fx, bx⟩ := factor_eq rx (hv.2 'x' rx rfl).1 (hv.2 'x' rx rfl).2
  obtain ⟨fm, bm⟩ := factor_eq rm (hv.2 'm' rm rfl).1 (hv.2 'm' rm rfl).2
  obtain ⟨fa, ba⟩ := factor_eq ra (hv.2 'a' ra rfl).1 (hv.2 'a' ra rfl).2
  obtain ⟨fs, bs⟩ := factor_eq rs (hv.2 's' rs rfl).1 (hv.2 's' rs rfl).2
  rw [ncard_box]
  simp only [product, List.foldl_cons, List.foldl_nil, fx, fm, fa, fs, Nat.one_mul]
  generalize rx.2 + 1 - max rx.1 1 = X at bx ⊢
  generalize rm.2 + 1 - max rm.1 1 = M at bm ⊢
  generalize ra.2 + 1 - max ra.1 1 = A at ba ⊢
  generalize rs.2 + 1 - max rs.1 1 = S at bs ⊢
  have h1 : X * M ≤ 4000 * 4000 := Nat.mul_le_mul bx bm
  have h2 : X * M * A ≤ 4000 * 4000 * 4000 := Nat.mul_le_mul h1 ba
  have h3 : X * M * A * S ≤ 4000 * 4000 * 4000 * 4000 := Nat.mul_le_mul h2 bs
  have e1 : X % 2 ^ 64 = X := Nat.mod_eq_of_lt (by omega)
  have e2 : (X * M) % 2 ^ 64 = X * M := Nat.mod_eq_of_lt (by omega)
  have e3 : (X * M * A) % 2 ^ 64 = X * M * A := Nat.mod_eq_of_lt (by omega)
  have e4 : (X * M * A * S) % 2 ^ 64 = X * M * A * S := Nat.mod_eq_of_lt (by omega)
  rw [e1, e2, e3, e4]
  constructor
  · ring
  · have : X * (M * (A * S)) = X * M * A * S := by ring
    rw [this]
    norm_num
    omega

theorem valid_full : valid full_ranges := by
  refine ⟨rfl, ?_⟩
  intro c r hf
  simp only [full_ranges, CMap.find] at hf
  repeat' split at hf
  all_goals first
    | (cases Option.some.inj hf; decide)
    | exact Option.noConfusion hf

theorem mem_box_full (t : Nat × Nat × Nat × Nat) :
    t ∈ box full_ranges ↔
      (1 ≤ t.1 ∧ t.1 ≤ 4000) ∧ (1 ≤ t.2.1 ∧ t.2.1 ≤ 4000) ∧
        (1 ≤ t.2.2.1 ∧ t.2.2.1 ≤ 4000) ∧ (1 ≤ t.2.2.2 ∧ t.2.2.2 ≤ 4000) := by
  unfold full_ranges
  rw [box_eq]
  obtain ⟨x, m, a, s⟩ := t
  simp only [Finset.coe_product, Set.mem_prod, Finset.mem_coe, Finset.mem_Icc]
  omega


/-! ### The loop over the rules -/

theorem passing_nil (wfs : Workflows) (R : CMap (Nat × Nat)) : passing wfs R [] = ∅ := by
  ext t
  simp [passing, apply_rules, accepts_from]

theorem passing_from_rejected (wfs : Workflows) (R : CMap (Nat × Nat)) :
    passing_from wfs R WorkflowResult.Rejected = ∅ := by
  ext t
  simp [passing_from, accepts_from]

theorem passing_from_accepted (wfs : Workflows) (R : CMap (Nat × Nat)) :
    passing_from wfs R WorkflowResult.Accepted = box R := by
  ext t
  simp [passing_from, accepts_from]

theorem passing_last (wfs : Workflows) (R : CMap (Nat × Nat)) (rule : Rule)
    (hop : rule.m_op = Operation.None) :
    passing wfs R [rule] = passing_from wfs R rule.m_res := by
  ext t
  simp [passing, passing_from, apply_rules, rule_apply_none rule _ hop]

theorem passing_split (wfs : Workflows) (R : CMap (Nat × Nat)) (hv : valid R) (rule : Rule)
    (rest : List Rule) (low high : Nat) (hf : CMap.find R rule.m_c = some (low, high))
    (hs : splits rule low high = true) (hop : rule.m_op ≠ Operation.None) :
    passing wfs R (rule :: rest) =
      passing_from wfs (CMap.assign R rule.m_c (true_half rule low high)) rule.m_res ∪
        passing wfs (CMap.assign R rule.m_c (false_half rule low high)) rest ∧
    Disjoint
      (passing_from wfs (CMap.assign R rule.m_c (true_half rule low high)) rule.m_res)
      (passing wfs (CMap.assign R rule.m_c (false_half rule low high)) rest) := by
  have hc : rule.m_c ∈ ['x', 'm', 'a', 's'] := by
    rw [← hv.1]
    exact find_some_mem_keys R _ _ hf
  have hh : high ≤ 4000 := (hv.2 _ _ hf).2
  constructor
  · ext t
    simp only [passing, passing_from, Set.mem_setOf_eq, Set.mem_union, mem_box_assign,
      mem_box_find R _ _ hf, holds_true_half rule low high hs hh,
      holds_false_half rule low high hs, apply_rules, rule_apply_command rule t hc hop]
    by_cases hp : rule.passes (value t rule.m_c)
    · simp only [hp, if_true, and_true, not_true_eq_false, and_false, false_and, or_false]
    · simp only [hp, if_false, and_false, false_and, not_false_eq_true, and_true, false_or]
  · rw [Set.disjoint_left]
    intro t h1 h2
    simp only [passing, passing_from, Set.mem_setOf_eq, mem_box_assign,
      holds_true_half rule low high hs hh, holds_false_half rule low high hs] at h1 h2
    exact h2.1.1.2 h1.1.1.2

theorem passing_from_finite (wfs : Workflows) (R : CMap (Nat × Nat)) (hv : valid R)
    (stage : WorkflowResult) : (passing_from wfs R stage).Finite :=
  Set.Finite.subset (box_finite R hv) (fun _ h => h.1)

theorem passing_finite (wfs : Workflows) (R : CMap (Nat × Nat)) (hv : valid R)
    (rest : List Rule) : (passing wfs R rest).Finite :=
  Set.Finite.subset (box_finite R hv) (fun _ h => h.1)

theorem accepts_from_workflow (wfs : Workflows) (name : String) (w : Workflow)
    (hw : Day20.UMap.find wfs name = some w) (t : Nat × Nat × Nat × Nat) :
    accepts_from wfs (WorkflowResult.Workflow name) t ↔
      accepts_from wfs (apply_rules w.m_rules (command t)) t := by
  constructor
  · rintro ⟨fuel, w', hw', hi⟩
    rw [hw] at hw'
    cases Option.some.inj hw'
    cases fuel with
    | zero => simp [inner] at hi
    | succ fuel =>
      simp only [inner, Workflow.apply] at hi
      cases hr : apply_rules w.m_rules (command t) with
      | Accepted => trivial
      | Rejected => rw [hr] at hi; simp at hi
      | Workflow next =>
        rw [hr] at hi
        simp only at hi
        cases hn : Day20.UMap.find wfs next with
        | none => rw [hn] at hi; simp at hi
        | some w2 => rw [hn] at hi; exact ⟨fuel, w2, hn, hi⟩
  · intro h
    cases hr : apply_rules w.m_rules (command t) with
    | Accepted => exact ⟨1, w, hw, by simp [inner, Workflow.apply, hr]⟩
    | Rejected => rw [hr] at h; exact absurd h (by simp [accepts_from])
    | Workflow next =>
      rw [hr] at h
      obtain ⟨fuel, w2, hn, hi⟩ := h
      exact ⟨fuel + 1, w, hw, by simp [inner, Workflow.apply, hr, hn, hi]⟩

theorem count_rules_sound (wfs : Workflows) (fuel : Nat)
    (ih : ∀ R stage, valid R → proper fuel wfs R stage = true →
      count_configs fuel wfs R stage = some ((passing_from wfs R stage).ncard % 2 ^ 64)) :
    ∀ (rest : List Rule) (R : CMap (Nat × Nat)) (total : Nat), valid R → total < 2 ^ 64 →
      proper_rules (proper fuel wfs) rest R = true →
      count_rules (count_configs fuel wfs) (fallback_of rest) rest R total =
        some ((total + (passing wfs R rest).ncard) % 2 ^ 64) := by
  intro rest
  induction rest with
  | nil =>
    intro R total _ ht _
    rw [passing_nil, Set.ncard_empty, Nat.add_zero, Nat.mod_eq_of_lt ht]
    rfl
  | cons rule rest ihr =>
    intro R total hv ht hp
    by_cases hop : rule.m_op = Operation.None
    · simp only [proper_rules, hop, if_true, Bool.and_eq_true, decide_eq_true_eq] at hp
      obtain ⟨hnil, hsub⟩ := hp
      subst hnil
      rw [passing_last wfs R rule hop]
      simp only [count_rules, fallback_of, hop, if_true, ih R rule.m_res hv hsub,
        Nat.add_mod_mod]
    · simp only [proper_rules, hop, if_false] at hp
      cases hf : CMap.find R rule.m_c with
      | none => rw [hf] at hp; simp at hp
      | some lh =>
        obtain ⟨low, high⟩ := lh
        rw [hf] at hp
        simp only [Bool.and_eq_true] at hp
        obtain ⟨⟨hs, hsub⟩, hrest⟩ := hp
        have hh : high ≤ 4000 := (hv.2 _ _ hf).2
        obtain ⟨t1, t2, t3, f1, f2, f3⟩ := halves_valid rule low high hs hh
        have hvt := valid_assign R hv rule.m_c (low, high) (true_half rule low high) hf t2 t3
        have hvf := valid_assign R hv rule.m_c (low, high) (false_half rule low high) hf f2 f3
        obtain ⟨hsplit, hdisj⟩ := passing_split wfs R hv rule rest low high hf hs hop
        have hcard := Set.ncard_union_eq hdisj (passing_from_finite wfs _ hvt _)
          (passing_finite wfs _ hvf _)
        rw [hsplit, hcard]
        have hfb : fallback_of (rule :: rest) = fallback_of rest := by
          simp [fallback_of, hop]
        simp only [count_rules, hop, if_false, hf, t1, if_true, f1, ih _ _ hvt hsub,
          Option.map_some', hfb]
        rw [ihr _ _ hvf (Nat.mod_lt _ (by norm_num)) hrest]
        congr 1
        omega

theorem count_configs_sound (wfs : Workflows) : ∀ (fuel : Nat) (R : CMap (Nat × Nat))
    (stage : WorkflowResult), valid R → proper fuel wfs R stage = true →
    count_configs fuel wfs R stage = some ((passing_from wfs R stage).ncard % 2 ^ 64) := by
  intro fuel
  induction fuel with
  | zero => intro R stage _ hp; simp [proper] at hp
  | succ fuel ih =>
    intro R stage hv hp
    cases stage with
    | Rejected => rw [passing_from_rejected]; simp [count_configs]
    | Accepted =>
      rw [passing_from_accepted]
      obtain ⟨h1, h2⟩ := product_eq R hv
      rw [Nat.mod_eq_of_lt (by omega)]
      simp [count_configs, h1]
    | Workflow name =>
      simp only [proper] at hp
      cases hw : Day20.UMap.find wfs name with
      | none => rw [hw] at hp; simp at hp
      | some w =>
        rw [hw] at hp
        have hs := count_rules_sound wfs fuel ih w.m_rules R 0 hv (by norm_num) hp
        have e : passing_from wfs R (WorkflowResult.Workflow name) = passing wfs R w.m_rules := by
          ext t
          simp only [passing_from, passing, Set.mem_setOf_eq, accepts_from_workflow wfs name w hw]
        rw [e]
        simp only [count_configs, hw, Workflow.fallback_result]
        rw [hs, Nat.zero_add]

theorem accepted_eq (wfs : Workflows) :
    accepted wfs = passing_from wfs full_ranges first_stage := by
  ext t
  simp only [accepted, passing_from, Set.mem_setOf_eq, mem_box_full, first_stage, accepts_from,
    Pipeline.apply]
  constructor
  · rintro ⟨h1, h2, h3, h4, fuel, hf⟩
    refine ⟨⟨h1, h2, h3, h4⟩, fuel, ?_⟩
    cases hw : Day20.UMap.find wfs "in" with
    | none => rw [hw] at hf; simp at hf
    | some w => rw [hw] at hf; exact ⟨w, rfl, hf⟩
  · rintro ⟨⟨h1, h2, h3, h4⟩, fuel, w, hw, hf⟩
    exact ⟨h1, h2, h3, h4, fuel, by rw [hw]; exact hf⟩

theorem accepted_le (wfs : Workflows) :
    (accepted wfs).Finite ∧ (accepted wfs).ncard ≤ 4000 ^ 4 := by
  rw [accepted_eq]
  refine ⟨passing_from_finite wfs _ valid_full _, ?_⟩
  exact le_trans (Set.ncard_le_ncard (fun _ h => h.1) (box_finite _ valid_full))
    (product_eq _ valid_full).2


/-! ### The count of the accepted tuples -/

theorem wide_accepts_all : accepted wide_workflows = box full_ranges := by
  ext t
  rw [mem_box_full]
  simp only [accepted, Set.mem_setOf_eq]
  constructor
  · rintro ⟨h1, h2, h3, h4, _⟩
    exact ⟨h1, h2, h3, h4⟩
  · rintro ⟨h1, h2, h3, h4⟩
    refine ⟨h1, h2, h3, h4, 1, ?_⟩
    have hx : t.1 < 5000 := by omega
    simp [Pipeline.apply, wide_workflows, Day20.UMap.find, inner, Workflow.apply, apply_rules,
      Rule.apply, command, CMap.find, hx]

/-- A bound above every rating: for the workflow `in{x<5000:A,R}` every tuple
is accepted, which makes `4000 ^ 4 = 256000000000000` tuples, and `count_configs`
returns 319936000000000: the part of the range below the bound is taken to end at
4999, whatever the range was. -/
theorem comparison_above_range :
    parse_workflows wide_text = some wide_workflows ∧
    count_configs 2 wide_workflows full_ranges first_stage = some 319936000000000 ∧
    (accepted wide_workflows).ncard = 256000000000000 ∧
    (∀ x m a s, 1 ≤ x → x ≤ 4000 →
      Pipeline.apply 1 wide_workflows (command (x, m, a, s)) = some WorkflowResult.Accepted) := by
  refine ⟨by decide, by decide, ?_, ?_⟩
  · rw [wide_accepts_all]
    unfold full_ranges
    rw [ncard_box]
    norm_num
  · intro x m a s _ h2
    have hx : x < 5000 := by omega
    simp [Pipeline.apply, wide_workflows, Day20.UMap.find, inner, Workflow.apply, apply_rules,
      Rule.apply, command, CMap.find, hx]

set_option maxRecDepth 100000 in
theorem parse_test_workflows : parse_workflows test_text = some test_workflows := by
  decide

/-- Where every bound lies inside its range: let the call of `count_configs` with
the ranges `x, m, a, s = (0, 4000)` meet, within its budget of nested calls, only workflows
that exist, rules without condition only at the end of a workflow, and
comparisons that cut the range that reaches them into two parts that are not
empty. Then it returns the number of rating tuples with every component in
`1..4000` that the pipeline accepts. The workflows of `test` are of this kind, and
the call returns 167409079868000 for them. -/
theorem count_configs_accepted (workflows : Workflows) (fuel : Nat)
    (hp : proper fuel workflows full_ranges first_stage = true) :
    count_configs fuel workflows full_ranges first_stage = some (accepted workflows).ncard ∧
    parse_workflows test_text = some test_workflows ∧
    proper 5 test_workflows full_ranges first_stage = true ∧
    count_configs 5 test_workflows full_ranges first_stage = some 167409079868000 := by
  refine ⟨?_, parse_test_workflows, by decide, by decide⟩
  rw [count_configs_sound workflows fuel full_ranges first_stage valid_full hp, ← accepted_eq,
    Nat.mod_eq_of_lt (lt_of_le_of_lt (accepted_le workflows).2 (by norm_num))]

/-- The workflows of `test` are of the kind `count_configs_accepted` is about. -/
theorem count_configs_accepted_witness :
    proper 5 test_workflows full_ranges first_stage = true ∧
    count_configs 5 test_workflows full_ranges first_stage =
      some (accepted test_workflows).ncard :=
  ⟨by decide, (count_configs_accepted test_workflows 5 (by decide)).1⟩

/-! ### A bound outside the range that reaches it -/

theorem nested_accepts : accepted nested_workflows =
    box [('x', (0, 9)), ('m', (0, 4000)), ('a', (0, 4000)), ('s', (0, 4000))] := by
  ext t
  obtain ⟨x, m, a, s⟩ := t
  rw [box_eq]
  simp only [accepted, Set.mem_setOf_eq, Finset.coe_product, Set.mem_prod, Finset.mem_coe,
    Finset.mem_Icc]
  constructor
  · rintro ⟨h1, h2, h3, h4, fuel, hf⟩
    refine ⟨⟨by omega, ?_⟩, by omega, by omega, by omega⟩
    by_contra hx
    have hx10 : ¬ x < 10 := by omega
    cases fuel with
    | zero =>
      simp [Pipeline.apply, nested_workflows, Day20.UMap.find, inner] at hf
    | succ fuel =>
      simp [Pipeline.apply, nested_workflows, Day20.UMap.find, inner, Workflow.apply,
        apply_rules, Rule.apply, command, CMap.find, hx10] at hf
  · rintro ⟨⟨h1, h1'⟩, h2, h3, h4⟩
    refine ⟨by omega, by omega, by omega, by omega, 2, ?_⟩
    have hx10 : x < 10 := by omega
    have hx20 : x < 20 := by omega
    simp [Pipeline.apply, nested_workflows, Day20.UMap.find, inner, Workflow.apply, apply_rules,
      Rule.apply, command, CMap.find, hx10, hx20]

/-- Claim C23, at the workflows `in{x<10:a,R}` and `a{x<20:A,R}`: the pipeline
accepts exactly the tuples with `x` up to 9, which makes
`9 * 4000 ^ 3 = 576000000000` of them, and rejects the part with `x = 15`;
`count_configs` called with the ranges `(0, 4000)` returns
`19 * 4000 ^ 3 = 1216000000000`, because the second comparison takes the part of
the range below its bound to end at 19, although the range that reaches it ends
at 9. -/
theorem nested_bound_miscounted :
    parse_workflows nested_text = some nested_workflows ∧
    count_configs 3 nested_workflows full_ranges first_stage = some 1216000000000 ∧
    (accepted nested_workflows).ncard = 576000000000 ∧
    Pipeline.apply 2 nested_workflows (command (15, 1, 1, 1)) =
      some WorkflowResult.Rejected := by
  refine ⟨by decide, by decide, ?_, by decide⟩
  rw [nested_accepts, ncard_box]
  norm_num

end Day19

namespace Day3

/-! ### One visit of the loop over the columns -/

theorem gear_none (schematic : List (List Char)) (i j : Nat)
    (h : is_symbol_adjacent schematic i j = none) : adjacent_gear_pos schematic i j = none := by
  unfold is_symbol_adjacent at h
  rw [Option.map_eq_none', List.find?_eq_none] at h
  unfold adjacent_gear_pos
  rw [List.find?_eq_none]
  intro p hp hstar
  apply h p hp
  have e : at_pos schematic p = '*' := by simpa using hstar
  rw [e]
  decide

theorem first_hit_succ (schematic : List (List Char)) (i s k : Nat) :
    first_hit schematic i s (k + 1) =
      match first_hit schematic i s k with
      | some j => some j
      | none => if (is_symbol_adjacent schematic i (s + k)).isSome then some (s + k) else none := by
  unfold first_hit
  rw [List.range'_concat, List.find?_append]
  cases h : List.find? (fun j => (is_symbol_adjacent schematic i j).isSome) (List.range' s k) with
  | some j => simp
  | none =>
    by_cases hk : (is_symbol_adjacent schematic i (s + k)).isSome = true
    · simp [List.find?, hk]
    · simp [List.find?, hk]

theorem first_hit_zero (schematic : List (List Char)) (i s : Nat) :
    first_hit schematic i s 0 = none := rfl

theorem visit_nondigit (schematic : List (List Char)) (i n j : Nat) (c : Char) (st : Scan)
    (cur : Option Nat) (hc : char_is_digit c = false) (hs : run_state schematic i j cur st) :
    run_state schematic i (j + 1) none (visit schematic i n j c st) ∧
    (visit schematic i n j c st).acc =
      close_run schematic i (schematic.getD i []) st.acc j cur := by
  cases cur with
  | none =>
    obtain ⟨h1, h2, h3, h4⟩ := hs
    simp [visit, hc, h1, h2, h3, h4, run_state, Scan.acc, close_run]
  | some s =>
    obtain ⟨hlt, h1, h2, h3, h4⟩ := hs
    have hk : j - 1 + 1 - s = j - s := by omega
    cases hh : first_hit schematic i s (j - s) with
    | none =>
      rw [hh] at h3 h4
      simp [visit, hc, h1, h2, h3, h4, run_state, Scan.acc, close_run, flush_acc, run_event, hk, hh]
    | some j' =>
      rw [hh] at h3 h4
      cases hg : adjacent_gear_pos schematic i j' with
      | none =>
        simp [visit, hc, h1, h2, h3, h4, run_state, Scan.acc, close_run, flush_acc, run_event, hk, hh, hg,
          apply_event, slice]
      | some g =>
        simp [visit, hc, h1, h2, h3, h4, run_state, Scan.acc, close_run, flush_acc, run_event, hk, hh, hg,
          apply_event, slice]


theorem first_hit_one (schematic : List (List Char)) (i j : Nat) :
    first_hit schematic i j 1 =
      if (is_symbol_adjacent schematic i j).isSome then some j else none := by
  rw [first_hit_succ, first_hit_zero]
  simp

theorem visit_digit_none (schematic : List (List Char)) (i n j : Nat) (c : Char) (st : Scan)
    (hc : char_is_digit c = true) (hs : run_state schematic i j none st) :
    (j + 1 ≠ n → run_state schematic i (j + 1) (some j) (visit schematic i n j c st) ∧
      (visit schematic i n j c st).acc = st.acc) ∧
    (j + 1 = n → (visit schematic i n j c st).acc =
      flush_acc schematic i (schematic.getD i []) st.acc (j, j)) := by
  obtain ⟨h1, h2, h3, h4⟩ := hs
  have hf := first_hit_one schematic i j
  cases hh : is_symbol_adjacent schematic i j with
  | none =>
    have hg := gear_none schematic i j hh
    rw [hh] at hf
    simp only [Option.isSome_none, Bool.false_eq_true, if_false] at hf
    constructor
    · intro hn
      simp [visit, hc, h1, h2, h3, h4, hh, hg, hn, run_state, Scan.acc, hf]
    · intro hn
      subst hn
      simp [visit, hc, h1, h2, h3, h4, hh, hg, Scan.acc, flush_acc, run_event, hf]
  | some ch =>
    rw [hh] at hf
    simp only [Option.isSome_some, if_true] at hf
    constructor
    · intro hn
      cases hg : adjacent_gear_pos schematic i j with
      | none => simp [visit, hc, h1, h2, h3, h4, hh, hg, hn, run_state, Scan.acc, hf]
      | some g =>
        simp [visit, hc, h1, h2, h3, h4, hh, hg, hn, run_state, Scan.acc, hf, set_insert]
    · intro hn
      subst hn
      cases hg : adjacent_gear_pos schematic i j with
      | none =>
        simp [visit, hc, h1, h2, h3, h4, hh, hg, Scan.acc, flush_acc, run_event, hf,
          apply_event, slice]
      | some g =>
        simp [visit, hc, h1, h2, h3, h4, hh, hg, Scan.acc, flush_acc, run_event, hf,
          apply_event, slice, set_insert]

theorem visit_digit_some (schematic : List (List Char)) (i n j : Nat) (c : Char) (st : Scan)
    (s : Nat) (hc : char_is_digit c = true) (hs : run_state schematic i j (some s) st) :
    (j + 1 ≠ n → run_state schematic i (j + 1) (some s) (visit schematic i n j c st) ∧
      (visit schematic i n j c st).acc = st.acc) ∧
    (j + 1 = n → (visit schematic i n j c st).acc =
      flush_acc schematic i (schematic.getD i []) st.acc (s, j)) := by
  obtain ⟨hlt, h1, h2, h3, h4⟩ := hs
  have hk : j + 1 - s = (j - s) + 1 := by omega
  have hsk : s + (j - s) = j := by omega
  have hf := first_hit_succ schematic i s (j - s)
  rw [hsk, ← hk] at hf
  cases hp : first_hit schematic i s (j - s) with
  | some j' =>
    rw [hp] at h3 h4 hf
    simp only at hf
    constructor
    · intro hn
      simp [visit, hc, h1, h2, h3, h4, hn, run_state, Scan.acc, hf]
      omega
    · intro hn
      subst hn
      cases hg : adjacent_gear_pos schematic i j' with
      | none =>
        simp [visit, hc, h1, h2, h3, h4, Scan.acc, flush_acc, run_event, hf, hg,
          apply_event, slice]
      | some g =>
        simp [visit, hc, h1, h2, h3, h4, Scan.acc, flush_acc, run_event, hf, hg,
          apply_event, slice]
  | none =>
    rw [hp] at h3 h4 hf
    simp only at hf
    cases hh : is_symbol_adjacent schematic i j with
    | none =>
      have hg := gear_none schematic i j hh
      rw [hh] at hf
      simp only [Option.isSome_none, Bool.false_eq_true, if_false] at hf
      constructor
      · intro hn
        simp [visit, hc, h1, h2, h3, h4, hh, hg, hn, run_state, Scan.acc, hf]
        omega
      · intro hn
        subst hn
        simp [visit, hc, h1, h2, h3, h4, hh, hg, Scan.acc, flush_acc, run_event, hf]
    | some ch =>
      rw [hh] at hf
      simp only [Option.isSome_some, if_true] at hf
      constructor
      · intro hn
        cases hg : adjacent_gear_pos schematic i j with
        | none =>
          simp [visit, hc, h1, h2, h3, h4, hh, hg, hn, run_state, Scan.acc, hf]
          omega
        | some g =>
          simp [visit, hc, h1, h2, h3, h4, hh, hg, hn, run_state, Scan.acc, hf, set_insert]
          omega
      · intro hn
        subst hn
        cases hg : adjacent_gear_pos schematic i j with
        | none =>
          simp [visit, hc, h1, h2, h3, h4, hh, hg, Scan.acc, flush_acc, run_event, hf,
            apply_event, slice]
        | some g =>
          simp [visit, hc, h1, h2, h3, h4, hh, hg, Scan.acc, flush_acc, run_event, hf,
            apply_event, slice, set_insert]


/-! ### The loops over the columns and over the rows -/

theorem scan_row_acc (schematic : List (List Char)) (i n : Nat) :
    ∀ (cs : List Char) (j : Nat) (cur : Option Nat) (st : Scan),
      j + cs.length = n → run_state schematic i j cur st → (cs = [] → cur = none) →
      (scan_row schematic i n j cs st).acc =
        (digit_runs_go j cs cur).foldl (flush_acc schematic i (schematic.getD i [])) st.acc := by
  intro cs
  induction cs with
  | nil =>
    intro j cur st _ _ hc
    rw [hc rfl]
    rfl
  | cons c cs ih =>
    intro j cur st hn hs _
    have hn' : j + 1 + cs.length = n := by simp at hn; omega
    by_cases hd : char_is_digit c = true
    · by_cases hcs : cs = []
      · subst hcs
        have hlast : j + 1 = n := by simpa using hn'
        cases cur with
        | none =>
          have h := (visit_digit_none schematic i n j c st hd hs).2 hlast
          simp [scan_row, digit_runs_go, hd, h]
        | some s =>
          have h := (visit_digit_some schematic i n j c st s hd hs).2 hlast
          simp [scan_row, digit_runs_go, hd, h]
      · have hne : j + 1 ≠ n := by
          have : 0 < cs.length := List.length_pos.mpr hcs
          omega
        cases cur with
        | none =>
          obtain ⟨h1, h2⟩ := (visit_digit_none schematic i n j c st hd hs).1 hne
          rw [scan_row, ih (j + 1) (some j) _ hn' h1 (fun e => absurd e hcs), h2]
          simp [digit_runs_go, hd]
        | some s =>
          obtain ⟨h1, h2⟩ := (visit_digit_some schematic i n j c st s hd hs).1 hne
          rw [scan_row, ih (j + 1) (some s) _ hn' h1 (fun e => absurd e hcs), h2]
          simp [digit_runs_go, hd]
    · have hd' : char_is_digit c = false := by simpa using hd
      obtain ⟨h1, h2⟩ := visit_nondigit schematic i n j c st cur hd' hs
      rw [scan_row, ih (j + 1) none _ hn' h1 (fun _ => rfl), h2]
      cases cur with
      | none => simp [digit_runs_go, hd', close_run]
      | some s => simp [digit_runs_go, hd', close_run]

theorem foldl_flush_events (schematic : List (List Char)) (i : Nat) (row : List Char) :
    ∀ (runs : List (Nat × Nat)) (acc : Nat × Ratios),
      runs.foldl (flush_acc schematic i row) acc =
        (runs.filterMap (run_event schematic i row)).foldl apply_event acc := by
  intro runs
  induction runs with
  | nil => intro acc; rfl
  | cons r runs ih =>
    intro acc
    cases h : run_event schematic i row r with
    | none => simp [List.filterMap_cons, h, flush_acc, ih]
    | some e => simp [List.filterMap_cons, h, flush_acc, ih]

theorem getD_of_drop {α : Type} (l : List α) (i : Nat) (a : α) (rest : List α) (d : α)
    (h : l.drop i = a :: rest) : l.getD i d = a ∧ l.drop (i + 1) = rest := by
  have h2 : l.drop (i + 1) = rest := by
    rw [← List.drop_drop, h]
    rfl
  refine ⟨?_, h2⟩
  have h3 : (l.drop i).head? = some a := by rw [h]; rfl
  rw [List.head?_drop] at h3
  simp [List.getD, h3]

theorem scan_rows_acc (schematic : List (List Char)) :
    ∀ (rows : List (List Char)) (i : Nat) (st : Scan), schematic.drop i = rows →
      (scan_rows schematic i rows st).acc =
        (events_from schematic i rows).foldl apply_event st.acc := by
  intro rows
  induction rows with
  | nil => intro i st _; rfl
  | cons row rows ih =>
    intro i st h
    obtain ⟨hrow, hdrop⟩ := getD_of_drop schematic i row rows [] h
    have hs : run_state schematic i 0 none (start_row st) := ⟨rfl, rfl, rfl, rfl⟩
    have hr := scan_row_acc schematic i row.length row 0 none (start_row st) (by simp) hs
      (fun _ => rfl)
    rw [scan_rows, ih (i + 1) _ hdrop, hr, hrow, foldl_flush_events]
    simp only [events_from, List.foldl_append, row_events, digit_runs]
    rfl

theorem calculate_events (schematic : List (List Char)) :
    calculate schematic =
      (((events_from schematic 0 schematic).foldl apply_event (0, [])).1,
        gear_sum ((events_from schematic 0 schematic).foldl apply_event (0, [])).2) := by
  have h := scan_rows_acc schematic schematic 0
    { number_start := none, number_end := none, is_part_number := false,
      adjacent_gears := [], part_number_sum := 0, gears_ratio := [] } rfl
  unfold calculate
  simp only [Scan.acc] at h
  rw [← h]


/-! ### The runs of a row -/

theorem digit_runs_go_ok (row : List Char) :
    ∀ (cs : List Char) (j : Nat) (cur : Option Nat), row.drop j = cs → j ≤ row.length →
      (∀ s, cur = some s → s < j ∧
        ∀ k, s ≤ k → k < j → char_is_digit (row.getD k '.') = true) →
      ∀ r ∈ digit_runs_go j cs cur, r.1 ≤ r.2 ∧ r.2 < row.length ∧
        ∀ k, r.1 ≤ k → k ≤ r.2 → char_is_digit (row.getD k '.') = true := by
  intro cs
  induction cs with
  | nil =>
    intro j cur _ hj hcur r hr
    cases cur with
    | none => simp [digit_runs_go] at hr
    | some s =>
      simp only [digit_runs_go, List.mem_singleton] at hr
      subst hr
      obtain ⟨h1, h2⟩ := hcur s rfl
      exact ⟨by simp only; omega, by simp only; omega,
        fun k hk1 hk2 => h2 k hk1 (by simp only at hk2; omega)⟩
  | cons c cs ih =>
    intro j cur hdrop hj hcur r hr
    obtain ⟨hc, hdrop'⟩ := getD_of_drop row j c cs '.' hdrop
    have hj' : j + 1 ≤ row.length := by
      have : (row.drop j).length = cs.length + 1 := by rw [hdrop]; rfl
      rw [List.length_drop] at this
      omega
    by_cases hd : char_is_digit c = true
    · simp only [digit_runs_go, hd, if_true] at hr
      apply ih (j + 1) _ hdrop' hj' _ r hr
      intro s hs
      cases cur with
      | none =>
        simp only [Option.isSome_none, Bool.false_eq_true, if_false, Option.some.injEq] at hs
        subst hs
        refine ⟨by omega, ?_⟩
        intro k hk1 hk2
        have : k = j := by omega
        rw [this, hc]
        exact hd
      | some s0 =>
        simp only [Option.isSome_some, if_true, Option.some.injEq] at hs
        subst hs
        obtain ⟨h1, h2⟩ := hcur s0 rfl
        refine ⟨by omega, ?_⟩
        intro k hk1 hk2
        by_cases e : k = j
        · rw [e, hc]; exact hd
        · exact h2 k hk1 (by omega)
    · simp only [digit_runs_go, hd, Bool.false_eq_true, if_false, List.mem_append] at hr
      rcases hr with hr | hr
      · cases cur with
        | none => simp at hr
        | some s =>
          simp only [List.mem_singleton] at hr
          subst hr
          obtain ⟨h1, h2⟩ := hcur s rfl
          exact ⟨by simp only; omega, by simp only; omega,
            fun k hk1 hk2 => h2 k hk1 (by simp only at hk2; omega)⟩
      · exact ih (j + 1) none hdrop' hj' (fun s hs => Option.noConfusion hs) r hr

theorem digit_runs_ok (row : List Char) (r : Nat × Nat) (hr : r ∈ digit_runs row) :
    r.1 ≤ r.2 ∧ r.2 < row.length ∧
      ∀ k, r.1 ≤ k → k ≤ r.2 → char_is_digit (row.getD k '.') = true :=
  digit_runs_go_ok row row 0 none rfl (Nat.zero_le _) (fun _ hs => Option.noConfusion hs) r hr

theorem slice_digits (row : List Char) (r : Nat × Nat) (h2 : r.2 < row.length)
    (hd : ∀ k, r.1 ≤ k → k ≤ r.2 → char_is_digit (row.getD k '.') = true) :
    ∀ c ∈ slice row r, Cxx.is_digit c = true := by
  intro c hc
  unfold slice at hc
  obtain ⟨n, hn, e⟩ := List.mem_iff_getElem.mp hc
  simp only [List.length_take, List.length_drop] at hn
  rw [List.getElem_take, List.getElem_drop] at e
  have := hd (r.1 + n) (by omega) (by omega)
  rw [List.getD_eq_getElem _ _ (by omega), e] at this
  exact this

theorem takeWhile_all {α : Type} (p : α → Bool) : ∀ l : List α, (∀ a ∈ l, p a = true) →
    l.takeWhile p = l := by
  intro l
  induction l with
  | nil => intro _; rfl
  | cons a l ih =>
    intro h
    simp [List.takeWhile, h a (List.mem_cons_self a l),
      ih (fun b hb => h b (List.mem_cons_of_mem a hb))]

theorem from_chars_digits (cs : List Char) (hne : cs ≠ []) (hd : ∀ c ∈ cs, Cxx.is_digit c = true)
    (hv : Cxx.decimal cs < 2 ^ 31) : (Cxx.from_chars_int cs).toNat = Cxx.decimal cs := by
  have ht := takeWhile_all Cxx.is_digit cs hd
  cases cs with
  | nil => exact absurd rfl hne
  | cons c rest =>
    have hc : c ≠ '-' := by
      intro e
      have := hd c (List.mem_cons_self c rest)
      rw [e] at this
      exact absurd this (by decide)
    unfold Cxx.from_chars_int
    split
    · next heq =>
      have := (List.cons.inj heq).1
      exact absurd this hc
    · rw [ht]
      have hv' : Cxx.decimal (c :: rest) < 2147483648 := by norm_num at hv; exact hv
      simp [hv']

theorem run_value_code (row : List Char) (r : Nat × Nat) (hr : r ∈ digit_runs row)
    (hv : run_value row r < 2 ^ 31) :
    (Cxx.from_chars_int (slice row r)).toNat = run_value row r := by
  obtain ⟨h1, h2, h3⟩ := digit_runs_ok row r hr
  apply from_chars_digits _ _ (slice_digits row r h2 h3) hv
  intro e
  have hl : (slice row r).length = r.2 + 1 - r.1 := by
    unfold slice
    rw [List.length_take, List.length_drop]
    omega
  rw [e] at hl
  simp at hl
  omega


/-! ### The window of the two search functions -/

theorem rect_width (schematic : List (List Char)) (hr : rectangular schematic) (i : Nat)
    (hi : i < schematic.length) :
    (schematic.getD i []).length = (schematic.headD []).length := by
  rw [List.getD_eq_getElem _ _ hi]
  exact hr _ (List.getElem_mem hi)

theorem mem_cells (schematic : List (List Char)) (q : Pos) :
    q ∈ cells schematic ↔ q.1 < schematic.length ∧ q.2 < (schematic.getD q.1 []).length := by
  obtain ⟨a, b⟩ := q
  simp only [cells, List.mem_flatMap, List.mem_range, List.mem_map, Prod.mk.injEq]
  constructor
  · rintro ⟨i, hi, j, hj, e1, e2⟩
    subst e1 e2
    exact ⟨hi, hj⟩
  · rintro ⟨h1, h2⟩
    exact ⟨a, h1, b, h2, rfl, rfl⟩

theorem mem_window (schematic : List (List Char)) (hr : rectangular schematic) (i j : Nat)
    (hi : i < schematic.length) (hj : j < (schematic.headD []).length) (q : Pos) :
    q ∈ window schematic i j ↔ q ∈ cells schematic ∧ adjacent (i, j) q = true := by
  obtain ⟨a, b⟩ := q
  rw [mem_cells]
  have hw := rect_width schematic hr i hi
  simp only [window, hw, List.mem_flatMap, List.mem_range'_1, List.mem_map, Prod.mk.injEq,
    adjacent, decide_eq_true_eq]
  constructor
  · rintro ⟨i', hi', j', hj', e1, e2⟩
    subst e1 e2
    have ha : i' < schematic.length := by
      split at hi' <;> split at hi' <;> omega
    rw [rect_width schematic hr i' ha]
    refine ⟨⟨ha, ?_⟩, ?_⟩
    · split at hj' <;> split at hj' <;> omega
    · split at hi' <;> split at hi' <;> split at hj' <;> split at hj' <;> omega
  · rintro ⟨⟨h1, h2⟩, h3⟩
    rw [rect_width schematic hr a h1] at h2
    refine ⟨a, ?_, b, ?_, rfl, rfl⟩
    · split <;> split <;> omega
    · split <;> split <;> omega

theorem symbol_adjacent_iff (schematic : List (List Char)) (hr : rectangular schematic)
    (i j : Nat) (hi : i < schematic.length) (hj : j < (schematic.headD []).length) :
    (is_symbol_adjacent schematic i j).isSome = touches_symbol schematic (i, j) := by
  rw [Bool.eq_iff_iff]
  unfold is_symbol_adjacent touches_symbol
  rw [Option.isSome_map', List.find?_isSome, List.any_eq_true]
  constructor
  · rintro ⟨q, hq, hs⟩
    obtain ⟨h1, h2⟩ := (mem_window schematic hr i j hi hj q).mp hq
    exact ⟨q, h1, by simp [h2, hs]⟩
  · rintro ⟨q, hq, hs⟩
    simp only [Bool.and_eq_true] at hs
    exact ⟨q, (mem_window schematic hr i j hi hj q).mpr ⟨hq, hs.1⟩, hs.2⟩

theorem first_hit_is_part (schematic : List (List Char)) (hr : rectangular schematic)
    (i : Nat) (hi : i < schematic.length) (r : Nat × Nat)
    (h2 : r.2 < (schematic.headD []).length) :
    (first_hit schematic i r.1 (r.2 + 1 - r.1)).isSome = is_part schematic i r := by
  rw [Bool.eq_iff_iff]
  unfold first_hit is_part run_cells
  rw [List.find?_isSome, List.any_eq_true]
  simp only [List.mem_range'_1, List.mem_map]
  constructor
  · rintro ⟨j, hj, hs⟩
    refine ⟨(i, j), ⟨j, hj, rfl⟩, ?_⟩
    rw [← symbol_adjacent_iff schematic hr i j hi (by omega)]
    exact hs
  · rintro ⟨q, ⟨j, hj, e⟩, hs⟩
    subst e
    refine ⟨j, hj, ?_⟩
    rw [symbol_adjacent_iff schematic hr i j hi (by omega)]
    exact hs


/-! ### The sum of the part numbers -/

theorem foldl_apply_sum : ∀ (es : List (Nat × Option Pos)) (acc : Nat × Ratios),
    acc.1 < 2 ^ 64 →
    (es.foldl apply_event acc).1 = (acc.1 + (es.map Prod.fst).sum) % 2 ^ 64 := by
  intro es
  induction es with
  | nil =>
    intro acc h
    simp only [List.foldl_nil, List.map_nil, List.sum_nil, Nat.add_zero]
    exact (Nat.mod_eq_of_lt h).symm
  | cons e es ih =>
    intro acc _
    rw [List.foldl_cons, ih _ (Nat.mod_lt _ (by norm_num))]
    simp only [apply_event, List.map_cons, List.sum_cons]
    omega

theorem events_of_runs (schematic : List (List Char)) (hr : rectangular schematic)
    (hv : values_fit schematic) (i : Nat) (hi : i < schematic.length) (row : List Char)
    (hrow : row ∈ schematic) :
    ∀ L : List (Nat × Nat), (∀ r ∈ L, r ∈ digit_runs row) →
      (L.filterMap (run_event schematic i row)).map Prod.fst =
        (L.filter (is_part schematic i)).map (run_value row) := by
  intro L
  induction L with
  | nil => intro _; rfl
  | cons r L ih =>
    intro h
    have hrun := h r (List.mem_cons_self r L)
    have ihL := ih (fun x hx => h x (List.mem_cons_of_mem r hx))
    obtain ⟨_, h2, _⟩ := digit_runs_ok row r hrun
    have hw : r.2 < (schematic.headD []).length := by
      rw [← hr row hrow]; exact h2
    have hp := first_hit_is_part schematic hr i hi r hw
    have hval := run_value_code row r hrun (hv row hrow r hrun)
    cases hh : first_hit schematic i r.1 (r.2 + 1 - r.1) with
    | none =>
      rw [hh] at hp
      have hp' : is_part schematic i r = false := by simpa using hp.symm
      simp [List.filterMap_cons, run_event, hh, List.filter_cons, hp', ihL]
    | some j =>
      rw [hh] at hp
      have hp' : is_part schematic i r = true := by simpa using hp.symm
      simp [List.filterMap_cons, run_event, hh, List.filter_cons, hp', ihL, hval]

theorem events_fst (schematic : List (List Char)) (hr : rectangular schematic)
    (hv : values_fit schematic) :
    ∀ (rows : List (List Char)) (i : Nat), schematic.drop i = rows →
      (events_from schematic i rows).map Prod.fst = part_numbers_from schematic i rows := by
  intro rows
  induction rows with
  | nil => intro i _; rfl
  | cons row rows ih =>
    intro i h
    obtain ⟨_, hdrop⟩ := getD_of_drop schematic i row rows [] h
    have hi : i < schematic.length := by
      by_contra hc
      rw [List.drop_eq_nil_of_le (by omega)] at h
      exact List.noConfusion h
    have hrow : row ∈ schematic := by
      have : row ∈ schematic.drop i := by rw [h]; exact List.mem_cons_self row rows
      exact List.mem_of_mem_drop this
    simp only [events_from, part_numbers_from, List.map_append, ih (i + 1) hdrop, row_events,
      row_part_numbers, events_of_runs schematic hr hv i hi row hrow _ (fun _ h => h)]

theorem part_number_sum_eq (schematic : List (List Char)) (hr : rectangular schematic)
    (hv : values_fit schematic) : (calculate schematic).1 = part_sum schematic % 2 ^ 64 := by
  rw [calculate_events]
  simp only
  rw [foldl_apply_sum _ _ (by norm_num), events_fst schematic hr hv schematic 0 rfl]
  simp [part_sum]

/-- Counterexample to C25 as stated: in the one-row schematic `2147483648#` the run of
digits is adjacent to `#` and writes 2147483648, which `from_chars` does not store
in an `int`; `part_number_sum` is 0. -/
theorem number_beyond_int :
    parse_input "2147483648#" =
      [['2', '1', '4', '7', '4', '8', '3', '6', '4', '8', '#']] ∧
    rectangular (parse_input "2147483648#") ∧
    digit_runs ['2', '1', '4', '7', '4', '8', '3', '6', '4', '8', '#'] = [(0, 9)] ∧
    is_part (parse_input "2147483648#") 0 (0, 9) = true ∧
    part_sum (parse_input "2147483648#") = 2147483648 ∧
    (calculate (parse_input "2147483648#")).1 = 0 := by
  decide

/-- Claim C25 (amended): for every rectangular schematic in which every maximal
horizontal run of digits writes a number below `2 ^ 31`, the `part_number_sum`
returned by `calculate` is, modulo `2 ^ 64`, the sum of the values of the runs
that have at least one digit adjacent (diagonals included) to a character that is
neither a digit nor `.`; each such run is added once, also when it ends at the
last column. For the schematic of `test` it is 4361. -/
theorem part_number_sum_spec (schematic : List (List Char)) (hr : rectangular schematic)
    (hv : values_fit schematic) :
    (calculate schematic).1 = part_sum schematic % 2 ^ 64 ∧
    part_sum schematic =
      (part_numbers_from schematic 0 schematic).sum ∧
    (calculate (parse_input test_text)).1 = 4361 ∧
    part_numbers_from (parse_input test_text) 0 (parse_input test_text) =
      [467, 35, 633, 617, 592, 755, 664, 598] ∧
    calculate [['.', '.'], ['#', '7']] = (7, 0) :=
  ⟨part_number_sum_eq schematic hr hv, rfl, by decide, by decide, by decide⟩

/-- Witness for C25: the schematic of `test`. -/
theorem part_number_sum_spec_witness :
    rectangular (parse_input test_text) ∧ values_fit (parse_input test_text) ∧
    (calculate (parse_input test_text)).1 = part_sum (parse_input test_text) % 2 ^ 64 :=
  ⟨by decide, by decide, (part_number_sum_spec (parse_input test_text) (by decide) (by decide)).1⟩


/-! ### The map `gears_ratio` -/

theorem find_register (v : Nat) (g : Pos) : ∀ (m : Ratios) (g' : Pos),
    Ratios.find (register v m g) g' =
      if g = g' then
        (match Ratios.find m g with
         | some cp => some ((cp.1 + 1) % 2 ^ 64, (cp.2 * v) % 2 ^ 64)
         | none => some (1, v))
      else Ratios.find m g' := by
  intro m
  induction m with
  | nil => intro g'; by_cases h : g = g' <;> simp [register, Ratios.find, h]
  | cons e m ih =>
    intro g'
    obtain ⟨k, cp⟩ := e
    by_cases hk : k = g
    · subst hk
      by_cases h : k = g' <;> simp [register, Ratios.find, h]
    · by_cases h : g = g'
      · subst h
        simp [register, Ratios.find, hk, ih]
      · by_cases hk' : k = g'
        · subst hk'
          simp [register, Ratios.find, hk, h]
        · simp [register, Ratios.find, hk, hk', h, ih]

theorem keys_register (v : Nat) (g : Pos) : ∀ (m : Ratios),
    (register v m g).map Prod.fst =
      if g ∈ m.map Prod.fst then m.map Prod.fst else m.map Prod.fst ++ [g] := by
  intro m
  induction m with
  | nil => simp [register]
  | cons e m ih =>
    obtain ⟨k, cp⟩ := e
    by_cases hk : k = g
    · subst hk; simp [register]
    · have hk' : ¬ g = k := fun e => hk e.symm
      by_cases hm : g ∈ m.map Prod.fst
      · simp only [register, hk, if_false, List.map_cons, ih, hm, if_true, List.mem_cons,
          or_true]
      · simp only [register, hk, if_false, List.map_cons, ih, hm, List.mem_cons, hk',
          or_self, List.cons_append]

theorem find_none_iff : ∀ (m : Ratios) (g : Pos),
    Ratios.find m g = none ↔ g ∉ m.map Prod.fst := by
  intro m
  induction m with
  | nil => intro g; simp [Ratios.find]
  | cons e m ih =>
    intro g
    obtain ⟨k, cp⟩ := e
    by_cases hk : k = g
    · simp [Ratios.find, hk]
    · have hk' : ¬ g = k := fun e => hk e.symm
      simp [Ratios.find, hk, hk', ih]

theorem find_of_mem_nodup : ∀ (m : Ratios), (m.map Prod.fst).Nodup → ∀ e ∈ m,
    Ratios.find m e.1 = some e.2 := by
  intro m
  induction m with
  | nil => intro _ e he; simp at he
  | cons x m ih =>
    intro hn e he
    obtain ⟨k, cp⟩ := x
    simp only [List.map_cons, List.nodup_cons] at hn
    simp only [List.mem_cons] at he
    rcases he with he | he
    · subst he; simp [Ratios.find]
    · have hne : ¬ k = e.1 := by
        intro h
        apply hn.1
        rw [h]
        exact List.mem_map_of_mem Prod.fst he
      simp only [Ratios.find, hne, if_false]
      exact ih hn.2 e he

theorem tally_append (es : List (Nat × Option Pos)) (e : Nat × Option Pos) (g : Pos) :
    tally (es ++ [e]) g = tally es g ++ (if e.2 = some g then [e.1] else []) := by
  unfold tally
  by_cases h : e.2 = some g <;> simp [List.filter_append, List.filter_cons, h]

theorem ratios_hold_step (m : Ratios) (es : List (Nat × Option Pos)) (e : Nat × Option Pos)
    (hv : e.1 < 2 ^ 64) (h : ratios_hold m es) :
    ratios_hold (apply_event (0, m) e).2 (es ++ [e]) := by
  obtain ⟨hn, hf⟩ := h
  obtain ⟨v, og⟩ := e
  cases og with
  | none =>
    refine ⟨hn, ?_⟩
    intro g
    simp only [apply_event, tally_append]
    simp [hf g]
  | some g0 =>
    refine ⟨?_, ?_⟩
    · simp only [apply_event, keys_register]
      split
      · exact hn
      · next hm =>
        rw [List.nodup_append]
        refine ⟨hn, List.nodup_singleton g0, ?_⟩
        intro a ha hb
        simp only [List.mem_singleton] at hb
        subst hb
        exact hm ha
    · intro g
      simp only [apply_event, find_register, tally_append]
      by_cases hg : g0 = g
      · subst hg
        simp only [if_true, hf g0]
        unfold entry_of
        by_cases ht : tally es g0 = []
        · simp only at hv
          have hv' : v % 18446744073709551616 = v := Nat.mod_eq_of_lt (by norm_num at hv; exact hv)
          simp [ht, hv']
        · simp [ht, List.prod_append, Nat.add_mod, Nat.mul_mod]
      · have hg' : ¬ some g0 = some g := fun e => hg (Option.some.inj e)
        simp only [hg, if_false, hg', List.append_nil]
        exact hf g

theorem ratios_hold_foldl : ∀ (es P : List (Nat × Option Pos)) (acc : Nat × Ratios),
    (∀ e ∈ es, e.1 < 2 ^ 64) → ratios_hold acc.2 P →
    ratios_hold (es.foldl apply_event acc).2 (P ++ es) := by
  intro es
  induction es with
  | nil => intro P acc _ h; simpa using h
  | cons e es ih =>
    intro P acc hv h
    have hstep := ratios_hold_step acc.2 P e (hv e (List.mem_cons_self e es)) h
    have e1 : (apply_event acc e).2 = (apply_event (0, acc.2) e).2 := rfl
    rw [List.foldl_cons]
    have := ih (P ++ [e]) (apply_event acc e)
      (fun x hx => hv x (List.mem_cons_of_mem e hx)) (by rw [e1]; exact hstep)
    simpa using this

theorem gear_sum_eq (m : Ratios) :
    gear_sum m = (m.map (fun e => if e.2.1 = 2 then e.2.2 else 0)).sum % 2 ^ 64 := by
  unfold gear_sum
  have key : ∀ (l : Ratios) (a : Nat), a < 2 ^ 64 →
      l.foldl (fun sum gear_ratio =>
        if gear_ratio.2.1 = 2 then (sum + gear_ratio.2.2) % 2 ^ 64 else sum) a =
      (a + (l.map (fun e => if e.2.1 = 2 then e.2.2 else 0)).sum) % 2 ^ 64 := by
    intro l
    induction l with
    | nil =>
      intro a ha
      simp only [List.foldl_nil, List.map_nil, List.sum_nil, Nat.add_zero]
      exact (Nat.mod_eq_of_lt ha).symm
    | cons e l ih =>
      intro a ha
      simp only [List.foldl_cons, List.map_cons, List.sum_cons]
      by_cases h2 : e.2.1 = 2
      · rw [if_pos h2, if_pos h2, ih _ (Nat.mod_lt _ (by norm_num))]
        omega
      · rw [if_neg h2, if_neg h2, ih _ ha, Nat.zero_add]
  rw [key m 0 (by norm_num), Nat.zero_add]


/-! ### Which gear a number is registered for -/

theorem mem_numbers_from : ∀ (rows : List (List Char)) (i0 k : Nat) (row : List Char)
    (rest : List (List Char)), rows.drop k = row :: rest → ∀ r ∈ digit_runs row,
    (i0 + k, r, run_value row r) ∈ numbers_from i0 rows := by
  intro rows
  induction rows with
  | nil => intro i0 k row rest h; simp at h
  | cons x rows ih =>
    intro i0 k row rest h r hr
    cases k with
    | zero =>
      simp only [List.drop_zero, List.cons.injEq] at h
      obtain ⟨e, _⟩ := h
      subst e
      simp only [numbers_from, List.mem_append, List.mem_map, Nat.add_zero]
      exact Or.inl ⟨r, hr, rfl⟩
    | succ k =>
      simp only [List.drop_succ_cons] at h
      have := ih (i0 + 1) k row rest h r hr
      simp only [numbers_from, List.mem_append]
      right
      have e : i0 + (k + 1) = i0 + 1 + k := by omega
      rw [e]
      exact this

theorem touches_iff (i : Nat) (r : Nat × Nat) (g : Pos) :
    touches i r g = true ↔ ∃ j, r.1 ≤ j ∧ j < r.1 + (r.2 + 1 - r.1) ∧ adjacent (i, j) g = true := by
  unfold touches run_cells
  rw [List.any_eq_true]
  simp only [List.mem_map, List.mem_range'_1]
  constructor
  · rintro ⟨p, ⟨j, hj, e⟩, ha⟩
    subst e
    exact ⟨j, hj.1, hj.2, ha⟩
  · rintro ⟨j, h1, h2, ha⟩
    exact ⟨(i, j), ⟨j, ⟨h1, h2⟩, rfl⟩, ha⟩

theorem first_hit_some (schematic : List (List Char)) (i s k j : Nat)
    (h : first_hit schematic i s k = some j) :
    s ≤ j ∧ j < s + k ∧ (is_symbol_adjacent schematic i j).isSome = true := by
  unfold first_hit at h
  have h1 := List.mem_of_find?_eq_some h
  have h2 : (fun j => (is_symbol_adjacent schematic i j).isSome) j = true :=
    @List.find?_some Nat (fun j => (is_symbol_adjacent schematic i j).isSome) j
      (List.range' s k) h
  rw [List.mem_range'_1] at h1
  exact ⟨h1.1, h1.2, h2⟩

theorem star_is_symbol (schematic : List (List Char)) (g : Pos)
    (h : (at_pos schematic g == '*') = true) : is_symbol (at_pos schematic g) = true := by
  have e : at_pos schematic g = '*' := by simpa using h
  rw [e]
  decide

theorem gear_pos_some (schematic : List (List Char)) (hr : rectangular schematic) (i j : Nat)
    (hi : i < schematic.length) (hj : j < (schematic.headD []).length) (g : Pos)
    (h : adjacent_gear_pos schematic i j = some g) :
    g ∈ cells schematic ∧ adjacent (i, j) g = true ∧ (at_pos schematic g == '*') = true := by
  unfold adjacent_gear_pos at h
  obtain ⟨h1, h2⟩ := (mem_window schematic hr i j hi hj g).mp (List.mem_of_find?_eq_some h)
  have h3 : (fun p => at_pos schematic p == '*') g = true :=
    @List.find?_some Pos (fun p => at_pos schematic p == '*') g (window schematic i j) h
  exact ⟨h1, h2, h3⟩

theorem single_symbol_eq (schematic : List (List Char)) (hC : single_symbol schematic)
    (n : Nat × (Nat × Nat) × Nat) (hn : n ∈ numbers schematic) (p : Pos)
    (hp : p ∈ cells schematic) (q : Pos) (hq : q ∈ cells schematic)
    (hsp : is_symbol (at_pos schematic p) = true) (hsq : is_symbol (at_pos schematic q) = true)
    (htp : touches n.1 n.2.1 p = true) (htq : touches n.1 n.2.1 q = true) : p = q := by
  have h := hC n hn
  have mp : p ∈ symbols_at schematic n := by
    unfold symbols_at
    rw [List.mem_filter]
    exact ⟨hp, by simp [hsp, htp]⟩
  have mq : q ∈ symbols_at schematic n := by
    unfold symbols_at
    rw [List.mem_filter]
    exact ⟨hq, by simp [hsq, htq]⟩
  match hl : symbols_at schematic n, h, mp, mq with
  | [], _, mp, _ => simp at mp
  | [a], _, mp, mq =>
    simp only [List.mem_singleton] at mp mq
    rw [mp, mq]
  | a :: b :: t, h, _, _ => simp at h

theorem registered_iff (schematic : List (List Char)) (hr : rectangular schematic)
    (hC : single_symbol schematic) (i : Nat) (row : List Char) (rest : List (List Char))
    (hrow : schematic.drop i = row :: rest) (r : Nat × Nat) (hrun : r ∈ digit_runs row)
    (g : Pos) (hg : g ∈ cells schematic) (hstar : (at_pos schematic g == '*') = true) :
    (∃ j, first_hit schematic i r.1 (r.2 + 1 - r.1) = some j ∧
      adjacent_gear_pos schematic i j = some g) ↔ touches i r g = true := by
  have hi : i < schematic.length := by
    by_contra hc
    rw [List.drop_eq_nil_of_le (by omega)] at hrow
    exact List.noConfusion hrow
  have hmem : row ∈ schematic := by
    have : row ∈ schematic.drop i := by rw [hrow]; exact List.mem_cons_self row rest
    exact List.mem_of_mem_drop this
  obtain ⟨_, h2, _⟩ := digit_runs_ok row r hrun
  have hw : r.2 < (schematic.headD []).length := by rw [← hr row hmem]; exact h2
  have hnum : (i, r, run_value row r) ∈ numbers schematic := by
    have := mem_numbers_from schematic 0 i row rest hrow r hrun
    simpa [numbers] using this
  constructor
  · rintro ⟨j, hf, hgear⟩
    obtain ⟨a, b, _⟩ := first_hit_some schematic i _ _ j hf
    obtain ⟨_, hadj, _⟩ := gear_pos_some schematic hr i j hi (by omega) g hgear
    rw [touches_iff]
    exact ⟨j, a, b, hadj⟩
  · intro ht
    obtain ⟨j0, a0, b0, hadj0⟩ := (touches_iff i r g).mp ht
    have hsym0 : (is_symbol_adjacent schematic i j0).isSome = true := by
      rw [symbol_adjacent_iff schematic hr i j0 hi (by omega)]
      unfold touches_symbol
      rw [List.any_eq_true]
      exact ⟨g, hg, by simp [hadj0, star_is_symbol schematic g hstar]⟩
    have hsome : (first_hit schematic i r.1 (r.2 + 1 - r.1)).isSome = true := by
      unfold first_hit
      rw [List.find?_isSome]
      exact ⟨j0, by rw [List.mem_range'_1]; exact ⟨a0, b0⟩, hsym0⟩
    obtain ⟨j, hf⟩ := Option.isSome_iff_exists.mp hsome
    obtain ⟨a, b, hsym⟩ := first_hit_some schematic i _ _ j hf
    have hjw : j < (schematic.headD []).length := by omega
    rw [symbol_adjacent_iff schematic hr i j hi hjw] at hsym
    unfold touches_symbol at hsym
    rw [List.any_eq_true] at hsym
    obtain ⟨q, hq, hqs⟩ := hsym
    simp only [Bool.and_eq_true] at hqs
    have htq : touches i r q = true := (touches_iff i r q).mpr ⟨j, a, b, hqs.1⟩
    have hqg : q = g := single_symbol_eq schematic hC _ hnum q hq g hg hqs.2
      (star_is_symbol schematic g hstar) htq ht
    subst hqg
    have hgw : q ∈ window schematic i j := (mem_window schematic hr i j hi hjw q).mpr ⟨hq, hqs.1⟩
    have hgsome : (adjacent_gear_pos schematic i j).isSome = true := by
      unfold adjacent_gear_pos
      rw [List.find?_isSome]
      exact ⟨q, hgw, hstar⟩
    obtain ⟨g', hg'⟩ := Option.isSome_iff_exists.mp hgsome
    obtain ⟨c1, c2, c3⟩ := gear_pos_some schematic hr i j hi hjw g' hg'
    have htg' : touches i r g' = true := (touches_iff i r g').mpr ⟨j, a, b, c2⟩
    have e : g' = q := single_symbol_eq schematic hC _ hnum g' c1 q hq
      (star_is_symbol schematic g' c3) hqs.2 htg' ht
    subst e
    exact ⟨j, hf, hg'⟩

theorem registered_gear (schematic : List (List Char)) (hr : rectangular schematic)
    (i : Nat) (row : List Char) (rest : List (List Char))
    (hrow : schematic.drop i = row :: rest) (r : Nat × Nat) (hrun : r ∈ digit_runs row)
    (g : Pos) (j : Nat) (hf : first_hit schematic i r.1 (r.2 + 1 - r.1) = some j)
    (hgear : adjacent_gear_pos schematic i j = some g) : g ∈ gear_cells schematic := by
  have hi : i < schematic.length := by
    by_contra hc
    rw [List.drop_eq_nil_of_le (by omega)] at hrow
    exact List.noConfusion hrow
  have hmem : row ∈ schematic := by
    have : row ∈ schematic.drop i := by rw [hrow]; exact List.mem_cons_self row rest
    exact List.mem_of_mem_drop this
  obtain ⟨_, h2, _⟩ := digit_runs_ok row r hrun
  have hw : r.2 < (schematic.headD []).length := by rw [← hr row hmem]; exact h2
  obtain ⟨_, b, _⟩ := first_hit_some schematic i _ _ j hf
  obtain ⟨c1, _, c3⟩ := gear_pos_some schematic hr i j hi (by omega) g hgear
  unfold gear_cells
  rw [List.mem_filter]
  exact ⟨c1, c3⟩


/-! ### The values registered for a gear -/

theorem tally_cons (e : Nat × Option Pos) (es : List (Nat × Option Pos)) (g : Pos) :
    tally (e :: es) g = (if e.2 = some g then [e.1] else []) ++ tally es g := by
  unfold tally
  by_cases h : e.2 = some g <;> simp [List.filter_cons, h]

theorem tally_app (es es' : List (Nat × Option Pos)) (g : Pos) :
    tally (es ++ es') g = tally es g ++ tally es' g := by
  unfold tally
  simp [List.filter_append]

theorem tally_runs (schematic : List (List Char)) (hr : rectangular schematic)
    (hv : values_fit schematic) (hC : single_symbol schematic) (i : Nat) (row : List Char)
    (rest : List (List Char)) (hrow : schematic.drop i = row :: rest) (g : Pos)
    (hg : g ∈ gear_cells schematic) :
    ∀ L : List (Nat × Nat), (∀ r ∈ L, r ∈ digit_runs row) →
      tally (L.filterMap (run_event schematic i row)) g =
        ((L.map (fun r => (i, r, run_value row r))).filter
          (fun n => touches n.1 n.2.1 g)).map (fun n => n.2.2) := by
  have hmem : row ∈ schematic := by
    have : row ∈ schematic.drop i := by rw [hrow]; exact List.mem_cons_self row rest
    exact List.mem_of_mem_drop this
  unfold gear_cells at hg
  rw [List.mem_filter] at hg
  intro L
  induction L with
  | nil => intro _; rfl
  | cons r L ih =>
    intro h
    have hrun := h r (List.mem_cons_self r L)
    have ihL := ih (fun x hx => h x (List.mem_cons_of_mem r hx))
    have hiff := registered_iff schematic hr hC i row rest hrow r hrun g hg.1 hg.2
    have hval := run_value_code row r hrun (hv row hmem r hrun)
    cases hh : first_hit schematic i r.1 (r.2 + 1 - r.1) with
    | none =>
      have ht : touches i r g = false := by
        rw [Bool.eq_false_iff]
        intro hc
        obtain ⟨j, hj, _⟩ := hiff.mpr hc
        rw [hh] at hj
        exact Option.noConfusion hj
      simp [List.filterMap_cons, run_event, hh, List.filter_cons, ht, ihL]
    | some j =>
      by_cases hgear : adjacent_gear_pos schematic i j = some g
      · have ht : touches i r g = true := hiff.mp ⟨j, hh, hgear⟩
        simp [List.filterMap_cons, run_event, hh, List.filter_cons, ht, ihL, tally_cons, hgear,
          hval]
      · have ht : touches i r g = false := by
          rw [Bool.eq_false_iff]
          intro hc
          obtain ⟨j', hj', hg'⟩ := hiff.mpr hc
          rw [hh] at hj'
          cases Option.some.inj hj'
          exact hgear hg'
        simp [List.filterMap_cons, run_event, hh, List.filter_cons, ht, ihL, tally_cons, hgear]

theorem tally_events (schematic : List (List Char)) (hr : rectangular schematic)
    (hv : values_fit schematic) (hC : single_symbol schematic) (g : Pos)
    (hg : g ∈ gear_cells schematic) :
    ∀ (rows : List (List Char)) (i : Nat), schematic.drop i = rows →
      tally (events_from schematic i rows) g =
        ((numbers_from i rows).filter (fun n => touches n.1 n.2.1 g)).map (fun n => n.2.2) := by
  intro rows
  induction rows with
  | nil => intro i _; rfl
  | cons row rows ih =>
    intro i h
    obtain ⟨_, hdrop⟩ := getD_of_drop schematic i row rows [] h
    simp only [events_from, numbers_from, tally_app, List.filter_append, List.map_append,
      ih (i + 1) hdrop, row_events,
      tally_runs schematic hr hv hC i row rows h g hg _ (fun _ h => h)]

theorem mem_events_from (schematic : List (List Char)) :
    ∀ (rows : List (List Char)) (i : Nat), schematic.drop i = rows →
      ∀ e ∈ events_from schematic i rows,
        ∃ k row rest r, schematic.drop k = row :: rest ∧ r ∈ digit_runs row ∧
          run_event schematic k row r = some e := by
  intro rows
  induction rows with
  | nil => intro i _ e he; simp [events_from] at he
  | cons row rows ih =>
    intro i h e he
    obtain ⟨_, hdrop⟩ := getD_of_drop schematic i row rows [] h
    simp only [events_from, List.mem_append, row_events, List.mem_filterMap] at he
    rcases he with ⟨r, hr, hre⟩ | he
    · exact ⟨i, row, rows, r, h, hr, hre⟩
    · exact ih (i + 1) hdrop e he

theorem from_chars_int_lt (cs : List Char) : (Cxx.from_chars_int cs).toNat < 2 ^ 31 := by
  unfold Cxx.from_chars_int
  split
  · split
    · simp
    · split <;> simp
  · split
    · simp
    · split
      · next h => simpa using h
      · simp

theorem event_facts (schematic : List (List Char)) (hr : rectangular schematic)
    (e : Nat × Option Pos) (he : e ∈ events_from schematic 0 schematic) :
    e.1 < 2 ^ 31 ∧ ∀ g, e.2 = some g → g ∈ gear_cells schematic := by
  obtain ⟨k, row, rest, r, hrow, hrun, hre⟩ := mem_events_from schematic schematic 0 rfl e he
  unfold run_event at hre
  cases hh : first_hit schematic k r.1 (r.2 + 1 - r.1) with
  | none => rw [hh] at hre; exact Option.noConfusion hre
  | some j =>
    rw [hh] at hre
    have e1 := Option.some.inj hre
    subst e1
    refine ⟨from_chars_int_lt _, ?_⟩
    intro g hg
    exact registered_gear schematic hr k row rest hrow r hrun g j hh hg

theorem tally_other (schematic : List (List Char)) (hr : rectangular schematic) (g : Pos)
    (hg : g ∉ gear_cells schematic) : tally (events_from schematic 0 schematic) g = [] := by
  unfold tally
  rw [List.map_eq_nil_iff, List.filter_eq_nil_iff]
  intro e he
  simp only [decide_eq_true_eq]
  intro h
  exact hg ((event_facts schematic hr e he).2 g h)


/-! ### The sum of the gear ratios -/

theorem cells_nodup (schematic : List (List Char)) : (cells schematic).Nodup := by
  unfold cells
  rw [List.nodup_flatMap]
  constructor
  · intro i _
    exact List.Nodup.map (fun a b h => (Prod.mk.inj h).2) (List.nodup_range _)
  · apply List.Pairwise.imp _ (List.nodup_range schematic.length)
    intro a b hab
    rw [Function.onFun, List.disjoint_left]
    intro p hp hq
    simp only [List.mem_map] at hp hq
    obtain ⟨j, _, e1⟩ := hp
    obtain ⟨j', _, e2⟩ := hq
    rw [← e2] at e1
    exact hab (Prod.mk.inj e1).1

theorem sum_subset_nodup (A B : List Pos) (G : Pos → Nat) (hA : A.Nodup) (hB : B.Nodup)
    (hsub : ∀ g ∈ A, g ∈ B) (h0 : ∀ g ∈ B, g ∉ A → G g = 0) :
    (A.map G).sum = (B.map G).sum := by
  rw [← List.sum_toFinset G hA, ← List.sum_toFinset G hB]
  apply Finset.sum_subset
  · intro g hg
    rw [List.mem_toFinset] at hg ⊢
    exact hsub g hg
  · intro g hg hng
    rw [List.mem_toFinset] at hg hng
    exact h0 g hg hng

theorem entry_ratio (vs : List Nat) (hlen : vs.length < 2 ^ 64) (hb : ∀ v ∈ vs, v < 2 ^ 31) :
    (match entry_of vs with
     | some cp => if cp.1 = 2 then cp.2 else 0
     | none => 0) = ratio vs := by
  unfold entry_of ratio
  by_cases hnil : vs = []
  · subst hnil; simp
  · simp only [hnil, if_false, Nat.mod_eq_of_lt hlen]
    by_cases h2 : vs.length = 2
    · rw [if_pos h2, if_pos h2]
      match vs, h2 with
      | [a, b], _ =>
        have ha : a < 2 ^ 31 := hb a (by simp)
        have hbb : b < 2 ^ 31 := hb b (by simp)
        have : a * b < 2 ^ 31 * 2 ^ 31 := Nat.mul_lt_mul'' ha hbb
        simp only [List.prod_cons, List.prod_nil, Nat.mul_one]
        apply Nat.mod_eq_of_lt
        omega
    · rw [if_neg h2, if_neg h2]

theorem gear_ratio_sum_eq (schematic : List (List Char)) (hr : rectangular schematic)
    (hv : values_fit schematic) (hC : single_symbol schematic)
    (hn : (numbers schematic).length < 2 ^ 64) :
    (calculate schematic).2 = gear_ratio_spec schematic % 2 ^ 64 := by
  rw [calculate_events]
  simp only
  have hfacts := event_facts schematic hr
  have hold := ratios_hold_foldl (events_from schematic 0 schematic) [] (0, [])
    (fun e he => lt_trans (hfacts e he).1 (by norm_num))
    ⟨List.nodup_nil, fun g => by simp [Ratios.find, tally, entry_of]⟩
  rw [List.nil_append] at hold
  generalize ((events_from schematic 0 schematic).foldl apply_event (0, [])).2 = m at hold
  obtain ⟨hnd, hfind⟩ := hold
  rw [gear_sum_eq]
  congr 1
  have e1 : m.map (fun e => if e.2.1 = 2 then e.2.2 else 0) =
      (m.map Prod.fst).map (fun g =>
        match entry_of (tally (events_from schematic 0 schematic) g) with
        | some cp => if cp.1 = 2 then cp.2 else 0
        | none => 0) := by
    rw [List.map_map]
    apply List.map_congr_left
    intro e he
    have := find_of_mem_nodup m hnd e he
    rw [hfind] at this
    simp only [Function.comp, this]
  rw [e1]
  have hgn : (gear_cells schematic).Nodup := List.Nodup.filter _ (cells_nodup schematic)
  rw [sum_subset_nodup (m.map Prod.fst) (gear_cells schematic) _ hnd hgn]
  · unfold gear_ratio_spec
    congr 1
    apply List.map_congr_left
    intro g hg
    have ht := tally_events schematic hr hv hC g hg schematic 0 rfl
    have ht' : tally (events_from schematic 0 schematic) g = adjacent_values schematic g := ht
    have hlen : (adjacent_values schematic g).length < 2 ^ 64 := by
      unfold adjacent_values
      rw [List.length_map]
      exact lt_of_le_of_lt (List.length_filter_le _ _) hn
    have hb : ∀ v ∈ adjacent_values schematic g, v < 2 ^ 31 := by
      rw [← ht']
      intro v hvm
      unfold tally at hvm
      rw [List.mem_map] at hvm
      obtain ⟨e, he, rfl⟩ := hvm
      exact (hfacts e (List.mem_filter.mp he).1).1
    rw [ht']
    exact entry_ratio _ hlen hb
  · intro g hg
    by_contra hng
    have ht := tally_other schematic hr g hng
    have hf := hfind g
    rw [ht] at hf
    have hnone : Ratios.find m g = none := by simpa [entry_of] using hf
    rw [find_none_iff] at hnone
    exact hnone hg
  · intro g _ hng
    have hnone := (find_none_iff m g).mpr hng
    rw [hfind] at hnone
    simp only [hnone]

/-- Claim C24, at the one-row schematic `1*2*3`: the first `*` is adjacent to the
numbers 1 and 2, the second to 2 and 3, so that the claimed sum is
`1 * 2 + 2 * 3 = 8`; `calculate` registers the number 2 for the first `*` only,
the second `*` is left with one number, and the `gear_ratio_sum` it returns
is 2. -/
theorem second_gear_missed :
    parse_input two_symbol_text = [['1', '*', '2', '*', '3']] ∧
    rectangular (parse_input two_symbol_text) ∧
    gear_cells (parse_input two_symbol_text) = [(0, 1), (0, 3)] ∧
    adjacent_values (parse_input two_symbol_text) (0, 1) = [1, 2] ∧
    adjacent_values (parse_input two_symbol_text) (0, 3) = [2, 3] ∧
    gear_ratio_spec (parse_input two_symbol_text) = 8 ∧
    (calculate (parse_input two_symbol_text)).2 = 2 := by
  decide

/-- Where no number meets two symbols: for every rectangular schematic in which no
number (maximal horizontal run of digits) is adjacent to two symbols at different positions,
every number is below `2 ^ 31` and there are fewer than `2 ^ 64` numbers, the
`gear_ratio_sum` returned by `calculate` is, modulo `2 ^ 64`, the sum over every
`*` that is adjacent (diagonals included) to exactly two numbers of the product
of the two. For the schematic of `test`, which is of this kind, it is 467835. -/
theorem gear_ratio_sum_spec (schematic : List (List Char)) (hr : rectangular schematic)
    (hv : values_fit schematic) (hC : single_symbol schematic)
    (hn : (numbers schematic).length < 2 ^ 64) :
    (calculate schematic).2 = gear_ratio_spec schematic % 2 ^ 64 ∧
    gear_ratio_spec schematic =
      ((gear_cells schematic).map (fun g => ratio (adjacent_values schematic g))).sum ∧
    (calculate (parse_input test_text)).2 = 467835 ∧
    gear_ratio_spec (parse_input test_text) = 467835 :=
  ⟨gear_ratio_sum_eq schematic hr hv hC hn, rfl, by decide, by decide⟩

/-- The schematic of `test` is of the kind `gear_ratio_sum_spec` is about. -/
theorem gear_ratio_sum_spec_witness :
    rectangular (parse_input test_text) ∧ values_fit (parse_input test_text) ∧
    single_symbol (parse_input test_text) ∧
    (numbers (parse_input test_text)).length < 2 ^ 64 ∧
    (calculate (parse_input test_text)).2 = gear_ratio_spec (parse_input test_text) % 2 ^ 64 :=
  ⟨by decide, by decide, by decide, by decide,
    (gear_ratio_sum_spec (parse_input test_text) (by decide) (by decide) (by decide)
      (by decide)).1⟩

end Day3

namespace Day11

/-! ### Steps between two indices -/

theorem foldl_add_mod {α : Type} (w : α → Nat) : ∀ (l : List α) (d : Nat), d < 2 ^ 64 →
    l.foldl (fun d k => (d + w k) % 2 ^ 64) d = (d + (l.map w).sum) % 2 ^ 64 := by
  intro l
  induction l with
  | nil =>
    intro d hd
    simp only [List.foldl_nil, List.map_nil, List.sum_nil, Nat.add_zero]
    exact (Nat.mod_eq_of_lt hd).symm
  | cons a l ih =>
    intro d _
    rw [List.foldl_cons, ih _ (Nat.mod_lt _ (by norm_num))]
    simp only [List.map_cons, List.sum_cons]
    omega

theorem sum_range_split (w : Nat → Nat) (lo hi : Nat) (h : lo ≤ hi) :
    ((List.range hi).map w).sum =
      ((List.range lo).map w).sum + ((List.range' lo (hi - lo)).map w).sum := by
  have e : List.range hi = List.range lo ++ List.range' lo (hi - lo) := by
    rw [List.range_eq_range', List.range_eq_range']
    have := List.range'_append 0 lo (hi - lo) 1
    simp only [Nat.one_mul, Nat.zero_add] at this
    rw [this]
    congr 1
    omega
  rw [e, List.map_append, List.sum_append]

theorem steps_dist (w : Nat → Nat) (a b : Nat) :
    ((List.range' (min a b) (max a b - min a b)).map w).sum =
      Nat.dist ((List.range a).map w).sum ((List.range b).map w).sum := by
  rcases Nat.le_total a b with h | h
  · rw [Nat.min_eq_left h, Nat.max_eq_right h, sum_range_split w a b h]
    generalize ((List.range a).map w).sum = A
    generalize ((List.range' a (b - a)).map w).sum = S
    rw [Nat.dist_eq_sub_of_le (Nat.le_add_right A S)]
    omega
  · rw [Nat.min_eq_right h, Nat.max_eq_left h, sum_range_split w b a h, Nat.dist_comm]
    generalize ((List.range b).map w).sum = A
    generalize ((List.range' b (a - b)).map w).sum = S
    rw [Nat.dist_eq_sub_of_le (Nat.le_add_right A S)]
    omega

theorem map_congr_range' (w w' : Nat → Nat) (lo n : Nat)
    (h : ∀ k, lo ≤ k → k < lo + n → w k = w' k) :
    (List.range' lo n).map w = (List.range' lo n).map w' := by
  apply List.map_congr_left
  intro k hk
  rw [List.mem_range'_1] at hk
  exact h k hk.1 hk.2

theorem map_congr_range (w w' : Nat → Nat) (n : Nat) (h : ∀ k, k < n → w k = w' k) :
    (List.range n).map w = (List.range n).map w' := by
  apply List.map_congr_left
  intro k hk
  rw [List.mem_range] at hk
  exact h k hk


/-! ### Empty rows and columns, and the galaxies -/

theorem grid_width (grid : Grid) (hr : rectangular grid) (y : Nat) (hy : y < grid.length) :
    (grid.getD y []).length = (grid.headD []).length := by
  rw [List.getD_eq_getElem _ _ hy]
  exact hr _ (List.getElem_mem hy)

theorem space_iff (s : Symbol) : decide (s = Symbol.Space) = decide (s ≠ Symbol.Galaxy) := by
  cases s <;> rfl

theorem mem_empty_rows (grid : Grid) (k : Nat) (hk : k < grid.length) :
    k ∈ empty_rows grid ↔ row_free grid k = true := by
  unfold empty_rows row_free
  rw [List.mem_filter, List.mem_range]
  simp only [space_iff]
  exact ⟨fun h => h.2, fun h => ⟨hk, h⟩⟩

theorem all_empty_eq (grid : Grid) (k : Nat) : all_empty grid k = col_free grid k := by
  rw [Bool.eq_iff_iff]
  unfold all_empty col_free at_pos
  rw [List.all_eq_true, List.all_eq_true]
  simp only [space_iff]
  constructor
  · intro h row hrow
    obtain ⟨y, hy, e⟩ := List.mem_iff_getElem.mp hrow
    have := h y (List.mem_range.mpr hy)
    rw [List.getD_eq_getElem _ _ hy, e] at this
    exact this
  · intro h y hy
    rw [List.mem_range] at hy
    rw [List.getD_eq_getElem _ _ hy]
    exact h _ (List.getElem_mem hy)

theorem mem_empty_cols (grid : Grid) (k : Nat) (hk : k < (grid.headD []).length) :
    k ∈ empty_cols grid ↔ col_free grid k = true := by
  unfold empty_cols
  rw [List.mem_filter, List.mem_range, all_empty_eq]
  exact ⟨fun h => h.2, fun h => ⟨hk, h⟩⟩

theorem mem_galaxies (grid : Grid) (p : Point) :
    p ∈ galaxies grid ↔
      p.x < (grid.headD []).length ∧ p.y < grid.length ∧
        at_pos grid p.y p.x = Symbol.Galaxy := by
  unfold galaxies column_galaxies
  simp only [List.mem_flatMap, List.mem_range, List.mem_map, List.mem_filter,
    decide_eq_true_eq]
  constructor
  · rintro ⟨x, hx, y, ⟨hy, hg⟩, e⟩
    subst e
    exact ⟨hx, hy, hg⟩
  · rintro ⟨hx, hy, hg⟩
    exact ⟨p.x, hx, p.y, ⟨hy, hg⟩, rfl⟩

theorem add_steps_eq (empty : List Nat) (f lo hi d : Nat) (hd : d < 2 ^ 64) :
    add_steps empty f lo hi d =
      (d + ((List.range' lo (hi - lo)).map (fun k => if k ∈ empty then f else 1)).sum)
        % 2 ^ 64 := by
  unfold add_steps
  exact foldl_add_mod (fun k => if k ∈ empty then f else 1) _ d hd

theorem dist_eq (grid : Grid) (f : Nat) (ga gb : Point)
    (hax : ga.x < (grid.headD []).length) (hay : ga.y < grid.length)
    (hbx : gb.x < (grid.headD []).length) (hby : gb.y < grid.length) :
    dist (empty_rows grid) (empty_cols grid) f ga gb = expanded_dist grid f ga gb % 2 ^ 64 := by
  unfold dist expanded_dist expanded_row expanded_col
  rw [add_steps_eq _ _ _ _ _ (by norm_num : (0 : Nat) < 2 ^ 64),
    add_steps_eq _ _ _ _ _ (Nat.mod_lt _ (by norm_num))]
  have e1 : (List.range' (min ga.y gb.y) (max ga.y gb.y - min ga.y gb.y)).map
      (fun k => if k ∈ empty_rows grid then f else 1) =
      (List.range' (min ga.y gb.y) (max ga.y gb.y - min ga.y gb.y)).map
      (fun r => if row_free grid r = true then f else 1) := by
    apply map_congr_range'
    intro k _ h2
    have hk : k < grid.length := by omega
    by_cases h : row_free grid k = true
    · rw [if_pos ((mem_empty_rows grid k hk).mpr h), if_pos h]
    · rw [if_neg (fun hm => h ((mem_empty_rows grid k hk).mp hm)), if_neg h]
  have e2 : (List.range' (min ga.x gb.x) (max ga.x gb.x - min ga.x gb.x)).map
      (fun k => if k ∈ empty_cols grid then f else 1) =
      (List.range' (min ga.x gb.x) (max ga.x gb.x - min ga.x gb.x)).map
      (fun c => if col_free grid c = true then f else 1) := by
    apply map_congr_range'
    intro k _ h2
    have hk : k < (grid.headD []).length := by omega
    by_cases h : col_free grid k = true
    · rw [if_pos ((mem_empty_cols grid k hk).mpr h), if_pos h]
    · rw [if_neg (fun hm => h ((mem_empty_cols grid k hk).mp hm)), if_neg h]
  rw [e1, e2, steps_dist, steps_dist]
  omega


/-! ### The sum over the pairs -/

theorem pair_loop_eq (rows cols : List Nat) (f : Nat) (D : Point → Point → Nat) :
    ∀ (l : List Point) (s : Nat), s < 2 ^ 64 →
      (∀ a ∈ l, ∀ b ∈ l, dist rows cols f a b = D a b % 2 ^ 64) →
      pair_loop rows cols f l s = (s + pairs_total D l) % 2 ^ 64 := by
  intro l
  induction l with
  | nil =>
    intro s hs _
    simp only [pair_loop, pairs_total, Nat.add_zero]
    exact (Nat.mod_eq_of_lt hs).symm
  | cons ga rest ih =>
    intro s hs h
    have hin : rest.foldl (fun s gb => (s + dist rows cols f ga gb) % 2 ^ 64) s =
        (s + (rest.map (D ga)).sum) % 2 ^ 64 := by
      have e : rest.map (fun gb => dist rows cols f ga gb) =
          rest.map (fun gb => D ga gb % 2 ^ 64) := by
        apply List.map_congr_left
        intro gb hgb
        exact h ga (List.mem_cons_self ga rest) gb (List.mem_cons_of_mem ga hgb)
      rw [foldl_add_mod (fun gb => dist rows cols f ga gb) rest s hs, e]
      have key : ∀ (t : List Point),
          (t.map (fun gb => D ga gb % 2 ^ 64)).sum % 2 ^ 64 = (t.map (D ga)).sum % 2 ^ 64 := by
        intro t
        induction t with
        | nil => rfl
        | cons x t iht =>
          simp only [List.map_cons, List.sum_cons]
          omega
      have := key rest
      omega
    rw [pair_loop, hin, ih _ (Nat.mod_lt _ (by norm_num))
      (fun a ha b hb => h a (List.mem_cons_of_mem ga ha) b (List.mem_cons_of_mem ga hb))]
    simp only [pairs_total]
    omega

theorem pairs_total_perm (d : Point → Point → Nat) (hd : ∀ p q, d p q = d q p)
    (l1 l2 : List Point) (h : l1.Perm l2) : pairs_total d l1 = pairs_total d l2 := by
  induction h with
  | nil => rfl
  | cons p hp ih =>
    simp only [pairs_total, ih]
    rw [(hp.map (d p)).sum_eq]
  | swap p q l =>
    simp only [pairs_total, List.map_cons, List.sum_cons, hd p q]
    omega
  | trans _ _ ih1 ih2 => rw [ih1, ih2]

theorem galaxies_nodup (grid : Grid) : (galaxies grid).Nodup := by
  unfold galaxies column_galaxies
  rw [List.nodup_flatMap]
  constructor
  · intro x _
    exact List.Nodup.map (fun a b h => by injection h)
      (List.Nodup.filter _ (List.nodup_range _))
  · apply List.Pairwise.imp _ (List.nodup_range _)
    intro a b hab
    rw [Function.onFun, List.disjoint_left]
    intro p hp hq
    simp only [List.mem_map] at hp hq
    obtain ⟨y, _, e1⟩ := hp
    obtain ⟨y', _, e2⟩ := hq
    rw [← e2] at e1
    injection e1 with h1 _
    exact hab h1

theorem galaxy_cells_nodup (grid : Grid) : (galaxy_cells grid).Nodup := by
  unfold galaxy_cells
  rw [List.nodup_flatMap]
  constructor
  · intro y _
    exact List.Nodup.map (fun a b h => by injection h)
      (List.Nodup.filter _ (List.nodup_range _))
  · apply List.Pairwise.imp _ (List.nodup_range _)
    intro a b hab
    rw [Function.onFun, List.disjoint_left]
    intro p hp hq
    simp only [List.mem_map] at hp hq
    obtain ⟨x, _, e1⟩ := hp
    obtain ⟨x', _, e2⟩ := hq
    rw [← e2] at e1
    injection e1 with _ h2
    exact hab h2

theorem mem_galaxy_cells (grid : Grid) (hr : rectangular grid) (p : Point) :
    p ∈ galaxy_cells grid ↔
      p.x < (grid.headD []).length ∧ p.y < grid.length ∧
        at_pos grid p.y p.x = Symbol.Galaxy := by
  unfold galaxy_cells
  simp only [List.mem_flatMap, List.mem_range, List.mem_map, List.mem_filter,
    decide_eq_true_eq]
  constructor
  · rintro ⟨y, hy, x, ⟨hx, hg⟩, e⟩
    subst e
    rw [grid_width grid hr y hy] at hx
    exact ⟨hx, hy, hg⟩
  · rintro ⟨hx, hy, hg⟩
    exact ⟨p.y, hy, p.x, ⟨by rw [grid_width grid hr p.y hy]; exact hx, hg⟩, rfl⟩

theorem galaxies_perm (grid : Grid) (hr : rectangular grid) :
    (galaxies grid).Perm (galaxy_cells grid) := by
  rw [List.perm_ext_iff_of_nodup (galaxies_nodup grid) (galaxy_cells_nodup grid)]
  intro p
  rw [mem_galaxies, mem_galaxy_cells grid hr]

theorem distance_sum_eq (grid : Grid) (hne : grid ≠ []) (hr : rectangular grid) (f : Nat) :
    distance_sum grid f = some (expanded_sum grid f % 2 ^ 64) := by
  have h := pair_loop_eq (empty_rows grid) (empty_cols grid) f (expanded_dist grid f)
    (galaxies grid) 0 (by norm_num) (by
      intro a ha b hb
      rw [mem_galaxies] at ha hb
      exact dist_eq grid f a b ha.1 ha.2.1 hb.1 hb.2.1)
  have hp := pairs_total_perm (expanded_dist grid f)
    (fun p q => by unfold expanded_dist; rw [Nat.dist_comm, Nat.dist_comm (expanded_col grid f p.x)])
    _ _ (galaxies_perm grid hr)
  unfold expanded_sum
  rw [← hp, ← Nat.zero_add (pairs_total _ _), ← h]
  cases grid with
  | nil => exact absurd rfl hne
  | cons row rows => rfl

/-- Counterexample to C26 as stated: in the grid of one column with a galaxy, an empty
row and a galaxy, the distance of the two galaxies with the spread factor
`2 ^ 64 - 1` is `1 + (2 ^ 64 - 1) = 2 ^ 64`, and `distance_sum` returns 0. -/
theorem spread_wraps :
    parse_input "#\n.\n#" = some narrow_grid ∧ rectangular narrow_grid ∧
    galaxy_cells narrow_grid = [{ x := 0, y := 0 }, { x := 0, y := 2 }] ∧
    expanded_sum narrow_grid (2 ^ 64 - 1) = 2 ^ 64 ∧
    distance_sum narrow_grid (2 ^ 64 - 1) = some 0 := by
  decide

set_option maxRecDepth 100000 in
theorem test_values :
    parse_input test_text = some test_grid ∧
    distance_sum test_grid 2 = some 374 ∧ distance_sum test_grid 100 = some 8410 ∧
    expanded_sum test_grid 2 = 374 ∧ expanded_sum test_grid 100 = 8410 := by
  decide

set_option maxRecDepth 100000 in
theorem test_grid_shape : test_grid ≠ [] ∧ rectangular test_grid := by
  decide

/-- Claim C26 (amended): for every rectangular grid of `Space` and `Galaxy` cells with
at least one row and every spread factor `f`, `distance_sum(grid, f)` is, modulo
`2 ^ 64`, the sum over all pairs of galaxies of their Manhattan distance after
every row and every column without galaxy has been replaced by `f` rows or
columns. For the grid of `test` it is 374 for `f = 2` and 8410 for `f = 100`. -/
theorem distance_sum_spec (grid : Grid) (hne : grid ≠ []) (hr : rectangular grid) (f : Nat) :
    distance_sum grid f = some (expanded_sum grid f % 2 ^ 64) ∧
    expanded_sum grid f = pairs_total (expanded_dist grid f) (galaxy_cells grid) ∧
    (∀ p q, expanded_dist grid f p q = expanded_dist grid f q p) ∧
    (∀ l, (galaxy_cells grid).Perm l →
      pairs_total (expanded_dist grid f) l = expanded_sum grid f) ∧
    parse_input test_text = some test_grid ∧
    distance_sum test_grid 2 = some 374 ∧ distance_sum test_grid 100 = some 8410 := by
  have hsymm : ∀ p q, expanded_dist grid f p q = expanded_dist grid f q p := by
    intro p q
    unfold expanded_dist
    rw [Nat.dist_comm, Nat.dist_comm (expanded_col grid f p.x)]
  refine ⟨distance_sum_eq grid hne hr f, rfl, hsymm, ?_, test_values.1, test_values.2.1,
    test_values.2.2.1⟩
  intro l hl
  exact (pairs_total_perm _ hsymm _ _ hl).symm

/-- Witness for C26: the grid of `test` with the spread factor 2. -/
theorem distance_sum_spec_witness :
    test_grid ≠ [] ∧ rectangular test_grid ∧
    distance_sum test_grid 2 = some (expanded_sum test_grid 2 % 2 ^ 64) :=
  ⟨test_grid_shape.1, test_grid_shape.2,
    (distance_sum_spec test_grid test_grid_shape.1 test_grid_shape.2 2).1⟩

end Day11

namespace Day9

theorem to_size_add (a b : Int) : (to_size a + to_size b) % 2 ^ 64 = to_size (a + b) := by
  unfold to_size
  omega

theorem to_size_sub (a b : Int) :
    (to_size a + 2 ^ 64 - to_size b) % 2 ^ 64 = to_size (a - b) := by
  unfold to_size
  omega

theorem delta_length (h : List Int) : (delta h).length = h.length - 1 := by
  induction h with
  | nil => rfl
  | cons a t ih =>
    cases t with
    | nil => rfl
    | cons b t => simp only [delta, List.length_cons] at ih ⊢; omega

theorem checked_diffs_eq (h : List Int) (hd : ∀ v ∈ delta h, in_int v) :
    checked_diffs h = some (delta h) := by
  induction h with
  | nil => rfl
  | cons a t ih =>
    cases t with
    | nil => rfl
    | cons b t =>
      have h1 : in_int (b - a) := hd _ (by simp [delta])
      have h2 := ih (fun v hv => hd v (by simp only [delta, List.mem_cons]; exact Or.inr hv))
      simp only [checked_diffs, h1, if_true, h2, delta]

theorem delta_zero (h : List Int) (hz : ∀ v ∈ h, v = 0) : ∀ v ∈ delta h, v = 0 := by
  induction h with
  | nil => intro v hv; simp [delta] at hv
  | cons a t ih =>
    cases t with
    | nil => intro v hv; simp [delta] at hv
    | cons b t =>
      intro v hv
      simp only [delta, List.mem_cons] at hv
      rcases hv with hv | hv
      · rw [hv, hz a (by simp), hz b (by simp)]; rfl
      · exact ih (fun w hw => hz w (List.mem_cons_of_mem _ hw)) v hv

theorem iterate_zero (k : Nat) (h : List Int) (hz : ∀ v ∈ h, v = 0) :
    ∀ v ∈ delta^[k] h, v = 0 := by
  induction k generalizing h with
  | zero => exact hz
  | succ k ih =>
    rw [Function.iterate_succ_apply]
    exact ih (delta h) (delta_zero h hz)

theorem getLastD_zero (h : List Int) (hz : ∀ v ∈ h, v = 0) : h.getLastD 0 = 0 := by
  cases h with
  | nil => rfl
  | cons a t =>
    rw [List.getLastD_eq_getLast?, List.getLast?_eq_getLast _ (List.cons_ne_nil a t)]
    exact hz _ (List.getLast_mem _)

theorem headD_zero (h : List Int) (hz : ∀ v ∈ h, v = 0) : h.headD 0 = 0 := by
  cases h with
  | nil => rfl
  | cons a t => exact hz a (by simp)


theorem getLastD_last (a : Int) (t : List Int) :
    (a :: t).getLastD 0 = (a :: t).getLast (List.cons_ne_nil a t) := by
  rw [List.getLastD_eq_getLast?, List.getLast?_eq_getLast _ (List.cons_ne_nil a t)]
  rfl

theorem last_of_zero (a : Int) (t : List Int) (hz : ∀ v ∈ delta (a :: t), v = 0) :
    (a :: t).getLast (List.cons_ne_nil a t) = a := by
  induction t generalizing a with
  | nil => rfl
  | cons b t ih =>
    have h1 : b - a = 0 := hz _ (by simp [delta])
    have h2 := ih b (fun v hv => hz v (by simp only [delta, List.mem_cons]; exact Or.inr hv))
    rw [List.getLast_cons (List.cons_ne_nil b t), h2]
    omega

theorem sum_range_succ_shift (f : Nat → Int) (n : Nat) :
    ((List.range (n + 1)).map f).sum = f 0 + ((List.range n).map (fun k => f (k + 1))).sum := by
  rw [List.range_succ_eq_map, List.map_cons, List.sum_cons, List.map_map]
  rfl

theorem forward_sum_cons (a : Int) (t : List Int) :
    forward_sum (a :: t) =
      (a :: t).getLast (List.cons_ne_nil a t) + forward_sum (delta (a :: t)) := by
  unfold forward_sum forward_upto
  rw [List.length_cons, sum_range_succ_shift, delta_length, List.length_cons,
    Nat.add_sub_cancel, ← getLastD_last]
  rfl

theorem backward_sum_cons (a : Int) (t : List Int) :
    backward_sum (a :: t) = a - backward_sum (delta (a :: t)) := by
  unfold backward_sum backward_upto
  rw [List.length_cons, sum_range_succ_shift, delta_length, List.length_cons,
    Nat.add_sub_cancel]
  have h : ∀ (l : List Nat) (g : Nat → Int),
      (l.map (fun k => (-1) ^ (k + 1) * g k)).sum = -(l.map (fun k => (-1) ^ k * g k)).sum := by
    intro l g
    induction l with
    | nil => rfl
    | cons x l ih =>
      rw [List.map_cons, List.sum_cons, ih, List.map_cons, List.sum_cons, pow_succ]
      ring
  have h2 := h (List.range t.length) (fun k => (delta^[k] (delta (a :: t))).headD 0)
  simp only [Function.iterate_succ_apply, Function.iterate_zero, id_eq, pow_zero, one_mul,
    List.headD_cons]
  rw [h2]
  ring

theorem forward_sum_zero (h : List Int) (hz : ∀ v ∈ h, v = 0) : forward_sum h = 0 := by
  unfold forward_sum forward_upto
  apply List.sum_eq_zero
  intro x hx
  obtain ⟨k, _, rfl⟩ := List.mem_map.1 hx
  exact getLastD_zero _ (iterate_zero k h hz)

theorem backward_sum_zero (h : List Int) (hz : ∀ v ∈ h, v = 0) : backward_sum h = 0 := by
  unfold backward_sum backward_upto
  apply List.sum_eq_zero
  intro x hx
  obtain ⟨k, _, rfl⟩ := List.mem_map.1 hx
  rw [headD_zero _ (iterate_zero k h hz), mul_zero]

theorem fits_delta (h : List Int) (hf : fits h) : fits (delta h) := by
  intro k hk v hv
  rw [delta_length] at hk
  exact hf (k + 1) (by omega) v (by rw [Function.iterate_succ_apply]; exact hv)

theorem fits_first (h : List Int) (hf : fits h) : ∀ v ∈ delta h, in_int v := by
  intro v hv
  have hl := delta_length h
  have hpos : 0 < (delta h).length := List.length_pos_of_mem hv
  exact hf 1 (by omega) v hv

theorem predict_go_sums (fuel : Nat) (h : List Int) (hne : h ≠ []) (hl : h.length ≤ fuel)
    (hf : fits h) :
    predict_go fuel h true = some (to_size (forward_sum h)) ∧
      predict_go fuel h false = some (to_size (backward_sum h)) := by
  induction fuel generalizing h with
  | zero =>
    cases h with
    | nil => exact absurd rfl hne
    | cons a t => simp at hl
  | succ fuel ih =>
    cases h with
    | nil => exact absurd rfl hne
    | cons a t =>
      have hc := checked_diffs_eq (a :: t) (fits_first _ hf)
      have hlen := delta_length (a :: t)
      by_cases hz : (delta (a :: t)).all (fun num => decide (num = 0)) = true
      · have hz' : ∀ v ∈ delta (a :: t), v = 0 := by
          intro v hv
          have := List.all_eq_true.1 hz v hv
          simpa using this
        have hlast := last_of_zero a t hz'
        simp only [predict_go, hc, hz, if_true, forward_sum_cons, backward_sum_cons,
          forward_sum_zero _ hz', backward_sum_zero _ hz', hlast, Bool.false_eq_true, if_false]
        simp
      · have hne' : delta (a :: t) ≠ [] := by
          intro he
          rw [he] at hz
          exact hz rfl
        have hl' : (delta (a :: t)).length ≤ fuel := by
          rw [hlen]; simp only [List.length_cons] at hl ⊢; omega
        obtain ⟨h1, h2⟩ := ih (delta (a :: t)) hne' hl' (fits_delta _ hf)
        simp only [predict_go, hc, hz, if_false, h1, h2, if_true, Bool.false_eq_true,
          forward_sum_cons, backward_sum_cons, to_size_add, to_size_sub]
        simp

theorem iterate_length (k : Nat) (h : List Int) : (delta^[k] h).length = h.length - k := by
  induction k generalizing h with
  | zero => rfl
  | succ k ih => rw [Function.iterate_succ_apply, ih, delta_length]; omega

theorem iterate_zero_from (m k : Nat) (h : List Int) (hz : ∀ v ∈ delta^[m] h, v = 0)
    (hk : m ≤ k) : ∀ v ∈ delta^[k] h, v = 0 := by
  obtain ⟨j, rfl⟩ := Nat.exists_eq_add_of_le hk
  rw [Nat.add_comm, Function.iterate_add_apply]
  exact iterate_zero j _ hz

theorem sum_range_tail (f : Nat → Int) (a b : Nat) (hf : ∀ k, a ≤ k → f k = 0) (hab : a ≤ b) :
    ((List.range b).map f).sum = ((List.range a).map f).sum := by
  induction b with
  | zero =>
    have : a = 0 := by omega
    rw [this]
  | succ b ih =>
    by_cases hb : a = b + 1
    · rw [hb]
    · rw [List.range_succ, List.map_append, List.sum_append, ih (by omega)]
      simp only [List.map_cons, List.map_nil, List.sum_cons, List.sum_nil, add_zero]
      rw [hf b (by omega), add_zero]

theorem row_zero (m k : Nat) (h : List Int) (hz : ∀ v ∈ delta^[m] h, v = 0)
    (hk : min m h.length ≤ k) : ∀ v ∈ delta^[k] h, v = 0 := by
  by_cases hm : m ≤ k
  · exact iterate_zero_from m k h hz hm
  · intro v hv
    have hl := iterate_length k h
    have hpos : 0 < (delta^[k] h).length := List.length_pos_of_mem hv
    omega

theorem forward_upto_stop (m : Nat) (h : List Int) (hz : ∀ v ∈ delta^[m] h, v = 0) :
    forward_upto m h = forward_sum h := by
  unfold forward_sum forward_upto
  have hf : ∀ k, min m h.length ≤ k → (delta^[k] h).getLastD 0 = 0 :=
    fun k hk => getLastD_zero _ (row_zero m k h hz hk)
  rw [sum_range_tail _ _ m hf (Nat.min_le_left _ _),
    sum_range_tail _ _ h.length hf (Nat.min_le_right _ _)]

theorem backward_upto_stop (m : Nat) (h : List Int) (hz : ∀ v ∈ delta^[m] h, v = 0) :
    backward_upto m h = backward_sum h := by
  unfold backward_sum backward_upto
  have hf : ∀ k, min m h.length ≤ k → (-1) ^ k * (delta^[k] h).headD 0 = 0 :=
    fun k hk => by rw [headD_zero _ (row_zero m k h hz hk), mul_zero]
  rw [sum_range_tail _ _ m hf (Nat.min_le_left _ _),
    sum_range_tail _ _ h.length hf (Nat.min_le_right _ _)]

set_option maxRecDepth 100000 in
theorem test_sums :
    sum_predictions true 0 (parse_input test_text) = some 114 ∧
      sum_predictions false 0 (parse_input test_text) = some 2 := by
  decide

/-- C27: for a non-empty history whose numbers and differences fit into an `int`,
`predict_value` forward is the sum of the last elements of the rows of differences
and backward the alternating sum of their first elements, both modulo `2 ^ 64`; the
sums up to any all-zero row are the same sums; on the three test histories the
forward predictions sum to 114 and the backward predictions to 2. -/
theorem predict_value_sums (h : List Int) (hne : h ≠ []) (hf : fits h) :
    predict_value h true = some (to_size (forward_sum h)) ∧
      predict_value h false = some (to_size (backward_sum h)) ∧
      (∀ m, (∀ v ∈ delta^[m] h, v = 0) →
        forward_upto m h = forward_sum h ∧ backward_upto m h = backward_sum h) ∧
      sum_predictions true 0 (parse_input test_text) = some 114 ∧
      sum_predictions false 0 (parse_input test_text) = some 2 :=
  ⟨(predict_go_sums h.length h hne (Nat.le_refl _) hf).1,
    (predict_go_sums h.length h hne (Nat.le_refl _) hf).2,
    fun m hz => ⟨forward_upto_stop m h hz, backward_upto_stop m h hz⟩,
    test_sums.1, test_sums.2⟩

theorem predict_value_sums_witness :
    [10, 13, 16, 21, 30, 45] ≠ [] ∧ fits [10, 13, 16, 21, 30, 45] ∧
    predict_value [10, 13, 16, 21, 30, 45] true =
      some (to_size (forward_sum [10, 13, 16, 21, 30, 45])) ∧
    predict_value [10, 13, 16, 21, 30, 45] false =
      some (to_size (backward_sum [10, 13, 16, 21, 30, 45])) :=
  ⟨by decide, by decide,
    (predict_value_sums [10, 13, 16, 21, 30, 45] (by decide) (by decide)).1,
    (predict_value_sums [10, 13, 16, 21, 30, 45] (by decide) (by decide)).2.1⟩

end Day9

namespace Day8

theorem instruction_at (net : Network) (hne : net.m_instructions ≠ []) (i : Nat) :
    net.m_instructions[i % net.m_instructions.length]? =
      some (net.m_instructions.getD (i % net.m_instructions.length) Direction.LEFT) := by
  have hpos : 0 < net.m_instructions.length := List.length_pos.2 hne
  have hlt : i % net.m_instructions.length < net.m_instructions.length := Nat.mod_lt _ hpos
  rw [List.getD_eq_getElem?_getD, List.getElem?_eq_getElem hlt]
  rfl

theorem loop_none (net : Network) (fuel k : Nat) (h : net.walk k = none) :
    net.loop (fuel + 1) k (net.walk k) = some none := by
  rw [h]; rfl

theorem loop_ends (net : Network) (fuel k : Nat) (targets : String × String)
    (h : net.walk k = some ("ZZZ", targets)) :
    net.loop (fuel + 1) k (net.walk k) = some (some k) := by
  rw [h]; simp [Network.loop]

theorem loop_step (net : Network) (hne : net.m_instructions ≠ []) (fuel k : Nat) (id : String)
    (targets : String × String) (h : net.walk k = some (id, targets)) (hid : id ≠ "ZZZ") :
    net.loop (fuel + 1) k (net.walk k) = net.loop fuel ((k + 1) % 2 ^ 64) (net.walk (k + 1)) := by
  rw [h]
  simp only [Network.loop, hid, if_false, instruction_at net hne k, Network.walk, h]

theorem ends_iff (net : Network) (k : Nat) (id : String) (targets : String × String)
    (h : net.walk k = some (id, targets)) : net.ends k ↔ id = "ZZZ" := by
  unfold Network.ends
  rw [h]
  simp

theorem not_ends_of_none (net : Network) (k : Nat) (h : net.walk k = none) : ¬ net.ends k := by
  unfold Network.ends
  rw [h]
  simp

theorem walk_none_add (net : Network) (k j : Nat) (h : net.walk k = none) :
    net.walk (k + j) = none := by
  induction j with
  | zero => exact h
  | succ j ih => rw [← Nat.add_assoc]; simp only [Network.walk, ih]

theorem walk_none_le (net : Network) (k n : Nat) (hkn : k ≤ n) (h : net.walk k = none) :
    net.walk n = none := by
  obtain ⟨j, rfl⟩ := Nat.exists_eq_add_of_le hkn
  exact walk_none_add net k j h

theorem loop_sound (net : Network) (hne : net.m_instructions ≠ []) (fuel : Nat) :
    ∀ k n, k + fuel ≤ 2 ^ 64 → net.loop fuel k (net.walk k) = some (some n) →
      k ≤ n ∧ net.ends n ∧ ∀ m, k ≤ m → m < n → ¬ net.ends m := by
  induction fuel with
  | zero => intro k n _ h; simp [Network.loop] at h
  | succ fuel ih =>
    intro k n hk h
    cases hw : net.walk k with
    | none => rw [loop_none net fuel k hw] at h; simp at h
    | some e =>
      obtain ⟨id, targets⟩ := e
      by_cases hid : id = "ZZZ"
      · subst hid
        rw [loop_ends net fuel k targets hw] at h
        have hn : k = n := by simpa using h
        subst hn
        exact ⟨Nat.le_refl _, (ends_iff net k _ targets hw).2 rfl, fun m h1 h2 => by omega⟩
      · rw [loop_step net hne fuel k id targets hw hid] at h
        by_cases hlt : k + 1 < 2 ^ 64
        · rw [Nat.mod_eq_of_lt hlt] at h
          obtain ⟨h1, h2, h3⟩ := ih (k + 1) n (by omega) h
          refine ⟨by omega, h2, fun m hm1 hm2 => ?_⟩
          by_cases hmk : m = k
          · subst hmk
            rw [ends_iff net m id targets hw]
            exact hid
          · exact h3 m (by omega) hm2
        · have hf : fuel = 0 := by omega
          subst hf
          simp [Network.loop] at h

theorem loop_reaches (net : Network) (hne : net.m_instructions ≠ []) (fuel : Nat) :
    ∀ k n, k ≤ n → n < 2 ^ 64 → n - k < fuel → net.ends n →
      (∀ m, k ≤ m → m < n → ¬ net.ends m) →
      net.loop fuel k (net.walk k) = some (some n) := by
  induction fuel with
  | zero => intro k n _ _ h; omega
  | succ fuel ih =>
    intro k n hkn hn hf he hm
    cases hw : net.walk k with
    | none => exact absurd he (not_ends_of_none net n (walk_none_le net k n hkn hw))
    | some e =>
      obtain ⟨id, targets⟩ := e
      rw [← hw]
      by_cases hid : id = "ZZZ"
      · subst hid
        have hkn' : k = n := by
          by_contra hne'
          exact hm k (Nat.le_refl _) (by omega) ((ends_iff net k _ targets hw).2 rfl)
        subst hkn'
        exact loop_ends net fuel k targets hw
      · have hlt : k < n := by
          rcases Nat.lt_or_ge k n with h | h
          · exact h
          · have : k = n := by omega
            subst this
            exact absurd ((ends_iff net k id targets hw).1 he) hid
        rw [loop_step net hne fuel k id targets hw hid, Nat.mod_eq_of_lt (by omega)]
        exact ih (k + 1) n hlt hn (by omega) he (fun m h1 h2 => hm m (by omega) h2)

theorem loop_fails (net : Network) (hne : net.m_instructions ≠ []) (fuel : Nat) :
    ∀ k n, k ≤ n → n < 2 ^ 64 → n - k < fuel → net.walk n = none →
      (∀ m, k ≤ m → m < n → ¬ net.ends m) →
      net.loop fuel k (net.walk k) = some none := by
  induction fuel with
  | zero => intro k n _ _ h; omega
  | succ fuel ih =>
    intro k n hkn hn hf he hm
    cases hw : net.walk k with
    | none => rw [← hw]; exact loop_none net fuel k hw
    | some e =>
      obtain ⟨id, targets⟩ := e
      rw [← hw]
      have hlt : k < n := by
        rcases Nat.lt_or_ge k n with h | h
        · exact h
        · have : k = n := by omega
          subst this
          rw [hw] at he
          simp at he
      have hid : id ≠ "ZZZ" := fun h =>
        hm k (Nat.le_refl _) hlt ((ends_iff net k id targets hw).2 h)
      rw [loop_step net hne fuel k id targets hw hid, Nat.mod_eq_of_lt (by omega)]
      exact ih (k + 1) n hlt hn (by omega) he (fun m h1 h2 => hm m (by omega) h2)

theorem parse_test_network : parse_input test_text = some test_network := by
  decide

theorem test_walk :
    test_network.m_instructions ≠ [] ∧ test_network.ends 6 ∧
      ∀ m, m < 6 → ¬ test_network.ends m := by
  decide

/-- C28: for a network with a non-empty instruction list, a value `n` returned by
`start_to_end` within `2 ^ 64` iterations is the smallest number of steps after which
the walk from `AAA` is on `ZZZ`; if that smallest number exists below `2 ^ 64` the
member returns it, and if the walk reaches an identifier that is not a node (or
`AAA` is none) before any `ZZZ` the member returns no value; the test text parses to
the test network, for which the member returns 6. -/
theorem start_to_end_spec (net : Network) (hne : net.m_instructions ≠ []) :
    (∀ fuel n, fuel ≤ 2 ^ 64 → net.start_to_end fuel = some (some n) →
      net.ends n ∧ ∀ m, m < n → ¬ net.ends m) ∧
    (∀ n, n < 2 ^ 64 → net.ends n → (∀ m, m < n → ¬ net.ends m) →
      ∀ fuel, n < fuel → net.start_to_end fuel = some (some n)) ∧
    (∀ n, n < 2 ^ 64 → net.walk n = none → (∀ m, m < n → ¬ net.ends m) →
      ∀ fuel, n < fuel → net.start_to_end fuel = some none) ∧
    parse_input test_text = some test_network ∧
    ∀ fuel, 6 < fuel → test_network.start_to_end fuel = some (some 6) := by
  refine ⟨fun fuel n hf h => ?_, fun n hn he hm fuel hf => ?_, fun n hn he hm fuel hf => ?_,
    parse_test_network, fun fuel hf => ?_⟩
  · obtain ⟨_, h2, h3⟩ := loop_sound net hne fuel 0 n (by omega) h
    exact ⟨h2, fun m hm => h3 m (Nat.zero_le _) hm⟩
  · exact loop_reaches net hne fuel 0 n (Nat.zero_le _) hn (by omega) he
      (fun m _ h2 => hm m h2)
  · exact loop_fails net hne fuel 0 n (Nat.zero_le _) hn (by omega) he
      (fun m _ h2 => hm m h2)
  · exact loop_reaches test_network test_walk.1 fuel 0 6 (Nat.zero_le _) (by norm_num)
      (by omega) test_walk.2.1 (fun m _ h2 => test_walk.2.2 m h2)

theorem start_to_end_spec_witness :
    test_network.m_instructions ≠ [] ∧ test_network.start_to_end 7 = some (some 6) ∧
      test_network.ends 6 ∧ ∀ m, m < 6 → ¬ test_network.ends m :=
  ⟨by decide, by decide,
    (start_to_end_spec test_network (by decide)).1 7 6 (by norm_num) (by decide)⟩

end Day8

namespace Day13

theorem mirrored_iff (lines : List (List Char)) (c k : Nat) :
    mirrored lines c k = true ↔
      ∀ d, d < c → k + d < lines.length → lines[c - 1 - d]? = lines[k + d]? := by
  induction c generalizing k with
  | zero => simp [mirrored]
  | succ c ih =>
    unfold mirrored
    by_cases hk : k < lines.length
    · by_cases he : lines[c]? = lines[k]?
      · simp only [hk, if_true, ne_eq, he, not_true_eq_false, if_false, ih]
        constructor
        · intro h d hd hkd
          cases d with
          | zero => simpa using he
          | succ d =>
            have := h d (by omega) (by omega)
            have e1 : c + 1 - 1 - (d + 1) = c - 1 - d := by omega
            have e2 : k + (d + 1) = k + 1 + d := by omega
            rw [e1, e2]; exact this
        · intro h d hd hkd
          have := h (d + 1) (by omega) (by omega)
          have e1 : c + 1 - 1 - (d + 1) = c - 1 - d := by omega
          have e2 : k + (d + 1) = k + 1 + d := by omega
          rw [e1, e2] at this; exact this
      · simp only [hk, if_true, ne_eq, he, not_false_eq_true]
        constructor
        · intro h; exact absurd h (by simp)
        · intro h
          exact absurd (by simpa using h 0 (by omega) (by omega)) he
    · simp only [hk, if_false, true_iff]
      intro d _ hkd
      omega

theorem mirrored_is_mirror (lines : List (List Char)) (i : Nat) :
    mirrored lines i i = true ↔ is_mirror lines i :=
  mirrored_iff lines i i

theorem reflection_from_spec (lines : List (List Char)) (fuel : Nat) :
    ∀ i, lines.length - i < fuel →
      ∃ r, reflection_from lines fuel i = some r ∧
        ((i ≤ r ∧ r < lines.length ∧ is_mirror lines r ∧
            ∀ i', i ≤ i' → i' < r → ¬ is_mirror lines i') ∨
          (r = 0 ∧ ∀ i', i ≤ i' → i' < lines.length → ¬ is_mirror lines i')) := by
  induction fuel with
  | zero => intro i h; omega
  | succ fuel ih =>
    intro i hf
    unfold reflection_from
    by_cases hi : i < lines.length
    · by_cases hm : mirrored lines i i = true
      · refine ⟨i, by simp [hi, hm], Or.inl ⟨Nat.le_refl _, hi,
          (mirrored_is_mirror lines i).1 hm, fun i' h1 h2 => by omega⟩⟩
      · have hn : ¬ is_mirror lines i := fun h => hm ((mirrored_is_mirror lines i).2 h)
        obtain ⟨r, hr, hspec⟩ := ih (i + 1) (by omega)
        refine ⟨r, by simp [hi, hm, hr], ?_⟩
        rcases hspec with ⟨h1, h2, h3, h4⟩ | ⟨h1, h2⟩
        · refine Or.inl ⟨by omega, h2, h3, fun i' h5 h6 => ?_⟩
          by_cases hii : i' = i
          · rw [hii]; exact hn
          · exact h4 i' (by omega) h6
        · refine Or.inr ⟨h1, fun i' h5 h6 => ?_⟩
          by_cases hii : i' = i
          · rw [hii]; exact hn
          · exact h2 i' (by omega) h6
    · exact ⟨0, by simp [hi], Or.inr ⟨rfl, fun i' h1 h2 => by omega⟩⟩

set_option maxRecDepth 100000 in
theorem test_sum : sum_reflections 0 (parse_input test_text) = some 405 := by
  decide

/-- C29: for every pattern `reflection` returns a value, which is the smallest `i`
with `1 ≤ i < n` for which line `i - 1 - d` equals line `i + d` for every `d` with
both indices among the lines, or 0 when there is no such `i`; on the two test
patterns 100 times `reflection` of the pattern plus `reflection` of its transpose
sum to 405. -/
theorem reflection_spec (p : Pattern) :
    (∃ r, p.reflection = some r ∧
      ((1 ≤ r ∧ r < p.m_lines.length ∧ is_mirror p.m_lines r ∧
          ∀ i, 1 ≤ i → i < r → ¬ is_mirror p.m_lines i) ∨
        (r = 0 ∧ ∀ i, 1 ≤ i → i < p.m_lines.length → ¬ is_mirror p.m_lines i))) ∧
    sum_reflections 0 (parse_input test_text) = some 405 :=
  ⟨reflection_from_spec p.m_lines (p.m_lines.length + 1) 1 (by omega), test_sum⟩

end Day13

namespace Day7

theorem rank_sum_from_eq (l : List Hand) : ∀ (i s : Nat), s < 2 ^ 64 →
    rank_sum_from i s l = (s + position_sum_from i l) % 2 ^ 64 := by
  induction l with
  | nil =>
    intro i s hs
    simp only [rank_sum_from, position_sum_from, Nat.add_zero]
    exact (Nat.mod_eq_of_lt hs).symm
  | cons hand rest ih =>
    intro i s hs
    simp only [rank_sum_from, position_sum_from]
    rw [ih (i + 1) _ (Nat.mod_lt _ (by norm_num))]
    generalize (i + 1) * hand.m_bid = x
    generalize position_sum_from (i + 1) rest = y
    omega

theorem cons_lt_cons (x y : Nat) (a b : List Nat) :
    (x :: a) < (y :: b) ↔ x < y ∨ (x = y ∧ a < b) := by
  constructor
  · intro h
    cases h with
    | cons h => exact Or.inr ⟨rfl, h⟩
    | rel h => exact Or.inl h
  · rintro (h | ⟨h1, h2⟩)
    · exact List.Lex.rel h
    · subst h1
      exact List.Lex.cons h2

theorem cards_less_iff (a : List Card) : ∀ b : List Card, a.length = b.length →
    (cards_less a b = true ↔ a < b) := by
  induction a with
  | nil =>
    intro b hb
    cases b with
    | nil => simp [cards_less]
    | cons y b => simp at hb
  | cons x a ih =>
    intro b hb
    cases b with
    | nil => simp at hb
    | cons y b =>
      have hl : a.length = b.length := by simpa using hb
      rw [cons_lt_cons]
      unfold cards_less
      by_cases hxy : x = y
      · subst hxy
        simp only [ne_eq, not_true_eq_false, if_false, ih b hl, Nat.lt_irrefl, false_or, true_and]
      · simp only [ne_eq, hxy, not_false_eq_true, if_true, decide_eq_true_eq, false_and, or_false]

theorem value_injective (a b : HandKind) (h : a.value = b.value) : a = b := by
  cases a <;> cases b <;> first | rfl | (simp [HandKind.value] at h)

theorem less_iff (a b : Hand) (hl : a.m_cards.length = b.m_cards.length) :
    less a b = true ↔ weaker a b := by
  unfold less weaker
  by_cases hk : a.m_kind = b.m_kind
  · simp only [ne_eq, hk, not_true_eq_false, if_false, cards_less_iff _ _ hl, Nat.lt_irrefl,
      false_or, true_and]
  · simp only [ne_eq, hk, not_false_eq_true, if_true, decide_eq_true_eq, false_and, or_false]

theorem weaker_asymm (a b : Hand) (h : weaker a b) : ¬ weaker b a := by
  rintro (h' | ⟨hk', hc'⟩)
  · rcases h with h | ⟨hk, _⟩
    · omega
    · rw [hk] at h'; omega
  · rcases h with h | ⟨_, hc⟩
    · rw [hk'] at h; omega
    · exact lt_asymm hc hc'

theorem weaker_trans (a b c : Hand) (h1 : weaker a b) (h2 : weaker b c) : weaker a c := by
  rcases h1 with h1 | ⟨hk1, hc1⟩
  · rcases h2 with h2 | ⟨hk2, _⟩
    · exact Or.inl (by omega)
    · exact Or.inl (by rw [← hk2]; exact h1)
  · rcases h2 with h2 | ⟨hk2, hc2⟩
    · exact Or.inl (by rw [hk1]; exact h2)
    · exact Or.inr ⟨hk1.trans hk2, lt_trans hc1 hc2⟩

theorem weaker_neither (a b : Hand) (h1 : ¬ weaker a b) (h2 : ¬ weaker b a) :
    a.m_kind = b.m_kind ∧ a.m_cards = b.m_cards := by
  have hv : a.m_kind.value = b.m_kind.value := by
    by_contra hne
    rcases Nat.lt_or_gt_of_ne hne with h | h
    · exact h1 (Or.inl h)
    · exact h2 (Or.inl h)
  have hk := value_injective _ _ hv
  refine ⟨hk, ?_⟩
  rcases lt_trichotomy a.m_cards b.m_cards with h | h | h
  · exact absurd (Or.inr ⟨hk, h⟩) h1
  · exact h
  · exact absurd (Or.inr ⟨hk.symm, h⟩) h2

theorem insert_hand_perm (hand : Hand) (l : List Hand) :
    (insert_hand hand l).Perm (hand :: l) := by
  induction l with
  | nil => exact List.Perm.refl _
  | cons x rest ih =>
    unfold insert_hand
    by_cases h : less hand x = true
    · simp only [h, if_true]; exact List.Perm.refl _
    · simp only [h, Bool.false_eq_true, if_false]
      exact (List.Perm.cons x ih).trans (List.Perm.swap hand x rest)

theorem sort_perm (l : List Hand) : (sort l).Perm l := by
  induction l with
  | nil => exact List.Perm.refl _
  | cons hand rest ih =>
    exact (insert_hand_perm hand (sort rest)).trans (List.Perm.cons hand ih)

theorem insert_hand_sorted (hand : Hand) (l : List Hand)
    (hs : ∀ x ∈ l, hand.m_cards.length = x.m_cards.length) (hw : weakest_first l) :
    weakest_first (insert_hand hand l) := by
  induction l with
  | nil => exact List.pairwise_singleton _ _
  | cons x rest ih =>
    unfold insert_hand
    have hx := List.pairwise_cons.1 hw
    by_cases h : less hand x = true
    · simp only [h, if_true]
      have hwx : weaker hand x := (less_iff hand x (hs x (List.mem_cons_self _ _))).1 h
      refine List.pairwise_cons.2 ⟨fun y hy => ?_, hw⟩
      rcases List.mem_cons.1 hy with hy | hy
      · rw [hy]; exact weaker_asymm hand x hwx
      · exact fun hyh => hx.1 y hy (weaker_trans y hand x hyh hwx)
    · simp only [h, Bool.false_eq_true, if_false]
      have hwx : ¬ weaker hand x :=
        fun hw' => h ((less_iff hand x (hs x (List.mem_cons_self _ _))).2 hw')
      refine List.pairwise_cons.2 ⟨fun y hy => ?_,
        ih (fun z hz => hs z (List.mem_cons_of_mem _ hz)) hx.2⟩
      rcases List.mem_cons.1 ((insert_hand_perm hand rest).mem_iff.1 hy) with hy | hy
      · rw [hy]; exact hwx
      · exact hx.1 y hy

theorem sort_sorted (l : List Hand) (hs : same_size l) : weakest_first (sort l) := by
  induction l with
  | nil => exact List.Pairwise.nil
  | cons hand rest ih =>
    refine insert_hand_sorted hand (sort rest) (fun x hx => ?_)
      (ih (fun a ha b hb => hs a (List.mem_cons_of_mem _ ha) b (List.mem_cons_of_mem _ hb)))
    exact hs hand (List.mem_cons_self _ _) x
      (List.mem_cons_of_mem _ ((sort_perm rest).mem_iff.1 hx))

theorem sorted_unique (hands s : List Hand) (hd : distinct_cards hands) (hp : s.Perm hands)
    (hw : weakest_first s) (hw' : weakest_first (sort hands)) : s = sort hands := by
  refine List.Perm.eq_of_sorted (fun a b ha hb h1 h2 => ?_) hw hw'
    (hp.trans (sort_perm hands).symm)
  have ha' : a ∈ hands := hp.mem_iff.1 ha
  have hb' : b ∈ hands := (sort_perm hands).mem_iff.1 hb
  exact List.inj_on_of_nodup_map hd ha' hb' (weaker_neither a b h2 h1).2

theorem same_size_perm (hands hands' : List Hand) (hp : hands'.Perm hands)
    (hs : same_size hands) : same_size hands' :=
  fun a ha b hb => hs a (hp.mem_iff.1 ha) b (hp.mem_iff.1 hb)

theorem card_count_cons (c : Card) (rest : List Card) (v : Nat) :
    card_count (c :: rest) v =
      card_count rest v + (if c = v ∧ v ≠ Card.Joker then 1 else 0) := by
  unfold card_count
  by_cases hv : v = Card.Joker
  · simp [hv]
  · by_cases hc : c = v
    · subst hc; simp [hv]
    · simp [hv, hc, List.count_cons]

theorem count_cards_some (cards : List Card) : ∀ (joker_count : Nat) (cache : List Nat)
    (j : Nat) (cache' : List Nat), count_cards cards joker_count cache = some (j, cache') →
    j = joker_count + cards.count Card.Joker ∧ cache'.length = cache.length ∧
      ∀ v, cache'.getD v 0 = cache.getD v 0 + (if v < cache.length then card_count cards v else 0) := by
  induction cards with
  | nil =>
    intro joker_count cache j cache' h
    simp only [count_cards, Option.some.injEq, Prod.mk.injEq] at h
    obtain ⟨rfl, rfl⟩ := h
    refine ⟨by simp, rfl, fun v => ?_⟩
    simp [card_count]
  | cons c rest ih =>
    intro joker_count cache j cache' h
    unfold count_cards at h
    by_cases hc : c = Card.Joker
    · simp only [hc, if_true] at h
      obtain ⟨h1, h2, h3⟩ := ih _ _ _ _ h
      refine ⟨by rw [h1, hc, List.count_cons_self]; omega, h2, fun v => ?_⟩
      rw [h3 v, card_count_cons, hc]
      by_cases hv : v = Card.Joker
      · simp [hv]
      · have : ¬ (Card.Joker = v ∧ v ≠ Card.Joker) := fun hh => hv hh.1.symm
        simp [this]
    · by_cases hlt : c < cache.length
      · simp only [hc, if_false, hlt, if_true] at h
        obtain ⟨h1, h2, h3⟩ := ih _ _ _ _ h
        rw [List.length_set] at h2
        refine ⟨by rw [h1, List.count_cons_of_ne (fun hh => hc hh.symm)], h2, fun v => ?_⟩
        rw [h3 v, card_count_cons, List.length_set]
        by_cases hv : c = v
        · subst hv
          simp [hc, hlt, List.getD_eq_getElem?_getD, List.getElem?_set]
          omega
        · have hne : ¬ (c = v ∧ v ≠ Card.Joker) := fun hh => hv hh.1
          simp [hne, List.getD_eq_getElem?_getD, List.getElem?_set, hv]
      · simp [hc, hlt] at h

theorem count_cards_total (cards : List Card) : ∀ (joker_count : Nat) (cache : List Nat),
    (∀ c ∈ cards, c < cache.length) → ∃ r, count_cards cards joker_count cache = some r := by
  induction cards with
  | nil => intro joker_count cache _; exact ⟨_, rfl⟩
  | cons c rest ih =>
    intro joker_count cache hb
    unfold count_cards
    have hrest : ∀ x ∈ rest, x < cache.length := fun x hx => hb x (List.mem_cons_of_mem _ hx)
    by_cases hc : c = Card.Joker
    · simp only [hc, if_true]
      exact ih _ _ hrest
    · have hlt : c < cache.length := hb c (List.mem_cons_self _ _)
      simp only [hc, if_false, hlt, if_true]
      exact ih _ _ (by rw [List.length_set]; exact hrest)

theorem make_kind (cards : List Card) (bid : Nat) (h : Hand) (hm : Hand.make cards bid = some h) :
    h.m_cards = cards ∧ h.m_bid = bid ∧
      h.m_kind = kind_of_cache (cards.count Card.Joker) (card_counts cards) := by
  unfold Hand.make at hm
  cases hc : count_cards cards 0 (List.replicate 15 0) with
  | none => rw [hc] at hm; simp at hm
  | some r =>
    obtain ⟨j, cache⟩ := r
    rw [hc] at hm
    simp only [Option.some.injEq] at hm
    obtain ⟨h1, h2, h3⟩ := count_cards_some cards 0 _ j cache hc
    have hcache : cache = card_counts cards := by
      apply List.ext_getElem
      · rw [h2]; simp [card_counts]
      · intro v hv1 hv2
        have := h3 v
        rw [h2, List.length_replicate] at hv1
        simp only [List.length_replicate, hv1, if_true] at this
        rw [List.getD_eq_getElem?_getD, List.getElem?_eq_getElem (by rw [h2]; simpa using hv1),
          List.getD_eq_getElem?_getD, List.getElem?_replicate] at this
        simp only [hv1, if_true, Option.getD_some, Nat.zero_add] at this
        simp [card_counts, this]
    subst hm
    simp only [true_and]
    rw [h1, hcache, Nat.zero_add]

theorem make_total (cards : List Card) (bid : Nat) (hb : ∀ c ∈ cards, c < 15) :
    ∃ h, Hand.make cards bid = some h := by
  obtain ⟨r, hr⟩ := count_cards_total cards 0 (List.replicate 15 0)
    (by simpa using hb)
  unfold Hand.make
  rw [hr]
  exact ⟨_, rfl⟩

theorem kind_of_counts (j : Nat) (cache cache' : List Nat) (hp : cache.Perm cache') :
    kind_of_cache j cache = kind_of_cache j cache' := by
  unfold kind_of_cache
  have h : cache.insertionSort (fun a b => a ≥ b) = cache'.insertionSort (fun a b => a ≥ b) :=
    List.eq_of_perm_of_sorted
      (((List.perm_insertionSort _ cache).trans hp).trans (List.perm_insertionSort _ cache').symm)
      (List.sorted_insertionSort _ cache) (List.sorted_insertionSort _ cache')
  rw [h]

theorem kind_values :
    HandKind.HighCard.value < HandKind.OnePair.value ∧
    HandKind.OnePair.value < HandKind.TwoPair.value ∧
    HandKind.TwoPair.value < HandKind.ThreeOfAKind.value ∧
    HandKind.ThreeOfAKind.value < HandKind.FullHouse.value ∧
    HandKind.FullHouse.value < HandKind.FourOfAKind.value ∧
    HandKind.FourOfAKind.value < HandKind.FiveOfAKind.value := by
  decide

set_option maxRecDepth 100000 in
theorem parse_test_hands :
    parse_input test_text false = some test_hands ∧ calc_rank_sum test_hands = 6440 := by
  decide

set_option maxRecDepth 100000 in
theorem parse_heavy_hands :
    parse_input heavy_text false = some heavy_hands ∧ same_size heavy_hands ∧
      distinct_cards heavy_hands := by
  decide

theorem test_hands_shape : same_size test_hands ∧ distinct_cards test_hands := by
  decide

/-- C30, as written: the sum of position times bid is not what `calc_rank_sum`
returns for two hands with a bid of `2 ^ 63` each, which gives `2 ^ 63` where the
sum is `3 * 2 ^ 63`. -/
theorem bids_wrap :
    parse_input heavy_text false = some heavy_hands ∧ same_size heavy_hands ∧
      distinct_cards heavy_hands ∧
      calc_rank_sum heavy_hands = 2 ^ 63 ∧ position_sum (sort heavy_hands) = 3 * 2 ^ 63 :=
  ⟨parse_heavy_hands.1, parse_heavy_hands.2.1, parse_heavy_hands.2.2, by decide, by decide⟩

/-- C30, amended: for hands with equally many cards `calc_rank_sum` sorts them into
a permutation in which no hand is weaker than a hand before it, a hand being weaker
by a lower kind or, with equal kinds, by the lower card at the first place from the
left where the cards differ; it returns the sum of position times bid over that
permutation modulo `2 ^ 64`; when no two hands have the same cards every sorted
permutation gives that result, and so does every order in which the hands are given.
The constructor gives a hand of cards below 15 the kind that the counts of its cards
and the number of jokers determine, in the order of the kinds from `HighCard` to
`FiveOfAKind`. For the five test hands without jokers the result is 6440. -/
theorem calc_rank_sum_spec (hands : List Hand) (hs : same_size hands) :
    ((sort hands).Perm hands ∧ weakest_first (sort hands)) ∧
    (∀ a ∈ hands, ∀ b ∈ hands, (less a b = true ↔ weaker a b)) ∧
    calc_rank_sum hands = position_sum (sort hands) % 2 ^ 64 ∧
    (distinct_cards hands →
      (∀ s : List Hand, s.Perm hands → weakest_first s →
        rank_sum_from 0 0 s = calc_rank_sum hands) ∧
      (∀ hands' : List Hand, hands'.Perm hands → calc_rank_sum hands' = calc_rank_sum hands)) ∧
    (∀ cards bid, (∀ c ∈ cards, c < 15) → ∃ h, Hand.make cards bid = some h ∧
      h.m_cards = cards ∧ h.m_bid = bid ∧
      h.m_kind = kind_of_cache (cards.count Card.Joker) (card_counts cards)) ∧
    (∀ (j : Nat) (cache cache' : List Nat), cache.Perm cache' →
      kind_of_cache j cache = kind_of_cache j cache') ∧
    (HandKind.HighCard.value < HandKind.OnePair.value ∧
      HandKind.OnePair.value < HandKind.TwoPair.value ∧
      HandKind.TwoPair.value < HandKind.ThreeOfAKind.value ∧
      HandKind.ThreeOfAKind.value < HandKind.FullHouse.value ∧
      HandKind.FullHouse.value < HandKind.FourOfAKind.value ∧
      HandKind.FourOfAKind.value < HandKind.FiveOfAKind.value) ∧
    parse_input test_text false = some test_hands ∧ calc_rank_sum test_hands = 6440 := by
  refine ⟨⟨sort_perm hands, sort_sorted hands hs⟩, fun a ha b hb => less_iff a b (hs a ha b hb),
    ?_, fun hd => ⟨fun s hp hw => ?_, fun hands' hp => ?_⟩, fun cards bid hb => ?_,
    kind_of_counts, kind_values, parse_test_hands.1, parse_test_hands.2⟩
  · unfold calc_rank_sum position_sum
    rw [rank_sum_from_eq _ 0 0 (by norm_num), Nat.zero_add]
  · rw [sorted_unique hands s hd hp hw (sort_sorted hands hs)]
    rfl
  · unfold calc_rank_sum
    rw [sorted_unique hands (sort hands') hd ((sort_perm hands').trans hp)
      (sort_sorted hands' (same_size_perm hands hands' hp hs)) (sort_sorted hands hs)]
  · obtain ⟨h, hm⟩ := make_total cards bid hb
    exact ⟨h, hm, make_kind cards bid h hm⟩

theorem calc_rank_sum_spec_witness :
    same_size test_hands ∧ distinct_cards test_hands ∧
      calc_rank_sum test_hands = position_sum (sort test_hands) % 2 ^ 64 ∧
      calc_rank_sum test_hands.reverse = calc_rank_sum test_hands :=
  ⟨test_hands_shape.1, test_hands_shape.2,
    (calc_rank_sum_spec test_hands test_hands_shape.1).2.2.1,
    ((calc_rank_sum_spec test_hands test_hands_shape.1).2.2.2.1 test_hands_shape.2).2
      test_hands.reverse (List.reverse_perm _)⟩

end Day7

namespace Day20

theorem mem_insert_or_assign_other {V : Type} (key : String) (v : V) :
    ∀ (m : UMap V) (k : String) (w : V), k ≠ key →
      ((k, w) ∈ UMap.insert_or_assign m key v ↔ (k, w) ∈ m) := by
  intro m
  induction m with
  | nil =>
    intro k w hk
    simp [UMap.insert_or_assign, hk]
  | cons e m ih =>
    intro k w hk
    obtain ⟨a, u⟩ := e
    by_cases h : a = key
    · subst h
      simp [UMap.insert_or_assign, hk]
    · simp [UMap.insert_or_assign, h, ih k w hk]

/-- C32: after `send(p, S)` a `Conjuction` holds `p` for `S`, every other key has the
entry it had or none as before, and the fan-out is the same list, which is also the
one returned. -/
theorem conjuction_memory_local (nx : List String) (m_inputs : UMap Pulse) (p : Pulse)
    (sender : String) :
    ∃ inputs, ((Module.Conjuction nx m_inputs).send p sender).1 = Module.Conjuction nx inputs ∧
      UMap.find inputs sender = some p ∧
      (∀ k, k ≠ sender → UMap.find inputs k = UMap.find m_inputs k) ∧
      (∀ k v, k ≠ sender → ((k, v) ∈ inputs ↔ (k, v) ∈ m_inputs)) ∧
      ((Module.Conjuction nx m_inputs).send p sender).1.m_next = nx ∧
      ((Module.Conjuction nx m_inputs).send p sender).2.2 = some nx := by
  refine ⟨UMap.insert_or_assign m_inputs sender p, ?_, ?_, ?_, ?_, ?_, ?_⟩
  · cases hb : (UMap.insert_or_assign m_inputs sender p).all
        (fun kv => decide (kv.2 = Pulse.High)) <;>
      simp [Module.send, Module.Conjuction_send, hb]
  · rw [find_insert_or_assign]; simp
  · intro k hk
    rw [find_insert_or_assign, if_neg (fun h => hk h.symm)]
  · intro k v hk
    exact mem_insert_or_assign_other sender p m_inputs k v hk
  · cases hb : (UMap.insert_or_assign m_inputs sender p).all
        (fun kv => decide (kv.2 = Pulse.High)) <;>
      simp [Module.send, Module.Conjuction_send, hb, Module.m_next]
  · cases hb : (UMap.insert_or_assign m_inputs sender p).all
        (fun kv => decide (kv.2 = Pulse.High)) <;>
      simp [Module.send, Module.Conjuction_send, hb]

end Day20

namespace Day13

set_option maxRecDepth 100000 in
theorem transpose_two_by_four :
    two_by_four.transpose = some
      { m_lines := [['1', '5'] ++ List.replicate 30 (Char.ofNat 2),
                    ['2', '6'] ++ List.replicate 30 (Char.ofNat 2),
                    ['3', '7'] ++ List.replicate 30 (Char.ofNat 2),
                    ['4', '8'] ++ List.replicate 30 (Char.ofNat 2)] } ∧
    (two_by_four.transpose.bind Pattern.transpose).map (fun t => t.m_lines.length) = some 32 ∧
    two_by_four.transpose.bind Pattern.transpose ≠ some two_by_four := by
  decide

/-- C33, at the pattern of the two lines `1234` and `5678`: `transpose` returns four
lines of 32 characters, the two characters of the column followed by 30 characters
of the value 2, not four lines of two characters; transposed again it has 32 lines
and is not the pattern. -/
theorem transpose_rows_padded :
    two_by_four.transpose = some
      { m_lines := [['1', '5'] ++ List.replicate 30 (Char.ofNat 2),
                    ['2', '6'] ++ List.replicate 30 (Char.ofNat 2),
                    ['3', '7'] ++ List.replicate 30 (Char.ofNat 2),
                    ['4', '8'] ++ List.replicate 30 (Char.ofNat 2)] } ∧
    (two_by_four.transpose.bind Pattern.transpose).map (fun t => t.m_lines.length) = some 32 ∧
    two_by_four.transpose.bind Pattern.transpose ≠ some two_by_four :=
  transpose_two_by_four

end Day13

namespace Day20

theorem observe_seen (a : Analysis) (o : String) :
    (observe a o).state.seen = bump a.seen o := by
  unfold observe
  cases UMap.find a.cycle_lengths o with
  | none =>
    simp only
    split
    · split <;> rfl
    · rfl
  | some cl =>
    simp only
    by_cases he : a.button_pressed = (UMap.find (bump a.seen o) o).getD 0 * cl
    · simp only [he, if_true]
      split
      · split <;> rfl
      · rfl
    · simp only [he, if_false]
      rfl

theorem count_bump (seen : UMap Nat) (o f : String) :
    count_of (bump seen o) f = count_of seen f + (if o = f then 1 else 0) := by
  unfold count_of bump
  rw [find_insert_or_assign]
  by_cases h : o = f
  · subst h; simp
  · simp [h]

theorem observe_fails_iff (a : Analysis) (o : String) (p : Nat)
    (hp : UMap.find a.cycle_lengths o = some p) :
    (∃ a', observe a o = Outcome.assertion_failed a') ↔
      a.button_pressed ≠ (count_of a.seen o + 1) * p := by
  have hc : (UMap.find (bump a.seen o) o).getD 0 = count_of a.seen o + 1 := by
    have := count_bump a.seen o o
    simpa [count_of] using this
  unfold observe
  simp only [hp, hc]
  by_cases he : a.button_pressed = (count_of a.seen o + 1) * p
  · simp only [he, if_true, ne_eq, not_true_eq_false, iff_false]
    rintro ⟨a', h⟩
    split at h
    · split at h <;> exact Outcome.noConfusion h
    · exact Outcome.noConfusion h
  · simp only [he, if_false, ne_eq, not_false_eq_true, iff_true]
    exact ⟨_, rfl⟩

theorem step_fails_iff (feed : String) (a : Analysis) (o : String) (rest : List Event)
    (p : Nat) (hq : a.q = (o, feed, Pulse.High) :: rest)
    (hp : UMap.find a.cycle_lengths o = some p) :
    (∃ a', Analysis.step feed a = Outcome.assertion_failed a') ↔
      a.button_pressed ≠ (count_of a.seen o + 1) * p := by
  rw [← observe_fails_iff a o p hp]
  have hs : ∀ a', Analysis.step feed a = Outcome.assertion_failed a' ↔
      observe a o = Outcome.assertion_failed a' := by
    intro a'
    simp only [Analysis.step, hq, and_self, if_true]
    cases observe a o <;> simp
  exact ⟨fun ⟨a', h⟩ => ⟨a', (hs a').1 h⟩, fun ⟨a', h⟩ => ⟨a', (hs a').2 h⟩⟩

theorem observed_cons (f : String) (j : Nat) (o : String) (obs : List (Nat × String)) :
    observed f ((j, o) :: obs) = (if o = f then 1 else 0) + observed f obs := by
  unfold observed
  by_cases h : o = f
  · simp [List.filter_cons, h]; omega
  · simp [List.filter_cons, h]

theorem run_seen (feed : String) : ∀ (k j : Nat) (a : Analysis) (f : String),
    count_of (Analysis.run feed k a).state.seen f =
      count_of a.seen f + observed f (Analysis.observations feed j k a) := by
  intro k
  induction k with
  | zero => intro j a f; simp [Analysis.run, Outcome.state, Analysis.observations, observed]
  | succ k ih =>
    intro j a f
    rcases step_cases feed a with ⟨hq, hs⟩ | ⟨o, t, p, rest, hq, hc, hs⟩ |
        ⟨o, p, rest, hq, hp, ⟨a', ho, hs⟩ | ⟨ho, hs⟩⟩
    · rw [run_of_running feed k a _ hs, observations_nil feed j k a _ hq hs, ih (j + 1)]
    · rw [run_of_running feed k a _ hs, observations_cons feed j k a o t p rest hq, hs, ih j]
      simp only [hc, if_false, List.nil_append]
    · subst hp
      have hseen : a'.seen = bump a.seen o := by
        have := observe_seen a o
        rw [ho] at this
        exact this
      rw [run_of_running feed k a _ hs, observations_cons feed j k a o feed _ rest hq, hs, ih j]
      simp only [and_self, if_true, List.singleton_append, observed_cons, hseen, count_bump]
      omega
    · subst hp
      have hterm : ∀ a1, Analysis.step feed a ≠ Outcome.running a1 := by
        intro a1 h1
        rw [hs] at h1
        exact ho a1 h1
      rw [run_of_terminal feed k a hterm, observations_cons feed j k a o feed _ rest hq, hs,
        observe_seen, count_bump]
      cases ho2 : observe a o with
      | running a1 => exact absurd ho2 (ho a1)
      | returned x a1 =>
        simp only [and_self, if_true, List.append_nil, observed_cons]
        simp [observed]
      | assertion_failed a1 =>
        simp only [and_self, if_true, List.append_nil, observed_cons]
        simp [observed]
      | lcm_undefined a1 =>
        simp only [and_self, if_true, List.append_nil, observed_cons]
        simp [observed]

theorem count_initial_seen (feed : String) (g : Graph) (f : String) :
    count_of (initial_seen feed g) f = 0 := by
  unfold count_of
  cases h : UMap.find (initial_seen feed g) f with
  | none => rfl
  | some v =>
    have hm := mem_of_find (initial_seen feed g) f v h
    exact (initial_seen_spec feed g).2.1 _ hm

theorem run_keeps_period (feed : String) : ∀ (k : Nat) (a : Analysis) (f : String) (p : Nat),
    UMap.find a.cycle_lengths f = some p →
      UMap.find (Analysis.run feed k a).state.cycle_lengths f = some p := by
  intro k
  induction k with
  | zero => intro a f p h; exact h
  | succ k ih =>
    intro a f p h
    by_cases hrun : ∃ a1, Analysis.step feed a = Outcome.running a1
    · obtain ⟨a1, hs⟩ := hrun
      rw [run_of_running feed k a a1 hs]
      apply ih
      rcases step_running_fields feed a a1 hs with ⟨_, _, b2⟩ |
          ⟨o, t, q, rest, _, _, _, b2⟩ | ⟨o, rest, a', _, ho, _, b2⟩
      · rw [b2]; exact h
      · rw [b2]; exact h
      · have c1 := (observe_cycle_lengths a o f).1
        rw [ho, h] at c1
        rw [b2]
        exact c1
    · have hterm : ∀ a1, Analysis.step feed a ≠ Outcome.running a1 :=
        fun a1 h1 => hrun ⟨a1, h1⟩
      obtain ⟨o, rest, _, hs⟩ := step_terminal feed a hterm
      rw [run_of_terminal feed k a hterm, hs]
      have c1 := (observe_cycle_lengths a o f).1
      rw [h] at c1
      exact c1

theorem first_event (feed : String) (a a1 : Analysis) (o : String) (rest : List Event)
    (hq : a.q = (o, feed, Pulse.High) :: rest)
    (h1 : Analysis.step feed a = Outcome.running a1) :
    count_of a1.seen o = count_of a.seen o + 1 ∧
      ∃ p, UMap.find a1.cycle_lengths o = some p ∧
        (p = a.button_pressed ∨ a.button_pressed = (count_of a.seen o + 1) * p) := by
  rcases step_cases feed a with ⟨hq0, _⟩ | ⟨o', t, p, rest', hq', hc, _⟩ |
      ⟨o', p, rest', hq', hp, ⟨a', ho, hs⟩ | ⟨ho, hs⟩⟩
  · rw [hq] at hq0; simp at hq0
  · rw [hq] at hq'
    simp only [List.cons.injEq, Prod.mk.injEq] at hq'
    exact absurd ⟨hq'.1.2.1.symm, hq'.1.2.2.symm⟩ hc
  · rw [hq] at hq'
    simp only [List.cons.injEq, Prod.mk.injEq] at hq'
    obtain ⟨⟨rfl, -, -⟩, -⟩ := hq'
    rw [h1] at hs
    have e1 : a1.seen = a'.seen := by
      have := congrArg Outcome.state hs
      simp only [Outcome.state] at this
      rw [this]
    have e2 : a1.cycle_lengths = a'.cycle_lengths := by
      have := congrArg Outcome.state hs
      simp only [Outcome.state] at this
      rw [this]
    have hseen := observe_seen a o
    have hcl := (observe_cycle_lengths a o o).1
    rw [ho] at hseen hcl
    simp only [Outcome.state] at hseen hcl
    refine ⟨by rw [e1, hseen, count_bump]; simp, ?_⟩
    rw [e2]
    cases hf : UMap.find a.cycle_lengths o with
    | none =>
      rw [hf] at hcl
      simp only [if_true] at hcl
      exact ⟨_, hcl, Or.inl rfl⟩
    | some p =>
      rw [hf] at hcl
      refine ⟨p, hcl, Or.inr ?_⟩
      by_contra hne
      obtain ⟨a2, hfail⟩ := (observe_fails_iff a o p hf).2 hne
      rw [ho] at hfail
      exact Outcome.noConfusion hfail
  · rw [hs] at h1
    exact absurd h1 (ho a1)

theorem second_event_fails (feed : String) (a a1 a2 : Analysis) (o : String)
    (rest rest2 : List Event) (m : Nat) (hq : a.q = (o, feed, Pulse.High) :: rest)
    (hpos : 0 < a.button_pressed) (h1 : Analysis.step feed a = Outcome.running a1)
    (h2 : Analysis.run feed m a1 = Outcome.running a2)
    (hn : a2.button_pressed = a.button_pressed)
    (hq2 : a2.q = (o, feed, Pulse.High) :: rest2) :
    ∃ a', Analysis.step feed a2 = Outcome.assertion_failed a' := by
  obtain ⟨hc1, p, hp1, hrel⟩ := first_event feed a a1 o rest hq h1
  have hp2 : UMap.find a2.cycle_lengths o = some p := by
    have := run_keeps_period feed m a1 o p hp1
    rw [h2] at this
    exact this
  have hc2 : count_of a1.seen o ≤ count_of a2.seen o := by
    have := run_seen feed m 0 a1 o
    rw [h2] at this
    simp only [Outcome.state] at this
    omega
  rw [step_fails_iff feed a2 o rest2 p hq2 hp2, hn]
  intro he
  rcases hrel with hrel | hrel
  · subst hrel
    have h3 : 1 * a.button_pressed = (count_of a2.seen o + 1) * a.button_pressed := by
      rw [Nat.one_mul]; exact he
    have := Nat.eq_of_mul_eq_mul_right hpos h3
    omega
  · have hp0 : 0 < p := by
      rcases Nat.eq_zero_or_pos p with h0 | h0
      · rw [h0, Nat.mul_zero] at he; omega
      · exact h0
    have h3 : (count_of a.seen o + 1) * p = (count_of a2.seen o + 1) * p := by
      rw [← hrel]; exact he
    have := Nat.eq_of_mul_eq_mul_right hp0 h3
    omega

theorem parse_triple_text : parse_input triple_text = some triple_graph := by
  decide

theorem triple_run :
    (part_two 5 triple_graph).state.q =
      ("a", "g", Pulse.High) :: [("a", "g", Pulse.Low), ("a", "g", Pulse.High)] ∧
    Analysis.step "g" (part_two 5 triple_graph).state =
      Outcome.running (part_two 6 triple_graph).state ∧
    Analysis.run "g" 1 (part_two 6 triple_graph).state =
      Outcome.running (part_two 7 triple_graph).state ∧
    (part_two 7 triple_graph).state.button_pressed =
      (part_two 5 triple_graph).state.button_pressed ∧
    (part_two 7 triple_graph).state.q =
      ("a", "g", Pulse.High) :: [("g", "rx", Pulse.High), ("g", "rx", Pulse.High)] ∧
    UMap.find (part_two 7 triple_graph).state.cycle_lengths "a" = some 1001 ∧
    (part_two 7 triple_graph).state.button_pressed = 1001 := by
  decide

/-- C34: when the front event carries `High` to the gate from a sender with a
recorded period `p`, the assertion fails unless the trigger cycle is the period
times the number of observations of the sender, this one included; the count kept
for a sender is the number of its observations so far; and when a sender is at the
front with `High` for the gate twice in one trigger cycle and the loop goes on after
the first time, the second time fails the assertion. -/
theorem period_check_exact (feed : String) (a : Analysis) (o : String) :
    (∀ rest p, a.q = (o, feed, Pulse.High) :: rest → UMap.find a.cycle_lengths o = some p →
      ((∃ a', Analysis.step feed a = Outcome.assertion_failed a') ↔
        a.button_pressed ≠ (count_of a.seen o + 1) * p)) ∧
    (∀ rest a1 m a2 rest2, a.q = (o, feed, Pulse.High) :: rest → 0 < a.button_pressed →
      Analysis.step feed a = Outcome.running a1 →
      Analysis.run feed m a1 = Outcome.running a2 →
      a2.button_pressed = a.button_pressed → a2.q = (o, feed, Pulse.High) :: rest2 →
      ∃ a', Analysis.step feed a2 = Outcome.assertion_failed a') ∧
    (∀ (g : Graph) (fuel : Nat) (f : String),
      count_of (part_two fuel g).state.seen f =
        observed f (Analysis.observations (find_feed g) 0 fuel (Analysis.start g))) := by
  refine ⟨fun rest p hq hp => step_fails_iff feed a o rest p hq hp,
    fun rest a1 m a2 rest2 hq hpos h1 h2 hn hq2 =>
      second_event_fails feed a a1 a2 o rest rest2 m hq hpos h1 h2 hn hq2,
    fun g fuel f => ?_⟩
  have := run_seen (find_feed g) fuel 0 (Analysis.start g) f
  rw [part_two, this]
  simp only [Analysis.start, count_initial_seen, Nat.zero_add]

theorem period_check_exact_witness :
    parse_input triple_text = some triple_graph ∧
    UMap.find (part_two 7 triple_graph).state.cycle_lengths "a" = some 1001 ∧
    1001 ∣ (part_two 7 triple_graph).state.button_pressed ∧
    ∃ a', Analysis.step "g" (part_two 7 triple_graph).state = Outcome.assertion_failed a' :=
  ⟨parse_triple_text, triple_run.2.2.2.2.2.1, by rw [triple_run.2.2.2.2.2.2],
    (period_check_exact "g" (part_two 5 triple_graph).state "a").2.1 _ _ 1 _ _
      triple_run.1 (by decide) triple_run.2.1 triple_run.2.2.1 triple_run.2.2.2.1
      triple_run.2.2.2.2.1⟩

end Day20

namespace Day17

/-! ### Walks and steps -/

theorem follow_append (grid : Grid) (min max : Nat) : ∀ (w1 w2 : List Direction) (s : State)
    (c : Nat), follow grid min max s c (w1 ++ w2) =
      match follow grid min max s c w1 with
      | none => none
      | some (s1, c1) => follow grid min max s1 c1 w2 := by
  intro w1
  induction w1 with
  | nil => intro w2 s c; rfl
  | cons d w1 ih =>
    intro w2 s c
    simp only [List.cons_append, follow]
    cases advance grid min max s d with
    | none => rfl
    | some r => exact ih w2 r.1 (c + r.2)

theorem reach_start (grid : Grid) (start : Pos) (min max : Nat) :
    Reach grid start min max (start_state start) 0 :=
  ⟨[], rfl⟩

theorem reach_step (grid : Grid) (start : Pos) (min max : Nat) (s s' : State) (c w : Nat)
    (d : Direction) (hr : Reach grid start min max s c)
    (ha : advance grid min max s d = some (s', w)) :
    Reach grid start min max s' (c + w) := by
  obtain ⟨walk, hw⟩ := hr
  refine ⟨walk ++ [d], ?_⟩
  rw [follow_append, hw]
  simp only [follow, ha]

theorem reach_ind (grid : Grid) (start : Pos) (min max : Nat) (P : State → Nat → Prop)
    (h0 : P (start_state start) 0)
    (hs : ∀ s c d s' w, Reach grid start min max s c → P s c →
      advance grid min max s d = some (s', w) → P s' (c + w)) :
    ∀ s c, Reach grid start min max s c → P s c := by
  intro s c hr
  obtain ⟨walk, hw⟩ := hr
  induction walk using List.reverseRecOn generalizing s c with
  | nil =>
    simp only [follow, Option.some.injEq, Prod.mk.injEq] at hw
    obtain ⟨rfl, rfl⟩ := hw
    exact h0
  | append_singleton walk d ih =>
    rw [follow_append] at hw
    cases hf : follow grid min max (start_state start) 0 walk with
    | none => rw [hf] at hw; simp at hw
    | some r =>
      obtain ⟨s1, c1⟩ := r
      rw [hf] at hw
      simp only [follow] at hw
      cases ha : advance grid min max s1 d with
      | none => rw [ha] at hw; simp at hw
      | some r2 =>
        obtain ⟨s2, w⟩ := r2
        rw [ha] at hw
        simp only [Option.some.injEq, Prod.mk.injEq] at hw
        obtain ⟨rfl, rfl⟩ := hw
        exact hs s1 c1 d s2 w ⟨walk, hf⟩ (ih s1 c1 hf) ha

theorem allowed_some (min max : Nat) (dir : Direction) (straight : Nat) (d : Direction)
    (k : Nat) :
    allowed min max dir straight d = some k ↔
      (d = dir ∧ straight < max ∧ k = straight + 1) ∨
      (d ≠ dir ∧ ¬ (dir ≠ Direction.None ∧ d = dir.reverse) ∧
        (dir = Direction.None ∨ min ≤ straight) ∧ 1 ≤ max ∧ k = 1) := by
  unfold allowed
  by_cases h1 : d = dir
  · by_cases h2 : straight < max
    · rw [if_pos h1, if_pos h2]
      constructor
      · intro h
        exact Or.inl ⟨h1, h2, (Option.some.inj h).symm⟩
      · rintro (⟨_, _, hk⟩ | ⟨hne, _⟩)
        · rw [hk]
        · exact absurd h1 hne
    · rw [if_pos h1, if_neg h2]
      constructor
      · intro h
        exact Option.noConfusion h
      · rintro (⟨_, hlt, _⟩ | ⟨hne, _⟩)
        · exact absurd hlt h2
        · exact absurd h1 hne
  · rw [if_neg h1]
    by_cases h3 : dir ≠ Direction.None ∧ d = dir.reverse
    · rw [if_pos h3]
      constructor
      · intro h
        exact Option.noConfusion h
      · rintro (⟨he, _⟩ | ⟨_, hn, _⟩)
        · exact absurd he h1
        · exact absurd h3 hn
    · rw [if_neg h3]
      by_cases h4 : (dir = Direction.None ∨ min ≤ straight) ∧ 1 ≤ max
      · rw [if_pos h4]
        constructor
        · intro h
          exact Or.inr ⟨h1, h3, h4.1, h4.2, (Option.some.inj h).symm⟩
        · rintro (⟨he, _⟩ | ⟨_, _, _, _, hk⟩)
          · exact absurd he h1
          · rw [hk]
      · rw [if_neg h4]
        constructor
        · intro h
          exact Option.noConfusion h
        · rintro (⟨he, _⟩ | ⟨_, _, h5, h6, _⟩)
          · exact absurd he h1
          · exact absurd ⟨h5, h6⟩ h4

theorem advance_some (grid : Grid) (min max : Nat) (s s' : State) (d : Direction) (w : Nat) :
    advance grid min max s d = some (s', w) ↔
      ∃ delta k, direction_actions d = some delta ∧ allowed min max s.2.1 s.2.2 d = some k ∧
        inside grid (s.1.move delta) = true ∧ s' = (s.1.move delta, d, k) ∧
        w = (cost_at grid (s.1.move delta)).toNat := by
  unfold advance
  cases hd : direction_actions d with
  | none =>
    constructor
    · intro h; exact Option.noConfusion h
    · rintro ⟨_, _, h, _⟩; exact Option.noConfusion h
  | some delta =>
    cases ha : allowed min max s.2.1 s.2.2 d with
    | none =>
      constructor
      · intro h; exact Option.noConfusion h
      · rintro ⟨_, _, _, h, _⟩; exact Option.noConfusion h
    | some k =>
      by_cases hi : inside grid (s.1.move delta) = true
      · simp only [hi, if_true]
        constructor
        · intro h
          have h2 := Option.some.inj h
          exact ⟨delta, k, rfl, rfl, hi, (congrArg Prod.fst h2).symm, (congrArg Prod.snd h2).symm⟩
        · rintro ⟨delta', k', h1, h2, _, h4, h5⟩
          have e1 := Option.some.inj h1
          have e2 := Option.some.inj h2
          subst e1 e2
          rw [h4, h5]
      · simp only [hi, Bool.false_eq_true, if_false]
        constructor
        · intro h; exact Option.noConfusion h
        · rintro ⟨delta', k', h1, _, h3, _⟩
          have e1 := Option.some.inj h1
          subst e1
          exact absurd h3 hi

theorem action_dirs (d : Direction) (delta : Int × Int) (h : direction_actions d = some delta) :
    d ≠ Direction.None ∧
      d ∈ [Direction.Up, Direction.Down, Direction.Right, Direction.Left] := by
  cases d <;> simp [direction_actions] at h ⊢

theorem inside_iff (grid : Grid) (p : Pos) :
    inside grid p = true ↔
      0 ≤ p.y ∧ p.y.toNat < grid.length ∧ 0 ≤ p.x ∧
        p.x.toNat < (grid.getD p.y.toNat []).length := by
  simp [inside, and_assoc]

/-! ### Costs and sizes -/

theorem le_foldr_max (l : List Nat) (x : Nat) (h : x ∈ l) : x ≤ l.foldr max 0 := by
  induction l with
  | nil => simp at h
  | cons a l ih =>
    simp only [List.foldr_cons]
    rcases List.mem_cons.1 h with h | h
    · subst h; exact Nat.le_max_left _ _
    · exact Nat.le_trans (ih h) (Nat.le_max_right _ _)

theorem getD_mem_or {α : Type} (l : List α) (i : Nat) (d : α) :
    l.getD i d ∈ l ∨ l.getD i d = d := by
  by_cases h : i < l.length
  · left
    rw [List.getD_eq_getElem?_getD, List.getElem?_eq_getElem h]
    exact List.getElem_mem h
  · right
    rw [List.getD_eq_getElem?_getD, List.getElem?_eq_none (by omega)]
    rfl

theorem cost_at_nonneg (grid : Grid) (hnn : nonneg grid) (p : Pos) : 0 ≤ cost_at grid p := by
  unfold cost_at
  rcases getD_mem_or grid p.y.toNat [] with hr | hr
  · rcases getD_mem_or (grid.getD p.y.toNat []) p.x.toNat 0 with hv | hv
    · exact hnn _ hr _ hv
    · rw [hv]
  · rw [hr]; simp

theorem cost_at_le (grid : Grid) (p : Pos) : (cost_at grid p).toNat ≤ largest grid := by
  unfold cost_at
  rcases getD_mem_or grid p.y.toNat [] with hr | hr
  · rcases getD_mem_or (grid.getD p.y.toNat []) p.x.toNat 0 with hv | hv
    · refine Nat.le_trans (le_foldr_max _ _ (List.mem_map.2 ⟨_, hv, rfl⟩)) ?_
      unfold largest
      exact le_foldr_max _ _ (List.mem_map.2 ⟨_, hr, rfl⟩)
    · rw [hv]; simp
  · rw [hr]; simp

theorem to_size_cost (grid : Grid) (hnn : nonneg grid) (hl : largest grid < 2 ^ 64) (p : Pos) :
    to_size (cost_at grid p) = (cost_at grid p).toNat := by
  have h0 := cost_at_nonneg grid hnn p
  have h1 := cost_at_le grid p
  unfold to_size
  omega

theorem row_le_width (grid : Grid) (y : Nat) : (grid.getD y []).length ≤ width grid := by
  rcases getD_mem_or grid y [] with hr | hr
  · unfold width
    exact le_foldr_max _ _ (List.mem_map.2 ⟨_, hr, rfl⟩)
  · rw [hr]; simp

theorem inside_bounded (grid : Grid) (start : Pos) (max : Nat) (p : Pos) (d : Direction)
    (k : Nat) (hi : inside grid p = true) (hk : k ≤ max) : bounded grid start max (p, d, k) := by
  obtain ⟨h1, h2, h3, h4⟩ := (inside_iff grid p).1 hi
  exact ⟨Or.inr ⟨h3, Nat.lt_of_lt_of_le h4 (row_le_width grid _), h1, h2⟩, hk⟩

theorem advance_covered (grid : Grid) (min max : Nat) (s s' : State)
    (d : Direction) (w : Nat) (ha : advance grid min max s d = some (s', w)) :
    inside grid s'.1 = true ∧ s'.2.1 ≠ Direction.None ∧ 1 ≤ s'.2.2 ∧ s'.2.2 ≤ max := by
  obtain ⟨delta, k, hd, hk, hi, rfl, _⟩ := (advance_some grid min max s s' d w).1 ha
  refine ⟨hi, (action_dirs d delta hd).1, ?_⟩
  rcases (allowed_some min max s.2.1 s.2.2 d k).1 hk with ⟨_, h2, h3⟩ | ⟨_, _, _, h4, h5⟩
  · simp only; omega
  · simp only; omega

theorem reach_covered (grid : Grid) (start : Pos) (min max : Nat) :
    ∀ s c, Reach grid start min max s c → covered grid start max s := by
  apply reach_ind
  · exact Or.inl rfl
  · intro s c d s' w _ _ ha
    exact Or.inr (advance_covered grid min max s s' d w ha)

theorem reach_bounded (grid : Grid) (start : Pos) (min max : Nat) (s : State) (c : Nat)
    (hr : Reach grid start min max s c) : bounded grid start max s := by
  rcases reach_covered grid start min max s c hr with h | ⟨h1, _, _, h4⟩
  · rw [h]; exact ⟨Or.inl rfl, Nat.zero_le _⟩
  · obtain ⟨p, d, k⟩ := s
    exact inside_bounded grid start max p d k h1 h4

/-! ### The queue -/

theorem least_cost_le : ∀ (q : List Cell) (c : Nat),
    least_cost c q ≤ c ∧ ∀ d ∈ q, least_cost c q ≤ d.cost := by
  intro q
  induction q with
  | nil => intro c; simp [least_cost]
  | cons d q ih =>
    intro c
    simp only [least_cost]
    obtain ⟨h1, h2⟩ := ih (if d.cost < c then d.cost else c)
    by_cases hd : d.cost < c
    · rw [if_pos hd] at h1 h2 ⊢
      refine ⟨by omega, fun e he => ?_⟩
      rcases List.mem_cons.1 he with he | he
      · rw [he]; exact h1
      · exact h2 e he
    · rw [if_neg hd] at h1 h2 ⊢
      refine ⟨h1, fun e he => ?_⟩
      rcases List.mem_cons.1 he with he | he
      · rw [he]; omega
      · exact h2 e he

theorem least_cost_mem : ∀ (q : List Cell) (c : Nat),
    least_cost c q = c ∨ ∃ d ∈ q, d.cost = least_cost c q := by
  intro q
  induction q with
  | nil => intro c; exact Or.inl rfl
  | cons d q ih =>
    intro c
    simp only [least_cost]
    by_cases hd : d.cost < c
    · rw [if_pos hd]
      rcases ih d.cost with h | ⟨e, he, h⟩
      · exact Or.inr ⟨d, List.mem_cons_self _ _, h.symm⟩
      · exact Or.inr ⟨e, List.mem_cons_of_mem _ he, h⟩
    · rw [if_neg hd]
      rcases ih c with h | ⟨e, he, h⟩
      · exact Or.inl h
      · exact Or.inr ⟨e, List.mem_cons_of_mem _ he, h⟩

theorem take_out_of_mem (c : Nat) : ∀ q : List Cell, (∃ d ∈ q, d.cost = c) →
    ∃ r, take_out c q = some r := by
  intro q
  induction q with
  | nil => rintro ⟨d, hd, _⟩; simp at hd
  | cons e q ih =>
    rintro ⟨d, hd, hc⟩
    simp only [take_out]
    by_cases he : e.cost = c
    · rw [if_pos he]; exact ⟨_, rfl⟩
    · rw [if_neg he]
      rcases List.mem_cons.1 hd with hd | hd
      · rw [hd] at hc; exact absurd hc he
      · obtain ⟨r, hr⟩ := ih ⟨d, hd, hc⟩
        rw [hr]
        exact ⟨_, rfl⟩

theorem take_out_spec (c : Nat) : ∀ (q : List Cell) (t : Cell) (rest : List Cell),
    take_out c q = some (t, rest) → t.cost = c ∧ q.Perm (t :: rest) := by
  intro q
  induction q with
  | nil => intro t rest h; simp [take_out] at h
  | cons e q ih =>
    intro t rest h
    simp only [take_out] at h
    by_cases he : e.cost = c
    · rw [if_pos he] at h
      have h2 := Option.some.inj h
      have e1 : e = t := congrArg Prod.fst h2
      have e2 : q = rest := congrArg Prod.snd h2
      subst e1 e2
      exact ⟨he, List.Perm.refl _⟩
    · rw [if_neg he] at h
      cases hr : take_out c q with
      | none => rw [hr] at h; exact Option.noConfusion h
      | some r =>
        obtain ⟨t', rest'⟩ := r
        rw [hr] at h
        have h2 := Option.some.inj h
        have e1 : t' = t := congrArg Prod.fst h2
        have e2 : e :: rest' = rest := congrArg Prod.snd h2
        subst e1 e2
        obtain ⟨h3, h4⟩ := ih t' rest' hr
        exact ⟨h3, (List.Perm.cons e h4).trans (List.Perm.swap t' e rest')⟩

theorem pop_spec (q : List Cell) (curr : Cell) (rest : List Cell)
    (h : pop q = some (curr, rest)) :
    q.Perm (curr :: rest) ∧ ∀ e ∈ q, curr.cost ≤ e.cost := by
  cases q with
  | nil => simp [pop] at h
  | cons d q =>
    simp only [pop] at h
    obtain ⟨h1, h2⟩ := take_out_spec _ _ _ _ h
    refine ⟨h2, fun e he => ?_⟩
    rw [h1]
    obtain ⟨h3, h4⟩ := least_cost_le q d.cost
    rcases List.mem_cons.1 he with he | he
    · rw [he]; exact h3
    · exact h4 e he

theorem pop_none (q : List Cell) (h : pop q = none) : q = [] := by
  cases q with
  | nil => rfl
  | cons d q =>
    exfalso
    simp only [pop] at h
    have hex : ∃ e ∈ d :: q, e.cost = least_cost d.cost q := by
      rcases least_cost_mem q d.cost with h1 | ⟨e, he, h1⟩
      · exact ⟨d, List.mem_cons_self _ _, h1.symm⟩
      · exact ⟨e, List.mem_cons_of_mem _ he, h1⟩
    obtain ⟨r, hr⟩ := take_out_of_mem _ _ hex
    rw [hr] at h
    exact Option.noConfusion h

/-! ### The pushes of an iteration are the steps of a walk -/

theorem mem_ite_nil {α : Type} (p : Prop) [Decidable p] (l : List α) (a : α) :
    a ∈ (if p then l else []) ↔ p ∧ a ∈ l := by
  by_cases h : p
  · simp [h]
  · simp [h]

theorem mem_push_move (grid : Grid) (curr e : Cell) (dir : Direction) (k : Nat) :
    e ∈ push_move grid curr dir k ↔
      ∃ delta, direction_actions dir = some delta ∧ inside grid (curr.pos.move delta) = true ∧
        e = { pos := curr.pos.move delta,
              cost := (curr.cost + to_size (cost_at grid (curr.pos.move delta))) % 2 ^ 64,
              straight_moves := k, dir := dir } := by
  unfold push_move
  cases hd : direction_actions dir with
  | none => simp
  | some delta =>
    by_cases hi : inside grid (curr.pos.move delta) = true
    · simp [hi]
    · simp [hi]

theorem push_move_length (grid : Grid) (curr : Cell) (dir : Direction) (k : Nat) :
    (push_move grid curr dir k).length ≤ 1 := by
  unfold push_move
  cases direction_actions dir with
  | none => simp
  | some delta =>
    by_cases hi : inside grid (curr.pos.move delta) = true
    · simp [hi]
    · simp [hi]

theorem pushes_length (grid : Grid) (min max : Nat) (curr : Cell) :
    (pushes grid min max curr).length ≤ 5 := by
  unfold pushes
  have h1 : (if curr.straight_moves < max ∧ curr.dir ≠ Direction.None then
      push_move grid curr curr.dir ((curr.straight_moves + 1) % 2 ^ 64) else []).length ≤ 1 := by
    split
    · exact push_move_length _ _ _ _
    · simp
  have h2 : ∀ dir : Direction, (if dir ≠ curr.dir ∧ opposite_dir dir curr.dir = false then
      push_move grid curr dir 1 else []).length ≤ 1 := by
    intro dir
    split
    · exact push_move_length _ _ _ _
    · simp
  have h3 : (if curr.straight_moves ≥ min ∨ curr.dir = Direction.None then
      [Direction.Up, Direction.Down, Direction.Right, Direction.Left].flatMap
        (fun dir =>
          if dir ≠ curr.dir ∧ opposite_dir dir curr.dir = false then push_move grid curr dir 1
          else [])
      else []).length ≤ 4 := by
    split
    · simp only [List.flatMap_cons, List.flatMap_nil, List.length_append, List.length_nil,
        Nat.add_zero]
      have a1 := h2 Direction.Up
      have a2 := h2 Direction.Down
      have a3 := h2 Direction.Right
      have a4 := h2 Direction.Left
      omega
    · simp
  rw [List.length_append]
  omega

theorem turn_iff (d dir : Direction) (hd : d ≠ Direction.None) :
    (d ≠ dir ∧ opposite_dir d dir = false) ↔
      (d ≠ dir ∧ ¬ (dir ≠ Direction.None ∧ d = dir.reverse)) := by
  cases d <;> cases dir <;> simp [opposite_dir, Direction.value, Direction.reverse] at hd ⊢

theorem pushes_sound (grid : Grid) (min max : Nat) (hnn : nonneg grid)
    (hl : largest grid < 2 ^ 64) (h1 : 1 ≤ max) (hm : max < 2 ^ 64) (curr e : Cell)
    (he : e ∈ pushes grid min max curr) :
    ∃ d w, advance grid min max curr.key d = some (e.key, w) ∧
      e.cost = (curr.cost + w) % 2 ^ 64 := by
  unfold pushes at he
  rcases List.mem_append.1 he with he | he
  · rw [mem_ite_nil] at he
    obtain ⟨⟨hk, hdir⟩, he⟩ := he
    obtain ⟨delta, hd, hi, rfl⟩ := (mem_push_move _ _ _ _ _).1 he
    refine ⟨curr.dir, (cost_at grid (curr.pos.move delta)).toNat, ?_, ?_⟩
    · rw [advance_some]
      refine ⟨delta, curr.straight_moves + 1, hd, ?_, hi, ?_, rfl⟩
      · rw [allowed_some]
        exact Or.inl ⟨rfl, hk, rfl⟩
      · simp only [Cell.key]
        rw [Nat.mod_eq_of_lt (by omega)]
    · simp only [to_size_cost grid hnn hl]
  · rw [mem_ite_nil] at he
    obtain ⟨hc, he⟩ := he
    obtain ⟨d, _, he⟩ := List.mem_flatMap.1 he
    rw [mem_ite_nil] at he
    obtain ⟨ht, he⟩ := he
    obtain ⟨delta, hd, hi, rfl⟩ := (mem_push_move _ _ _ _ _).1 he
    have ht2 := (turn_iff d curr.dir (action_dirs d delta hd).1).1 ht
    refine ⟨d, (cost_at grid (curr.pos.move delta)).toNat, ?_, ?_⟩
    · rw [advance_some]
      refine ⟨delta, 1, hd, ?_, hi, rfl, rfl⟩
      rw [allowed_some]
      refine Or.inr ⟨ht2.1, ht2.2, ?_, h1, rfl⟩
      rcases hc with hc | hc
      · exact Or.inr hc
      · exact Or.inl hc
    · simp only [to_size_cost grid hnn hl]

theorem pushes_complete (grid : Grid) (min max : Nat) (hnn : nonneg grid)
    (hl : largest grid < 2 ^ 64) (hm : max < 2 ^ 64) (curr : Cell) (d : Direction)
    (s' : State) (w : Nat) (ha : advance grid min max curr.key d = some (s', w)) :
    ∃ e ∈ pushes grid min max curr, e.key = s' ∧ e.cost = (curr.cost + w) % 2 ^ 64 := by
  obtain ⟨delta, k, hd, hk, hi, rfl, rfl⟩ := (advance_some _ _ _ _ _ _ _).1 ha
  have hdn := action_dirs d delta hd
  refine ⟨{ pos := curr.pos.move delta,
            cost := (curr.cost + to_size (cost_at grid (curr.pos.move delta))) % 2 ^ 64,
            straight_moves := k, dir := d }, ?_, rfl, ?_⟩
  · unfold pushes
    rcases (allowed_some _ _ _ _ _ _).1 hk with ⟨h2, h3, h4⟩ | ⟨h2, h3, h4, _, h6⟩
    · apply List.mem_append_left
      rw [mem_ite_nil]
      simp only [Cell.key] at h2 h3 h4
      refine ⟨⟨h3, by rw [← h2]; exact hdn.1⟩, ?_⟩
      rw [mem_push_move]
      refine ⟨delta, by rw [← h2]; exact hd, hi, ?_⟩
      rw [h4, ← h2, Nat.mod_eq_of_lt (show curr.straight_moves + 1 < 2 ^ 64 by omega)]
    · apply List.mem_append_right
      rw [mem_ite_nil]
      simp only [Cell.key] at h2 h3 h4
      refine ⟨?_, ?_⟩
      · rcases h4 with h4 | h4
        · exact Or.inr h4
        · exact Or.inl h4
      · rw [List.mem_flatMap]
        refine ⟨d, hdn.2, ?_⟩
        rw [mem_ite_nil]
        refine ⟨(turn_iff d curr.dir hdn.1).2 ⟨h2, h3⟩, ?_⟩
        rw [mem_push_move]
        exact ⟨delta, hd, hi, by rw [h6]⟩
  · rw [to_size_cost grid hnn hl]
    rfl

/-! ### The number of states -/

theorem states_length_le (grid : Grid) (start : Pos) (max : Nat) (l : List State)
    (hnd : l.Nodup) (hb : ∀ s ∈ l, bounded grid start max s) :
    l.length ≤ state_count grid max := by
  let P : Finset Pos := insert start
    ((Finset.range (width grid) ×ˢ Finset.range grid.length).image
      (fun q : Nat × Nat => ({ x := (q.1 : Int), y := (q.2 : Int) } : Pos)))
  let D : Finset Direction :=
    {Direction.Up, Direction.Down, Direction.Right, Direction.Left, Direction.None}
  let U : Finset State := P ×ˢ (D ×ˢ Finset.range (max + 1))
  have hsub : l.toFinset ⊆ U := by
    intro s hs
    obtain ⟨hpos, hk⟩ := hb s (List.mem_toFinset.1 hs)
    obtain ⟨p, d, k⟩ := s
    simp only [U, Finset.mem_product, Finset.mem_range]
    refine ⟨?_, ?_, by simp only at hk; omega⟩
    · simp only [P, Finset.mem_insert, Finset.mem_image, Finset.mem_product, Finset.mem_range]
      rcases hpos with h | ⟨h1, h2, h3, h4⟩
      · exact Or.inl h
      · refine Or.inr ⟨(p.x.toNat, p.y.toNat), ⟨h2, h4⟩, ?_⟩
        obtain ⟨x, y⟩ := p
        simp only at h1 h3
        simp only [Int.toNat_of_nonneg h1, Int.toNat_of_nonneg h3]
    · cases d <;> simp [D]
  have hP : P.card ≤ width grid * grid.length + 1 := by
    refine Nat.le_trans (Finset.card_insert_le _ _) (Nat.succ_le_succ ?_)
    refine Nat.le_trans Finset.card_image_le ?_
    rw [Finset.card_product, Finset.card_range, Finset.card_range]
  have hD : D.card = 5 := by decide
  have hU : U.card ≤ state_count grid max := by
    simp only [U, Finset.card_product, Finset.card_range, hD, state_count]
    rw [Nat.mul_assoc]
    exact Nat.mul_le_mul_right _ hP
  calc l.length = l.toFinset.card := (List.toFinset_card_of_nodup hnd).symm
    _ ≤ U.card := Finset.card_le_card hsub
    _ ≤ state_count grid max := hU

/-! ### The loop -/

theorem walk_cost_some (grid : Grid) (start dest : Pos) (min max : Nat)
    (walk : List Direction) (c : Nat) :
    walk_cost grid start dest min max walk = some c ↔
      ∃ s, follow grid min max (start_state start) 0 walk = some (s, c) ∧ goal dest min s := by
  unfold walk_cost
  cases hf : follow grid min max (start_state start) 0 walk with
  | none => simp
  | some r =>
    obtain ⟨s, c'⟩ := r
    by_cases hg : goal dest min s
    · simp only [hg, if_true, Option.some.injEq, Prod.mk.injEq]
      constructor
      · intro h; exact ⟨s, ⟨rfl, h⟩, hg⟩
      · rintro ⟨s2, ⟨_, h⟩, _⟩; exact h
    · simp only [hg, if_false, Option.some.injEq, Prod.mk.injEq]
      constructor
      · intro h; exact Option.noConfusion h
      · rintro ⟨s2, ⟨h1, _⟩, h2⟩
        rw [← h1] at h2
        exact absurd h2 hg

theorem least_some (grid : Grid) (start dest : Pos) (min max : Nat) (s : State) (c : Nat)
    (hr : Reach grid start min max s c) (hg : goal dest min s)
    (hmin : ∀ s' c', Reach grid start min max s' c' → goal dest min s' → c ≤ c') :
    least grid start dest min max (some c) := by
  obtain ⟨walk, hw⟩ := hr
  refine ⟨⟨walk, (walk_cost_some _ _ _ _ _ _ _).2 ⟨s, hw, hg⟩⟩, fun walk' c' h => ?_⟩
  obtain ⟨s', hf, hg'⟩ := (walk_cost_some _ _ _ _ _ _ _).1 h
  exact hmin s' c' ⟨walk', hf⟩ hg'

theorem least_none (grid : Grid) (start dest : Pos) (min max : Nat)
    (hno : ∀ s c, Reach grid start min max s c → ¬ goal dest min s) :
    least grid start dest min max none := by
  intro walk
  cases h : walk_cost grid start dest min max walk with
  | none => rfl
  | some c =>
    obtain ⟨s, hf, hg⟩ := (walk_cost_some _ _ _ _ _ _ _).1 h
    exact absurd hg (hno s c ⟨walk, hf⟩)

theorem inv_cover (grid : Grid) (start dest : Pos) (min max : Nat) (q : List Cell)
    (seen : List State) (hI : Inv grid start dest min max q seen) :
    ∀ s c, Reach grid start min max s c → s ∈ seen ∨ ∃ e ∈ q, e.cost ≤ c := by
  obtain ⟨_, i2, i3, _⟩ := hI
  apply reach_ind
  · rcases i2 with h | ⟨e, he, _, hc⟩
    · exact Or.inl h
    · exact Or.inr ⟨e, he, by omega⟩
  · intro s c d s' w hr hP ha
    rcases hP with h | ⟨e, he, hc⟩
    · obtain ⟨cs, hopt, hedge⟩ := i3 s h
      have h1 := hopt c hr
      rcases hedge d s' w ha with h2 | ⟨e, he, _, hc⟩
      · exact Or.inl h2
      · exact Or.inr ⟨e, he, by omega⟩
    · exact Or.inr ⟨e, he, by omega⟩

theorem inv_start (grid : Grid) (start dest : Pos) (min max : Nat) :
    Inv grid start dest min max
      [{ pos := start, cost := 0, straight_moves := 0, dir := Direction.None }] [] := by
  refine ⟨?_, ?_, ?_, ?_, List.nodup_nil, ?_, ?_⟩
  · intro e he
    rw [List.mem_singleton.1 he]
    exact reach_start grid start min max
  · exact Or.inr ⟨_, List.mem_singleton.2 rfl, rfl, rfl⟩
  · intro s hs; simp at hs
  · intro s hs; simp at hs
  · intro s hs; simp at hs
  · intro e he
    rw [List.mem_singleton.1 he]
    exact Nat.zero_le _

theorem inv_seen_length (grid : Grid) (start dest : Pos) (min max : Nat) (q : List Cell)
    (seen : List State) (hI : Inv grid start dest min max q seen) :
    seen.length ≤ state_count grid max := by
  obtain ⟨_, _, _, _, i5, i6, _⟩ := hI
  refine states_length_le grid start max seen i5 (fun s hs => ?_)
  obtain ⟨c, hc⟩ := i6 s hs
  exact reach_bounded grid start min max s c hc

theorem inv_skip (grid : Grid) (start dest : Pos) (min max : Nat) (q rest : List Cell)
    (seen : List State) (curr : Cell) (hI : Inv grid start dest min max q seen)
    (hp : q.Perm (curr :: rest)) (hs : curr.key ∈ seen) :
    Inv grid start dest min max rest seen := by
  obtain ⟨i1, i2, i3, i4, i5, i6, i7⟩ := hI
  have hmem : ∀ e, e ∈ q ↔ e = curr ∨ e ∈ rest := fun e => by
    rw [hp.mem_iff, List.mem_cons]
  refine ⟨fun e he => i1 e ((hmem e).2 (Or.inr he)), ?_, ?_, i4, i5, i6,
    fun e he => i7 e ((hmem e).2 (Or.inr he))⟩
  · rcases i2 with h | ⟨e, he, hk, hc⟩
    · exact Or.inl h
    · rcases (hmem e).1 he with h | h
      · left; rw [← hk, h]; exact hs
      · exact Or.inr ⟨e, h, hk, hc⟩
  · intro s hs'
    obtain ⟨cs, hopt, hedge⟩ := i3 s hs'
    refine ⟨cs, hopt, fun d s' w ha => ?_⟩
    rcases hedge d s' w ha with h | ⟨e, he, hk, hc⟩
    · exact Or.inl h
    · rcases (hmem e).1 he with h | h
      · left; rw [← hk, h]; exact hs
      · exact Or.inr ⟨e, h, hk, hc⟩

theorem inv_expand (grid : Grid) (start dest : Pos) (min max : Nat) (hnn : nonneg grid)
    (h1 : 1 ≤ max) (hm : max < 2 ^ 64) (hfit : state_count grid max * largest grid < 2 ^ 64)
    (q rest : List Cell) (seen : List State) (curr : Cell)
    (hI : Inv grid start dest min max q seen) (hp : q.Perm (curr :: rest))
    (hmin : ∀ e ∈ q, curr.cost ≤ e.cost) (hs : curr.key ∉ seen)
    (hg : ¬ goal dest min curr.key) :
    Inv grid start dest min max (rest ++ pushes grid min max curr) (curr.key :: seen) := by
  have hcover := inv_cover grid start dest min max q seen hI
  obtain ⟨i1, i2, i3, i4, i5, i6, i7⟩ := hI
  have hmem : ∀ e, e ∈ q ↔ e = curr ∨ e ∈ rest := fun e => by
    rw [hp.mem_iff, List.mem_cons]
  have hcq : curr ∈ q := (hmem curr).2 (Or.inl rfl)
  have hreach := i1 curr hcq
  have hnd : (curr.key :: seen).Nodup := List.nodup_cons.2 ⟨hs, i5⟩
  have hr6 : ∀ s ∈ curr.key :: seen, ∃ c, Reach grid start min max s c := by
    intro s hs'
    rcases List.mem_cons.1 hs' with h | h
    · rw [h]; exact ⟨_, hreach⟩
    · exact i6 s h
  have hlen : seen.length + 1 ≤ state_count grid max := by
    have := states_length_le grid start max (curr.key :: seen) hnd (fun s hs' => by
      obtain ⟨c, hc⟩ := hr6 s hs'
      exact reach_bounded grid start min max s c hc)
    simpa using this
  have hsc : 1 ≤ state_count grid max := by omega
  have hl : largest grid < 2 ^ 64 := by
    calc largest grid = 1 * largest grid := (Nat.one_mul _).symm
      _ ≤ state_count grid max * largest grid := Nat.mul_le_mul_right _ hsc
      _ < 2 ^ 64 := hfit
  have hb : (seen.length + 1) * largest grid < 2 ^ 64 :=
    Nat.lt_of_le_of_lt (Nat.mul_le_mul_right _ hlen) hfit
  have hcc := i7 curr hcq
  have hpush : ∀ e ∈ pushes grid min max curr,
      Reach grid start min max e.key e.cost ∧ e.cost ≤ (seen.length + 1) * largest grid := by
    intro e he
    obtain ⟨d, w, ha, hc⟩ := pushes_sound grid min max hnn hl h1 hm curr e he
    have hw : w ≤ largest grid := by
      obtain ⟨delta, k, _, _, _, _, hw⟩ := (advance_some _ _ _ _ _ _ _).1 ha
      rw [hw]; exact cost_at_le grid _
    have hsum : curr.cost + w ≤ (seen.length + 1) * largest grid := by
      rw [Nat.add_mul, Nat.one_mul]; omega
    rw [Nat.mod_eq_of_lt (by omega)] at hc
    rw [hc]
    exact ⟨reach_step grid start min max _ _ _ _ d hreach ha, hsum⟩
  refine ⟨?_, ?_, ?_, ?_, hnd, hr6, ?_⟩
  · intro e he
    rcases List.mem_append.1 he with h | h
    · exact i1 e ((hmem e).2 (Or.inr h))
    · exact (hpush e h).1
  · rcases i2 with h | ⟨e, he, hk, hc⟩
    · exact Or.inl (List.mem_cons_of_mem _ h)
    · rcases (hmem e).1 he with h | h
      · left; rw [← hk, h]; exact List.mem_cons_self _ _
      · exact Or.inr ⟨e, List.mem_append_left _ h, hk, hc⟩
  · intro s hs'
    rcases List.mem_cons.1 hs' with h | h
    · subst h
      refine ⟨curr.cost, fun c hc => ?_, fun d s' w ha => ?_⟩
      · rcases hcover curr.key c hc with h | ⟨e, he, hle⟩
        · exact absurd h hs
        · exact Nat.le_trans (hmin e he) hle
      · obtain ⟨e, he, hk, hc⟩ := pushes_complete grid min max hnn hl hm curr d s' w ha
        exact Or.inr ⟨e, List.mem_append_right _ he, hk, by rw [hc]; exact Nat.mod_le _ _⟩
    · obtain ⟨cs, hopt, hedge⟩ := i3 s h
      refine ⟨cs, hopt, fun d s' w ha => ?_⟩
      rcases hedge d s' w ha with h2 | ⟨e, he, hk, hc⟩
      · exact Or.inl (List.mem_cons_of_mem _ h2)
      · rcases (hmem e).1 he with h2 | h2
        · left; rw [← hk, h2]; exact List.mem_cons_self _ _
        · exact Or.inr ⟨e, List.mem_append_left _ h2, hk, hc⟩
  · intro s hs'
    rcases List.mem_cons.1 hs' with h | h
    · rw [h]; exact hg
    · exact i4 s h
  · intro e he
    simp only [List.length_cons]
    rcases List.mem_append.1 he with h | h
    · have := i7 e ((hmem e).2 (Or.inr h))
      rw [Nat.add_mul, Nat.one_mul]; omega
    · exact (hpush e h).2

theorem loop_least (grid : Grid) (start dest : Pos) (min max : Nat) (hnn : nonneg grid)
    (h1 : 1 ≤ max) (hm : max < 2 ^ 64) (hfit : state_count grid max * largest grid < 2 ^ 64) :
    ∀ (fuel : Nat) (q : List Cell) (seen : List State), Inv grid start dest min max q seen →
      6 * (state_count grid max - seen.length) + q.length < fuel →
      ∃ r, loop grid dest min max fuel q seen = some r ∧ least grid start dest min max r := by
  intro fuel
  induction fuel with
  | zero => intro q seen _ hf; omega
  | succ fuel ih =>
    intro q seen hI hf
    simp only [loop]
    cases hpop : pop q with
    | none =>
      have hq := pop_none q hpop
      subst hq
      refine ⟨none, rfl, least_none grid start dest min max (fun s c hr hg => ?_)⟩
      rcases inv_cover grid start dest min max [] seen hI s c hr with h | ⟨e, he, _⟩
      · exact hI.2.2.2.1 s h hg
      · simp at he
    | some r =>
      obtain ⟨curr, rest⟩ := r
      obtain ⟨hp, hmin⟩ := pop_spec q curr rest hpop
      have hcq : curr ∈ q := hp.mem_iff.2 (List.mem_cons_self _ _)
      have hql : q.length = rest.length + 1 := by rw [hp.length_eq]; rfl
      simp only
      by_cases hg : curr.pos = dest ∧ curr.straight_moves ≥ min
      · rw [if_pos hg]
        refine ⟨some curr.cost, rfl,
          least_some grid start dest min max curr.key curr.cost (hI.1 curr hcq) hg
            (fun s' c' hr' hg' => ?_)⟩
        rcases inv_cover grid start dest min max q seen hI s' c' hr' with h | ⟨e, he, hle⟩
        · exact absurd hg' (hI.2.2.2.1 s' h)
        · exact Nat.le_trans (hmin e he) hle
      · rw [if_neg hg]
        by_cases hs : (curr.pos, curr.dir, curr.straight_moves) ∈ seen
        · rw [if_pos hs]
          exact ih rest seen (inv_skip grid start dest min max q rest seen curr hI hp hs)
            (by omega)
        · rw [if_neg hs]
          have hI2 := inv_expand grid start dest min max hnn h1 hm hfit q rest seen curr hI hp
            hmin hs hg
          have hlen := inv_seen_length grid start dest min max _ _ hI2
          have hpl := pushes_length grid min max curr
          simp only [List.length_cons, Cell.key] at hlen
          exact ih _ _ hI2 (by
            simp only [List.length_cons, List.length_append, Cell.key]
            omega)

theorem dijkstra_least (grid : Grid) (start dest : Pos) (min max : Nat) (hnn : nonneg grid)
    (h1 : 1 ≤ max) (hm : max < 2 ^ 64) (hfit : state_count grid max * largest grid < 2 ^ 64)
    (fuel : Nat) (hf : fuel_bound grid max ≤ fuel) :
    ∃ r, dijkstra fuel grid start dest min max = some r ∧ least grid start dest min max r := by
  unfold dijkstra
  refine loop_least grid start dest min max hnn h1 hm hfit fuel _ _
    (inv_start grid start dest min max) ?_
  unfold fuel_bound at hf
  simp only [List.length_nil, List.length_singleton, Nat.sub_zero]
  omega

/-! ### Labels that bound the costs from below -/

theorem chain_ok_spec (w : Nat) : ∀ (a b : List Nat), chain_ok w a b = true →
    ∀ k, b.getD (k + 1) 0 ≤ a.getD k 0 + w := by
  intro a
  induction a with
  | nil =>
    intro b h k
    cases b with
    | nil => simp
    | cons b0 bs =>
      cases bs with
      | nil => simp
      | cons b1 more => simp [chain_ok] at h
  | cons a0 rest ih =>
    intro b h k
    cases b with
    | nil => simp
    | cons b0 bs =>
      cases bs with
      | nil => simp
      | cons b1 more =>
        simp only [chain_ok, Bool.and_eq_true, decide_eq_true_eq] at h
        cases k with
        | zero => simpa using h.1
        | succ k =>
          rw [List.getD_cons_succ, List.getD_cons_succ]
          exact ih (b1 :: more) h.2 k

theorem getD_mem_drop (a : List Nat) (min k : Nat) (h1 : min ≤ k) (h2 : k < a.length) :
    a.getD k 0 ∈ a.drop min := by
  have h3 : (a.drop min)[k - min]? = some (a.getD k 0) := by
    rw [List.getElem?_drop, List.getD_eq_getElem?_getD]
    have e : min + (k - min) = k := by omega
    rw [e, List.getElem?_eq_getElem h2]
    rfl
  exact List.getElem?_mem h3

theorem turn_ok_spec (w t min max : Nat) (a : List Nat) (h : turn_ok w t min max a = true) :
    ∀ k, min ≤ k → k ≤ max → t ≤ a.getD k 0 + w := by
  simp only [turn_ok, Bool.and_eq_true, decide_eq_true_eq, List.all_eq_true] at h
  intro k hk1 hk2
  exact h.2 _ (getD_mem_drop a min k hk1 (by omega))

theorem side_mem (d e : Direction) (hd : d ≠ Direction.None) (he : e ≠ Direction.None)
    (h1 : d ≠ e) (h2 : ¬ (e ≠ Direction.None ∧ d = e.reverse)) : e ∈ side_dirs d := by
  cases d <;> cases e <;> simp_all [side_dirs, Direction.reverse]

theorem label_of (table : List (List (List (List Nat)))) (p : Pos) (d : Direction) (k : Nat)
    (hd : d ≠ Direction.None) :
    label table (p, d, k) = (dir_list (cell_at table p) d).getD k 0 := by
  unfold label
  simp only [hd, if_false]

theorem pos_of_inside (grid : Grid) (p : Pos) (hi : inside grid p = true) :
    p.y.toNat < grid.length ∧ p.x.toNat < (grid.getD p.y.toNat []).length ∧
      ({ x := (p.x.toNat : Int), y := (p.y.toNat : Int) } : Pos) = p := by
  obtain ⟨h1, h2, h3, h4⟩ := (inside_iff grid p).1 hi
  refine ⟨h2, h4, ?_⟩
  obtain ⟨x, y⟩ := p
  simp only at h1 h3
  simp only [Int.toNat_of_nonneg h1, Int.toNat_of_nonneg h3]

theorem labels_sound (grid : Grid) (start dest : Pos) (min max bound : Nat)
    (table : List (List (List (List Nat))))
    (h : labels_hold grid start dest min max bound table = true) :
    ∀ s c, Reach grid start min max s c → label table s ≤ c := by
  simp only [labels_hold, Bool.and_eq_true, List.all_eq_true, List.mem_range] at h
  obtain ⟨⟨⟨hE, _⟩, _⟩, hC⟩ := h
  apply reach_ind
  · exact Nat.le_refl 0
  · intro s c d s' w hr hP ha
    obtain ⟨delta, k', hd, hk, hi, hs', hw⟩ := (advance_some _ _ _ _ _ _ _).1 ha
    have hdn := action_dirs d delta hd
    have hstep : label table s' ≤ label table s + w := by
      rcases reach_covered grid start min max s c hr with hst | ⟨h1, h2, h3, h4⟩
      · simp only [edges_hold, List.all_eq_true] at hE
        have := hE d hdn.2
        rw [← hst, ha] at this
        simpa using this
      · obtain ⟨p, e, k⟩ := s
        simp only at h1 h2 h3 h4 hk hi hs' hw
        obtain ⟨hy, hx, hp⟩ := pos_of_inside grid p h1
        have hc := hC p.y.toNat hy p.x.toNat hx d hdn.2
        rw [hp] at hc
        simp only [step_holds, hd, hi, if_true, Bool.and_eq_true, Bool.or_eq_true,
          decide_eq_true_eq, List.all_eq_true] at hc
        obtain ⟨hchain, hturn⟩ := hc
        rw [hs', label_of table _ d k' hdn.1, label_of table p e k h2, hw]
        rcases (allowed_some _ _ _ _ _ _).1 hk with ⟨e1, _, e3⟩ | ⟨e1, e2, e3, e4, e5⟩
        · rw [e3, ← e1]
          exact chain_ok_spec _ _ _ hchain k
        · rw [e5]
          rcases hturn with hz | hturn
          · omega
          · have hmin : min ≤ k := by
              rcases e3 with e3 | e3
              · exact absurd e3 h2
              · exact e3
            exact turn_ok_spec _ _ _ _ _ (hturn e (side_mem d e hdn.1 h2 e1 e2)) k hmin h4
    omega

theorem labels_bound (grid : Grid) (start dest : Pos) (min max bound : Nat)
    (table : List (List (List (List Nat))))
    (h : labels_hold grid start dest min max bound table = true) :
    ∀ walk c, walk_cost grid start dest min max walk = some c → bound ≤ c := by
  intro walk c hw
  obtain ⟨s, hf, hg⟩ := (walk_cost_some _ _ _ _ _ _ _).1 hw
  have hr : Reach grid start min max s c := ⟨walk, hf⟩
  have hl := labels_sound grid start dest min max bound table h s c hr
  simp only [labels_hold, Bool.and_eq_true, List.all_eq_true, List.mem_range] at h
  obtain ⟨⟨⟨_, hG⟩, hS⟩, _⟩ := h
  rcases reach_covered grid start min max s c hr with hst | ⟨_, h2, _, h4⟩
  · rw [← hst] at hG
    simp only [goal_holds, hg, if_true, decide_eq_true_eq] at hG
    omega
  · obtain ⟨p, d, k⟩ := s
    simp only at h2 h4
    obtain ⟨hg1, hg2⟩ := hg
    simp only at hg1 hg2
    have hd : d ∈ [Direction.Up, Direction.Down, Direction.Right, Direction.Left] := by
      cases d <;> simp at h2 ⊢
    simp only [stop_holds, List.all_eq_true, Bool.and_eq_true, decide_eq_true_eq] at hS
    obtain ⟨hlen, hall⟩ := hS d hd
    rw [label_of table p d k h2, hg1] at hl
    have := hall _ (getD_mem_drop _ min k hg2 (by omega))
    omega

theorem least_value (grid : Grid) (start dest : Pos) (min max : Nat) (r : Option Nat)
    (v : Nat) (walk : List Direction) (hr : least grid start dest min max r)
    (hw : walk_cost grid start dest min max walk = some v)
    (hb : ∀ walk c, walk_cost grid start dest min max walk = some c → v ≤ c) :
    r = some v := by
  cases r with
  | none =>
    have := hr walk
    rw [hw] at this
    exact Option.noConfusion this
  | some c =>
    obtain ⟨⟨walk', hw'⟩, hmin⟩ := hr
    have h1 := hmin walk v hw
    have h2 := hb walk' c hw'
    have : c = v := by omega
    rw [this]

/-! ### The test grid -/

set_option maxRecDepth 100000 in
theorem parse_test_grid : parse_input test_text = test_grid := by
  decide

set_option maxRecDepth 100000 in
theorem test_grid_fits :
    nonneg test_grid ∧ state_count test_grid 3 * largest test_grid < 2 ^ 64 ∧
      state_count test_grid 10 * largest test_grid < 2 ^ 64 := by
  decide

set_option maxRecDepth 1000000 in
theorem labels_one_hold :
    labels_hold test_grid { x := 0, y := 0 } (last_pos test_grid) 1 3 102 labels_one = true := by
  decide!

set_option maxRecDepth 1000000 in
theorem labels_two_hold :
    labels_hold test_grid { x := 0, y := 0 } (last_pos test_grid) 4 10 94 labels_two = true := by
  decide!

set_option maxRecDepth 1000000 in
theorem walks_cost :
    walk_cost test_grid { x := 0, y := 0 } (last_pos test_grid) 1 3 walk_one = some 102 ∧
    walk_cost test_grid { x := 0, y := 0 } (last_pos test_grid) 4 10 walk_two = some 94 := by
  decide!

theorem test_one (fuel : Nat) (hf : fuel_bound test_grid 3 ≤ fuel) :
    dijkstra fuel test_grid { x := 0, y := 0 } (last_pos test_grid) 1 3 = some (some 102) := by
  obtain ⟨r, hr, hl⟩ := dijkstra_least test_grid { x := 0, y := 0 } (last_pos test_grid) 1 3
    test_grid_fits.1 (by norm_num) (by norm_num) test_grid_fits.2.1 fuel hf
  rw [hr, least_value _ _ _ _ _ r 102 walk_one hl walks_cost.1
    (labels_bound _ _ _ _ _ _ _ labels_one_hold)]

theorem test_two (fuel : Nat) (hf : fuel_bound test_grid 10 ≤ fuel) :
    dijkstra fuel test_grid { x := 0, y := 0 } (last_pos test_grid) 4 10 = some (some 94) := by
  obtain ⟨r, hr, hl⟩ := dijkstra_least test_grid { x := 0, y := 0 } (last_pos test_grid) 4 10
    test_grid_fits.1 (by norm_num) (by norm_num) test_grid_fits.2.2 fuel hf
  rw [hr, least_value _ _ _ _ _ r 94 walk_two hl walks_cost.2
    (labels_bound _ _ _ _ _ _ _ labels_two_hold)]

theorem no_step_allowed (grid : Grid) (min : Nat) (s : State) (d : Direction) :
    advance grid min 0 s d = none := by
  cases h : advance grid min 0 s d with
  | none => rfl
  | some r =>
    obtain ⟨s', w⟩ := r
    obtain ⟨delta, k, _, hk, _⟩ := (advance_some _ _ _ _ _ _ _).1 h
    rcases (allowed_some _ _ _ _ _ _).1 hk with ⟨_, h2, _⟩ | ⟨_, _, _, h4, _⟩
    · omega
    · omega

/-- C31, as written: with `max = 0` no walk makes a step, so none goes from the first
to the second cell of the grid `1 1`, and `dijkstra` returns the cost 1 of the step
to the right. -/
theorem run_beyond_max :
    dijkstra 3 pair_grid { x := 0, y := 0 } { x := 1, y := 0 } 1 0 = some (some 1) ∧
    ∀ walk, walk_cost pair_grid { x := 0, y := 0 } { x := 1, y := 0 } 1 0 walk = none := by
  refine ⟨by decide, fun walk => ?_⟩
  cases walk with
  | nil => decide
  | cons d rest =>
    unfold walk_cost
    simp only [follow, no_step_allowed]

/-- C31, amended: for a grid of cell costs that are at least 0, `max` from 1 to
`2 ^ 64 - 1` and a number of states times the largest cost below `2 ^ 64`, `dijkstra`
with a budget of at least `fuel_bound` iterations returns; the value returned is the
least cost of the walks from `start` that stay in the grid, never reverse, make at
most `max` steps in a row, turn only after `min` steps in a row and stop at `dest`
after `min` steps in a row, the cost being the sum of the costs of the cells
entered; there is no value exactly when there is no such walk. The test text
parses to the test grid, for which the results are 102 with (1, 3) and 94 with
(4, 10). -/
theorem dijkstra_least_cost (grid : Grid) (start dest : Pos) (min max : Nat)
    (hnn : nonneg grid) (h1 : 1 ≤ max) (hm : max < 2 ^ 64)
    (hfit : state_count grid max * largest grid < 2 ^ 64) :
    (∀ fuel, fuel_bound grid max ≤ fuel →
      ∃ r, dijkstra fuel grid start dest min max = some r ∧
        least grid start dest min max r) ∧
    parse_input test_text = test_grid ∧
    (∀ fuel, fuel_bound test_grid 3 ≤ fuel →
      dijkstra fuel test_grid { x := 0, y := 0 } (last_pos test_grid) 1 3 = some (some 102)) ∧
    (∀ fuel, fuel_bound test_grid 10 ≤ fuel →
      dijkstra fuel test_grid { x := 0, y := 0 } (last_pos test_grid) 4 10 =
        some (some 94)) :=
  ⟨fun fuel hf => dijkstra_least grid start dest min max hnn h1 hm hfit fuel hf,
    parse_test_grid, test_one, test_two⟩

theorem dijkstra_least_cost_witness :
    nonneg test_grid ∧ state_count test_grid 3 * largest test_grid < 2 ^ 64 ∧
    ∃ r, dijkstra (fuel_bound test_grid 3) test_grid { x := 0, y := 0 } (last_pos test_grid)
        1 3 = some r ∧
      least test_grid { x := 0, y := 0 } (last_pos test_grid) 1 3 r :=
  ⟨test_grid_fits.1, test_grid_fits.2.1,
    (dijkstra_least_cost test_grid { x := 0, y := 0 } (last_pos test_grid) 1 3
      test_grid_fits.1 (by decide) (by decide) test_grid_fits.2.1).1
      (fuel_bound test_grid 3) (Nat.le_refl _)⟩

end Day17
